import Mathlib

/-!
# MidLang transpiler: lexer, parser and the two code generators

A shallow embedding of the C++ sources

* `Token.h`, `Lexer.cpp` (lexical analysis),
* `AST.h`, `Parser.cpp` (recursive-descent parsing),
* `Transpiler/CodeGenerator.cpp` (structured backend),
* `TranspilerAssembly/CodeGenerator.cpp` (label-and-jump backend),

followed by theorems about them.

Modelling conventions.

* A `std::string` is a Lean `String`; the lexer indexes its source as a list of
  characters, one Lean `Char` per C++ `char`.  `isdigit`, `isalpha` and `isalnum`
  are the "C" locale classifiers (ASCII only).
* `int` and `size_t` values are unbounded (`Int`, `Nat`): the counters involved
  (line, column, label counter, token index) count characters, tokens or AST
  nodes, and overflow is not modelled.
* `std::ostream` is a list of completed lines plus the text written since the
  last `endl`.
* `while` loops are recursive functions on a fuel argument; recursive descent
  is recursion on a fuel argument as well.
* Reading `tokens[i]` outside the vector is undefined behaviour in the source;
  the model makes it the distinguished error `ParseError.out_of_bounds`.
-/

namespace MidLang

/-! ## Token.h -/

/-- Kinds of token, in the order of the C++ enumeration. -/
inductive TokenType where
  | INTEGER
  | IDENTIFIER
  | PLUS
  | MINUS
  | MULTIPLY
  | DIVIDE
  | EQUAL_EQUAL
  | NOT_EQUAL
  | LESS
  | GREATER
  | LESS_EQUAL
  | GREATER_EQUAL
  | ASSIGN
  | SEMICOLON
  | LEFT_PAREN
  | RIGHT_PAREN
  | LEFT_BRACE
  | RIGHT_BRACE
  | VAR
  | PRINT
  | PRINTLN
  | INPUT_INT
  | IF
  | ELSE
  | WHILE
  | EOF_TOKEN
  | UNKNOWN
  deriving DecidableEq, Repr

/-- The value of `static_cast<int>(type)`: the position in the enumeration. -/
def TokenType.toInt : TokenType → Int
  | .INTEGER => 0
  | .IDENTIFIER => 1
  | .PLUS => 2
  | .MINUS => 3
  | .MULTIPLY => 4
  | .DIVIDE => 5
  | .EQUAL_EQUAL => 6
  | .NOT_EQUAL => 7
  | .LESS => 8
  | .GREATER => 9
  | .LESS_EQUAL => 10
  | .GREATER_EQUAL => 11
  | .ASSIGN => 12
  | .SEMICOLON => 13
  | .LEFT_PAREN => 14
  | .RIGHT_PAREN => 15
  | .LEFT_BRACE => 16
  | .RIGHT_BRACE => 17
  | .VAR => 18
  | .PRINT => 19
  | .PRINTLN => 20
  | .INPUT_INT => 21
  | .IF => 22
  | .ELSE => 23
  | .WHILE => 24
  | .EOF_TOKEN => 25
  | .UNKNOWN => 26

/-- A token: kind, text and source position. -/
structure Token where
  type : TokenType
  value : String
  line : Int
  column : Int
  deriving DecidableEq, Repr

/-! ## Lexer.cpp -/

/-- The `isdigit` classifier of the "C" locale. -/
def isdigit (c : Char) : Bool := c.isDigit

/-- The `isalpha` classifier of the "C" locale. -/
def isalpha (c : Char) : Bool := c.isAlpha

/-- The `isalnum` classifier of the "C" locale. -/
def isalnum (c : Char) : Bool := c.isAlphanum

/-- Lexer state: the source text, the index of the next character, and the
current line and column. -/
structure Lexer where
  source : List Char
  position : Nat
  line : Int
  column : Int
  deriving DecidableEq, Repr

namespace Lexer

/-- The constructor `Lexer::Lexer`. -/
def new (source : String) : Lexer :=
  { source := source.data, position := 0, line := 1, column := 1 }

/-- Model of `Lexer::isAtEnd`. -/
def isAtEnd (lx : Lexer) : Bool := decide (lx.source.length ≤ lx.position)

/-- Model of `Lexer::peek`. -/
def peek (lx : Lexer) : Char :=
  if lx.isAtEnd then '\x00' else lx.source.getD lx.position '\x00'

/-- Model of `Lexer::advance`: the character read and the new state. -/
def advance (lx : Lexer) : Char × Lexer :=
  if lx.isAtEnd then ('\x00', lx)
  else (lx.source.getD lx.position '\x00',
        { lx with position := lx.position + 1, column := lx.column + 1 })

/-- Model of `Lexer::createToken`: a one-character token whose text is
`source[position - 1]`. -/
def createToken (lx : Lexer) (type : TokenType) : Token :=
  { type := type,
    value := String.singleton (lx.source.getD (lx.position - 1) '\x00'),
    line := lx.line,
    column := lx.column - 1 }

/-- The loop of `Lexer::readNumber`. -/
def readNumberLoop : Nat → Lexer → String → String × Lexer
  | 0, lx, number => (number, lx)
  | fuel + 1, lx, number =>
    if !lx.isAtEnd && isdigit lx.peek then
      readNumberLoop fuel lx.advance.2 (number.push lx.advance.1)
    else (number, lx)

/-- Model of `Lexer::readNumber`. -/
def readNumber (lx : Lexer) : Token × Lexer :=
  let startColumn := lx.column - 1
  let number := String.singleton (lx.source.getD (lx.position - 1) '\x00')
  let r := readNumberLoop (lx.source.length - lx.position) lx number
  ({ type := .INTEGER, value := r.1, line := r.2.line, column := startColumn }, r.2)

/-- The loop of `Lexer::readIdentifier`. -/
def readIdentifierLoop : Nat → Lexer → String → String × Lexer
  | 0, lx, identifier => (identifier, lx)
  | fuel + 1, lx, identifier =>
    if !lx.isAtEnd && (isalnum lx.peek || lx.peek == '_') then
      readIdentifierLoop fuel lx.advance.2 (identifier.push lx.advance.1)
    else (identifier, lx)

/-- The keyword test at the end of `Lexer::readIdentifier`. -/
def keywordType (value : String) : TokenType :=
  if value = "var" then .VAR
  else if value = "print" then .PRINT
  else if value = "println" then .PRINTLN
  else if value = "inputInt" then .INPUT_INT
  else if value = "if" then .IF
  else if value = "else" then .ELSE
  else if value = "while" then .WHILE
  else .IDENTIFIER

/-- Model of `Lexer::readIdentifier`. -/
def readIdentifier (lx : Lexer) : Token × Lexer :=
  let startColumn := lx.column - 1
  let identifier := String.singleton (lx.source.getD (lx.position - 1) '\x00')
  let r := readIdentifierLoop (lx.source.length - lx.position) lx identifier
  ({ type := keywordType r.1, value := r.1, line := r.2.line, column := startColumn }, r.2)

/-- Model of `Lexer::skipWhitespace`. -/
def skipWhitespace : Nat → Lexer → Lexer
  | 0, lx => lx
  | fuel + 1, lx =>
    if lx.isAtEnd then lx
    else
      let c := lx.peek
      if c = ' ' ∨ c = '\t' then skipWhitespace fuel lx.advance.2
      else if c = '\r' then
        let lx1 := lx.advance.2
        let lx2 := if !lx1.isAtEnd && lx1.peek == '\n' then lx1.advance.2 else lx1
        skipWhitespace fuel { lx2 with line := lx2.line + 1, column := 1 }
      else if c = '\n' then
        let lx1 := lx.advance.2
        skipWhitespace fuel { lx1 with line := lx1.line + 1, column := 1 }
      else lx

/-- The two-character operator cases of `Lexer::nextToken`: after the first
character, look for `=`. -/
def twoCharOr (lx : Lexer) (two : TokenType) (text : String) (one : Token) : Token × Lexer :=
  if lx.peek = '=' then
    let lx1 := lx.advance.2
    ({ type := two, value := text, line := lx1.line, column := lx1.column - 2 }, lx1)
  else (one, lx)

/-- Model of `Lexer::nextToken`. -/
def nextToken (lx0 : Lexer) : Token × Lexer :=
  let current := lx0.advance.1
  let lx := lx0.advance.2
  if current = '=' then twoCharOr lx .EQUAL_EQUAL "==" (lx.createToken .ASSIGN)
  else if current = '!' then
    twoCharOr lx .NOT_EQUAL "!="
      { type := .UNKNOWN, value := String.singleton current, line := lx.line,
        column := lx.column - 1 }
  else if current = '<' then twoCharOr lx .LESS_EQUAL "<=" (lx.createToken .LESS)
  else if current = '>' then twoCharOr lx .GREATER_EQUAL ">=" (lx.createToken .GREATER)
  else if current = '+' then (lx.createToken .PLUS, lx)
  else if current = '-' then (lx.createToken .MINUS, lx)
  else if current = '*' then (lx.createToken .MULTIPLY, lx)
  else if current = '/' then (lx.createToken .DIVIDE, lx)
  else if current = ';' then (lx.createToken .SEMICOLON, lx)
  else if current = '(' then (lx.createToken .LEFT_PAREN, lx)
  else if current = ')' then (lx.createToken .RIGHT_PAREN, lx)
  else if current = '\x7b' then (lx.createToken .LEFT_BRACE, lx)
  else if current = '\x7d' then (lx.createToken .RIGHT_BRACE, lx)
  else if isdigit current then lx.readNumber
  else if isalpha current || current == '_' then lx.readIdentifier
  else ({ type := .UNKNOWN, value := String.singleton current, line := lx.line,
          column := lx.column }, lx)

/-- The loop of `Lexer::tokenize`. -/
def tokenizeLoop : Nat → Lexer → List Token → List Token × Lexer
  | 0, lx, tokens => (tokens, lx)
  | fuel + 1, lx, tokens =>
    if lx.isAtEnd then (tokens, lx)
    else
      let lx1 := lx.skipWhitespace (lx.source.length - lx.position)
      if lx1.isAtEnd then (tokens, lx1)
      else
        let r := lx1.nextToken
        if r.1.type = .UNKNOWN then (tokens ++ [r.1], r.2)
        else tokenizeLoop fuel r.2 (tokens ++ [r.1])

/-- Model of `Lexer::tokenize` on a lexer state. -/
def run (lx : Lexer) : List Token :=
  let r := tokenizeLoop (lx.source.length - lx.position) lx []
  r.1 ++ [{ type := .EOF_TOKEN, value := "", line := r.2.line, column := r.2.column }]

end Lexer

/-- Tokenizing a source text: `Lexer(source).tokenize()`. -/
def tokenize (source : String) : List Token :=
  (Lexer.new source).run

/-! ## AST.h -/

/-- Expressions.  `BooleanExpression` is a subclass of `Expression` in the
source, so a comparison can stand wherever an `Expression*` is stored. -/
inductive Expression where
  | IntegerLiteral (value : Int)
  | InputIntExpression
  | VariableReference (name : String)
  | BinaryExpression (left : Expression) (op : String) (right : Expression)
  | BooleanExpression (left : Expression) (op : String) (right : Expression)
  deriving DecidableEq, Repr

/-- The class `BooleanExpression` as a static type: what the `condition` field
of an if or while statement points to. -/
structure BooleanExpression where
  left : Expression
  op : String
  right : Expression
  deriving DecidableEq, Repr

/-- A comparison seen through an `Expression*` (the upcast). -/
def BooleanExpression.toExpression (b : BooleanExpression) : Expression :=
  .BooleanExpression b.left b.op b.right

/-- Statements. -/
inductive Statement where
  | VarDeclarationStatement (variableName : String) (expression : Expression)
  | AssignmentStatement (variableName : String) (expression : Expression)
  | PrintStatement (expression : Expression)
  | PrintLineStatement (expression : Expression)
  | IfStatement (condition : BooleanExpression) (thenStatements : List Statement)
      (elseStatements : List Statement)
  | WhileStatement (condition : BooleanExpression) (bodyStatements : List Statement)
  deriving Repr

/-- The root node of a program. -/
structure ProgramNode where
  statements : List Statement
  deriving Repr

/-! ## Parser.cpp -/

/-- Ways in which parsing ends without a program.  The first three are the C++
exceptions that can leave `Parser::parse`; `out_of_bounds` stands for a read
of `tokens[i]` with `i` outside the vector; `out_of_fuel` belongs to the model
only. -/
inductive ParseError where
  | runtime_error (what : String)
  | invalid_argument
  | out_of_range
  | out_of_bounds
  | out_of_fuel
  deriving DecidableEq, Repr

/-- The `isspace` classifier of the "C" locale. -/
def isspace (c : Char) : Bool :=
  c = ' ' ∨ c = '\t' ∨ c = '\n' ∨ c = '\x0b' ∨ c = '\x0c' ∨ c = '\r'

/-- The value of a run of decimal digits. -/
def digitsValue (ds : List Char) : Int :=
  ds.foldl (fun acc c => 10 * acc + ((c.toNat : Int) - 48)) 0

/-- Model of `std::stoi(str)`: skip leading white space, read an optional sign
and the longest run of decimal digits; no digit is `invalid_argument`, a value
that does not fit in a 32-bit `int` is `out_of_range`. -/
def stoi (str : String) : Except ParseError Int :=
  let cs := str.data.dropWhile isspace
  let neg := cs.head? = some '-'
  let cs1 := if cs.head? = some '-' ∨ cs.head? = some '+' then cs.tail else cs
  let ds := cs1.takeWhile isdigit
  if ds = [] then .error .invalid_argument
  else
    let v := if neg then - digitsValue ds else digitsValue ds
    if v < -2147483648 ∨ 2147483647 < v then .error .out_of_range else .ok v

namespace Parser

/-- Model of `Parser::peek`: `tokens[current]`. -/
def peek (tokens : List Token) (current : Nat) : Except ParseError Token :=
  match tokens.get? current with
  | some t => .ok t
  | none => .error .out_of_bounds

/-- Model of `Parser::previous`: `tokens[current - 1]`. -/
def previous (tokens : List Token) (current : Nat) : Except ParseError Token :=
  if current = 0 then .error .out_of_bounds else peek tokens (current - 1)

/-- Model of `Parser::isAtEnd`. -/
def isAtEnd (tokens : List Token) (current : Nat) : Except ParseError Bool := do
  let t ← peek tokens current
  pure (t.type == .EOF_TOKEN)

/-- Model of `Parser::check`. -/
def check (tokens : List Token) (current : Nat) (type : TokenType) :
    Except ParseError Bool := do
  if (← isAtEnd tokens current) then pure false
  else
    let t ← peek tokens current
    pure (t.type == type)

/-- Model of `Parser::advance`: the token returned and the new index. -/
def advance (tokens : List Token) (current : Nat) : Except ParseError (Token × Nat) := do
  if !(← isAtEnd tokens current) then
    let t ← previous tokens (current + 1)
    pure (t, current + 1)
  else
    let t ← previous tokens current
    pure (t, current)

/-- Model of `Parser::match(type)`: whether it matched and the new index. -/
def matchToken (tokens : List Token) (current : Nat) (type : TokenType) :
    Except ParseError (Bool × Nat) := do
  if (← check tokens current type) then
    let r ← advance tokens current
    pure (true, r.2)
  else pure (false, current)

/-- Model of the short-circuit chain `match(t1) || match(t2) || ...`, which is
also the body of the overloads of `Parser::match` with two and six types. -/
def matchAny (tokens : List Token) (current : Nat) :
    List TokenType → Except ParseError (Bool × Nat)
  | [] => pure (false, current)
  | type :: types => do
    let r ← matchToken tokens current type
    if r.1 then pure r else matchAny tokens r.2 types

/-- The text built by `Parser::consume` for its exception. -/
def consumeMessage (message : String) (token : Token) : String :=
  message ++ " at line " ++ toString token.line ++ ", column " ++ toString token.column
    ++ ". Found: " ++ toString token.type.toInt

/-- Model of `Parser::consume`. -/
def consume (tokens : List Token) (current : Nat) (type : TokenType) (message : String) :
    Except ParseError (Token × Nat) := do
  if (← check tokens current type) then advance tokens current
  else
    let token ← peek tokens current
    throw (.runtime_error (consumeMessage message token))

/-- The text built by `Parser::parseFactor` for its exception. -/
def unexpectedMessage (token : Token) : String :=
  "Unexpected token: " ++ toString token.type.toInt ++ " at line " ++ toString token.line
    ++ ", column " ++ toString token.column

/-- The text built by `Parser::parseBooleanExpression` for its exception. -/
def comparisonMessage (token : Token) : String :=
  "Expected comparison operator (==, !=, <, >, <=, >=) at line " ++ toString token.line
    ++ ", column " ++ toString token.column

mutual

/-- Model of `Parser::parseExpression`. -/
def parseExpression : Nat → List Token → Nat → Except ParseError (Expression × Nat)
  | 0, _, _ => .error .out_of_fuel
  | fuel + 1, tokens, current => do
    let r ← parseTerm fuel tokens current
    parseExpressionLoop fuel tokens r.2 r.1
termination_by structural fuel _ _ => fuel

/-- The loop of `Parser::parseExpression`. -/
def parseExpressionLoop : Nat → List Token → Nat → Expression →
    Except ParseError (Expression × Nat)
  | 0, _, _, _ => .error .out_of_fuel
  | fuel + 1, tokens, current, expr => do
    let m ← matchAny tokens current [.PLUS, .MINUS]
    if m.1 then
      let op ← previous tokens m.2
      let right ← parseTerm fuel tokens m.2
      parseExpressionLoop fuel tokens right.2 (.BinaryExpression expr op.value right.1)
    else pure (expr, m.2)
termination_by structural fuel _ _ _ => fuel

/-- Model of `Parser::parseTerm`. -/
def parseTerm : Nat → List Token → Nat → Except ParseError (Expression × Nat)
  | 0, _, _ => .error .out_of_fuel
  | fuel + 1, tokens, current => do
    let r ← parseFactor fuel tokens current
    parseTermLoop fuel tokens r.2 r.1
termination_by structural fuel _ _ => fuel

/-- The loop of `Parser::parseTerm`. -/
def parseTermLoop : Nat → List Token → Nat → Expression →
    Except ParseError (Expression × Nat)
  | 0, _, _, _ => .error .out_of_fuel
  | fuel + 1, tokens, current, expr => do
    let m ← matchAny tokens current [.MULTIPLY, .DIVIDE]
    if m.1 then
      let op ← previous tokens m.2
      let right ← parseFactor fuel tokens m.2
      parseTermLoop fuel tokens right.2 (.BinaryExpression expr op.value right.1)
    else pure (expr, m.2)
termination_by structural fuel _ _ _ => fuel

/-- Model of `Parser::parseFactor`. -/
def parseFactor : Nat → List Token → Nat → Except ParseError (Expression × Nat)
  | 0, _, _ => .error .out_of_fuel
  | fuel + 1, tokens, current => do
    let m1 ← matchToken tokens current .INTEGER
    if m1.1 then
      let p ← previous tokens m1.2
      let value ← stoi p.value
      pure (.IntegerLiteral value, m1.2)
    else
      let m2 ← matchToken tokens m1.2 .INPUT_INT
      if m2.1 then
        let c1 ← consume tokens m2.2 .LEFT_PAREN "Expected '(' after 'inputInt'"
        let c2 ← consume tokens c1.2 .RIGHT_PAREN "Expected ')' after '('"
        pure (.InputIntExpression, c2.2)
      else
        let m3 ← matchToken tokens m2.2 .IDENTIFIER
        if m3.1 then
          let p ← previous tokens m3.2
          pure (.VariableReference p.value, m3.2)
        else
          let m4 ← matchToken tokens m3.2 .LEFT_PAREN
          if m4.1 then
            let e ← parseExpression fuel tokens m4.2
            let c ← consume tokens e.2 .RIGHT_PAREN "Expected ')' after expression"
            pure (e.1, c.2)
          else
            let token ← peek tokens m4.2
            throw (.runtime_error (unexpectedMessage token))
termination_by structural fuel _ _ => fuel
end

/-- The comparison operators accepted by `Parser::parseBooleanExpression`. -/
def comparisonTypes : List TokenType :=
  [.EQUAL_EQUAL, .NOT_EQUAL, .LESS, .GREATER, .LESS_EQUAL, .GREATER_EQUAL]

/-- Model of `Parser::parseBooleanExpression`. -/
def parseBooleanExpression (fuel : Nat) (tokens : List Token) (current : Nat) :
    Except ParseError (BooleanExpression × Nat) := do
  let left ← parseExpression fuel tokens current
  let m ← matchAny tokens left.2 comparisonTypes
  if !m.1 then
    let token ← peek tokens m.2
    throw (.runtime_error (comparisonMessage token))
  else
    let op ← previous tokens m.2
    let right ← parseExpression fuel tokens m.2
    pure ({ left := left.1, op := op.value, right := right.1 }, right.2)

/-- Model of `Parser::parseVarDeclaration`. -/
def parseVarDeclaration (fuel : Nat) (tokens : List Token) (current : Nat) :
    Except ParseError (Statement × Nat) := do
  let identifier ← consume tokens current .IDENTIFIER "Expected variable name after 'var'"
  let c ← consume tokens identifier.2 .ASSIGN "Expected '=' after variable name"
  let expression ← parseExpression fuel tokens c.2
  let c1 ← consume tokens expression.2 .SEMICOLON "Expected ';' after expression"
  pure (.VarDeclarationStatement identifier.1.value expression.1, c1.2)

/-- Model of `Parser::parseAssignmentStatement`. -/
def parseAssignmentStatement (fuel : Nat) (tokens : List Token) (current : Nat) :
    Except ParseError (Statement × Nat) := do
  let identifier ← consume tokens current .IDENTIFIER "Expected variable name"
  let c ← consume tokens identifier.2 .ASSIGN "Expected '=' after variable name"
  let expression ← parseExpression fuel tokens c.2
  let c1 ← consume tokens expression.2 .SEMICOLON "Expected ';' after expression"
  pure (.AssignmentStatement identifier.1.value expression.1, c1.2)

/-- Model of `Parser::parsePrintStatement`. -/
def parsePrintStatement (fuel : Nat) (tokens : List Token) (current : Nat) :
    Except ParseError (Statement × Nat) := do
  let c ← consume tokens current .LEFT_PAREN "Expected '(' after 'print'"
  let expression ← parseExpression fuel tokens c.2
  let c1 ← consume tokens expression.2 .RIGHT_PAREN "Expected ')' after expression"
  let c2 ← consume tokens c1.2 .SEMICOLON "Expected ';' after ')'"
  pure (.PrintStatement expression.1, c2.2)

/-- Model of `Parser::parsePrintLineStatement`. -/
def parsePrintLineStatement (fuel : Nat) (tokens : List Token) (current : Nat) :
    Except ParseError (Statement × Nat) := do
  let c ← consume tokens current .LEFT_PAREN "Expected '(' after 'println'"
  let expression ← parseExpression fuel tokens c.2
  let c1 ← consume tokens expression.2 .RIGHT_PAREN "Expected ')' after expression"
  let c2 ← consume tokens c1.2 .SEMICOLON "Expected ';' after ')'"
  pure (.PrintLineStatement expression.1, c2.2)

/-- The loop condition `!check(RIGHT_BRACE) && !isAtEnd()` of the block loops. -/
def blockContinues (tokens : List Token) (current : Nat) : Except ParseError Bool := do
  if (← check tokens current .RIGHT_BRACE) then pure false
  else
    let atEnd ← isAtEnd tokens current
    pure (!atEnd)

mutual

/-- Model of `Parser::parseStatement`. -/
def parseStatement : Nat → List Token → Nat → Except ParseError (Statement × Nat)
  | 0, _, _ => .error .out_of_fuel
  | fuel + 1, tokens, current => do
    let m1 ← matchToken tokens current .VAR
    if m1.1 then parseVarDeclaration fuel tokens m1.2
    else
      let m2 ← matchToken tokens m1.2 .PRINT
      if m2.1 then parsePrintStatement fuel tokens m2.2
      else
        let m3 ← matchToken tokens m2.2 .PRINTLN
        if m3.1 then parsePrintLineStatement fuel tokens m3.2
        else
          let m4 ← matchToken tokens m3.2 .IF
          if m4.1 then parseIfStatement fuel tokens m4.2
          else
            let m5 ← matchToken tokens m4.2 .WHILE
            if m5.1 then parseWhileStatement fuel tokens m5.2
            else parseAssignmentStatement fuel tokens m5.2
termination_by structural fuel _ _ => fuel

/-- The block loops of `Parser::parseIfStatement` and
`Parser::parseWhileStatement`: statements up to `}` or the end of input. -/
def parseBlock : Nat → List Token → Nat → List Statement →
    Except ParseError (List Statement × Nat)
  | 0, _, _, _ => .error .out_of_fuel
  | fuel + 1, tokens, current, statements => do
    if (← blockContinues tokens current) then
      let s ← parseStatement fuel tokens current
      parseBlock fuel tokens s.2 (statements ++ [s.1])
    else pure (statements, current)
termination_by structural fuel _ _ _ => fuel

/-- Model of `Parser::parseIfStatement`. -/
def parseIfStatement : Nat → List Token → Nat → Except ParseError (Statement × Nat)
  | 0, _, _ => .error .out_of_fuel
  | fuel + 1, tokens, current => do
    let c1 ← consume tokens current .LEFT_PAREN "Expected '(' after 'if'"
    let condition ← parseBooleanExpression fuel tokens c1.2
    let c2 ← consume tokens condition.2 .RIGHT_PAREN "Expected ')' after condition"
    let c3 ← consume tokens c2.2 .LEFT_BRACE "Expected '\x7b' after ')'"
    let thenStatements ← parseBlock fuel tokens c3.2 []
    let c4 ← consume tokens thenStatements.2 .RIGHT_BRACE "Expected '\x7d' after if block"
    let m ← matchToken tokens c4.2 .ELSE
    if m.1 then
      let c5 ← consume tokens m.2 .LEFT_BRACE "Expected '\x7b' after 'else'"
      let elseStatements ← parseBlock fuel tokens c5.2 []
      let c6 ← consume tokens elseStatements.2 .RIGHT_BRACE "Expected '\x7d' after else block"
      pure (.IfStatement condition.1 thenStatements.1 elseStatements.1, c6.2)
    else pure (.IfStatement condition.1 thenStatements.1 [], m.2)
termination_by structural fuel _ _ => fuel

/-- Model of `Parser::parseWhileStatement`. -/
def parseWhileStatement : Nat → List Token → Nat → Except ParseError (Statement × Nat)
  | 0, _, _ => .error .out_of_fuel
  | fuel + 1, tokens, current => do
    let c1 ← consume tokens current .LEFT_PAREN "Expected '(' after 'while'"
    let condition ← parseBooleanExpression fuel tokens c1.2
    let c2 ← consume tokens condition.2 .RIGHT_PAREN "Expected ')' after condition"
    let c3 ← consume tokens c2.2 .LEFT_BRACE "Expected '\x7b' after ')'"
    let bodyStatements ← parseBlock fuel tokens c3.2 []
    let c4 ← consume tokens bodyStatements.2 .RIGHT_BRACE "Expected '\x7d' after while block"
    pure (.WhileStatement condition.1 bodyStatements.1, c4.2)
termination_by structural fuel _ _ => fuel
end

/-- The loop of `Parser::parse`. -/
def parseLoop : Nat → List Token → Nat → List Statement →
    Except ParseError (List Statement × Nat)
  | 0, _, _, _ => .error .out_of_fuel
  | fuel + 1, tokens, current, statements => do
    if !(← isAtEnd tokens current) then
      let s ← parseStatement fuel tokens current
      parseLoop fuel tokens s.2 (statements ++ [s.1])
    else pure (statements, current)

/-- Model of `Parser(tokens).parse()`, with recursion bounded by `fuel`. -/
def parse (fuel : Nat) (tokens : List Token) : Except ParseError ProgramNode := do
  let r ← parseLoop fuel tokens 0 []
  pure { statements := r.1 }

end Parser

/-! ## The output stream -/

/-- A `std::ostream` that starts empty: the lines already ended by `endl`, and
the text written since.  The stream holds the text `OStream.text`. -/
structure OStream where
  lines : List String
  pending : String
  deriving DecidableEq, Repr

namespace OStream

/-- The empty stream. -/
def empty : OStream := { lines := [], pending := "" }

/-- Model of `output << text`. -/
def write (o : OStream) (text : String) : OStream :=
  { o with pending := o.pending ++ text }

/-- Model of `output << endl`. -/
def endl (o : OStream) : OStream :=
  { lines := o.lines ++ [o.pending], pending := "" }

/-- The characters in the stream. -/
def text (o : OStream) : String :=
  String.join (o.lines.map (fun l => l ++ "\n")) ++ o.pending

end OStream

/-- Model of `std::to_string(int)`. -/
def to_string (value : Int) : String := toString value

/-! ## Transpiler/CodeGenerator.cpp: the structured backend -/

namespace Structured

/-- State of the structured code generator. -/
structure CodeGenerator where
  output : OStream
  indentLevel : Nat
  deriving DecidableEq, Repr

/-- Model of `CodeGenerator::generateExpression`; the last case is the body of
`generateBooleanExpression`, reached through the downcast. -/
def generateExpression : Expression → String
  | .IntegerLiteral value => to_string value
  | .InputIntExpression => "stoi(cin.getline())"
  | .VariableReference name => name
  | .BinaryExpression left op right =>
    "(" ++ generateExpression left ++ " " ++ op ++ " " ++ generateExpression right ++ ")"
  | .BooleanExpression left op right =>
    "(" ++ generateExpression left ++ " " ++ op ++ " " ++ generateExpression right ++ ")"

/-- Model of `CodeGenerator::generateBooleanExpression`. -/
def generateBooleanExpression (boolExpr : BooleanExpression) : String :=
  "(" ++ generateExpression boolExpr.left ++ " " ++ boolExpr.op ++ " "
    ++ generateExpression boolExpr.right ++ ")"

namespace CodeGenerator

/-- The constructor `CodeGenerator::CodeGenerator`, on an empty stream. -/
def new : CodeGenerator := { output := OStream.empty, indentLevel := 0 }

/-- Model of `output << text`. -/
def out (g : CodeGenerator) (text : String) : CodeGenerator :=
  { g with output := g.output.write text }

/-- Model of `output << endl`. -/
def endl (g : CodeGenerator) : CodeGenerator :=
  { g with output := g.output.endl }

/-- The loop of `CodeGenerator::writeIndent`. -/
def writeIndentLoop : Nat → OStream → OStream
  | 0, o => o
  | n + 1, o => writeIndentLoop n (o.write "    ")

/-- Model of `CodeGenerator::writeIndent`. -/
def writeIndent (g : CodeGenerator) : CodeGenerator :=
  { g with output := writeIndentLoop g.indentLevel g.output }

/-- Model of `CodeGenerator::writeLine`. -/
def writeLine (g : CodeGenerator) (line : String) : CodeGenerator :=
  (g.writeIndent.out line).endl

/-- Model of `CodeGenerator::generateVarDeclaration`. -/
def generateVarDeclaration (g : CodeGenerator) (variableName : String)
    (expression : Expression) : CodeGenerator :=
  (((((g.writeIndent.out "int ").out variableName).out " = ").out
    (generateExpression expression)).out ";").endl

/-- Model of `CodeGenerator::generateAssignment`. -/
def generateAssignment (g : CodeGenerator) (variableName : String)
    (expression : Expression) : CodeGenerator :=
  ((((g.writeIndent.out variableName).out " = ").out
    (generateExpression expression)).out ";").endl

/-- Model of `CodeGenerator::generatePrint`. -/
def generatePrint (g : CodeGenerator) (expression : Expression) : CodeGenerator :=
  (((g.writeIndent.out "cout << ").out (generateExpression expression)).out ";").endl

/-- Model of `CodeGenerator::generatePrintLine`. -/
def generatePrintLine (g : CodeGenerator) (expression : Expression) : CodeGenerator :=
  (((g.writeIndent.out "cout << ").out (generateExpression expression)).out " << endl;").endl

mutual

/-- Model of `CodeGenerator::generateStatement`, with the bodies of
`generateIfStatement` and `generateWhileStatement` in their cases. -/
def generateStatement : Statement → CodeGenerator → CodeGenerator
  | .VarDeclarationStatement variableName expression, g =>
    g.generateVarDeclaration variableName expression
  | .AssignmentStatement variableName expression, g =>
    g.generateAssignment variableName expression
  | .PrintStatement expression, g => g.generatePrint expression
  | .PrintLineStatement expression, g => g.generatePrintLine expression
  | .IfStatement condition thenStatements elseStatements, g =>
    let g1 := (((g.writeIndent.out "if (").out (generateBooleanExpression condition)).out
      ") \x7b").endl
    let g2 := { g1 with indentLevel := g1.indentLevel + 1 }
    let g3 := generateStatements thenStatements g2
    let g4 := { g3 with indentLevel := g3.indentLevel - 1 }
    let g5 := g4.writeIndent.out "\x7d"
    let g6 :=
      if !elseStatements.isEmpty then
        let h1 := (g5.out " else \x7b").endl
        let h2 := { h1 with indentLevel := h1.indentLevel + 1 }
        let h3 := generateStatements elseStatements h2
        let h4 := { h3 with indentLevel := h3.indentLevel - 1 }
        h4.writeIndent.out "\x7d"
      else g5
    g6.endl
  | .WhileStatement condition bodyStatements, g =>
    let g1 := (((g.writeIndent.out "while (").out (generateBooleanExpression condition)).out
      ") \x7b").endl
    let g2 := { g1 with indentLevel := g1.indentLevel + 1 }
    let g3 := generateStatements bodyStatements g2
    let g4 := { g3 with indentLevel := g3.indentLevel - 1 }
    (g4.writeIndent.out "\x7d").endl

/-- The loops `for (auto* stmt : ...) generateStatement(stmt)`. -/
def generateStatements : List Statement → CodeGenerator → CodeGenerator
  | [], g => g
  | stmt :: rest, g => generateStatements rest (generateStatement stmt g)

end

/-- Model of `CodeGenerator::generate`. -/
def generate (g : CodeGenerator) (program : ProgramNode) : CodeGenerator :=
  let g1 := g.writeLine "#include <iostream>"
  let g2 := g1.writeLine "#include <string>"
  let g3 := g2.writeLine "using namespace std;"
  let g4 := g3.writeLine ""
  let g5 := g4.writeLine "int main() \x7b"
  let g6 := { g5 with indentLevel := g5.indentLevel + 1 }
  let g7 := generateStatements program.statements g6
  let g8 := { g7 with indentLevel := g7.indentLevel - 1 }
  let g9 := g8.writeLine "    return 0;"
  g9.writeLine "\x7d"

end CodeGenerator

/-- The lines written by the structured backend for a program, on a fresh
generator. -/
def generatedLines (program : ProgramNode) : List String :=
  (CodeGenerator.new.generate program).output.lines

end Structured

/-! ## TranspilerAssembly/CodeGenerator.cpp: the label-and-jump backend -/

namespace Assembly

/-- State of the assembly-style code generator.  The map `statementLabels` of
the source is written by `generate` and never read; it is left out. -/
structure CodeGenerator where
  output : OStream
  indentLevel : Nat
  labelCounter : Nat
  deriving DecidableEq, Repr

/-- Model of `CodeGenerator::generateExpression`; the last case is the body of
`generateBooleanExpression`, reached through the downcast. -/
def generateExpression : Expression → String
  | .IntegerLiteral value => to_string value
  | .InputIntExpression => "([]() \x7b int val; cin >> val; return val; \x7d)()"
  | .VariableReference name => name
  | .BinaryExpression left op right =>
    "(" ++ generateExpression left ++ " " ++ op ++ " " ++ generateExpression right ++ ")"
  | .BooleanExpression left op right =>
    "(" ++ generateExpression left ++ " " ++ op ++ " " ++ generateExpression right ++ ")"

/-- Model of `CodeGenerator::generateBooleanExpression`. -/
def generateBooleanExpression (boolExpr : BooleanExpression) : String :=
  "(" ++ generateExpression boolExpr.left ++ " " ++ boolExpr.op ++ " "
    ++ generateExpression boolExpr.right ++ ")"

namespace CodeGenerator

/-- The constructor `CodeGenerator::CodeGenerator`, on an empty stream. -/
def new : CodeGenerator := { output := OStream.empty, indentLevel := 0, labelCounter := 0 }

/-- Model of `output << text`. -/
def out (g : CodeGenerator) (text : String) : CodeGenerator :=
  { g with output := g.output.write text }

/-- Model of `output << endl`. -/
def endl (g : CodeGenerator) : CodeGenerator :=
  { g with output := g.output.endl }

/-- The loop of `CodeGenerator::writeIndent`. -/
def writeIndentLoop : Nat → OStream → OStream
  | 0, o => o
  | n + 1, o => writeIndentLoop n (o.write "    ")

/-- Model of `CodeGenerator::writeIndent`. -/
def writeIndent (g : CodeGenerator) : CodeGenerator :=
  { g with output := writeIndentLoop g.indentLevel g.output }

/-- Model of `CodeGenerator::writeLine`. -/
def writeLine (g : CodeGenerator) (line : String) : CodeGenerator :=
  (g.writeIndent.out line).endl

/-- The label text built by `CodeGenerator::generateLabel`. -/
def labelText (pfx : String) (n : Nat) : String :=
  pfx ++ "_" ++ to_string (n : Int)

/-- Model of `CodeGenerator::generateLabel`: the label and the state with the
counter incremented. -/
def generateLabel (g : CodeGenerator) (pfx : String) : String × CodeGenerator :=
  (labelText pfx g.labelCounter, { g with labelCounter := g.labelCounter + 1 })

/-- Model of `CodeGenerator::generateVarDeclaration`. -/
def generateVarDeclaration (g : CodeGenerator) (variableName : String)
    (expression : Expression) : CodeGenerator :=
  ((((g.writeIndent.out variableName).out " = ").out
    (generateExpression expression)).out ";").endl

/-- Model of `CodeGenerator::generateAssignment`. -/
def generateAssignment (g : CodeGenerator) (variableName : String)
    (expression : Expression) : CodeGenerator :=
  ((((g.writeIndent.out variableName).out " = ").out
    (generateExpression expression)).out ";").endl

/-- Model of `CodeGenerator::generatePrint`. -/
def generatePrint (g : CodeGenerator) (expression : Expression) : CodeGenerator :=
  (((g.writeIndent.out "cout << ").out (generateExpression expression)).out ";").endl

/-- Model of `CodeGenerator::generatePrintLine`. -/
def generatePrintLine (g : CodeGenerator) (expression : Expression) : CodeGenerator :=
  (((g.writeIndent.out "cout << ").out (generateExpression expression)).out " << endl;").endl

mutual

/-- Model of `CodeGenerator::generateStatement`, with the bodies of
`generateIfStatement` and `generateWhileStatement` in their cases. -/
def generateStatement : Statement → CodeGenerator → CodeGenerator
  | .VarDeclarationStatement variableName expression, g =>
    g.generateVarDeclaration variableName expression
  | .AssignmentStatement variableName expression, g =>
    g.generateAssignment variableName expression
  | .PrintStatement expression, g => g.generatePrint expression
  | .PrintLineStatement expression, g => g.generatePrintLine expression
  | .IfStatement condition thenStatements elseStatements, g =>
    let elseLabel := (g.generateLabel "L_ELSE").1
    let ga := (g.generateLabel "L_ELSE").2
    let endLabel := (ga.generateLabel "L_IF_END").1
    let gb := (ga.generateLabel "L_IF_END").2
    let g0 := (gb.generateLabel "L_COND").2
    let g1 := (g0.writeIndent.out "// if condition").endl
    let g2 := (((((g1.writeIndent.out "if (!(").out (generateBooleanExpression condition)).out
      ")) goto ").out elseLabel).out ";").endl
    let g3 := g2.writeLine ""
    let g4 := (g3.writeIndent.out "// then block").endl
    let g5 := generateStatements thenStatements g4
    let g6 := (((g5.writeIndent.out "goto ").out endLabel).out ";").endl
    let g7 := g6.writeLine ""
    let g8 :=
      if !elseStatements.isEmpty then
        let h1 := ((g7.writeIndent.out elseLabel).out ":").endl
        let h2 := (h1.writeIndent.out "// else block").endl
        generateStatements elseStatements h2
      else ((g7.writeIndent.out elseLabel).out ":").endl
    ((g8.writeIndent.out endLabel).out ":").endl
  | .WhileStatement condition bodyStatements, g =>
    let loopLabel := (g.generateLabel "L_LOOP").1
    let ga := (g.generateLabel "L_LOOP").2
    let gb := (ga.generateLabel "L_COND").2
    let endLabel := (gb.generateLabel "L_LOOP_END").1
    let g0 := (gb.generateLabel "L_LOOP_END").2
    let g1 := (g0.writeIndent.out "// while loop").endl
    let g2 := ((g1.writeIndent.out loopLabel).out ":").endl
    let g3 := (((((g2.writeIndent.out "if (!(").out (generateBooleanExpression condition)).out
      ")) goto ").out endLabel).out ";").endl
    let g4 := g3.writeLine ""
    let g5 := (g4.writeIndent.out "// loop body").endl
    let g6 := generateStatements bodyStatements g5
    let g7 := (((g6.writeIndent.out "goto ").out loopLabel).out ";").endl
    let g8 := g7.writeLine ""
    ((g8.writeIndent.out endLabel).out ":").endl

/-- The loops `for (auto* stmt : ...) generateStatement(stmt)`. -/
def generateStatements : List Statement → CodeGenerator → CodeGenerator
  | [], g => g
  | stmt :: rest, g => generateStatements rest (generateStatement stmt g)

end

/-- The declaration loop of `CodeGenerator::generate`: one `int <name>;` for
each element of `program->statements` that is a variable declaration. -/
def declareVariables : List Statement → CodeGenerator → CodeGenerator
  | [], g => g
  | .VarDeclarationStatement variableName _ :: rest, g =>
    declareVariables rest (((g.writeIndent.out "int ").out variableName).out ";").endl
  | _ :: rest, g => declareVariables rest g

/-- The statement loop of `CodeGenerator::generate`: a fresh `L_STMT` label,
the statement, an empty line. -/
def generateTopLevel : List Statement → CodeGenerator → CodeGenerator
  | [], g => g
  | stmt :: rest, g =>
    let label := (g.generateLabel "L_STMT").1
    let g1 := (g.generateLabel "L_STMT").2
    let g2 := ((g1.writeIndent.out label).out ":").endl
    let g3 := generateStatement stmt g2
    generateTopLevel rest (g3.writeLine "")

/-- Model of `CodeGenerator::generate`. -/
def generate (g : CodeGenerator) (program : ProgramNode) : CodeGenerator :=
  let g1 := g.writeLine "#include <iostream>"
  let g2 := g1.writeLine "#include <string>"
  let g3 := g2.writeLine "using namespace std;"
  let g4 := g3.writeLine ""
  let g5 := g4.writeLine "int main() \x7b"
  let g6 := { g5 with indentLevel := g5.indentLevel + 1 }
  let g7 := g6.writeLine "// Variable declarations"
  let g8 := declareVariables program.statements g7
  let g9 := g8.writeLine ""
  let g10 := (g9.writeIndent.out "L_START:").endl
  let g11 := g10.writeLine ""
  let g12 := generateTopLevel program.statements g11
  let g13 := (g12.writeIndent.out "L_END:").endl
  let g14 := (g13.writeIndent.out "return 0;").endl
  let g15 := { g14 with indentLevel := g14.indentLevel - 1 }
  g15.writeLine "\x7d"

end CodeGenerator

/-- The lines written by the assembly backend for a program, on a fresh
generator. -/
def generatedLines (program : ProgramNode) : List String :=
  (CodeGenerator.new.generate program).output.lines

end Assembly

/-! ## main.cpp -/

/-- Model of `std::string::find_last_of(c)`: the index of the last occurrence
of the character, `none` for `npos`. -/
def find_last_of (s : List Char) (c : Char) : Option Nat :=
  match s.reverse.indexOf? c with
  | some i => some (s.length - 1 - i)
  | none => none

/-- The default output path computed by `main` when no output path is given:
the source path up to its last dot, followed by `.cpp`, or the source path
followed by `.cpp` when it has no dot. -/
def defaultOutputFile (sourceFile : String) : String :=
  match find_last_of sourceFile.data '.' with
  | some lastDot => String.mk (sourceFile.data.take lastDot) ++ ".cpp"
  | none => sourceFile ++ ".cpp"

/-! ## Definitions used to state the theorems -/

/-- The text written by `writeIndent` at a given indentation level: four
spaces per level. -/
def indentText : Nat → String
  | 0 => ""
  | n + 1 => "    " ++ indentText n

/-- The lines the structured backend writes for a statement list at a given
indentation level, on a fresh stream. -/
def Structured.blockLines (stmts : List Statement) (indentLevel : Nat) : List String :=
  (Structured.CodeGenerator.generateStatements stmts
    { output := OStream.empty, indentLevel := indentLevel }).output.lines

/-- The lines the structured backend writes for one statement at a given
indentation level, on a fresh stream. -/
def Structured.statementLines (stmt : Statement) (indentLevel : Nat) : List String :=
  (Structured.CodeGenerator.generateStatement stmt
    { output := OStream.empty, indentLevel := indentLevel }).output.lines

/-- The lines the assembly backend writes for a statement list at a given
indentation level and label counter, on a fresh stream. -/
def Assembly.blockLines (stmts : List Statement) (indentLevel labelCounter : Nat) :
    List String :=
  (Assembly.CodeGenerator.generateStatements stmts
    { output := OStream.empty, indentLevel := indentLevel,
      labelCounter := labelCounter }).output.lines

/-- The label counter after the assembly backend has generated a statement
list. -/
def Assembly.blockCounter (stmts : List Statement) (labelCounter : Nat) : Nat :=
  (Assembly.CodeGenerator.generateStatements stmts
    { output := OStream.empty, indentLevel := 0, labelCounter := labelCounter }).labelCounter

/-- The lines the assembly backend writes for one statement, on a fresh
stream. -/
def Assembly.statementLines (stmt : Statement) (indentLevel labelCounter : Nat) :
    List String :=
  (Assembly.CodeGenerator.generateStatement stmt
    { output := OStream.empty, indentLevel := indentLevel,
      labelCounter := labelCounter }).output.lines

/-- The label counter after the assembly backend has generated one
statement. -/
def Assembly.statementCounter (stmt : Statement) (labelCounter : Nat) : Nat :=
  (Assembly.CodeGenerator.generateStatement stmt
    { output := OStream.empty, indentLevel := 0, labelCounter := labelCounter }).labelCounter

/-- Whether a line begins, after its indentation, with the given text. -/
def beginsWith (pre line : String) : Bool :=
  pre.data.isPrefixOf (line.data.dropWhile (fun c => c == ' '))

/-- A native loop header of the target language: a line that begins, after its
indentation, with `while (` (the form the structured backend writes) or with
`for (`. -/
def isNativeLoopHeader (line : String) : Bool :=
  beginsWith "while (" line || beginsWith "for (" line

/-- Texts made of letters, digits and underscores only, as every identifier
token of the lexer is. -/
def isIdentifierText (name : String) : Bool :=
  name.data.all (fun c => isalnum c || c == '_')

mutual

/-- Every variable name declared or assigned in the statement is made of
letters, digits and underscores. -/
def Statement.namesAreIdentifiers : Statement → Bool
  | .VarDeclarationStatement variableName _ => isIdentifierText variableName
  | .AssignmentStatement variableName _ => isIdentifierText variableName
  | .PrintStatement _ => true
  | .PrintLineStatement _ => true
  | .IfStatement _ thenStatements elseStatements =>
    Statement.listNamesAreIdentifiers thenStatements
      && Statement.listNamesAreIdentifiers elseStatements
  | .WhileStatement _ bodyStatements => Statement.listNamesAreIdentifiers bodyStatements

/-- The same for every statement of a list. -/
def Statement.listNamesAreIdentifiers : List Statement → Bool
  | [] => true
  | stmt :: rest => stmt.namesAreIdentifiers && Statement.listNamesAreIdentifiers rest

end

/-! ### The lexer seen on the remaining input -/

/-- The part of the source that is still to be read. -/
def Lexer.rest (lx : Lexer) : List Char := lx.source.drop lx.position

/-- The state after reading `n` characters on one line. -/
def Lexer.skip (lx : Lexer) (n : Nat) : Lexer :=
  { lx with position := lx.position + n, column := lx.column + n }

/-- Characters that continue an identifier: letters, digits, underscore. -/
def isIdentChar (c : Char) : Bool := isalnum c || c == '_'

/-- The characters skipped by `Lexer::skipWhitespace`. -/
def isWhitespace (c : Char) : Bool := c == ' ' || c == '\t' || c == '\r' || c == '\n'

/-- What `Lexer::skipWhitespace` does to the remaining input, the line and the
column: the input left, the line and the column after it. -/
def skipWs : List Char → Int → Int → List Char × Int × Int
  | [], l, c => ([], l, c)
  | ch :: r, l, c =>
    if ch = ' ' ∨ ch = '\t' then skipWs r l (c + 1)
    else if ch = '\r' then
      match r with
      | [] => ([], l + 1, 1)
      | d :: r1 => if d = '\n' then skipWs r1 (l + 1) 1 else skipWs (d :: r1) (l + 1) 1
    else if ch = '\n' then skipWs r (l + 1) 1
    else (ch :: r, l, c)

/-- The operator cases of `scan`: one character, or two when `=` follows. -/
def twoCharScan (r : List Char) (two : TokenType) (text : List Char) (one : TokenType)
    (c : Char) : TokenType × List Char × List Char :=
  match r with
  | [] => (one, [c], [])
  | d :: r1 => if d = '=' then (two, text, r1) else (one, [c], d :: r1)

/-- The lexeme that `Lexer::nextToken` reads when the remaining input is
`c :: r`: its kind, its text, and the input left after it. -/
def scan (c : Char) (r : List Char) : TokenType × List Char × List Char :=
  if c = '=' then twoCharScan r .EQUAL_EQUAL ['=', '='] .ASSIGN c
  else if c = '!' then twoCharScan r .NOT_EQUAL ['!', '='] .UNKNOWN c
  else if c = '<' then twoCharScan r .LESS_EQUAL ['<', '='] .LESS c
  else if c = '>' then twoCharScan r .GREATER_EQUAL ['>', '='] .GREATER c
  else if c = '+' then (.PLUS, [c], r)
  else if c = '-' then (.MINUS, [c], r)
  else if c = '*' then (.MULTIPLY, [c], r)
  else if c = '/' then (.DIVIDE, [c], r)
  else if c = ';' then (.SEMICOLON, [c], r)
  else if c = '(' then (.LEFT_PAREN, [c], r)
  else if c = ')' then (.RIGHT_PAREN, [c], r)
  else if c = '\x7b' then (.LEFT_BRACE, [c], r)
  else if c = '\x7d' then (.RIGHT_BRACE, [c], r)
  else if isdigit c then (.INTEGER, c :: r.takeWhile isdigit, r.dropWhile isdigit)
  else if isalpha c || c == '_' then
    (Lexer.keywordType (String.mk (c :: r.takeWhile isIdentChar)),
      c :: r.takeWhile isIdentChar, r.dropWhile isIdentChar)
  else (.UNKNOWN, [c], r)

/-- The one-character tokens of `Lexer::nextToken`. -/
def singleTokens : List (Char × TokenType) :=
  [('+', .PLUS), ('-', .MINUS), ('*', .MULTIPLY), ('/', .DIVIDE), (';', .SEMICOLON),
   ('(', .LEFT_PAREN), (')', .RIGHT_PAREN), ('\x7b', .LEFT_BRACE), ('\x7d', .RIGHT_BRACE)]

/-- The characters with which `Lexer::nextToken` starts a case other than the
last one: the operator and punctuation characters, `!`, digits, letters and
the underscore. -/
def isValidStart (c : Char) : Bool :=
  c == '=' || c == '!' || c == '<' || c == '>' || c == '+' || c == '-' || c == '*'
    || c == '/' || c == ';' || c == '(' || c == ')' || c == '\x7b' || c == '\x7d'
    || isdigit c || isalpha c || c == '_'

/-- The column that `Lexer::nextToken` stores in a token that starts at
`column` with the character `c`: the start column, except for the invalid
token of a character other than `!`, which gets the column after it. -/
def tokenColumn (type : TokenType) (c : Char) (column : Int) : Int :=
  if type = .UNKNOWN ∧ c ≠ '!' then column + 1 else column

/-- The token that `Lexer::nextToken` returns when the remaining input is
`c :: r` at the given line and column. -/
def lexeme (c : Char) (r : List Char) (line column : Int) : Token :=
  { type := (scan c r).1, value := String.mk (scan c r).2.1, line := line,
    column := tokenColumn (scan c r).1 c column }

/-- The run of `Lexer::tokenize` on the remaining input: `Lexes rest l c ts l1 c1`
says that from the input `rest` at line `l`, column `c`, the loop appends the
tokens `ts` and stops at line `l1`, column `c1`. -/
inductive Lexes : List Char → Int → Int → List Token → Int → Int → Prop
  | done (rest : List Char) (l c l1 c1 : Int) :
      skipWs rest l c = ([], l1, c1) → Lexes rest l c [] l1 c1
  | unknown (rest : List Char) (l c : Int) (ch : Char) (r : List Char) (l1 c1 : Int) :
      skipWs rest l c = (ch :: r, l1, c1) → (scan ch r).1 = .UNKNOWN →
      Lexes rest l c [lexeme ch r l1 c1] l1 (c1 + (scan ch r).2.1.length)
  | token (rest : List Char) (l c : Int) (ch : Char) (r : List Char) (l1 c1 : Int)
      (ts : List Token) (l2 c2 : Int) :
      skipWs rest l c = (ch :: r, l1, c1) → (scan ch r).1 ≠ .UNKNOWN →
      Lexes (scan ch r).2.2 l1 (c1 + (scan ch r).2.1.length) ts l2 c2 →
      Lexes rest l c (lexeme ch r l1 c1 :: ts) l2 c2

/-! ### Where comparison nodes stand -/

/-- Whether a comparison node occurs in an expression, at the root or below. -/
def Expression.hasComparison : Expression → Bool
  | .IntegerLiteral _ => false
  | .InputIntExpression => false
  | .VariableReference _ => false
  | .BinaryExpression left _ right => left.hasComparison || right.hasComparison
  | .BooleanExpression _ _ _ => true

mutual

/-- In the statement, comparison nodes occur only as the condition of an if
or while statement: the expression of a declaration, assignment or print has
none, and neither operand of a condition has one. -/
def Statement.comparisonsOnlyAsConditions : Statement → Bool
  | .VarDeclarationStatement _ expression => !expression.hasComparison
  | .AssignmentStatement _ expression => !expression.hasComparison
  | .PrintStatement expression => !expression.hasComparison
  | .PrintLineStatement expression => !expression.hasComparison
  | .IfStatement condition thenStatements elseStatements =>
    !condition.left.hasComparison && !condition.right.hasComparison
      && Statement.listComparisonsOnlyAsConditions thenStatements
      && Statement.listComparisonsOnlyAsConditions elseStatements
  | .WhileStatement condition bodyStatements =>
    !condition.left.hasComparison && !condition.right.hasComparison
      && Statement.listComparisonsOnlyAsConditions bodyStatements

/-- The same for every statement of a list. -/
def Statement.listComparisonsOnlyAsConditions : List Statement → Bool
  | [] => true
  | stmt :: rest =>
    stmt.comparisonsOnlyAsConditions && Statement.listComparisonsOnlyAsConditions rest

end

/-! ### The parser at the start of a statement -/

namespace Parser

/-- The kind of the token at an index, if there is one. -/
def kindAt (tokens : List Token) (i : Nat) : Option TokenType :=
  (tokens[i]?).map (fun t => t.type)

/-- A fuel-bounded computation gives the result `r` for every large enough
fuel. -/
def Eventually {α : Type} (f : Nat → α) (r : α) : Prop :=
  ∃ N, ∀ fuel, N ≤ fuel → f fuel = r

/-- The statement loop that runs at an index: the loop of `Parser::parse`
(`true`) or the loop of a block (`false`). -/
def statementLoop : Bool → Nat → List Token → Nat → List Statement →
    Except ParseError (List Statement × Nat)
  | true => parseLoop
  | false => parseBlock

/-- The indices at which the parser, run on the whole token list, stands at
the head of a statement loop: index 0 for the loop of `parse`; the index after
a statement that the loop has parsed; and the index after the `\x7b` that
opens the then-block of an if statement, the body of a while statement, or an
else-block, of a statement that starts where a loop stands.  The flag tells
the loop of `parse` from a block loop. -/
inductive LoopAt (tokens : List Token) : Bool → Nat → Prop
  | start : LoopAt tokens true 0
  | next {top : Bool} {p q : Nat} {t : Token} {s : Statement} :
      LoopAt tokens top p → tokens[p]? = some t → t.type ≠ .EOF_TOKEN →
      t.type ≠ .RIGHT_BRACE →
      Eventually (fun fuel => parseStatement fuel tokens p) (.ok (s, q)) →
      LoopAt tokens top q
  | thenBlock {top : Bool} {p n : Nat} {c : BooleanExpression} :
      LoopAt tokens top p → kindAt tokens p = some .IF →
      kindAt tokens (p + 1) = some .LEFT_PAREN →
      Eventually (fun fuel => parseBooleanExpression fuel tokens (p + 2)) (.ok (c, n)) →
      kindAt tokens n = some .RIGHT_PAREN → kindAt tokens (n + 1) = some .LEFT_BRACE →
      LoopAt tokens false (n + 2)
  | elseBlock {top : Bool} {p n m : Nat} {c : BooleanExpression} {ss : List Statement} :
      LoopAt tokens top p → kindAt tokens p = some .IF →
      kindAt tokens (p + 1) = some .LEFT_PAREN →
      Eventually (fun fuel => parseBooleanExpression fuel tokens (p + 2)) (.ok (c, n)) →
      kindAt tokens n = some .RIGHT_PAREN → kindAt tokens (n + 1) = some .LEFT_BRACE →
      Eventually (fun fuel => parseBlock fuel tokens (n + 2) []) (.ok (ss, m)) →
      kindAt tokens m = some .RIGHT_BRACE → kindAt tokens (m + 1) = some .ELSE →
      kindAt tokens (m + 2) = some .LEFT_BRACE →
      LoopAt tokens false (m + 3)
  | whileBody {top : Bool} {p n : Nat} {c : BooleanExpression} :
      LoopAt tokens top p → kindAt tokens p = some .WHILE →
      kindAt tokens (p + 1) = some .LEFT_PAREN →
      Eventually (fun fuel => parseBooleanExpression fuel tokens (p + 2)) (.ok (c, n)) →
      kindAt tokens n = some .RIGHT_PAREN → kindAt tokens (n + 1) = some .LEFT_BRACE →
      LoopAt tokens false (n + 2)

end Parser

/-! ### Chains of factors -/

namespace Parser

/-- A chain of operators and factors that continues after a factor ending at
index `j`: each item is the operator token that stands at the current index,
of one of the given kinds, the factor that `parseFactor` returns right after
it, and the index at which that factor ends. -/
def FactorChain (tokens : List Token) (kinds : List TokenType) :
    Nat → List (Token × Expression × Nat) → Prop
  | _, [] => True
  | j, (op, f, k) :: rest =>
    tokens[j]? = some op ∧ op.type ∈ kinds
      ∧ Eventually (fun fuel => parseFactor fuel tokens (j + 1)) (.ok (f, k))
      ∧ FactorChain tokens kinds k rest

/-- The index at which a chain ends. -/
def chainEnd : Nat → List (Token × Expression × Nat) → Nat
  | j, [] => j
  | _, (_, _, k) :: rest => chainEnd k rest

/-- The left-nested tree `(((e op1 f1) op2 f2) ... opn fn)`. -/
def leftNested (e : Expression) (items : List (Token × Expression × Nat)) : Expression :=
  items.foldl (fun acc item => .BinaryExpression acc item.1.value item.2.1) e

end Parser

/-! ### What a failure of the parser says -/

/-- Whether `piece` occurs in `text`. -/
def containsText (text piece : String) : Bool :=
  text.data.tails.any (fun s => piece.data.isPrefixOf s)

namespace Parser

/-- The message gives the line and the column of the token, in the form `line
L, column C`. -/
def namesPosition (msg : String) (t : Token) : Bool :=
  containsText msg ("line " ++ toString t.line ++ ", column " ++ toString t.column)

/-- What the messages of the parser say about a token of the list: each is
built by `consume`, by `parseFactor` or by `parseBooleanExpression` from the
token under the cursor. -/
def MessageAbout (tokens : List Token) (msg : String) : Prop :=
  ∃ t, t ∈ tokens ∧ ((∃ m, msg = consumeMessage m t) ∨ msg = unexpectedMessage t
    ∨ msg = comparisonMessage t)

/-- What is known of a failure: a `runtime_error` carries a message about a
token of the list. -/
def Informative (tokens : List Token) (e : ParseError) : Prop :=
  ∀ msg, e = .runtime_error msg → MessageAbout tokens msg

end Parser

/-! ### Label definitions -/

/-- A label definition: a line that ends with a colon.  Every other line the
assembly backend writes ends with `;`, `\x7b`, `\x7d`, `>` or a letter, or is
blank. -/
def isLabelDefinition (line : String) : Bool :=
  line.data.getLast? == some ':'

/-- The label definitions among the lines the assembly backend writes for a
program, in the order written. -/
def Assembly.labelDefinitions (program : ProgramNode) : List String :=
  (Assembly.generatedLines program).filter isLabelDefinition

/-- The digits that stand directly before the final character of a line. -/
def labelDigits (line : String) : List Char :=
  (line.data.dropLast.reverse.takeWhile isdigit).reverse

/-- The number written at the end of a label definition, before the colon. -/
def labelNumber (line : String) : Int :=
  digitsValue (labelDigits line)

/-- Label definitions with counters from `lo` up to `hi`, no counter twice. -/
def NumberedLabels (ls : List String) (lo hi : Nat) : Prop :=
  (ls.map labelNumber).Nodup
    ∧ ∀ l ∈ ls, labelDigits l ≠ [] ∧ (lo : Int) ≤ labelNumber l ∧ labelNumber l < (hi : Int)

/-! ### Invalid characters and boundaries between tokens -/

/-- The characters of the lexical grammar: letters, digits, the underscore,
space, tab, carriage return, line feed, and the operator and punctuation
characters `+ - * / = < > ! ; ( ) \x7b \x7d`. -/
def isLexicalChar (c : Char) : Bool :=
  isalpha c || isdigit c || c == '_' || c == ' ' || c == '\t' || c == '\r' || c == '\n'
    || c == '+' || c == '-' || c == '*' || c == '/' || c == '=' || c == '<' || c == '>'
    || c == '!' || c == ';' || c == '(' || c == ')' || c == '\x7b' || c == '\x7d'

/-- A character that cannot be read where it stands, before the input `post`:
a `!` that is not directly followed by `=`, or a character outside the
lexical grammar. -/
def offendingAt (c : Char) (post : List Char) : Bool :=
  (c == '!' && post.head? != some '=') || !isLexicalChar c

/-- The input split at its first offending character: what precedes it, the
character, and what follows it. -/
def splitAtOffending : List Char → Option (List Char × Char × List Char)
  | [] => none
  | c :: r =>
    if offendingAt c r then some ([], c, r)
    else (splitAtOffending r).map (fun s => (c :: s.1, s.2.1, s.2.2))

/-- Two adjacent characters that the lexer reads together: a carriage return
and a line feed, an operator character and `=`, or two characters of one
number or identifier. -/
def readTogether (x y : Char) : Bool :=
  (x == '\r' && y == '\n') || ((x == '=' || x == '!' || x == '<' || x == '>') && y == '=')
    || (isIdentChar x && isIdentChar y)

/-- The end of `a` and the start of `b` are not read together. -/
def cleanBoundary (a b : List Char) : Bool :=
  match a.getLast?, b.head? with
  | some x, some y => !readTogether x y
  | _, _ => true

/-! ### Keywords -/

/-- The keywords of the language. -/
def keywords : List String := ["var", "print", "println", "inputInt", "if", "else", "while"]

/-! ### Expressions without input -/

/-- Whether an input-read node occurs in an expression. -/
def Expression.hasInput : Expression → Bool
  | .IntegerLiteral _ => false
  | .InputIntExpression => true
  | .VariableReference _ => false
  | .BinaryExpression left _ right => left.hasInput || right.hasInput
  | .BooleanExpression left _ right => left.hasInput || right.hasInput

/-! ### The tokens the parser has passed -/

namespace Parser

/-- The token list is not empty and its last token is the end-of-input
token. -/
def WellEnded (tokens : List Token) : Prop :=
  ∃ ts t, tokens = ts ++ [t] ∧ t.type = .EOF_TOKEN

/-- The parser has moved from index `a` to index `b` over tokens of the list
that are neither the end-of-input token nor an invalid token. -/
def Passed (tokens : List Token) (a b : Nat) : Prop :=
  a ≤ b ∧ ∀ i, a ≤ i → i < b →
    ∃ t, tokens[i]? = some t ∧ t.type ≠ .EOF_TOKEN ∧ t.type ≠ .UNKNOWN

/-- A step of the parser from index `current` that reads no token outside the
list: a failure is not a read out of bounds, and a result comes with an index
reached over tokens of the list. -/
def Sound {α : Type} (tokens : List Token) (current : Nat)
    (res : Except ParseError (α × Nat)) : Prop :=
  match res with
  | .ok r => Passed tokens current r.2
  | .error e => e ≠ .out_of_bounds

/-- A read of the parser that is not out of bounds. -/
def InBounds {α : Type} (res : Except ParseError α) : Prop :=
  ∀ e, res = .error e → e ≠ .out_of_bounds

end Parser

/-! ### Names at the start of a line, top-level lines and statement labels -/

mutual

/-- The variable names declared or assigned in a statement, at any depth. -/
def Statement.names : Statement → List String
  | .VarDeclarationStatement variableName _ => [variableName]
  | .AssignmentStatement variableName _ => [variableName]
  | .PrintStatement _ => []
  | .PrintLineStatement _ => []
  | .IfStatement _ thenStatements elseStatements =>
    Statement.listNames thenStatements ++ Statement.listNames elseStatements
  | .WhileStatement _ bodyStatements => Statement.listNames bodyStatements

/-- The same for a statement list. -/
def Statement.listNames : List Statement → List String
  | [] => []
  | stmt :: rest => stmt.names ++ Statement.listNames rest

end

/-- The lines the statement loop of the assembly backend writes for a
statement list, from a given label counter: for each statement its `L_STMT`
label, its lines and an empty line. -/
def Assembly.topLevelLines : List Statement → Nat → Nat → List String
  | [], _, _ => []
  | stmt :: rest, indentLevel, labelCounter =>
    [indentText indentLevel ++ Assembly.CodeGenerator.labelText "L_STMT" labelCounter ++ ":"]
      ++ Assembly.statementLines stmt indentLevel (labelCounter + 1)
      ++ [indentText indentLevel ++ ""]
      ++ Assembly.topLevelLines rest indentLevel
          (Assembly.statementCounter stmt (labelCounter + 1))

/-- A label definition with prefix `L_STMT`. -/
def isStmtLabel (line : String) : Bool :=
  beginsWith "L_STMT" line && isLabelDefinition line

/-! ### Identifier names and lines without native control flow -/

/-- A text that begins with a letter or an underscore and goes on with
letters, digits and underscores, as the text of every identifier token of the
lexer does. -/
def isIdentifierName (name : String) : Bool :=
  match name.data with
  | [] => false
  | c :: cs => (isalpha c || c == '_') && cs.all isIdentChar

/-- A false-jump: a line `if (!(<cond>)) goto <label>;` for a condition and a
numbered label. -/
def Assembly.isFalseJump (line : String) : Prop :=
  ∃ (n : Nat) (c : BooleanExpression) (pfx : String) (k : Nat),
    line = indentText n ++ "if (!(" ++ Assembly.generateBooleanExpression c ++ ")) goto "
      ++ Assembly.CodeGenerator.labelText pfx k ++ ";"

/-- A line without native control flow: if it begins, after its indentation,
with `if (`, it is a false-jump; it does not begin with `while (`; and if it
ends with an opening brace, it is the line `int main() \x7b`. -/
def Assembly.noNativeControl (line : String) : Prop :=
  (beginsWith "if (" line = true → Assembly.isFalseJump line)
    ∧ beginsWith "while (" line = false
    ∧ (line.data.getLast? = some '\x7b' → line = "int main() \x7b")

/-! ### Indentation and nesting depth -/

/-- The number of spaces at the start of a line. -/
def leadingSpaces (line : String) : Nat :=
  (line.data.takeWhile (fun c => c == ' ')).length

mutual

/-- For each line the structured backend writes for a statement at nesting
depth `d`, in the order written, the nesting depth of the statement the line
is written for: the header and closing lines of an if or while statement are
written for that statement, the lines between them for the statements of its
bodies, one level deeper. -/
def Statement.lineDepths : Statement → Nat → List Nat
  | .VarDeclarationStatement _ _, d => [d]
  | .AssignmentStatement _ _, d => [d]
  | .PrintStatement _, d => [d]
  | .PrintLineStatement _, d => [d]
  | .IfStatement _ thenStatements elseStatements, d =>
    [d] ++ Statement.listLineDepths thenStatements (d + 1)
      ++ (if elseStatements.isEmpty then [d]
          else [d] ++ Statement.listLineDepths elseStatements (d + 1) ++ [d])
  | .WhileStatement _ bodyStatements, d =>
    [d] ++ Statement.listLineDepths bodyStatements (d + 1) ++ [d]

/-- The same for a statement list at nesting depth `d`. -/
def Statement.listLineDepths : List Statement → Nat → List Nat
  | [], _ => []
  | stmt :: rest, d => stmt.lineDepths d ++ Statement.listLineDepths rest d

end

/-! ### Arithmetic expressions and their tokens -/

/-- An arithmetic expression: integer literals from 0 to 2^31 - 1, references
to variables whose names are identifier names and no keywords, and binary
nodes with the operator `+`, `-`, `*` or `/`. -/
def Expression.isArithmetic : Expression → Bool
  | .IntegerLiteral value => decide (0 ≤ value ∧ value ≤ 2147483647)
  | .InputIntExpression => false
  | .VariableReference name => isIdentifierName name && decide (name ∉ keywords)
  | .BinaryExpression left op right =>
    (op == "+" || op == "-" || op == "*" || op == "/") && left.isArithmetic
      && right.isArithmetic
  | .BooleanExpression _ _ _ => false

/-- The token lists of fully parenthesized arithmetic expressions:
`ExprTokens e ts` says that `ts` is an integer token whose text `stoi` reads
as the literal `e`, an identifier token with the name of the variable `e`,
or `(`, the tokens of the left operand, an operator token, the tokens of the
right operand and `)`. -/
inductive Parser.ExprTokens : Expression → List Token → Prop
  | literal (value : Int) (t : Token) :
      t.type = .INTEGER → stoi t.value = .ok value →
      Parser.ExprTokens (.IntegerLiteral value) [t]
  | reference (t : Token) :
      t.type = .IDENTIFIER → Parser.ExprTokens (.VariableReference t.value) [t]
  | binary (left right : Expression) (tl tr : List Token) (lp o rp : Token) :
      lp.type = .LEFT_PAREN → rp.type = .RIGHT_PAREN →
      o.type ∈ [TokenType.PLUS, TokenType.MINUS, TokenType.MULTIPLY, TokenType.DIVIDE] →
      Parser.ExprTokens left tl → Parser.ExprTokens right tr →
      Parser.ExprTokens (.BinaryExpression left o.value right) (lp :: tl ++ o :: tr ++ [rp])

/-! ### The token under the cursor when the parser fails -/

namespace Parser

/-- The run on a token list cut short gives what the run on the whole list
gives, or reads outside the cut list. -/
def Agree {α : Type} (cut whole : Except ParseError α) : Prop :=
  cut = whole ∨ cut = .error .out_of_bounds

end Parser

/-! ### The scenarios of the specification -/

namespace Examples

/-- Scenario 1: a declaration with mixed precedence. -/
def declSource : String := "var x = 2 + 3 * 4;"

/-- The tokens of scenario 1. -/
def declTokens : List Token :=
  [⟨.VAR, "var", 1, 1⟩, ⟨.IDENTIFIER, "x", 1, 5⟩, ⟨.ASSIGN, "=", 1, 7⟩, ⟨.INTEGER, "2", 1, 9⟩,
   ⟨.PLUS, "+", 1, 11⟩, ⟨.INTEGER, "3", 1, 13⟩, ⟨.MULTIPLY, "*", 1, 15⟩,
   ⟨.INTEGER, "4", 1, 17⟩, ⟨.SEMICOLON, ";", 1, 18⟩, ⟨.EOF_TOKEN, "", 1, 19⟩]

/-- The statement of scenario 1. -/
def declStatement : Statement :=
  .VarDeclarationStatement "x"
    (.BinaryExpression (.IntegerLiteral 2) "+"
      (.BinaryExpression (.IntegerLiteral 3) "*" (.IntegerLiteral 4)))

/-- Scenario 2: an if statement without else. -/
def ifSource : String := "if (x == 0) \x7b println(x); \x7d"

/-- The tokens of scenario 2. -/
def ifTokens : List Token :=
  [⟨.IF, "if", 1, 1⟩, ⟨.LEFT_PAREN, "(", 1, 4⟩, ⟨.IDENTIFIER, "x", 1, 5⟩,
   ⟨.EQUAL_EQUAL, "==", 1, 7⟩, ⟨.INTEGER, "0", 1, 10⟩, ⟨.RIGHT_PAREN, ")", 1, 11⟩,
   ⟨.LEFT_BRACE, "\x7b", 1, 13⟩, ⟨.PRINTLN, "println", 1, 15⟩, ⟨.LEFT_PAREN, "(", 1, 22⟩,
   ⟨.IDENTIFIER, "x", 1, 23⟩, ⟨.RIGHT_PAREN, ")", 1, 24⟩, ⟨.SEMICOLON, ";", 1, 25⟩,
   ⟨.RIGHT_BRACE, "\x7d", 1, 27⟩, ⟨.EOF_TOKEN, "", 1, 28⟩]

/-- The statement of scenario 2. -/
def ifStatement : Statement :=
  .IfStatement ⟨.VariableReference "x", "==", .IntegerLiteral 0⟩
    [.PrintLineStatement (.VariableReference "x")] []

/-- Scenario 3: a while statement. -/
def whileSource : String := "while (x < 5) \x7b x = x + 1; \x7d"

/-- The tokens of scenario 3. -/
def whileTokens : List Token :=
  [⟨.WHILE, "while", 1, 1⟩, ⟨.LEFT_PAREN, "(", 1, 7⟩, ⟨.IDENTIFIER, "x", 1, 8⟩,
   ⟨.LESS, "<", 1, 10⟩, ⟨.INTEGER, "5", 1, 12⟩, ⟨.RIGHT_PAREN, ")", 1, 13⟩,
   ⟨.LEFT_BRACE, "\x7b", 1, 15⟩, ⟨.IDENTIFIER, "x", 1, 17⟩, ⟨.ASSIGN, "=", 1, 19⟩,
   ⟨.IDENTIFIER, "x", 1, 21⟩, ⟨.PLUS, "+", 1, 23⟩, ⟨.INTEGER, "1", 1, 25⟩,
   ⟨.SEMICOLON, ";", 1, 26⟩, ⟨.RIGHT_BRACE, "\x7d", 1, 28⟩, ⟨.EOF_TOKEN, "", 1, 29⟩]

/-- The statement of scenario 3. -/
def whileStatement : Statement :=
  .WhileStatement ⟨.VariableReference "x", "<", .IntegerLiteral 5⟩
    [.AssignmentStatement "x"
      (.BinaryExpression (.VariableReference "x") "+" (.IntegerLiteral 1))]

/-- Scenario 4: a declaration without a variable name. -/
def badDeclSource : String := "var = 5;"

/-- The tokens of scenario 4. -/
def badDeclTokens : List Token :=
  [⟨.VAR, "var", 1, 1⟩, ⟨.ASSIGN, "=", 1, 5⟩, ⟨.INTEGER, "5", 1, 7⟩,
   ⟨.SEMICOLON, ";", 1, 8⟩, ⟨.EOF_TOKEN, "", 1, 9⟩]

/-- The tokens of `bareConditionSource`. -/
def bareConditionTokens : List Token :=
  [⟨.IF, "if", 1, 1⟩, ⟨.LEFT_PAREN, "(", 1, 4⟩, ⟨.IDENTIFIER, "x", 1, 5⟩,
   ⟨.RIGHT_PAREN, ")", 1, 6⟩, ⟨.LEFT_BRACE, "\x7b", 1, 8⟩, ⟨.RIGHT_BRACE, "\x7d", 1, 10⟩,
   ⟨.EOF_TOKEN, "", 1, 11⟩]

/-- A condition with two comparison operators in a row. -/
def chainedConditionSource : String := "while (a < b < c) \x7b \x7d"

/-- The tokens of `chainedConditionSource`. -/
def chainedConditionTokens : List Token :=
  [⟨.WHILE, "while", 1, 1⟩, ⟨.LEFT_PAREN, "(", 1, 7⟩, ⟨.IDENTIFIER, "a", 1, 8⟩,
   ⟨.LESS, "<", 1, 10⟩, ⟨.IDENTIFIER, "b", 1, 12⟩, ⟨.LESS, "<", 1, 14⟩,
   ⟨.IDENTIFIER, "c", 1, 16⟩, ⟨.RIGHT_PAREN, ")", 1, 17⟩, ⟨.LEFT_BRACE, "\x7b", 1, 19⟩,
   ⟨.RIGHT_BRACE, "\x7d", 1, 21⟩, ⟨.EOF_TOKEN, "", 1, 22⟩]

/-- A statement that starts with an integer. -/
def strayStartSource : String := "5 = x;"

/-- The tokens of `strayStartSource`. -/
def strayStartTokens : List Token :=
  [⟨.INTEGER, "5", 1, 1⟩, ⟨.ASSIGN, "=", 1, 3⟩, ⟨.IDENTIFIER, "x", 1, 5⟩,
   ⟨.SEMICOLON, ";", 1, 6⟩, ⟨.EOF_TOKEN, "", 1, 7⟩]

/-- An `else` that is followed by `if`. -/
def elseIfSource : String := "if (a < b) \x7b \x7d else if (a > b) \x7b \x7d"

/-- The tokens of `elseIfSource`. -/
def elseIfTokens : List Token :=
  [⟨.IF, "if", 1, 1⟩, ⟨.LEFT_PAREN, "(", 1, 4⟩, ⟨.IDENTIFIER, "a", 1, 5⟩, ⟨.LESS, "<", 1, 7⟩,
   ⟨.IDENTIFIER, "b", 1, 9⟩, ⟨.RIGHT_PAREN, ")", 1, 10⟩, ⟨.LEFT_BRACE, "\x7b", 1, 12⟩,
   ⟨.RIGHT_BRACE, "\x7d", 1, 14⟩, ⟨.ELSE, "else", 1, 16⟩, ⟨.IF, "if", 1, 21⟩,
   ⟨.LEFT_PAREN, "(", 1, 24⟩, ⟨.IDENTIFIER, "a", 1, 25⟩, ⟨.GREATER, ">", 1, 27⟩,
   ⟨.IDENTIFIER, "b", 1, 29⟩, ⟨.RIGHT_PAREN, ")", 1, 30⟩, ⟨.LEFT_BRACE, "\x7b", 1, 32⟩,
   ⟨.RIGHT_BRACE, "\x7d", 1, 34⟩, ⟨.EOF_TOKEN, "", 1, 35⟩]

/-- A while statement whose body has no braces. -/
def unbracedSource : String := "while (a < b) a = a + 1;"

/-- The tokens of `unbracedSource`. -/
def unbracedTokens : List Token :=
  [⟨.WHILE, "while", 1, 1⟩, ⟨.LEFT_PAREN, "(", 1, 7⟩, ⟨.IDENTIFIER, "a", 1, 8⟩,
   ⟨.LESS, "<", 1, 10⟩, ⟨.IDENTIFIER, "b", 1, 12⟩, ⟨.RIGHT_PAREN, ")", 1, 13⟩,
   ⟨.IDENTIFIER, "a", 1, 15⟩, ⟨.ASSIGN, "=", 1, 17⟩, ⟨.IDENTIFIER, "a", 1, 19⟩,
   ⟨.PLUS, "+", 1, 21⟩, ⟨.INTEGER, "1", 1, 23⟩, ⟨.SEMICOLON, ";", 1, 24⟩,
   ⟨.EOF_TOKEN, "", 1, 25⟩]

/-- An assignment with two subtractions. -/
def subtractionsSource : String := "x = a - b - c;"

/-- The tokens of `subtractionsSource`. -/
def subtractionsTokens : List Token :=
  [⟨.IDENTIFIER, "x", 1, 1⟩, ⟨.ASSIGN, "=", 1, 3⟩, ⟨.IDENTIFIER, "a", 1, 5⟩,
   ⟨.MINUS, "-", 1, 7⟩, ⟨.IDENTIFIER, "b", 1, 9⟩, ⟨.MINUS, "-", 1, 11⟩,
   ⟨.IDENTIFIER, "c", 1, 13⟩, ⟨.SEMICOLON, ";", 1, 14⟩, ⟨.EOF_TOKEN, "", 1, 15⟩]

/-- A declaration inside the then-block of an if statement. -/
def nestedDeclSource : String := "if (x == 0) \x7b var y = 1; \x7d"

/-- The tokens of `nestedDeclSource`. -/
def nestedDeclTokens : List Token :=
  [⟨.IF, "if", 1, 1⟩, ⟨.LEFT_PAREN, "(", 1, 4⟩, ⟨.IDENTIFIER, "x", 1, 5⟩,
   ⟨.EQUAL_EQUAL, "==", 1, 7⟩, ⟨.INTEGER, "0", 1, 10⟩, ⟨.RIGHT_PAREN, ")", 1, 11⟩,
   ⟨.LEFT_BRACE, "\x7b", 1, 13⟩, ⟨.VAR, "var", 1, 15⟩, ⟨.IDENTIFIER, "y", 1, 19⟩,
   ⟨.ASSIGN, "=", 1, 21⟩, ⟨.INTEGER, "1", 1, 23⟩, ⟨.SEMICOLON, ";", 1, 24⟩,
   ⟨.RIGHT_BRACE, "\x7d", 1, 26⟩, ⟨.EOF_TOKEN, "", 1, 27⟩]

/-- The program of `nestedDeclSource`. -/
def nestedDeclStatement : Statement :=
  .IfStatement ⟨.VariableReference "x", "==", .IntegerLiteral 0⟩
    [.VarDeclarationStatement "y" (.IntegerLiteral 1)] []

/-- A `var` that stands inside an unfinished statement. -/
def lateVarSource : String := "x = 1 var = 5;"

/-- The tokens of `lateVarSource`. -/
def lateVarTokens : List Token :=
  [⟨.IDENTIFIER, "x", 1, 1⟩, ⟨.ASSIGN, "=", 1, 3⟩, ⟨.INTEGER, "1", 1, 5⟩,
   ⟨.VAR, "var", 1, 7⟩, ⟨.ASSIGN, "=", 1, 11⟩, ⟨.INTEGER, "5", 1, 13⟩,
   ⟨.SEMICOLON, ";", 1, 14⟩, ⟨.EOF_TOKEN, "", 1, 15⟩]

/-- A declaration without a variable name after a complete statement. -/
def secondDeclSource : String := "x = 1; var = 5;"

/-- The tokens of `secondDeclSource`. -/
def secondDeclTokens : List Token :=
  [⟨.IDENTIFIER, "x", 1, 1⟩, ⟨.ASSIGN, "=", 1, 3⟩, ⟨.INTEGER, "1", 1, 5⟩,
   ⟨.SEMICOLON, ";", 1, 6⟩, ⟨.VAR, "var", 1, 8⟩, ⟨.ASSIGN, "=", 1, 12⟩,
   ⟨.INTEGER, "5", 1, 14⟩, ⟨.SEMICOLON, ";", 1, 15⟩, ⟨.EOF_TOKEN, "", 1, 16⟩]

end Examples

/-! ## The structured backend -/

namespace Structured

theorem structured_writeIndentLoop_eq (n : Nat) (o : OStream) :
    CodeGenerator.writeIndentLoop n o = o.write (indentText n) := by
  induction n generalizing o with
  | zero => simp [CodeGenerator.writeIndentLoop, OStream.write, indentText]
  | succ n ih =>
    simp [CodeGenerator.writeIndentLoop, ih, OStream.write, indentText, String.append_assoc]

theorem structured_writeIndent_mk (lines : List String) (p : String) (n : Nat) :
    CodeGenerator.writeIndent { output := ⟨lines, p⟩, indentLevel := n }
      = { output := ⟨lines, p ++ indentText n⟩, indentLevel := n } := by
  simp [CodeGenerator.writeIndent, structured_writeIndentLoop_eq, OStream.write]

theorem structured_out_mk (lines : List String) (p : String) (n : Nat) (a : String) :
    CodeGenerator.out { output := ⟨lines, p⟩, indentLevel := n } a
      = { output := ⟨lines, p ++ a⟩, indentLevel := n } := rfl

theorem structured_endl_mk (lines : List String) (p : String) (n : Nat) :
    CodeGenerator.endl { output := ⟨lines, p⟩, indentLevel := n }
      = { output := ⟨lines ++ [p], ""⟩, indentLevel := n } := rfl

mutual

/-- A statement appends its lines to the stream and restores the indentation
level. -/
theorem structured_generateStatement_eq : ∀ (stmt : Statement) (lines : List String) (n : Nat),
    CodeGenerator.generateStatement stmt { output := ⟨lines, ""⟩, indentLevel := n }
      = { output := ⟨lines ++ statementLines stmt n, ""⟩, indentLevel := n }
  | .VarDeclarationStatement v e, lines, n => by
    simp [statementLines, CodeGenerator.generateStatement, CodeGenerator.generateVarDeclaration,
      structured_writeIndent_mk, structured_out_mk, structured_endl_mk, OStream.empty]
  | .AssignmentStatement v e, lines, n => by
    simp [statementLines, CodeGenerator.generateStatement, CodeGenerator.generateAssignment,
      structured_writeIndent_mk, structured_out_mk, structured_endl_mk, OStream.empty]
  | .PrintStatement e, lines, n => by
    simp [statementLines, CodeGenerator.generateStatement, CodeGenerator.generatePrint,
      structured_writeIndent_mk, structured_out_mk, structured_endl_mk, OStream.empty]
  | .PrintLineStatement e, lines, n => by
    simp [statementLines, CodeGenerator.generateStatement, CodeGenerator.generatePrintLine,
      structured_writeIndent_mk, structured_out_mk, structured_endl_mk, OStream.empty]
  | .IfStatement c t e, lines, n => by
    have ht := structured_generateStatements_eq t
    have he := structured_generateStatements_eq e
    cases e with
    | nil =>
      simp [statementLines, CodeGenerator.generateStatement, structured_writeIndent_mk,
        structured_out_mk, structured_endl_mk, OStream.empty, ht]
    | cons s ss =>
      simp [statementLines, CodeGenerator.generateStatement, structured_writeIndent_mk,
        structured_out_mk, structured_endl_mk, OStream.empty, ht, he]
  | .WhileStatement c b, lines, n => by
    have hb := structured_generateStatements_eq b
    simp [statementLines, CodeGenerator.generateStatement, structured_writeIndent_mk,
      structured_out_mk, structured_endl_mk, OStream.empty, hb]

/-- A statement list appends its lines to the stream and restores the
indentation level. -/
theorem structured_generateStatements_eq : ∀ (stmts : List Statement) (lines : List String)
    (n : Nat),
    CodeGenerator.generateStatements stmts { output := ⟨lines, ""⟩, indentLevel := n }
      = { output := ⟨lines ++ blockLines stmts n, ""⟩, indentLevel := n }
  | [], lines, n => by simp [blockLines, CodeGenerator.generateStatements, OStream.empty]
  | s :: ss, lines, n => by
    have h1 := structured_generateStatement_eq s
    have h2 := structured_generateStatements_eq ss
    have hb : blockLines (s :: ss) n = statementLines s n ++ blockLines ss n := by
      unfold blockLines
      simp only [CodeGenerator.generateStatements, OStream.empty]
      rw [h1, h2]
      simp
      rfl
    simp only [CodeGenerator.generateStatements]
    rw [h1, h2, hb]
    simp

end

/-- C9: in the structured backend an if statement is written as the header
line `if (<cond>) {`, then the lines of the then-statements generated one
indentation level deeper, then, when the else-sequence is empty, the single
closing line `}` (no `else`), and otherwise the line `} else {`, the lines of
the else-statements one level deeper, and the closing line `}`. -/
theorem structured_if_statement (g : CodeGenerator) (hp : g.output.pending = "")
    (condition : BooleanExpression) (thenStatements elseStatements : List Statement) :
    (CodeGenerator.generateStatement
        (.IfStatement condition thenStatements elseStatements) g).output.lines
      = g.output.lines
        ++ [indentText g.indentLevel ++ "if (" ++ generateBooleanExpression condition ++ ") \x7b"]
        ++ blockLines thenStatements (g.indentLevel + 1)
        ++ (if elseStatements.isEmpty then [indentText g.indentLevel ++ "\x7d"]
            else [indentText g.indentLevel ++ "\x7d" ++ " else \x7b"]
              ++ blockLines elseStatements (g.indentLevel + 1)
              ++ [indentText g.indentLevel ++ "\x7d"]) := by
  obtain ⟨⟨lines, p⟩, n⟩ := g
  simp only at hp
  subst hp
  have ht := structured_generateStatements_eq thenStatements
  have he := structured_generateStatements_eq elseStatements
  cases elseStatements with
  | nil =>
    simp [CodeGenerator.generateStatement, structured_writeIndent_mk, structured_out_mk,
      structured_endl_mk, ht]
  | cons s ss =>
    simp [CodeGenerator.generateStatement, structured_writeIndent_mk, structured_out_mk,
      structured_endl_mk, ht, he]

/-- Witness for C9: `if (x == 0) { println(x); }` lexes and parses to one if
statement with an empty else-sequence, and inside `main` the structured
backend writes for it the three lines `if ((x == 0)) {`, `cout << x << endl;`
and `}`. -/
theorem structured_if_statement_witness :
    tokenize Examples.ifSource = Examples.ifTokens
      ∧ Parser.parse 100 Examples.ifTokens = .ok ⟨[Examples.ifStatement]⟩
      ∧ (CodeGenerator.generateStatement Examples.ifStatement
          { output := ⟨["int main() \x7b"], ""⟩, indentLevel := 1 }).output.lines
        = ["int main() \x7b",
           "    if ((x == 0)) \x7b",
           "        cout << x << endl;",
           "    \x7d"] :=
  ⟨by decide, by rfl,
    (structured_if_statement { output := ⟨["int main() \x7b"], ""⟩, indentLevel := 1 } rfl
      ⟨.VariableReference "x", "==", .IntegerLiteral 0⟩
      [.PrintLineStatement (.VariableReference "x")] []).trans (by rfl)⟩

end Structured

/-! ## The assembly backend: what a statement writes -/

namespace Assembly

theorem asm_writeIndentLoop_eq (n : Nat) (o : OStream) :
    CodeGenerator.writeIndentLoop n o = o.write (indentText n) := by
  induction n generalizing o with
  | zero => simp [CodeGenerator.writeIndentLoop, OStream.write, indentText]
  | succ n ih =>
    simp [CodeGenerator.writeIndentLoop, ih, OStream.write, indentText, String.append_assoc]

theorem asm_writeIndent_mk (lines : List String) (p : String) (n k : Nat) :
    CodeGenerator.writeIndent { output := ⟨lines, p⟩, indentLevel := n, labelCounter := k }
      = { output := ⟨lines, p ++ indentText n⟩, indentLevel := n, labelCounter := k } := by
  simp [CodeGenerator.writeIndent, asm_writeIndentLoop_eq, OStream.write]

theorem asm_out_mk (lines : List String) (p : String) (n k : Nat) (a : String) :
    CodeGenerator.out { output := ⟨lines, p⟩, indentLevel := n, labelCounter := k } a
      = { output := ⟨lines, p ++ a⟩, indentLevel := n, labelCounter := k } := rfl

theorem asm_endl_mk (lines : List String) (p : String) (n k : Nat) :
    CodeGenerator.endl { output := ⟨lines, p⟩, indentLevel := n, labelCounter := k }
      = { output := ⟨lines ++ [p], ""⟩, indentLevel := n, labelCounter := k } := rfl

theorem asm_writeLine_mk (lines : List String) (n k : Nat) (a : String) :
    CodeGenerator.writeLine { output := ⟨lines, ""⟩, indentLevel := n, labelCounter := k } a
      = { output := ⟨lines ++ [indentText n ++ a], ""⟩, indentLevel := n,
          labelCounter := k } := by
  simp [CodeGenerator.writeLine, asm_writeIndent_mk, asm_out_mk, asm_endl_mk]

theorem asm_generateLabel_mk (o : OStream) (n k : Nat) (pfx : String) :
    CodeGenerator.generateLabel { output := o, indentLevel := n, labelCounter := k } pfx
      = (CodeGenerator.labelText pfx k,
          { output := o, indentLevel := n, labelCounter := k + 1 }) := rfl

mutual

/-- A statement appends its lines to the stream, keeps the indentation level
and moves the label counter on. -/
theorem asm_generateStatement_eq : ∀ (stmt : Statement) (lines : List String) (n k : Nat),
    CodeGenerator.generateStatement stmt
        { output := ⟨lines, ""⟩, indentLevel := n, labelCounter := k }
      = { output := ⟨lines ++ statementLines stmt n k, ""⟩, indentLevel := n,
          labelCounter := statementCounter stmt k }
  | .VarDeclarationStatement v e, lines, n, k => by
    simp [statementLines, statementCounter, CodeGenerator.generateStatement,
      CodeGenerator.generateVarDeclaration, asm_writeIndent_mk, asm_out_mk, asm_endl_mk,
      OStream.empty]
  | .AssignmentStatement v e, lines, n, k => by
    simp [statementLines, statementCounter, CodeGenerator.generateStatement,
      CodeGenerator.generateAssignment, asm_writeIndent_mk, asm_out_mk, asm_endl_mk,
      OStream.empty]
  | .PrintStatement e, lines, n, k => by
    simp [statementLines, statementCounter, CodeGenerator.generateStatement,
      CodeGenerator.generatePrint, asm_writeIndent_mk, asm_out_mk, asm_endl_mk, OStream.empty]
  | .PrintLineStatement e, lines, n, k => by
    simp [statementLines, statementCounter, CodeGenerator.generateStatement,
      CodeGenerator.generatePrintLine, asm_writeIndent_mk, asm_out_mk, asm_endl_mk,
      OStream.empty]
  | .IfStatement c t e, lines, n, k => by
    have ht := asm_generateStatements_eq t
    have he := asm_generateStatements_eq e
    cases e with
    | nil =>
      simp [statementLines, statementCounter, CodeGenerator.generateStatement,
        asm_writeIndent_mk, asm_out_mk, asm_endl_mk, asm_writeLine_mk, asm_generateLabel_mk,
        OStream.empty, ht]
    | cons s ss =>
      simp [statementLines, statementCounter, CodeGenerator.generateStatement,
        asm_writeIndent_mk, asm_out_mk, asm_endl_mk, asm_writeLine_mk, asm_generateLabel_mk,
        OStream.empty, ht, he]
  | .WhileStatement c b, lines, n, k => by
    have hb := asm_generateStatements_eq b
    simp [statementLines, statementCounter, CodeGenerator.generateStatement,
      asm_writeIndent_mk, asm_out_mk, asm_endl_mk, asm_writeLine_mk, asm_generateLabel_mk,
      OStream.empty, hb]

/-- A statement list appends its lines to the stream, keeps the indentation
level and moves the label counter on. -/
theorem asm_generateStatements_eq : ∀ (stmts : List Statement) (lines : List String)
    (n k : Nat),
    CodeGenerator.generateStatements stmts
        { output := ⟨lines, ""⟩, indentLevel := n, labelCounter := k }
      = { output := ⟨lines ++ blockLines stmts n k, ""⟩, indentLevel := n,
          labelCounter := blockCounter stmts k }
  | [], lines, n, k => by
    simp [blockLines, blockCounter, CodeGenerator.generateStatements, OStream.empty]
  | s :: ss, lines, n, k => by
    have h1 := asm_generateStatement_eq s
    have h2 := asm_generateStatements_eq ss
    have hb : blockLines (s :: ss) n k
        = statementLines s n k ++ blockLines ss n (statementCounter s k) := by
      unfold blockLines
      simp only [CodeGenerator.generateStatements, OStream.empty]
      rw [h1, h2]
      simp
      rfl
    have hc : blockCounter (s :: ss) k = blockCounter ss (statementCounter s k) := by
      unfold blockCounter
      simp only [CodeGenerator.generateStatements, OStream.empty]
      rw [h1, h2]
      rfl
    simp only [CodeGenerator.generateStatements]
    rw [h1, h2, hb, hc]
    simp

end

/-- What an if statement writes in the assembly backend. -/
theorem asm_if_lines (g : CodeGenerator) (hp : g.output.pending = "")
    (condition : BooleanExpression) (thenStatements elseStatements : List Statement) :
    (CodeGenerator.generateStatement
        (.IfStatement condition thenStatements elseStatements) g).output.lines
      = g.output.lines
        ++ [indentText g.indentLevel ++ "// if condition",
            indentText g.indentLevel ++ "if (!(" ++ generateBooleanExpression condition
              ++ ")) goto " ++ CodeGenerator.labelText "L_ELSE" g.labelCounter ++ ";",
            indentText g.indentLevel ++ "",
            indentText g.indentLevel ++ "// then block"]
        ++ blockLines thenStatements g.indentLevel (g.labelCounter + 3)
        ++ [indentText g.indentLevel ++ "goto "
              ++ CodeGenerator.labelText "L_IF_END" (g.labelCounter + 1) ++ ";",
            indentText g.indentLevel ++ "",
            indentText g.indentLevel ++ CodeGenerator.labelText "L_ELSE" g.labelCounter ++ ":"]
        ++ (if elseStatements.isEmpty then []
            else [indentText g.indentLevel ++ "// else block"]
              ++ blockLines elseStatements g.indentLevel
                  (blockCounter thenStatements (g.labelCounter + 3)))
        ++ [indentText g.indentLevel
              ++ CodeGenerator.labelText "L_IF_END" (g.labelCounter + 1) ++ ":"] := by
  obtain ⟨⟨lines, p⟩, n, k⟩ := g
  simp only at hp
  subst hp
  have ht := asm_generateStatements_eq thenStatements
  have he := asm_generateStatements_eq elseStatements
  cases elseStatements with
  | nil =>
    simp [CodeGenerator.generateStatement, asm_writeIndent_mk, asm_out_mk, asm_endl_mk,
      asm_writeLine_mk, asm_generateLabel_mk, ht]
  | cons s ss =>
    simp [CodeGenerator.generateStatement, asm_writeIndent_mk, asm_out_mk, asm_endl_mk,
      asm_writeLine_mk, asm_generateLabel_mk, ht, he]

/-- C5: for an if statement generated with label counter `k`, the assembly
backend writes, in this order: the false-jump `if (!(<cond>)) goto E;`, the
code of the then-block, `goto F;`, the label definition `E:`, the code of the
else-block (nothing at all when the else-sequence is empty, so that `E:` is
directly followed by `F:`), and the label definition `F:`, where `E` is the
label `L_ELSE_k` and `F` the label `L_IF_END_(k+1)` made for this statement. -/
theorem asm_if_statement (g : CodeGenerator) (hp : g.output.pending = "")
    (condition : BooleanExpression) (thenStatements elseStatements : List Statement) :
    (CodeGenerator.generateStatement
        (.IfStatement condition thenStatements elseStatements) g).output.lines
      = g.output.lines
        ++ [indentText g.indentLevel ++ "// if condition",
            indentText g.indentLevel ++ "if (!(" ++ generateBooleanExpression condition
              ++ ")) goto " ++ CodeGenerator.labelText "L_ELSE" g.labelCounter ++ ";",
            indentText g.indentLevel ++ "",
            indentText g.indentLevel ++ "// then block"]
        ++ blockLines thenStatements g.indentLevel (g.labelCounter + 3)
        ++ [indentText g.indentLevel ++ "goto "
              ++ CodeGenerator.labelText "L_IF_END" (g.labelCounter + 1) ++ ";",
            indentText g.indentLevel ++ "",
            indentText g.indentLevel ++ CodeGenerator.labelText "L_ELSE" g.labelCounter ++ ":"]
        ++ (if elseStatements.isEmpty then []
            else [indentText g.indentLevel ++ "// else block"]
              ++ blockLines elseStatements g.indentLevel
                  (blockCounter thenStatements (g.labelCounter + 3)))
        ++ [indentText g.indentLevel
              ++ CodeGenerator.labelText "L_IF_END" (g.labelCounter + 1) ++ ":"] :=
  asm_if_lines g hp condition thenStatements elseStatements

/-- Witness for C5: `if (x == 0) { println(x); }` lexes and parses to one if
statement with an empty else-sequence; generated after the label `L_STMT_0`
of its top-level position it yields the false-jump to `L_ELSE_1`, the print,
the jump to `L_IF_END_2`, the label `L_ELSE_1:` and directly after it
`L_IF_END_2:`. -/
theorem asm_if_statement_witness :
    tokenize Examples.ifSource = Examples.ifTokens
      ∧ Parser.parse 100 Examples.ifTokens = .ok ⟨[Examples.ifStatement]⟩
      ∧ (CodeGenerator.generateStatement Examples.ifStatement
          { output := ⟨["    L_STMT_0:"], ""⟩, indentLevel := 1, labelCounter := 1 }).output.lines
        = ["    L_STMT_0:",
           "    // if condition",
           "    if (!((x == 0))) goto L_ELSE_1;",
           "    ",
           "    // then block",
           "    cout << x << endl;",
           "    goto L_IF_END_2;",
           "    ",
           "    L_ELSE_1:",
           "    L_IF_END_2:"] :=
  ⟨by decide, by rfl,
    (asm_if_statement
      { output := ⟨["    L_STMT_0:"], ""⟩, indentLevel := 1, labelCounter := 1 } rfl
      ⟨.VariableReference "x", "==", .IntegerLiteral 0⟩
      [.PrintLineStatement (.VariableReference "x")] []).trans (by rfl)⟩

/-- The order part of C6: what a while statement writes. -/
theorem asm_while_lines (g : CodeGenerator) (hp : g.output.pending = "")
    (condition : BooleanExpression) (bodyStatements : List Statement) :
    (CodeGenerator.generateStatement (.WhileStatement condition bodyStatements) g).output.lines
      = g.output.lines
        ++ [indentText g.indentLevel ++ "// while loop",
            indentText g.indentLevel ++ CodeGenerator.labelText "L_LOOP" g.labelCounter ++ ":",
            indentText g.indentLevel ++ "if (!(" ++ generateBooleanExpression condition
              ++ ")) goto " ++ CodeGenerator.labelText "L_LOOP_END" (g.labelCounter + 2) ++ ";",
            indentText g.indentLevel ++ "",
            indentText g.indentLevel ++ "// loop body"]
        ++ blockLines bodyStatements g.indentLevel (g.labelCounter + 3)
        ++ [indentText g.indentLevel ++ "goto "
              ++ CodeGenerator.labelText "L_LOOP" g.labelCounter ++ ";",
            indentText g.indentLevel ++ "",
            indentText g.indentLevel
              ++ CodeGenerator.labelText "L_LOOP_END" (g.labelCounter + 2) ++ ":"] := by
  obtain ⟨⟨lines, p⟩, n, k⟩ := g
  simp only at hp
  subst hp
  have hb := asm_generateStatements_eq bodyStatements
  simp [CodeGenerator.generateStatement, asm_writeIndent_mk, asm_out_mk, asm_endl_mk,
    asm_writeLine_mk, asm_generateLabel_mk, hb]

/-! ### No native loop header among the lines of the assembly backend -/

theorem indentText_data (n : Nat) : (indentText n).data = List.replicate (4 * n) ' ' := by
  induction n with
  | zero => rfl
  | succ n ih =>
    have h : 4 * (n + 1) = 4 * n + 1 + 1 + 1 + 1 := by ring
    rw [h]
    simp [indentText, String.data_append, ih, List.replicate_succ]

theorem dropWhile_replicate_append (n : Nat) (l : List Char) :
    (List.replicate n ' ' ++ l).dropWhile (fun c => c == ' ')
      = l.dropWhile (fun c => c == ' ') := by
  induction n with
  | zero => simp
  | succ n ih => simp [List.replicate_succ, List.dropWhile, ih]

theorem beginsWith_indent (pre : String) (n : Nat) (rest : String) :
    beginsWith pre (indentText n ++ rest) = beginsWith pre rest := by
  simp [beginsWith, String.data_append, indentText_data, dropWhile_replicate_append]

/-- A keyword followed by ` (` is no beginning of an identifier followed by
` =`. -/
theorem keyword_not_prefix (kw name rest : List Char)
    (hkw : ∀ c ∈ kw, c ≠ ' ') (hname : ∀ c ∈ name, c ≠ ' ' ∧ c ≠ '(') :
    (kw ++ [' ', '(']).isPrefixOf (name ++ ' ' :: '=' :: rest) = false := by
  induction kw generalizing name with
  | nil =>
    cases name with
    | nil => simp [List.isPrefixOf]
    | cons c name =>
      have h := (hname c (by simp)).1
      simp [List.isPrefixOf]
      intro h1
      exact absurd h1.symm h
  | cons k kw ih =>
    cases name with
    | nil =>
      have h := hkw k (by simp)
      simp [List.isPrefixOf]
      intro h1
      exact absurd h1 h
    | cons c name =>
      have h := ih name (fun c hc => hkw c (by simp [hc])) (fun c hc => hname c (by simp [hc]))
      simp only [List.cons_append, List.isPrefixOf, Bool.and_eq_false_imp]
      intro _
      exact h

theorem identifier_chars (name : String) (h : isIdentifierText name = true) :
    ∀ c ∈ name.data, c ≠ ' ' ∧ c ≠ '(' := by
  intro c hc
  have h1 : (isalnum c || c == '_') = true := by
    have := List.all_eq_true.mp h c hc
    simpa using this
  constructor <;> (rintro rfl; revert h1; decide)


theorem dropWhile_space_cons (c : Char) (l : List Char) (h : c ≠ ' ') :
    (c :: l).dropWhile (fun c => c == ' ') = c :: l :=
  List.dropWhile_cons_of_neg (by simp [h])

theorem name_line_not_loop (name tail : String) (h : isIdentifierText name = true) :
    isNativeLoopHeader (name ++ (" = " ++ tail)) = false := by
  have hc := identifier_chars name h
  have hw := keyword_not_prefix ['w', 'h', 'i', 'l', 'e'] name.data (' ' :: tail.data)
    (by decide) hc
  have hf := keyword_not_prefix ['f', 'o', 'r'] name.data (' ' :: tail.data) (by decide) hc
  have e1 : " = ".data = [' ', '=', ' '] := rfl
  unfold isNativeLoopHeader beginsWith
  simp only [String.data_append, e1]
  rcases hn : name.data with _ | ⟨c, cs⟩
  · simp [List.dropWhile, List.isPrefixOf]
  · have hc1 : c ≠ ' ' := (hc c (by simp [hn])).1
    rw [hn] at hw hf
    have hd : (c :: cs ++ ([' ', '=', ' '] ++ tail.data)).dropWhile (fun c => c == ' ')
        = c :: cs ++ ' ' :: '=' :: ' ' :: tail.data := by
      rw [List.cons_append, dropWhile_space_cons _ _ hc1]
      simp
    rw [hd, Bool.or_eq_false_iff]
    exact ⟨hw, hf⟩

theorem literal_line_not_loop (c : Char) (cs : List Char) (lit tail : String)
    (h : lit.data = c :: cs) (h1 : c ≠ ' ') (h2 : c ≠ 'w') (h3 : c ≠ 'f') :
    isNativeLoopHeader (lit ++ tail) = false := by
  unfold isNativeLoopHeader beginsWith
  rw [String.data_append, h, List.cons_append, dropWhile_space_cons _ _ h1]
  simp [List.isPrefixOf, Ne.symm h2, Ne.symm h3]

theorem loopHeader_indent (n : Nat) (rest : String) :
    isNativeLoopHeader (indentText n ++ rest) = isNativeLoopHeader rest := by
  simp [isNativeLoopHeader, beginsWith_indent]

theorem asm_simple_lines (n k : Nat) (v : String) (e : Expression) :
    statementLines (.VarDeclarationStatement v e) n k
        = [indentText n ++ v ++ " = " ++ generateExpression e ++ ";"]
      ∧ statementLines (.AssignmentStatement v e) n k
        = [indentText n ++ v ++ " = " ++ generateExpression e ++ ";"]
      ∧ statementLines (.PrintStatement e) n k
        = [indentText n ++ "cout << " ++ generateExpression e ++ ";"]
      ∧ statementLines (.PrintLineStatement e) n k
        = [indentText n ++ "cout << " ++ generateExpression e ++ " << endl;"] := by
  simp [statementLines, CodeGenerator.generateStatement, CodeGenerator.generateVarDeclaration,
    CodeGenerator.generateAssignment, CodeGenerator.generatePrint,
    CodeGenerator.generatePrintLine, asm_writeIndent_mk, asm_out_mk, asm_endl_mk, OStream.empty]

theorem asm_blockLines_cons (s : Statement) (ss : List Statement) (n k : Nat) :
    blockLines (s :: ss) n k = statementLines s n k ++ blockLines ss n (statementCounter s k) := by
  unfold blockLines
  simp only [CodeGenerator.generateStatements, OStream.empty]
  rw [asm_generateStatement_eq, asm_generateStatements_eq]
  simp
  rfl

theorem asm_statementLines_if (c : BooleanExpression) (t e : List Statement) (n k : Nat) :
    statementLines (.IfStatement c t e) n k =
      [indentText n ++ "// if condition",
            indentText n ++ "if (!(" ++ generateBooleanExpression c
              ++ ")) goto " ++ CodeGenerator.labelText "L_ELSE" k ++ ";",
            indentText n ++ "",
            indentText n ++ "// then block"]
        ++ blockLines t n (k + 3)
        ++ [indentText n ++ "goto "
              ++ CodeGenerator.labelText "L_IF_END" (k + 1) ++ ";",
            indentText n ++ "",
            indentText n ++ CodeGenerator.labelText "L_ELSE" k ++ ":"]
        ++ (if e.isEmpty then []
            else [indentText n ++ "// else block"]
              ++ blockLines e n (blockCounter t (k + 3)))
        ++ [indentText n ++ CodeGenerator.labelText "L_IF_END" (k + 1) ++ ":"] := by
  have h := asm_if_lines { output := ⟨[], ""⟩, indentLevel := n, labelCounter := k } rfl c t e
  simpa [statementLines, OStream.empty] using h

theorem asm_statementLines_while (c : BooleanExpression) (b : List Statement) (n k : Nat) :
    statementLines (.WhileStatement c b) n k =
      [indentText n ++ "// while loop",
            indentText n ++ CodeGenerator.labelText "L_LOOP" k ++ ":",
            indentText n ++ "if (!(" ++ generateBooleanExpression c
              ++ ")) goto " ++ CodeGenerator.labelText "L_LOOP_END" (k + 2) ++ ";",
            indentText n ++ "",
            indentText n ++ "// loop body"]
        ++ blockLines b n (k + 3)
        ++ [indentText n ++ "goto " ++ CodeGenerator.labelText "L_LOOP" k ++ ";",
            indentText n ++ "",
            indentText n ++ CodeGenerator.labelText "L_LOOP_END" (k + 2) ++ ":"] := by
  have h := asm_while_lines { output := ⟨[], ""⟩, indentLevel := n, labelCounter := k } rfl c b
  simpa [statementLines, OStream.empty] using h

theorem asm_template_not_loop (n : Nat) (lit tail : String) (c : Char) (cs : List Char)
    (h : lit.data = c :: cs) (h1 : c ≠ ' ') (h2 : c ≠ 'w') (h3 : c ≠ 'f') :
    isNativeLoopHeader (indentText n ++ (lit ++ tail)) = false := by
  rw [loopHeader_indent]
  exact literal_line_not_loop c cs lit tail h h1 h2 h3

theorem asm_comment_not_loop (n : Nat) (tail : String) :
    isNativeLoopHeader (indentText n ++ ("// " ++ tail)) = false :=
  asm_template_not_loop n "// " tail '/' _ rfl (by decide) (by decide) (by decide)

theorem asm_jump_not_loop (n : Nat) (tail : String) :
    isNativeLoopHeader (indentText n ++ ("if (!(" ++ tail)) = false :=
  asm_template_not_loop n "if (!(" tail 'i' _ rfl (by decide) (by decide) (by decide)

theorem asm_goto_not_loop (n : Nat) (tail : String) :
    isNativeLoopHeader (indentText n ++ ("goto " ++ tail)) = false :=
  asm_template_not_loop n "goto " tail 'g' _ rfl (by decide) (by decide) (by decide)

theorem asm_label_not_loop (n : Nat) (tail : String) :
    isNativeLoopHeader (indentText n ++ ("L_" ++ tail)) = false :=
  asm_template_not_loop n "L_" tail 'L' _ rfl (by decide) (by decide) (by decide)

theorem asm_blank_not_loop (n : Nat) :
    isNativeLoopHeader (indentText n ++ "") = false := by
  rw [loopHeader_indent]
  decide

mutual
theorem asm_statement_no_loop : ∀ (stmt : Statement) (n k : Nat),
    stmt.namesAreIdentifiers = true →
    ∀ line ∈ statementLines stmt n k, isNativeLoopHeader line = false
  | .VarDeclarationStatement v e, n, k, h, line, hl => by
    rw [(asm_simple_lines n k v e).1] at hl
    simp only [List.mem_singleton] at hl
    subst hl
    simp only [String.append_assoc, loopHeader_indent]
    exact name_line_not_loop v _ (by simpa [Statement.namesAreIdentifiers] using h)
  | .AssignmentStatement v e, n, k, h, line, hl => by
    rw [(asm_simple_lines n k v e).2.1] at hl
    simp only [List.mem_singleton] at hl
    subst hl
    simp only [String.append_assoc, loopHeader_indent]
    exact name_line_not_loop v _ (by simpa [Statement.namesAreIdentifiers] using h)
  | .PrintStatement e, n, k, h, line, hl => by
    rw [(asm_simple_lines n k "" e).2.2.1] at hl
    simp only [List.mem_singleton] at hl
    subst hl
    simp only [String.append_assoc]
    exact asm_template_not_loop n "cout << " _ 'c' _ rfl (by decide) (by decide) (by decide)
  | .PrintLineStatement e, n, k, h, line, hl => by
    rw [(asm_simple_lines n k "" e).2.2.2] at hl
    simp only [List.mem_singleton] at hl
    subst hl
    simp only [String.append_assoc]
    exact asm_template_not_loop n "cout << " _ 'c' _ rfl (by decide) (by decide) (by decide)
  | .IfStatement c t e, n, k, h, line, hl => by
    have ht := asm_block_no_loop t n (k + 3)
    have he := asm_block_no_loop e n (blockCounter t (k + 3))
    simp only [Statement.namesAreIdentifiers, Bool.and_eq_true] at h
    rw [asm_statementLines_if] at hl
    simp only [List.mem_append, List.mem_cons, List.mem_singleton, List.not_mem_nil, or_false] at hl
    rcases hl with ((((hl | hl | hl | hl) | hl) | hl | hl | hl) | hl) | hl
    · subst hl
      exact asm_comment_not_loop n "if condition"
    · subst hl
      simp only [String.append_assoc]
      exact asm_jump_not_loop n _
    · subst hl
      exact asm_blank_not_loop n
    · subst hl
      exact asm_comment_not_loop n "then block"
    · exact ht h.1 line hl
    · subst hl
      simp only [String.append_assoc]
      exact asm_goto_not_loop n _
    · subst hl
      exact asm_blank_not_loop n
    · subst hl
      simp only [String.append_assoc, CodeGenerator.labelText]
      exact asm_label_not_loop n _
    · by_cases hemp : e.isEmpty = true
      · simp [hemp] at hl
      · simp only [hemp, if_false, Bool.false_eq_true, List.mem_append, List.mem_singleton] at hl
        rcases hl with hl | hl
        · subst hl
          exact asm_comment_not_loop n "else block"
        · exact he h.2 line hl
    · subst hl
      simp only [String.append_assoc, CodeGenerator.labelText]
      exact asm_label_not_loop n _
  | .WhileStatement c b, n, k, h, line, hl => by
    have hb := asm_block_no_loop b n (k + 3)
    simp only [Statement.namesAreIdentifiers] at h
    rw [asm_statementLines_while] at hl
    simp only [List.mem_append, List.mem_cons, List.mem_singleton, List.not_mem_nil, or_false] at hl
    rcases hl with ((hl | hl | hl | hl | hl) | hl) | hl | hl | hl
    · subst hl
      exact asm_comment_not_loop n "while loop"
    · subst hl
      simp only [String.append_assoc, CodeGenerator.labelText]
      exact asm_label_not_loop n _
    · subst hl
      simp only [String.append_assoc]
      exact asm_jump_not_loop n _
    · subst hl
      exact asm_blank_not_loop n
    · subst hl
      exact asm_comment_not_loop n "loop body"
    · exact hb h line hl
    · subst hl
      simp only [String.append_assoc]
      exact asm_goto_not_loop n _
    · subst hl
      exact asm_blank_not_loop n
    · subst hl
      simp only [String.append_assoc, CodeGenerator.labelText]
      exact asm_label_not_loop n _
theorem asm_block_no_loop : ∀ (stmts : List Statement) (n k : Nat),
    Statement.listNamesAreIdentifiers stmts = true →
    ∀ line ∈ blockLines stmts n k, isNativeLoopHeader line = false
  | [], n, k, h, line, hl => by
    simp [blockLines, CodeGenerator.generateStatements, OStream.empty] at hl
  | s :: ss, n, k, h, line, hl => by
    simp only [Statement.listNamesAreIdentifiers, Bool.and_eq_true] at h
    rw [asm_blockLines_cons, List.mem_append] at hl
    rcases hl with hl | hl
    · exact asm_statement_no_loop s n k h.1 line hl
    · exact asm_block_no_loop ss n _ h.2 line hl
end

/-- C6: for a while statement generated with label counter `k`, the assembly
backend writes, in this order: the label definition `L:`, the false-jump
`if (!(<cond>)) goto X;`, the code of the body, the jump `goto L;` and the label
definition `X:`, where `L` is the label `L_LOOP_k` and `X` the label
`L_LOOP_END_(k+2)` made for this statement; and when the variable names
declared or assigned in the statement are identifiers (letters, digits,
underscores), none of the lines written for the statement begins with a
native loop header. -/
theorem asm_while_statement (g : CodeGenerator) (hp : g.output.pending = "")
    (condition : BooleanExpression) (bodyStatements : List Statement) :
    ∃ emitted : List String,
      (CodeGenerator.generateStatement
          (.WhileStatement condition bodyStatements) g).output.lines
        = g.output.lines ++ emitted
      ∧ emitted
        = [indentText g.indentLevel ++ "// while loop",
            indentText g.indentLevel ++ CodeGenerator.labelText "L_LOOP" g.labelCounter ++ ":",
            indentText g.indentLevel ++ "if (!(" ++ generateBooleanExpression condition
              ++ ")) goto " ++ CodeGenerator.labelText "L_LOOP_END" (g.labelCounter + 2) ++ ";",
            indentText g.indentLevel ++ "",
            indentText g.indentLevel ++ "// loop body"]
          ++ blockLines bodyStatements g.indentLevel (g.labelCounter + 3)
          ++ [indentText g.indentLevel ++ "goto "
                ++ CodeGenerator.labelText "L_LOOP" g.labelCounter ++ ";",
              indentText g.indentLevel ++ "",
              indentText g.indentLevel
                ++ CodeGenerator.labelText "L_LOOP_END" (g.labelCounter + 2) ++ ":"]
      ∧ ((Statement.WhileStatement condition bodyStatements).namesAreIdentifiers = true →
          ∀ line ∈ emitted, isNativeLoopHeader line = false) := by
  refine ⟨statementLines (.WhileStatement condition bodyStatements) g.indentLevel
    g.labelCounter, ?_, asm_statementLines_while _ _ _ _, ?_⟩
  · rw [asm_statementLines_while]
    simpa [List.append_assoc] using asm_while_lines g hp condition bodyStatements
  · intro h line hl
    exact asm_statement_no_loop _ _ _ h line hl

/-- Witness for C6: `while (x < 5) { x = x + 1; }` lexes and parses to one
while statement whose only assigned name is the identifier `x`; generated
after the label `L_STMT_0` of its top-level position it yields `L_LOOP_1:`,
the false-jump to `L_LOOP_END_3`, the assignment, `goto L_LOOP_1;` and
`L_LOOP_END_3:`, and no line is a native loop header. -/
theorem asm_while_statement_witness :
    tokenize Examples.whileSource = Examples.whileTokens
      ∧ Parser.parse 100 Examples.whileTokens = .ok ⟨[Examples.whileStatement]⟩
      ∧ (CodeGenerator.generateStatement Examples.whileStatement
          { output := ⟨[], ""⟩, indentLevel := 1, labelCounter := 1 }).output.lines
        = ["    // while loop",
           "    L_LOOP_1:",
           "    if (!((x < 5))) goto L_LOOP_END_3;",
           "    ",
           "    // loop body",
           "    x = (x + 1);",
           "    goto L_LOOP_1;",
           "    ",
           "    L_LOOP_END_3:"]
      ∧ ∀ line ∈ (CodeGenerator.generateStatement Examples.whileStatement
          { output := ⟨[], ""⟩, indentLevel := 1, labelCounter := 1 }).output.lines,
          isNativeLoopHeader line = false := by
  refine ⟨by decide, by rfl, by rfl, ?_⟩
  obtain ⟨emitted, h1, _, h3⟩ := asm_while_statement
    { output := ⟨[], ""⟩, indentLevel := 1, labelCounter := 1 } rfl
    ⟨.VariableReference "x", "<", .IntegerLiteral 5⟩
    [.AssignmentStatement "x"
      (.BinaryExpression (.VariableReference "x") "+" (.IntegerLiteral 1))]
  unfold Examples.whileStatement
  rw [h1]
  simpa using h3 rfl

/-! ### Declarations inside a block -/

/-- C8, the code at a failing input: `if (x == 0) \x7b var y = 1; \x7d` lexes
and parses to an if statement with the declaration of `y` in its then-block.
The assembly backend writes the assignment `y = 1;` for it, but the
declaration section under `// Variable declarations` is empty: no line `int
y;` is written anywhere, since `generate` looks for declarations among the
top-level statements only.  The structured backend declares `y` where it
stands. -/
theorem nested_declaration_not_hoisted :
    tokenize Examples.nestedDeclSource = Examples.nestedDeclTokens
      ∧ Parser.parse 100 Examples.nestedDeclTokens = .ok ⟨[Examples.nestedDeclStatement]⟩
      ∧ generatedLines ⟨[Examples.nestedDeclStatement]⟩
        = ["#include <iostream>", "#include <string>", "using namespace std;", "",
           "int main() \x7b", "    // Variable declarations", "    ", "    L_START:", "    ",
           "    L_STMT_0:", "    // if condition", "    if (!((x == 0))) goto L_ELSE_1;",
           "    ", "    // then block", "    y = 1;", "    goto L_IF_END_2;", "    ",
           "    L_ELSE_1:", "    L_IF_END_2:", "    ", "    L_END:", "    return 0;", "\x7d"]
      ∧ "    int y;" ∉ generatedLines ⟨[Examples.nestedDeclStatement]⟩
      ∧ Structured.generatedLines ⟨[Examples.nestedDeclStatement]⟩
        = ["#include <iostream>", "#include <string>", "using namespace std;", "",
           "int main() \x7b", "    if ((x == 0)) \x7b", "        int y = 1;", "    \x7d",
           "    return 0;", "\x7d"] :=
  ⟨by decide, by rfl, by rfl, by decide, by rfl⟩

/-! ### Label definitions are unique -/

theorem digitChar_digit (k : Nat) (h : k < 10) :
    isdigit (Nat.digitChar k) = true ∧ ((Nat.digitChar k).toNat : Int) - 48 = k := by
  interval_cases k <;> exact ⟨by decide, by decide⟩

theorem digitsValue_append (a : List Char) (c : Char) :
    digitsValue (a ++ [c]) = 10 * digitsValue a + ((c.toNat : Int) - 48) := by
  simp [digitsValue, List.foldl_append]

/-- The decimal digits of a number: digits only, not empty, with the number as
value. -/
theorem toDigitsCore_spec : ∀ (fuel n : Nat) (ds : List Char), n < fuel →
    ∃ pre, Nat.toDigitsCore 10 fuel n ds = pre ++ ds ∧ pre ≠ []
      ∧ (∀ c ∈ pre, isdigit c = true) ∧ digitsValue pre = n := by
  intro fuel
  induction fuel with
  | zero => intro n ds h; omega
  | succ fuel ih =>
    intro n ds h
    have hd := digitChar_digit (n % 10) (Nat.mod_lt _ (by decide))
    by_cases h0 : n / 10 = 0
    · refine ⟨[Nat.digitChar (n % 10)], by simp [Nat.toDigitsCore, h0], by simp, ?_, ?_⟩
      · intro c hc
        simp only [List.mem_singleton] at hc
        rw [hc]; exact hd.1
      · have : digitsValue [Nat.digitChar (n % 10)]
            = ((Nat.digitChar (n % 10)).toNat : Int) - 48 := by
          simp [digitsValue]
        rw [this, hd.2]
        have : n % 10 = n := by omega
        rw [this]
    · obtain ⟨pre, hpre, hne, hdig, hval⟩ := ih (n / 10) (Nat.digitChar (n % 10) :: ds)
        (by omega)
      refine ⟨pre ++ [Nat.digitChar (n % 10)], by simp [Nat.toDigitsCore, h0, hpre], by simp,
        ?_, ?_⟩
      · intro c hc
        rcases List.mem_append.mp hc with hc | hc
        · exact hdig c hc
        · simp only [List.mem_singleton] at hc
          rw [hc]; exact hd.1
      · rw [digitsValue_append, hval, hd.2]
        omega

theorem to_string_digits (j : Nat) :
    (to_string (j : Int)).data ≠ [] ∧ (∀ c ∈ (to_string (j : Int)).data, isdigit c = true)
      ∧ digitsValue (to_string (j : Int)).data = j := by
  obtain ⟨pre, hpre, hne, hdig, hval⟩ := toDigitsCore_spec (j + 1) j [] (by omega)
  have h : (to_string (j : Int)).data = pre := by
    show (toString (Int.ofNat j)).data = pre
    simp only [toString, Nat.repr, Nat.toDigits, List.asString, hpre, List.append_nil]
  rw [h]
  exact ⟨hne, hdig, hval⟩

theorem takeWhile_append_stop (p : Char → Bool) (a b : List Char) (x : Char)
    (ha : ∀ c ∈ a, p c = true) (hx : p x = false) :
    (a ++ x :: b).takeWhile p = a := by
  induction a with
  | nil => simp [List.takeWhile, hx]
  | cons c a ih =>
    have hc : p c = true := ha c (List.mem_cons_self _ _)
    simp [List.takeWhile, hc, ih (fun d hd => ha d (List.mem_cons_of_mem _ hd))]

theorem isLabel_append (a b : String) (c : Char) (hb : b.data.getLast? = some c) :
    isLabelDefinition (a ++ b) = (c == ':') := by
  unfold isLabelDefinition
  have hne : b.data ≠ [] := by
    intro h
    rw [h] at hb
    simp at hb
  rw [String.data_append, List.getLast?_append_of_ne_nil _ hne, hb]
  by_cases h : c = ':' <;> simp [h]

/-- The line of a label definition, read back. -/
theorem label_line (n k : Nat) (pfx : String) :
    isLabelDefinition (indentText n ++ CodeGenerator.labelText pfx k ++ ":") = true
      ∧ labelDigits (indentText n ++ CodeGenerator.labelText pfx k ++ ":") ≠ []
      ∧ labelNumber (indentText n ++ CodeGenerator.labelText pfx k ++ ":") = k := by
  obtain ⟨hne, hdig, hval⟩ := to_string_digits k
  have hdata : (indentText n ++ CodeGenerator.labelText pfx k ++ ":").data
      = ((indentText n).data ++ pfx.data ++ '_' :: (to_string (k : Int)).data) ++ [':'] := by
    simp [CodeGenerator.labelText, String.data_append]
  have hd : labelDigits (indentText n ++ CodeGenerator.labelText pfx k ++ ":")
      = (to_string (k : Int)).data := by
    unfold labelDigits
    rw [hdata, List.dropLast_concat]
    have hr : ((indentText n).data ++ pfx.data ++ '_' :: (to_string (k : Int)).data).reverse
        = (to_string (k : Int)).data.reverse
          ++ '_' :: ((indentText n).data ++ pfx.data).reverse := by
      simp
    rw [hr, takeWhile_append_stop isdigit _ _ '_' (by simpa using hdig) (by decide)]
    simp
  refine ⟨?_, ?_, ?_⟩
  · rw [isLabel_append _ ":" ':' rfl]; rfl
  · rw [hd]; exact hne
  · unfold labelNumber
    rw [hd]; exact hval

theorem isLabel_blank (n : Nat) : isLabelDefinition (indentText n ++ "") = false := by
  unfold isLabelDefinition
  simp only [String.append_empty, indentText_data]
  cases h : 4 * n with
  | zero => simp
  | succ m =>
    rw [List.replicate_succ', List.getLast?_concat]
    decide

theorem isLabel_indent (n : Nat) : isLabelDefinition (indentText n) = false := by
  have h := isLabel_blank n
  simpa using h

theorem isLabel_semicolon (a : String) : isLabelDefinition (a ++ ";") = false := by
  rw [isLabel_append a ";" ';' rfl]; rfl

theorem isLabel_comment (n : Nat) :
    isLabelDefinition (indentText n ++ "// if condition") = false
      ∧ isLabelDefinition (indentText n ++ "// then block") = false
      ∧ isLabelDefinition (indentText n ++ "// else block") = false
      ∧ isLabelDefinition (indentText n ++ "// while loop") = false
      ∧ isLabelDefinition (indentText n ++ "// loop body") = false
      ∧ isLabelDefinition (indentText n ++ "// Variable declarations") = false := by
  refine ⟨?_, ?_, ?_, ?_, ?_, ?_⟩
  · rw [isLabel_append (indentText n) "// if condition" 'n' rfl]; rfl
  · rw [isLabel_append (indentText n) "// then block" 'k' rfl]; rfl
  · rw [isLabel_append (indentText n) "// else block" 'k' rfl]; rfl
  · rw [isLabel_append (indentText n) "// while loop" 'p' rfl]; rfl
  · rw [isLabel_append (indentText n) "// loop body" 'y' rfl]; rfl
  · rw [isLabel_append (indentText n) "// Variable declarations" 's' rfl]; rfl

theorem numbered_nil (lo hi : Nat) : NumberedLabels [] lo hi := by
  simp [NumberedLabels]

theorem numbered_single (n k lo hi : Nat) (pfx : String) (h1 : lo ≤ k) (h2 : k < hi) :
    NumberedLabels [indentText n ++ CodeGenerator.labelText pfx k ++ ":"] lo hi := by
  obtain ⟨_, hd, hn⟩ := label_line n k pfx
  refine ⟨by simp, ?_⟩
  intro l hl
  simp only [List.mem_singleton] at hl
  subst hl
  exact ⟨hd, by rw [hn]; exact_mod_cast h1, by rw [hn]; exact_mod_cast h2⟩

theorem numbered_append (a b : List String) (lo1 hi1 lo2 hi2 lo hi : Nat)
    (ha : NumberedLabels a lo1 hi1) (hb : NumberedLabels b lo2 hi2)
    (hdis : hi1 ≤ lo2 ∨ hi2 ≤ lo1) (h1 : lo ≤ lo1) (h2 : lo ≤ lo2) (h3 : hi1 ≤ hi)
    (h4 : hi2 ≤ hi) : NumberedLabels (a ++ b) lo hi := by
  obtain ⟨han, har⟩ := ha
  obtain ⟨hbn, hbr⟩ := hb
  refine ⟨?_, ?_⟩
  · rw [List.map_append, List.nodup_append]
    refine ⟨han, hbn, ?_⟩
    intro x hxa hxb
    obtain ⟨l1, hl1, rfl⟩ := List.mem_map.mp hxa
    obtain ⟨l2, hl2, he⟩ := List.mem_map.mp hxb
    have r1 := har l1 hl1
    have r2 := hbr l2 hl2
    rcases hdis with hdis | hdis <;> omega
  · intro l hl
    rcases List.mem_append.mp hl with hl | hl
    · have r := har l hl
      exact ⟨r.1, by omega, by omega⟩
    · have r := hbr l hl
      exact ⟨r.1, by omega, by omega⟩

theorem numbered_perm (a b : List String) (lo hi : Nat) (h : a.Perm b)
    (ha : NumberedLabels a lo hi) : NumberedLabels b lo hi := by
  obtain ⟨han, har⟩ := ha
  exact ⟨((h.map labelNumber).nodup_iff).mp han, fun l hl => har l (h.mem_iff.mpr hl)⟩

theorem asm_blockCounter_nil (k : Nat) : blockCounter [] k = k := rfl

theorem asm_blockLines_nil (n k : Nat) : blockLines [] n k = [] := rfl

theorem asm_blockCounter_cons (s : Statement) (ss : List Statement) (k : Nat) :
    blockCounter (s :: ss) k = blockCounter ss (statementCounter s k) := by
  unfold blockCounter
  simp only [CodeGenerator.generateStatements, OStream.empty]
  rw [asm_generateStatement_eq, asm_generateStatements_eq]
  rfl

theorem asm_statementCounter_simple (k : Nat) (v : String) (e : Expression) :
    statementCounter (.VarDeclarationStatement v e) k = k
      ∧ statementCounter (.AssignmentStatement v e) k = k
      ∧ statementCounter (.PrintStatement e) k = k
      ∧ statementCounter (.PrintLineStatement e) k = k := by
  simp [statementCounter, CodeGenerator.generateStatement, CodeGenerator.generateVarDeclaration,
    CodeGenerator.generateAssignment, CodeGenerator.generatePrint,
    CodeGenerator.generatePrintLine, asm_writeIndent_mk, asm_out_mk, asm_endl_mk, OStream.empty]

theorem asm_statementCounter_if (c : BooleanExpression) (t e : List Statement) (k : Nat) :
    statementCounter (.IfStatement c t e) k = blockCounter e (blockCounter t (k + 3)) := by
  have ht := asm_generateStatements_eq t
  have he := asm_generateStatements_eq e
  cases e with
  | nil =>
    simp [statementCounter, CodeGenerator.generateStatement, asm_writeIndent_mk, asm_out_mk,
      asm_endl_mk, asm_writeLine_mk, asm_generateLabel_mk, OStream.empty, ht,
      asm_blockCounter_nil]
  | cons s ss =>
    simp [statementCounter, CodeGenerator.generateStatement, asm_writeIndent_mk, asm_out_mk,
      asm_endl_mk, asm_writeLine_mk, asm_generateLabel_mk, OStream.empty, ht, he]

theorem asm_statementCounter_while (c : BooleanExpression) (b : List Statement) (k : Nat) :
    statementCounter (.WhileStatement c b) k = blockCounter b (k + 3) := by
  have hb := asm_generateStatements_eq b
  simp [statementCounter, CodeGenerator.generateStatement, asm_writeIndent_mk, asm_out_mk,
    asm_endl_mk, asm_writeLine_mk, asm_generateLabel_mk, OStream.empty, hb]

theorem isLabel_label (n k : Nat) (pfx : String) :
    isLabelDefinition (indentText n ++ CodeGenerator.labelText pfx k ++ ":") = true :=
  (label_line n k pfx).1

theorem filter_simple (n k : Nat) (v : String) (e : Expression) :
    (statementLines (.VarDeclarationStatement v e) n k).filter isLabelDefinition = []
      ∧ (statementLines (.AssignmentStatement v e) n k).filter isLabelDefinition = []
      ∧ (statementLines (.PrintStatement e) n k).filter isLabelDefinition = []
      ∧ (statementLines (.PrintLineStatement e) n k).filter isLabelDefinition = [] := by
  obtain ⟨h1, h2, h3, h4⟩ := asm_simple_lines n k v e
  rw [h1, h2, h3, h4]
  refine ⟨?_, ?_, ?_, ?_⟩
  · simp [isLabel_semicolon]
  · simp [isLabel_semicolon]
  · simp [isLabel_semicolon]
  · have : isLabelDefinition (indentText n ++ "cout << " ++ generateExpression e ++ " << endl;")
        = false := by
      rw [isLabel_append _ " << endl;" ';' rfl]; rfl
    simp [this]

theorem filter_if (c : BooleanExpression) (t e : List Statement) (n k : Nat) :
    (statementLines (.IfStatement c t e) n k).filter isLabelDefinition
      = (blockLines t n (k + 3)).filter isLabelDefinition
        ++ [indentText n ++ CodeGenerator.labelText "L_ELSE" k ++ ":"]
        ++ (blockLines e n (blockCounter t (k + 3))).filter isLabelDefinition
        ++ [indentText n ++ CodeGenerator.labelText "L_IF_END" (k + 1) ++ ":"] := by
  obtain ⟨c1, c2, c3, c4, c5, c6⟩ := isLabel_comment n
  rw [asm_statementLines_if]
  cases e with
  | nil =>
    simp [List.filter_cons, List.filter_append, isLabel_semicolon, isLabel_blank, isLabel_indent, isLabel_label,
      c1, c2, asm_blockLines_nil]
  | cons s ss =>
    simp [List.filter_cons, List.filter_append, isLabel_semicolon, isLabel_blank, isLabel_indent, isLabel_label,
      c1, c2, c3]

theorem filter_while (c : BooleanExpression) (b : List Statement) (n k : Nat) :
    (statementLines (.WhileStatement c b) n k).filter isLabelDefinition
      = [indentText n ++ CodeGenerator.labelText "L_LOOP" k ++ ":"]
        ++ (blockLines b n (k + 3)).filter isLabelDefinition
        ++ [indentText n ++ CodeGenerator.labelText "L_LOOP_END" (k + 2) ++ ":"] := by
  obtain ⟨c1, c2, c3, c4, c5, c6⟩ := isLabel_comment n
  rw [asm_statementLines_while]
  simp [List.filter_cons, List.filter_append, isLabel_semicolon, isLabel_blank, isLabel_indent, isLabel_label,
    c4, c5]

mutual

/-- The label definitions of a statement carry the counters the statement
takes, each once. -/
theorem asm_statement_labels : ∀ (stmt : Statement) (n k : Nat),
    k ≤ statementCounter stmt k
      ∧ NumberedLabels ((statementLines stmt n k).filter isLabelDefinition) k
          (statementCounter stmt k)
  | .VarDeclarationStatement v e, n, k => by
    rw [(filter_simple n k v e).1, (asm_statementCounter_simple k v e).1]
    exact ⟨le_refl _, numbered_nil _ _⟩
  | .AssignmentStatement v e, n, k => by
    rw [(filter_simple n k v e).2.1, (asm_statementCounter_simple k v e).2.1]
    exact ⟨le_refl _, numbered_nil _ _⟩
  | .PrintStatement e, n, k => by
    rw [(filter_simple n k "" e).2.2.1, (asm_statementCounter_simple k "" e).2.2.1]
    exact ⟨le_refl _, numbered_nil _ _⟩
  | .PrintLineStatement e, n, k => by
    rw [(filter_simple n k "" e).2.2.2, (asm_statementCounter_simple k "" e).2.2.2]
    exact ⟨le_refl _, numbered_nil _ _⟩
  | .IfStatement c t e, n, k => by
    obtain ⟨ht1, ht2⟩ := asm_block_labels t n (k + 3)
    obtain ⟨he1, he2⟩ := asm_block_labels e n (blockCounter t (k + 3))
    rw [filter_if, asm_statementCounter_if]
    refine ⟨by omega, ?_⟩
    have hE := numbered_single n k k (k + 1) "L_ELSE" (le_refl _) (by omega)
    have hF := numbered_single n (k + 1) (k + 1) (k + 2) "L_IF_END" (le_refl _) (by omega)
    have s1 := numbered_append _ _ _ _ _ _ (k + 3) (blockCounter e (blockCounter t (k + 3)))
      ht2 he2 (Or.inl (le_refl _)) (le_refl _) (by omega) (by omega) (le_refl _)
    have s2 := numbered_append _ _ _ _ _ _ (k + 1) (blockCounter e (blockCounter t (k + 3)))
      hF s1 (Or.inl (by omega)) (le_refl _) (by omega) (by omega) (le_refl _)
    have s3 := numbered_append _ _ _ _ _ _ k (blockCounter e (blockCounter t (k + 3)))
      hE s2 (Or.inl (by omega)) (le_refl _) (by omega) (by omega) (le_refl _)
    refine numbered_perm _ _ _ _ ?_ s3
    rw [List.perm_iff_count]
    intro a
    simp only [List.count_append]
    omega
  | .WhileStatement c b, n, k => by
    obtain ⟨hb1, hb2⟩ := asm_block_labels b n (k + 3)
    rw [filter_while, asm_statementCounter_while]
    refine ⟨by omega, ?_⟩
    have hL := numbered_single n k k (k + 1) "L_LOOP" (le_refl _) (by omega)
    have hX := numbered_single n (k + 2) (k + 2) (k + 3) "L_LOOP_END" (le_refl _) (by omega)
    have s1 := numbered_append _ _ _ _ _ _ (k + 2) (blockCounter b (k + 3))
      hX hb2 (Or.inl (le_refl _)) (le_refl _) (by omega) (by omega) (le_refl _)
    have s2 := numbered_append _ _ _ _ _ _ k (blockCounter b (k + 3))
      hL s1 (Or.inl (by omega)) (le_refl _) (by omega) (by omega) (le_refl _)
    refine numbered_perm _ _ _ _ ?_ s2
    rw [List.perm_iff_count]
    intro a
    simp only [List.count_append]
    omega

/-- The same for a statement list. -/
theorem asm_block_labels : ∀ (stmts : List Statement) (n k : Nat),
    k ≤ blockCounter stmts k
      ∧ NumberedLabels ((blockLines stmts n k).filter isLabelDefinition) k
          (blockCounter stmts k)
  | [], n, k => by
    rw [asm_blockLines_nil, asm_blockCounter_nil]
    exact ⟨le_refl _, numbered_nil _ _⟩
  | s :: ss, n, k => by
    obtain ⟨h1, h2⟩ := asm_statement_labels s n k
    obtain ⟨h3, h4⟩ := asm_block_labels ss n (statementCounter s k)
    rw [asm_blockLines_cons, asm_blockCounter_cons, List.filter_append]
    exact ⟨by omega, numbered_append _ _ _ _ _ _ _ _ h2 h4 (Or.inl (le_refl _)) (le_refl _)
      h1 h3 (le_refl _)⟩

end

/-- The declaration loop writes no label definition. -/
theorem asm_declareVariables_eq : ∀ (stmts : List Statement) (lines : List String) (n k : Nat),
    ∃ ds, CodeGenerator.declareVariables stmts
          { output := ⟨lines, ""⟩, indentLevel := n, labelCounter := k }
        = { output := ⟨lines ++ ds, ""⟩, indentLevel := n, labelCounter := k }
      ∧ ds.filter isLabelDefinition = [] := by
  intro stmts
  induction stmts with
  | nil => intro lines n k; exact ⟨[], by simp [CodeGenerator.declareVariables], rfl⟩
  | cons s ss ih =>
    intro lines n k
    cases s with
    | VarDeclarationStatement v e =>
      obtain ⟨ds, h1, h2⟩ := ih (lines ++ [indentText n ++ "int " ++ v ++ ";"]) n k
      refine ⟨(indentText n ++ "int " ++ v ++ ";") :: ds, ?_, ?_⟩
      · simp only [CodeGenerator.declareVariables, asm_writeIndent_mk, asm_out_mk, asm_endl_mk]
        simp only [String.empty_append, ← String.append_assoc] at h1 ⊢
        rw [h1]
        simp
      · simp [List.filter_cons, isLabel_semicolon, h2]
    | AssignmentStatement v e =>
      obtain ⟨ds, h1, h2⟩ := ih lines n k
      exact ⟨ds, by simpa [CodeGenerator.declareVariables] using h1, h2⟩
    | PrintStatement e =>
      obtain ⟨ds, h1, h2⟩ := ih lines n k
      exact ⟨ds, by simpa [CodeGenerator.declareVariables] using h1, h2⟩
    | PrintLineStatement e =>
      obtain ⟨ds, h1, h2⟩ := ih lines n k
      exact ⟨ds, by simpa [CodeGenerator.declareVariables] using h1, h2⟩
    | IfStatement c t e =>
      obtain ⟨ds, h1, h2⟩ := ih lines n k
      exact ⟨ds, by simpa [CodeGenerator.declareVariables] using h1, h2⟩
    | WhileStatement c b =>
      obtain ⟨ds, h1, h2⟩ := ih lines n k
      exact ⟨ds, by simpa [CodeGenerator.declareVariables] using h1, h2⟩

/-- The statement loop of `generate` writes label definitions with the
counters it takes, each once. -/
theorem asm_generateTopLevel_eq : ∀ (stmts : List Statement) (lines : List String)
    (n k : Nat),
    ∃ ls k1, CodeGenerator.generateTopLevel stmts
          { output := ⟨lines, ""⟩, indentLevel := n, labelCounter := k }
        = { output := ⟨lines ++ ls, ""⟩, indentLevel := n, labelCounter := k1 }
      ∧ k ≤ k1 ∧ NumberedLabels (ls.filter isLabelDefinition) k k1 := by
  intro stmts
  induction stmts with
  | nil =>
    intro lines n k
    exact ⟨[], k, by simp [CodeGenerator.generateTopLevel], le_refl _, numbered_nil _ _⟩
  | cons s ss ih =>
    intro lines n k
    obtain ⟨hs1, hs2⟩ := asm_statement_labels s n (k + 1)
    obtain ⟨ls, k1, h1, h2, h3⟩ := ih
      (lines ++ [indentText n ++ CodeGenerator.labelText "L_STMT" k ++ ":"]
        ++ statementLines s n (k + 1) ++ [indentText n ++ ""]) n (statementCounter s (k + 1))
    refine ⟨[indentText n ++ CodeGenerator.labelText "L_STMT" k ++ ":"]
      ++ statementLines s n (k + 1) ++ [indentText n ++ ""] ++ ls, k1, ?_, by omega, ?_⟩
    · simp only [CodeGenerator.generateTopLevel, asm_generateLabel_mk, asm_writeIndent_mk,
        asm_out_mk, asm_endl_mk, asm_generateStatement_eq, asm_writeLine_mk]
      simp only [String.empty_append, ← String.append_assoc, ← List.append_assoc] at h1 ⊢
      rw [h1]
    · have hL := numbered_single n k k (k + 1) "L_STMT" (le_refl _) (by omega)
      have s1 := numbered_append _ _ _ _ _ _ k (statementCounter s (k + 1)) hL hs2
        (Or.inl (le_refl _)) (le_refl _) (by omega) (by omega) (le_refl _)
      have s2 := numbered_append _ _ _ _ _ _ k k1 s1 h3 (Or.inl (le_refl _)) (le_refl _)
        (by omega) (by omega) (le_refl _)
      simpa [List.filter_append, List.filter_cons, isLabel_label, isLabel_blank, isLabel_indent]
        using s2

/-- The label definitions of a program: `L_START`, the numbered labels, and
`L_END`. -/
theorem asm_labelDefinitions_eq (program : ProgramNode) :
    ∃ ls k1, labelDefinitions program = "    L_START:" :: (ls ++ ["    L_END:"])
      ∧ NumberedLabels ls 0 k1 := by
  obtain ⟨stmts⟩ := program
  obtain ⟨c1, c2, c3, c4, c5, c6⟩ := isLabel_comment 1
  obtain ⟨ds, hd1, hd2⟩ := asm_declareVariables_eq stmts
    ["#include <iostream>", "#include <string>", "using namespace std;", "", "int main() \x7b",
      "    // Variable declarations"] 1 0
  obtain ⟨ls, k1, hl1, hl2, hl3⟩ := asm_generateTopLevel_eq stmts
    (["#include <iostream>", "#include <string>", "using namespace std;", "", "int main() \x7b",
      "    // Variable declarations"] ++ ds ++ ["    ", "    L_START:", "    "]) 1 0
  refine ⟨ls.filter isLabelDefinition, k1, ?_, hl3⟩
  have hgen : generatedLines ⟨stmts⟩
      = ["#include <iostream>", "#include <string>", "using namespace std;", "",
          "int main() \x7b", "    // Variable declarations"] ++ ds
        ++ ["    ", "    L_START:", "    "] ++ ls ++ ["    L_END:", "    return 0;", "\x7d"] := by
    have e1 : indentText 0 = "" := rfl
    have e2 : indentText 1 = "    " := rfl
    have e3 : "    " ++ "// Variable declarations" = "    // Variable declarations" := rfl
    have e4 : "    " ++ "L_START:" = "    L_START:" := rfl
    have e5 : "    " ++ "L_END:" = "    L_END:" := rfl
    have e6 : "    " ++ "return 0;" = "    return 0;" := rfl
    simp only [List.append_assoc, List.cons_append, List.nil_append] at hd1 hl1
    simp only [generatedLines, CodeGenerator.generate, CodeGenerator.new, OStream.empty,
      asm_writeLine_mk, asm_writeIndent_mk, asm_out_mk, asm_endl_mk, e1, e2, e3,
      String.empty_append, String.append_empty, Nat.zero_add, List.append_assoc,
      List.cons_append, List.nil_append]
    rw [hd1]
    simp only [asm_writeLine_mk, asm_writeIndent_mk, asm_out_mk, asm_endl_mk, e1, e2, e4,
      String.empty_append, String.append_empty, List.append_assoc, List.cons_append,
      List.nil_append]
    rw [hl1]
    simp only [asm_writeLine_mk, asm_writeIndent_mk, asm_out_mk, asm_endl_mk, e1, e2, e5, e6,
      String.empty_append, String.append_empty, List.append_assoc, List.cons_append,
      List.nil_append, Nat.add_sub_cancel]
  unfold labelDefinitions
  rw [hgen]
  simp only [List.filter_append, hd2]
  rfl

/-- C7: within one run of `generate` no two label definitions are textually
identical.  The label definitions are the lines that end with a colon; for
the program `if (x == 0) \x7b println(x); \x7d while (x < 5) \x7b x = x + 1;
\x7d` they are `L_START:`, `L_STMT_0:`, `L_ELSE_1:`, `L_IF_END_2:`,
`L_STMT_4:`, `L_LOOP_5:`, `L_LOOP_END_7:` and `L_END:`.  For every program the
list of label definitions has no duplicates: each numbered label ends with
the decimal digits of a counter value that is used once, and `L_START` and
`L_END` end with a letter.  (The counter is an unbounded natural number here;
the `int` of the source does not wrap for any program that fits in memory.) -/
theorem labels_unique :
    labelDefinitions ⟨[Examples.ifStatement, Examples.whileStatement]⟩
        = ["    L_START:", "    L_STMT_0:", "    L_ELSE_1:", "    L_IF_END_2:", "    L_STMT_4:",
           "    L_LOOP_5:", "    L_LOOP_END_7:", "    L_END:"]
      ∧ ∀ program : ProgramNode, (labelDefinitions program).Nodup := by
  refine ⟨by decide, fun program => ?_⟩
  obtain ⟨ls, k1, heq, hnum, hr⟩ := asm_labelDefinitions_eq program
  rw [heq]
  have hls : ls.Nodup := List.Nodup.of_map _ hnum
  have hstart : "    L_START:" ∉ ls := fun h => (hr _ h).1 (by decide)
  have hend : "    L_END:" ∉ ls := fun h => (hr _ h).1 (by decide)
  rw [List.nodup_cons]
  constructor
  · simp only [List.mem_append, List.mem_singleton, not_or]
    exact ⟨hstart, by decide⟩
  · rw [List.nodup_append]
    refine ⟨hls, List.nodup_singleton _, ?_⟩
    intro a ha hb
    simp only [List.mem_singleton] at hb
    subst hb
    exact hend ha

/-! ### The lines of the assembly backend, one form at a time -/

mutual

/-- A property of lines holds for every line of a statement when it holds for
each form of line the backend writes. -/
theorem asm_statement_lines_all (P : String → Prop) (Q : String → Prop)
    (hassign : ∀ n v e, Q v → P (indentText n ++ v ++ " = " ++ generateExpression e ++ ";"))
    (hprint : ∀ n e, P (indentText n ++ "cout << " ++ generateExpression e ++ ";"))
    (hprintln : ∀ n e, P (indentText n ++ "cout << " ++ generateExpression e ++ " << endl;"))
    (hcomment : ∀ n, ∀ text ∈ ["// if condition", "// then block", "// else block",
      "// while loop", "// loop body"], P (indentText n ++ text))
    (hjump : ∀ n c pfx k, P (indentText n ++ "if (!(" ++ generateBooleanExpression c
      ++ ")) goto " ++ CodeGenerator.labelText pfx k ++ ";"))
    (hblank : ∀ n, P (indentText n ++ ""))
    (hgoto : ∀ n pfx k, P (indentText n ++ "goto " ++ CodeGenerator.labelText pfx k ++ ";"))
    (hlabel : ∀ n, ∀ pfx ∈ ["L_ELSE", "L_IF_END", "L_LOOP", "L_LOOP_END"], ∀ k,
      P (indentText n ++ CodeGenerator.labelText pfx k ++ ":")) :
    ∀ (stmt : Statement) (n k : Nat), (∀ v ∈ stmt.names, Q v) →
      ∀ line ∈ statementLines stmt n k, P line
  | .VarDeclarationStatement v e, n, k, h, line, hl => by
    rw [(asm_simple_lines n k v e).1] at hl
    simp only [List.mem_singleton] at hl
    subst hl
    exact hassign n v e (h v (by simp [Statement.names]))
  | .AssignmentStatement v e, n, k, h, line, hl => by
    rw [(asm_simple_lines n k v e).2.1] at hl
    simp only [List.mem_singleton] at hl
    subst hl
    exact hassign n v e (h v (by simp [Statement.names]))
  | .PrintStatement e, n, k, h, line, hl => by
    rw [(asm_simple_lines n k "" e).2.2.1] at hl
    simp only [List.mem_singleton] at hl
    subst hl
    exact hprint n e
  | .PrintLineStatement e, n, k, h, line, hl => by
    rw [(asm_simple_lines n k "" e).2.2.2] at hl
    simp only [List.mem_singleton] at hl
    subst hl
    exact hprintln n e
  | .IfStatement c t e, n, k, h, line, hl => by
    have ht := asm_block_lines_all P Q hassign hprint hprintln hcomment hjump hblank hgoto hlabel
      t n (k + 3)
    have he := asm_block_lines_all P Q hassign hprint hprintln hcomment hjump hblank hgoto hlabel
      e n (blockCounter t (k + 3))
    simp only [Statement.names, List.mem_append] at h
    rw [asm_statementLines_if] at hl
    simp only [List.mem_append, List.mem_cons, List.mem_singleton, List.not_mem_nil, or_false] at hl
    rcases hl with ((((hl | hl | hl | hl) | hl) | hl | hl | hl) | hl) | hl
    · subst hl
      exact hcomment n _ (by simp)
    · subst hl
      exact hjump n c _ _
    · subst hl
      exact hblank n
    · subst hl
      exact hcomment n _ (by simp)
    · exact ht (fun v hv => h v (Or.inl hv)) line hl
    · subst hl
      exact hgoto n _ _
    · subst hl
      exact hblank n
    · subst hl
      exact hlabel n _ (by simp) _
    · by_cases hemp : e.isEmpty = true
      · simp [hemp] at hl
      · simp only [hemp, if_false, Bool.false_eq_true, List.mem_append, List.mem_singleton] at hl
        rcases hl with hl | hl
        · subst hl
          exact hcomment n _ (by simp)
        · exact he (fun v hv => h v (Or.inr hv)) line hl
    · subst hl
      exact hlabel n _ (by simp) _
  | .WhileStatement c b, n, k, h, line, hl => by
    have hb := asm_block_lines_all P Q hassign hprint hprintln hcomment hjump hblank hgoto hlabel
      b n (k + 3)
    simp only [Statement.names] at h
    rw [asm_statementLines_while] at hl
    simp only [List.mem_append, List.mem_cons, List.mem_singleton, List.not_mem_nil, or_false] at hl
    rcases hl with ((hl | hl | hl | hl | hl) | hl) | hl | hl | hl
    · subst hl
      exact hcomment n _ (by simp)
    · subst hl
      exact hlabel n _ (by simp) _
    · subst hl
      exact hjump n c _ _
    · subst hl
      exact hblank n
    · subst hl
      exact hcomment n _ (by simp)
    · exact hb h line hl
    · subst hl
      exact hgoto n _ _
    · subst hl
      exact hblank n
    · subst hl
      exact hlabel n _ (by simp) _

/-- The same for the lines of a statement list. -/
theorem asm_block_lines_all (P : String → Prop) (Q : String → Prop)
    (hassign : ∀ n v e, Q v → P (indentText n ++ v ++ " = " ++ generateExpression e ++ ";"))
    (hprint : ∀ n e, P (indentText n ++ "cout << " ++ generateExpression e ++ ";"))
    (hprintln : ∀ n e, P (indentText n ++ "cout << " ++ generateExpression e ++ " << endl;"))
    (hcomment : ∀ n, ∀ text ∈ ["// if condition", "// then block", "// else block",
      "// while loop", "// loop body"], P (indentText n ++ text))
    (hjump : ∀ n c pfx k, P (indentText n ++ "if (!(" ++ generateBooleanExpression c
      ++ ")) goto " ++ CodeGenerator.labelText pfx k ++ ";"))
    (hblank : ∀ n, P (indentText n ++ ""))
    (hgoto : ∀ n pfx k, P (indentText n ++ "goto " ++ CodeGenerator.labelText pfx k ++ ";"))
    (hlabel : ∀ n, ∀ pfx ∈ ["L_ELSE", "L_IF_END", "L_LOOP", "L_LOOP_END"], ∀ k,
      P (indentText n ++ CodeGenerator.labelText pfx k ++ ":")) :
    ∀ (stmts : List Statement) (n k : Nat), (∀ v ∈ Statement.listNames stmts, Q v) →
      ∀ line ∈ blockLines stmts n k, P line
  | [], n, k, h, line, hl => by
    simp [blockLines, CodeGenerator.generateStatements, OStream.empty] at hl
  | s :: ss, n, k, h, line, hl => by
    simp only [Statement.listNames, List.mem_append] at h
    rw [asm_blockLines_cons, List.mem_append] at hl
    rcases hl with hl | hl
    · exact asm_statement_lines_all P Q hassign hprint hprintln hcomment hjump hblank hgoto
        hlabel s n k (fun v hv => h v (Or.inl hv)) line hl
    · exact asm_block_lines_all P Q hassign hprint hprintln hcomment hjump hblank hgoto hlabel
        ss n _ (fun v hv => h v (Or.inr hv)) line hl

end

/-- The statement loop of `generate` appends the top-level lines. -/
theorem asm_generateTopLevel_lines : ∀ (stmts : List Statement) (lines : List String)
    (n k : Nat),
    ∃ k1, CodeGenerator.generateTopLevel stmts
          { output := ⟨lines, ""⟩, indentLevel := n, labelCounter := k }
        = { output := ⟨lines ++ topLevelLines stmts n k, ""⟩, indentLevel := n,
            labelCounter := k1 } := by
  intro stmts
  induction stmts with
  | nil =>
    intro lines n k
    exact ⟨k, by simp [CodeGenerator.generateTopLevel, topLevelLines]⟩
  | cons s ss ih =>
    intro lines n k
    obtain ⟨k1, h1⟩ := ih
      (lines ++ [indentText n ++ CodeGenerator.labelText "L_STMT" k ++ ":"]
        ++ statementLines s n (k + 1) ++ [indentText n ++ ""]) n (statementCounter s (k + 1))
    refine ⟨k1, ?_⟩
    simp only [CodeGenerator.generateTopLevel, asm_generateLabel_mk, asm_writeIndent_mk,
      asm_out_mk, asm_endl_mk, asm_generateStatement_eq, asm_writeLine_mk, topLevelLines]
    simp only [String.empty_append, ← String.append_assoc, ← List.append_assoc] at h1 ⊢
    rw [h1]

/-- The declaration loop writes lines of the form `int <name>;`. -/
theorem asm_declareVariables_lines : ∀ (stmts : List Statement) (lines : List String)
    (n k : Nat),
    ∃ ds, CodeGenerator.declareVariables stmts
          { output := ⟨lines, ""⟩, indentLevel := n, labelCounter := k }
        = { output := ⟨lines ++ ds, ""⟩, indentLevel := n, labelCounter := k }
      ∧ ∀ d ∈ ds, ∃ v, d = indentText n ++ "int " ++ v ++ ";" := by
  intro stmts
  induction stmts with
  | nil => intro lines n k; exact ⟨[], by simp [CodeGenerator.declareVariables], by simp⟩
  | cons s ss ih =>
    intro lines n k
    cases s with
    | VarDeclarationStatement v e =>
      obtain ⟨ds, h1, h2⟩ := ih (lines ++ [indentText n ++ "int " ++ v ++ ";"]) n k
      refine ⟨(indentText n ++ "int " ++ v ++ ";") :: ds, ?_, ?_⟩
      · simp only [CodeGenerator.declareVariables, asm_writeIndent_mk, asm_out_mk, asm_endl_mk]
        simp only [String.empty_append, ← String.append_assoc] at h1 ⊢
        rw [h1]
        simp
      · intro d hd
        rcases List.mem_cons.mp hd with rfl | hd
        · exact ⟨v, rfl⟩
        · exact h2 d hd
    | AssignmentStatement v e =>
      obtain ⟨ds, h1, h2⟩ := ih lines n k
      exact ⟨ds, by simpa [CodeGenerator.declareVariables] using h1, h2⟩
    | PrintStatement e =>
      obtain ⟨ds, h1, h2⟩ := ih lines n k
      exact ⟨ds, by simpa [CodeGenerator.declareVariables] using h1, h2⟩
    | PrintLineStatement e =>
      obtain ⟨ds, h1, h2⟩ := ih lines n k
      exact ⟨ds, by simpa [CodeGenerator.declareVariables] using h1, h2⟩
    | IfStatement c t e =>
      obtain ⟨ds, h1, h2⟩ := ih lines n k
      exact ⟨ds, by simpa [CodeGenerator.declareVariables] using h1, h2⟩
    | WhileStatement c b =>
      obtain ⟨ds, h1, h2⟩ := ih lines n k
      exact ⟨ds, by simpa [CodeGenerator.declareVariables] using h1, h2⟩

/-- The lines of a program in the assembly backend: the opening lines, the
declarations, `L_START`, the top-level lines, `L_END` and the closing lines. -/
theorem asm_generatedLines_eq (program : ProgramNode) :
    ∃ ds, generatedLines program
        = ["#include <iostream>", "#include <string>", "using namespace std;", "",
            "int main() \x7b", "    // Variable declarations"] ++ ds
          ++ ["    ", "    L_START:", "    "] ++ topLevelLines program.statements 1 0
          ++ ["    L_END:", "    return 0;", "\x7d"]
      ∧ ∀ d ∈ ds, ∃ v, d = indentText 1 ++ "int " ++ v ++ ";" := by
  obtain ⟨stmts⟩ := program
  obtain ⟨ds, hd1, hd2⟩ := asm_declareVariables_lines stmts
    ["#include <iostream>", "#include <string>", "using namespace std;", "", "int main() \x7b",
      "    // Variable declarations"] 1 0
  obtain ⟨k1, hl1⟩ := asm_generateTopLevel_lines stmts
    (["#include <iostream>", "#include <string>", "using namespace std;", "", "int main() \x7b",
      "    // Variable declarations"] ++ ds ++ ["    ", "    L_START:", "    "]) 1 0
  refine ⟨ds, ?_, hd2⟩
  have e1 : indentText 0 = "" := rfl
  have e2 : indentText 1 = "    " := rfl
  have e3 : "    " ++ "// Variable declarations" = "    // Variable declarations" := rfl
  have e4 : "    " ++ "L_START:" = "    L_START:" := rfl
  have e5 : "    " ++ "L_END:" = "    L_END:" := rfl
  have e6 : "    " ++ "return 0;" = "    return 0;" := rfl
  simp only [List.append_assoc, List.cons_append, List.nil_append] at hd1 hl1
  simp only [generatedLines, CodeGenerator.generate, CodeGenerator.new, OStream.empty,
    asm_writeLine_mk, asm_writeIndent_mk, asm_out_mk, asm_endl_mk, e1, e2, e3,
    String.empty_append, String.append_empty, Nat.zero_add, List.append_assoc,
    List.cons_append, List.nil_append]
  rw [hd1]
  simp only [asm_writeLine_mk, asm_writeIndent_mk, asm_out_mk, asm_endl_mk, e1, e2, e4,
    String.empty_append, String.append_empty, List.append_assoc, List.cons_append,
    List.nil_append]
  rw [hl1]
  simp only [asm_writeLine_mk, asm_writeIndent_mk, asm_out_mk, asm_endl_mk, e1, e2, e5, e6,
    String.empty_append, String.append_empty, List.append_assoc, List.cons_append,
    List.nil_append, Nat.add_sub_cancel]

/-! ### Statement labels -/

theorem beginsWith_literal (pre lit tail : String) (c : Char) (cs : List Char)
    (h : lit.data = c :: cs) (hc : c ≠ ' ') :
    beginsWith pre (lit ++ tail) = pre.data.isPrefixOf (c :: (cs ++ tail.data)) := by
  unfold beginsWith
  rw [String.data_append, h, List.cons_append, dropWhile_space_cons _ _ hc]

theorem stmtLabel_label (n k : Nat) :
    isStmtLabel (indentText n ++ CodeGenerator.labelText "L_STMT" k ++ ":") = true := by
  unfold isStmtLabel
  rw [(label_line n k "L_STMT").1, Bool.and_true]
  simp only [CodeGenerator.labelText, String.append_assoc, beginsWith_indent]
  rw [beginsWith_literal "L_STMT" "L_STMT" _ 'L' ['_', 'S', 'T', 'M', 'T'] rfl (by decide)]
  rfl

theorem stmtLabel_other (n k : Nat) (pfx : String)
    (h : pfx ∈ ["L_ELSE", "L_IF_END", "L_LOOP", "L_LOOP_END"]) :
    isStmtLabel (indentText n ++ CodeGenerator.labelText pfx k ++ ":") = false := by
  unfold isStmtLabel
  rw [Bool.and_eq_false_iff]
  left
  simp only [CodeGenerator.labelText, String.append_assoc, beginsWith_indent]
  simp only [List.mem_cons, List.mem_singleton, List.not_mem_nil, or_false] at h
  rcases h with rfl | rfl | rfl | rfl
  · rw [beginsWith_literal "L_STMT" "L_ELSE" _ 'L' ['_', 'E', 'L', 'S', 'E'] rfl (by decide)]
    rfl
  · rw [beginsWith_literal "L_STMT" "L_IF_END" _ 'L' ['_', 'I', 'F', '_', 'E', 'N', 'D'] rfl
      (by decide)]
    rfl
  · rw [beginsWith_literal "L_STMT" "L_LOOP" _ 'L' ['_', 'L', 'O', 'O', 'P'] rfl (by decide)]
    rfl
  · rw [beginsWith_literal "L_STMT" "L_LOOP_END" _ 'L' ['_', 'L', 'O', 'O', 'P', '_', 'E', 'N', 'D']
      rfl (by decide)]
    rfl

theorem stmtLabel_of_not_label (line : String) (h : isLabelDefinition line = false) :
    isStmtLabel line = false := by
  simp [isStmtLabel, h]

/-- The lines of a statement hold no `L_STMT` label. -/
theorem asm_statement_no_stmtLabel (stmt : Statement) (n k : Nat) :
    ∀ line ∈ statementLines stmt n k, isStmtLabel line = false := by
  obtain ⟨c1, c2, c3, c4, c5, _⟩ := isLabel_comment n
  refine asm_statement_lines_all (fun line => isStmtLabel line = false) (fun _ => True)
    ?_ ?_ ?_ ?_ ?_ ?_ ?_ ?_ stmt n k (fun _ _ => trivial)
  · intro n v e _
    exact stmtLabel_of_not_label _ (isLabel_semicolon _)
  · intro n e
    exact stmtLabel_of_not_label _ (isLabel_semicolon _)
  · intro n e
    exact stmtLabel_of_not_label _ (by rw [isLabel_append _ " << endl;" ';' rfl]; rfl)
  · intro n text ht
    obtain ⟨c1, c2, c3, c4, c5, _⟩ := isLabel_comment n
    simp only [List.mem_cons, List.mem_singleton, List.not_mem_nil, or_false] at ht
    rcases ht with rfl | rfl | rfl | rfl | rfl
    · exact stmtLabel_of_not_label _ c1
    · exact stmtLabel_of_not_label _ c2
    · exact stmtLabel_of_not_label _ c3
    · exact stmtLabel_of_not_label _ c4
    · exact stmtLabel_of_not_label _ c5
  · intro n c pfx k
    exact stmtLabel_of_not_label _ (isLabel_semicolon _)
  · intro n
    exact stmtLabel_of_not_label _ (isLabel_blank n)
  · intro n pfx k
    exact stmtLabel_of_not_label _ (isLabel_semicolon _)
  · intro n pfx hp k
    exact stmtLabel_other n k pfx hp

theorem filter_stmtLabel_statement (stmt : Statement) (n k : Nat) :
    (statementLines stmt n k).filter isStmtLabel = [] := by
  rw [List.filter_eq_nil_iff]
  intro line hl
  rw [asm_statement_no_stmtLabel stmt n k line hl]
  simp

/-- Each statement of the statement loop has one `L_STMT` label. -/
theorem topLevel_stmtLabels : ∀ (stmts : List Statement) (n k : Nat),
    ((topLevelLines stmts n k).filter isStmtLabel).length = stmts.length := by
  intro stmts
  induction stmts with
  | nil => intro n k; rfl
  | cons s ss ih =>
    intro n k
    simp only [topLevelLines, List.filter_append, List.length_append, ih,
      filter_stmtLabel_statement, List.filter_cons, stmtLabel_label,
      stmtLabel_of_not_label _ (isLabel_blank n), List.filter_nil, List.length_cons,
      List.length_nil, if_true]
    simp
    omega

/-- The label of the statement with index `i` stands directly before the lines
of that statement, after the labels of the statements before it. -/
theorem topLevel_index : ∀ (stmts : List Statement) (n k i : Nat) (hi : i < stmts.length),
    ∃ a b k1, topLevelLines stmts n k
        = a ++ (indentText n ++ CodeGenerator.labelText "L_STMT" k1 ++ ":")
            :: (statementLines (stmts.get ⟨i, hi⟩) n (k1 + 1) ++ b)
      ∧ (a.filter isStmtLabel).length = i := by
  intro stmts
  induction stmts with
  | nil => intro n k i hi; simp at hi
  | cons s ss ih =>
    intro n k i hi
    cases i with
    | zero =>
      exact ⟨[], [indentText n ++ ""] ++ topLevelLines ss n (statementCounter s (k + 1)), k,
        by simp [topLevelLines], rfl⟩
    | succ j =>
      obtain ⟨a, b, k1, h1, h2⟩ := ih n (statementCounter s (k + 1)) j
        (by simpa using hi)
      refine ⟨[indentText n ++ CodeGenerator.labelText "L_STMT" k ++ ":"]
        ++ statementLines s n (k + 1) ++ [indentText n ++ ""] ++ a, b, k1, ?_, ?_⟩
      · simp only [topLevelLines, h1, List.get_cons_succ]
        simp
      · simp only [List.filter_append, List.length_append, h2, filter_stmtLabel_statement,
          List.filter_cons, stmtLabel_label, stmtLabel_of_not_label _ (isLabel_blank n),
          List.filter_nil, List.length_cons, List.length_nil, if_true]
        simp
        omega

/-- C25: every top-level statement has its own `L_STMT` label, and no other
statement has one.  For the program of an if statement followed by a while
statement the assembly backend writes the `L_STMT` label definitions
`L_STMT_0:` and `L_STMT_4:`.  For every program: the number of label
definitions that begin with `L_STMT` among the lines written is the number of
top-level statements; for every index `i` of a top-level statement, the lines
written are some lines `a` holding `i` such labels, then a label definition
`L_STMT_k:`, then directly the lines of statement `i`, then the rest; and the
lines written for a statement, with the statements nested in it, hold no such
label. -/
theorem statement_labels :
    (generatedLines ⟨[Examples.ifStatement, Examples.whileStatement]⟩).filter isStmtLabel
        = ["    L_STMT_0:", "    L_STMT_4:"]
      ∧ ∀ program : ProgramNode,
        ((generatedLines program).filter isStmtLabel).length = program.statements.length
        ∧ (∀ (i : Nat) (hi : i < program.statements.length), ∃ a b k,
            generatedLines program
                = a ++ (indentText 1 ++ CodeGenerator.labelText "L_STMT" k ++ ":")
                    :: (statementLines (program.statements.get ⟨i, hi⟩) 1 (k + 1) ++ b)
              ∧ (a.filter isStmtLabel).length = i)
        ∧ ∀ (stmt : Statement) (n k : Nat), ∀ line ∈ statementLines stmt n k,
            isStmtLabel line = false := by
  refine ⟨by decide, fun program => ?_⟩
  obtain ⟨ds, hgen, hds⟩ := asm_generatedLines_eq program
  have hdsf : ds.filter isStmtLabel = [] := by
    rw [List.filter_eq_nil_iff]
    intro d hd
    obtain ⟨v, rfl⟩ := hds d hd
    rw [stmtLabel_of_not_label _ (isLabel_semicolon _)]
    simp
  have hpre : (["#include <iostream>", "#include <string>", "using namespace std;", "",
      "int main() \x7b", "    // Variable declarations"] ++ ds
        ++ ["    ", "    L_START:", "    "]).filter isStmtLabel = [] := by
    rw [List.filter_append, List.filter_append, hdsf]
    decide
  refine ⟨?_, ?_, asm_statement_no_stmtLabel⟩
  · have hpost : (["    L_END:", "    return 0;", "\x7d"] : List String).filter isStmtLabel
        = [] := by decide
    rw [hgen, List.filter_append, List.filter_append, hpre, hpost]
    simpa using topLevel_stmtLabels program.statements 1 0
  · intro i hi
    obtain ⟨a, b, k, h1, h2⟩ := topLevel_index program.statements 1 0 i hi
    refine ⟨["#include <iostream>", "#include <string>", "using namespace std;", "",
      "int main() \x7b", "    // Variable declarations"] ++ ds
        ++ ["    ", "    L_START:", "    "] ++ a, b ++ ["    L_END:", "    return 0;", "\x7d"],
      k, ?_, ?_⟩
    · rw [hgen, h1]
      simp
    · rw [List.filter_append, hpre]
      simpa using h2

/-! ### No native control flow among the lines of the assembly backend -/

theorem last_append (a b : String) (c : Char) (hb : b.data.getLast? = some c) :
    (a ++ b).data.getLast? = some c := by
  have hne : b.data ≠ [] := by
    intro h
    rw [h] at hb
    simp at hb
  rw [String.data_append, List.getLast?_append_of_ne_nil _ hne, hb]

theorem last_indent (n : Nat) : (indentText n ++ "").data.getLast? ≠ some '\x7b' := by
  simp only [String.append_empty, indentText_data]
  cases h : 4 * n with
  | zero => simp
  | succ m =>
    rw [List.replicate_succ', List.getLast?_concat]
    decide

/-- A line that begins with neither keyword and does not end with a brace. -/
theorem plain_line (line : String) (h1 : beginsWith "if (" line = false)
    (h2 : beginsWith "while (" line = false) (h3 : line.data.getLast? ≠ some '\x7b') :
    noNativeControl line :=
  ⟨fun h => absurd h (by rw [h1]; decide), h2, fun h => absurd h h3⟩

/-- A keyword followed by ` (` does not begin a line that begins with an
identifier followed by ` = `. -/
theorem name_line_not_keyword (kw : List Char) (name tail : String)
    (hkw : ∀ c ∈ kw, c ≠ ' ' ∧ c ≠ '=') (h : isIdentifierText name = true) :
    beginsWith (String.mk (kw ++ [' ', '('])) (name ++ (" = " ++ tail)) = false := by
  have hc := identifier_chars name h
  have hw := keyword_not_prefix kw name.data (' ' :: tail.data) (fun c hc => (hkw c hc).1) hc
  have e1 : " = ".data = [' ', '=', ' '] := rfl
  unfold beginsWith
  simp only [String.data_append, e1]
  rcases hn : name.data with _ | ⟨c, cs⟩
  · cases kw with
    | nil => simp [List.dropWhile, List.isPrefixOf]
    | cons k kw =>
      have hk := (hkw k (by simp)).2
      simp [List.dropWhile, List.isPrefixOf, hk]
  · have hc1 : c ≠ ' ' := (hc c (by simp [hn])).1
    rw [hn] at hw
    have hd : (c :: cs ++ ([' ', '=', ' '] ++ tail.data)).dropWhile (fun c => c == ' ')
        = c :: cs ++ ' ' :: '=' :: ' ' :: tail.data := by
      rw [List.cons_append, dropWhile_space_cons _ _ hc1]
      simp
    rw [hd]
    exact hw

theorem template_line (n : Nat) (lit tail : String) (c : Char) (cs : List Char)
    (h : lit.data = c :: cs) (hc : c ≠ ' ')
    (h1 : "if (".data.isPrefixOf (c :: (cs ++ tail.data)) = false)
    (h2 : "while (".data.isPrefixOf (c :: (cs ++ tail.data)) = false)
    (h3 : (indentText n ++ (lit ++ tail)).data.getLast? ≠ some '\x7b') :
    noNativeControl (indentText n ++ (lit ++ tail)) := by
  refine plain_line _ ?_ ?_ h3
  · rw [beginsWith_indent, beginsWith_literal _ lit tail c cs h hc]
    exact h1
  · rw [beginsWith_indent, beginsWith_literal _ lit tail c cs h hc]
    exact h2

theorem last_ne_of_append (a b : String) (c : Char) (hb : b.data.getLast? = some c)
    (hc : c ≠ '\x7b') : (a ++ b).data.getLast? ≠ some '\x7b' := by
  rw [last_append a b c hb]
  intro h
  cases h
  exact hc rfl

/-- The lines of a statement whose names are identifiers hold no native
control flow. -/
theorem asm_statement_noNativeControl (stmt : Statement) (n k : Nat)
    (h : ∀ v ∈ stmt.names, isIdentifierText v = true) :
    ∀ line ∈ statementLines stmt n k, noNativeControl line := by
  refine asm_statement_lines_all noNativeControl (fun v => isIdentifierText v = true)
    ?_ ?_ ?_ ?_ ?_ ?_ ?_ ?_ stmt n k h
  · intro n v e hv
    refine plain_line _ ?_ ?_ (last_ne_of_append _ ";" ';' rfl (by decide))
    · simp only [String.append_assoc, beginsWith_indent]
      exact name_line_not_keyword ['i', 'f'] v _ (by decide) hv
    · simp only [String.append_assoc, beginsWith_indent]
      exact name_line_not_keyword ['w', 'h', 'i', 'l', 'e'] v _ (by decide) hv
  · intro n e
    have h := template_line n "cout << " (generateExpression e ++ ";") 'c'
      ['o', 'u', 't', ' ', '<', '<', ' '] rfl (by decide) rfl rfl
      (by simp only [← String.append_assoc]; exact last_ne_of_append _ ";" ';' rfl (by decide))
    simpa only [String.append_assoc] using h
  · intro n e
    have h := template_line n "cout << " (generateExpression e ++ " << endl;") 'c'
      ['o', 'u', 't', ' ', '<', '<', ' '] rfl (by decide) rfl rfl
      (by simp only [← String.append_assoc]
          exact last_ne_of_append _ " << endl;" ';' rfl (by decide))
    simpa only [String.append_assoc] using h
  · intro n text ht
    simp only [List.mem_cons, List.mem_singleton, List.not_mem_nil, or_false] at ht
    rcases ht with rfl | rfl | rfl | rfl | rfl
    · exact template_line n "// if condition" "" '/' _ rfl (by decide) rfl rfl
        (last_ne_of_append _ _ 'n' rfl (by decide))
    · exact template_line n "// then block" "" '/' _ rfl (by decide) rfl rfl
        (last_ne_of_append _ _ 'k' rfl (by decide))
    · exact template_line n "// else block" "" '/' _ rfl (by decide) rfl rfl
        (last_ne_of_append _ _ 'k' rfl (by decide))
    · exact template_line n "// while loop" "" '/' _ rfl (by decide) rfl rfl
        (last_ne_of_append _ _ 'p' rfl (by decide))
    · exact template_line n "// loop body" "" '/' _ rfl (by decide) rfl rfl
        (last_ne_of_append _ _ 'y' rfl (by decide))
  · intro n c pfx k
    refine ⟨fun _ => ⟨n, c, pfx, k, rfl⟩, ?_, fun h => ?_⟩
    · simp only [String.append_assoc, beginsWith_indent]
      rw [beginsWith_literal _ "if (!(" _ 'i' ['f', ' ', '(', '!', '('] rfl (by decide)]
      rfl
    · exact absurd h (last_ne_of_append _ ";" ';' rfl (by decide))
  · intro n
    refine plain_line _ ?_ ?_ (last_indent n)
    · rw [beginsWith_indent]; decide
    · rw [beginsWith_indent]; decide
  · intro n pfx k
    have h := template_line n "goto " (CodeGenerator.labelText pfx k ++ ";") 'g'
      ['o', 't', 'o', ' '] rfl (by decide) rfl rfl
      (by simp only [← String.append_assoc]; exact last_ne_of_append _ ";" ';' rfl (by decide))
    simpa only [String.append_assoc] using h
  · intro n pfx hp k
    have hl : (indentText n ++ CodeGenerator.labelText pfx k ++ ":").data.getLast?
        ≠ some '\x7b' := last_ne_of_append _ ":" ':' rfl (by decide)
    refine plain_line _ ?_ ?_ hl
    · simp only [CodeGenerator.labelText, String.append_assoc, beginsWith_indent]
      simp only [List.mem_cons, List.mem_singleton, List.not_mem_nil, or_false] at hp
      rcases hp with rfl | rfl | rfl | rfl
      · rw [beginsWith_literal _ "L_ELSE" _ 'L' ['_', 'E', 'L', 'S', 'E'] rfl (by decide)]; rfl
      · rw [beginsWith_literal _ "L_IF_END" _ 'L' ['_', 'I', 'F', '_', 'E', 'N', 'D'] rfl
          (by decide)]; rfl
      · rw [beginsWith_literal _ "L_LOOP" _ 'L' ['_', 'L', 'O', 'O', 'P'] rfl (by decide)]; rfl
      · rw [beginsWith_literal _ "L_LOOP_END" _ 'L'
          ['_', 'L', 'O', 'O', 'P', '_', 'E', 'N', 'D'] rfl (by decide)]; rfl
    · simp only [CodeGenerator.labelText, String.append_assoc, beginsWith_indent]
      simp only [List.mem_cons, List.mem_singleton, List.not_mem_nil, or_false] at hp
      rcases hp with rfl | rfl | rfl | rfl
      · rw [beginsWith_literal _ "L_ELSE" _ 'L' ['_', 'E', 'L', 'S', 'E'] rfl (by decide)]; rfl
      · rw [beginsWith_literal _ "L_IF_END" _ 'L' ['_', 'I', 'F', '_', 'E', 'N', 'D'] rfl
          (by decide)]; rfl
      · rw [beginsWith_literal _ "L_LOOP" _ 'L' ['_', 'L', 'O', 'O', 'P'] rfl (by decide)]; rfl
      · rw [beginsWith_literal _ "L_LOOP_END" _ 'L'
          ['_', 'L', 'O', 'O', 'P', '_', 'E', 'N', 'D'] rfl (by decide)]; rfl

/-- The top-level lines of statements whose names are identifiers hold no
native control flow. -/
theorem topLevel_noNativeControl : ∀ (stmts : List Statement) (n k : Nat),
    (∀ v ∈ Statement.listNames stmts, isIdentifierText v = true) →
    ∀ line ∈ topLevelLines stmts n k, noNativeControl line := by
  intro stmts
  induction stmts with
  | nil => intro n k _ line hl; simp [topLevelLines] at hl
  | cons s ss ih =>
    intro n k h line hl
    simp only [Statement.listNames, List.mem_append] at h
    simp only [topLevelLines, List.mem_append, List.mem_singleton] at hl
    rcases hl with ((hl | hl) | hl) | hl
    · subst hl
      refine plain_line _ ?_ ?_ (last_ne_of_append _ ":" ':' rfl (by decide))
      · simp only [CodeGenerator.labelText, String.append_assoc, beginsWith_indent]
        rw [beginsWith_literal _ "L_STMT" _ 'L' ['_', 'S', 'T', 'M', 'T'] rfl (by decide)]; rfl
      · simp only [CodeGenerator.labelText, String.append_assoc, beginsWith_indent]
        rw [beginsWith_literal _ "L_STMT" _ 'L' ['_', 'S', 'T', 'M', 'T'] rfl (by decide)]; rfl
    · exact asm_statement_noNativeControl s n (k + 1) (fun v hv => h v (Or.inl hv)) line hl
    · subst hl
      refine plain_line _ ?_ ?_ (last_indent n)
      · rw [beginsWith_indent]; decide
      · rw [beginsWith_indent]; decide
    · exact ih n _ (fun v hv => h v (Or.inr hv)) line hl

/-- The lines of a program whose names are identifiers hold no native control
flow. -/
theorem program_noNativeControl (program : ProgramNode)
    (h : ∀ v ∈ Statement.listNames program.statements, isIdentifierText v = true) :
    ∀ line ∈ generatedLines program, noNativeControl line := by
  obtain ⟨ds, hgen, hds⟩ := asm_generatedLines_eq program
  intro line hl
  rw [hgen] at hl
  simp only [List.mem_append, List.mem_cons, List.mem_singleton, List.not_mem_nil, or_false] at hl
  rcases hl with (((hl | hl) | hl) | hl) | hl
  · rcases hl with rfl | rfl | rfl | rfl | rfl | rfl
    · exact plain_line _ (by decide) (by decide) (by decide)
    · exact plain_line _ (by decide) (by decide) (by decide)
    · exact plain_line _ (by decide) (by decide) (by decide)
    · exact plain_line _ (by decide) (by decide) (by decide)
    · exact ⟨fun h => absurd h (by decide), by decide, fun _ => rfl⟩
    · exact plain_line _ (by decide) (by decide) (by decide)
  · obtain ⟨v, rfl⟩ := hds line hl
    have h := template_line 1 "int " (v ++ ";") 'i' ['n', 't', ' '] rfl (by decide) rfl rfl
      (by simp only [← String.append_assoc]; exact last_ne_of_append _ ";" ';' rfl (by decide))
    simpa only [String.append_assoc] using h
  · rcases hl with rfl | rfl | rfl
    · exact plain_line _ (by decide) (by decide) (by decide)
    · exact plain_line _ (by decide) (by decide) (by decide)
    · exact plain_line _ (by decide) (by decide) (by decide)
  · exact topLevel_noNativeControl program.statements 1 0 h line hl
  · rcases hl with rfl | rfl | rfl
    · exact plain_line _ (by decide) (by decide) (by decide)
    · exact plain_line _ (by decide) (by decide) (by decide)
    · exact plain_line _ (by decide) (by decide) (by decide)

end Assembly

/-! ## The parser -/

namespace Parser


theorem peek_of_get (tokens : List Token) (i : Nat) (t : Token) (h : tokens[i]? = some t) :
    peek tokens i = .ok t := by
  simp [peek, h]

theorem previous_succ (tokens : List Token) (i : Nat) : previous tokens (i + 1) = peek tokens i := by
  simp [previous]

theorem isAtEnd_of_get (tokens : List Token) (i : Nat) (t : Token) (h : tokens[i]? = some t) :
    isAtEnd tokens i = .ok (t.type == .EOF_TOKEN) := by
  simp [isAtEnd, peek_of_get tokens i t h, bind, Except.bind, pure, Except.pure]

theorem check_of_get (tokens : List Token) (i : Nat) (t : Token) (type : TokenType)
    (h : tokens[i]? = some t) :
    check tokens i type = .ok (!(t.type == .EOF_TOKEN) && t.type == type) := by
  simp only [check, isAtEnd_of_get tokens i t h, peek_of_get tokens i t h, bind, Except.bind, pure, Except.pure]
  cases h1 : (t.type == TokenType.EOF_TOKEN) <;> simp

theorem advance_of_get (tokens : List Token) (i : Nat) (t : Token)
    (h : tokens[i]? = some t) (hne : t.type ≠ .EOF_TOKEN) :
    advance tokens i = .ok (t, i + 1) := by
  simp [advance, isAtEnd_of_get tokens i t h, previous_succ, peek_of_get tokens i t h, bind, Except.bind, pure, Except.pure, hne]

theorem matchToken_hit (tokens : List Token) (i : Nat) (t : Token) (type : TokenType)
    (h : tokens[i]? = some t) (ht : t.type = type) (hne : type ≠ .EOF_TOKEN) :
    matchToken tokens i type = .ok (true, i + 1) := by
  subst ht
  simp [matchToken, check_of_get tokens i t _ h, advance_of_get tokens i t h hne, bind, Except.bind, pure, Except.pure, hne]

theorem matchToken_miss (tokens : List Token) (i : Nat) (t : Token) (type : TokenType)
    (h : tokens[i]? = some t) (ht : t.type ≠ type) :
    matchToken tokens i type = .ok (false, i) := by
  simp [matchToken, check_of_get tokens i t _ h, bind, Except.bind, pure, Except.pure, ht]

theorem consume_hit (tokens : List Token) (i : Nat) (t : Token) (type : TokenType) (message : String)
    (h : tokens[i]? = some t) (ht : t.type = type) (hne : type ≠ .EOF_TOKEN) :
    consume tokens i type message = .ok (t, i + 1) := by
  subst ht
  simp [consume, check_of_get tokens i t _ h, advance_of_get tokens i t h hne, bind, Except.bind, pure, Except.pure, hne]

theorem consume_miss (tokens : List Token) (i : Nat) (t : Token) (type : TokenType) (message : String)
    (h : tokens[i]? = some t) (ht : t.type ≠ type) :
    consume tokens i type message = .error (.runtime_error (consumeMessage message t)) := by
  simp [consume, check_of_get tokens i t _ h, peek_of_get tokens i t h, bind, Except.bind, pure, Except.pure, ht, throw, throwThe, MonadExceptOf.throw]

theorem matchAny_miss (tokens : List Token) (i : Nat) (t : Token) (types : List TokenType)
    (h : tokens[i]? = some t) (ht : t.type ∉ types) :
    matchAny tokens i types = .ok (false, i) := by
  induction types with
  | nil => rfl
  | cons ty tys ih =>
    simp only [List.mem_cons, not_or] at ht
    simp [matchAny, matchToken_miss tokens i t ty h ht.1, ih ht.2, bind, Except.bind]

/-- A declaration without a name fails in `consume`. -/
theorem parseStatement_var_without_name (tokens : List Token) (current : Nat) (v t : Token) (fuel : Nat)
    (h0 : tokens[current]? = some v) (hv : v.type = .VAR)
    (h1 : tokens[current + 1]? = some t) (ht : t.type ≠ .IDENTIFIER) :
    parseStatement (fuel + 1) tokens current
      = .error (.runtime_error (consumeMessage "Expected variable name after 'var'" t)) := by
  simp [parseStatement, matchToken_hit tokens current v .VAR h0 hv (by decide), parseVarDeclaration,
    consume_miss tokens (current + 1) t .IDENTIFIER _ h1 ht, bind, Except.bind]

theorem matchAny_hit (tokens : List Token) (i : Nat) (t : Token) (types : List TokenType)
    (h : tokens[i]? = some t) (ht : t.type ∈ types) (hne : TokenType.EOF_TOKEN ∉ types) :
    matchAny tokens i types = .ok (true, i + 1) := by
  induction types with
  | nil => simp at ht
  | cons ty tys ih =>
    simp only [List.mem_cons, not_or] at hne
    by_cases hty : t.type = ty
    · simp [matchAny, matchToken_hit tokens i t ty h hty (Ne.symm hne.1), bind, Except.bind, pure, Except.pure]
    · have ht2 : t.type ∈ tys := by
        rcases List.mem_cons.mp ht with h1 | h1
        · exact absurd h1 hty
        · exact h1
      simp [matchAny, matchToken_miss tokens i t ty h hty, ih ht2 hne.2, bind, Except.bind]

theorem parseTermLoop_done (fuel : Nat) (tokens : List Token) (i : Nat) (t : Token)
    (e : Expression) (h : tokens[i]? = some t)
    (ht : t.type ∉ [TokenType.MULTIPLY, TokenType.DIVIDE]) :
    parseTermLoop (fuel + 1) tokens i e = .ok (e, i) := by
  simp [parseTermLoop, matchAny_miss tokens i t _ h ht, bind, Except.bind, pure, Except.pure]

theorem parseExpressionLoop_done (fuel : Nat) (tokens : List Token) (i : Nat) (t : Token)
    (e : Expression) (h : tokens[i]? = some t)
    (ht : t.type ∉ [TokenType.PLUS, TokenType.MINUS]) :
    parseExpressionLoop (fuel + 1) tokens i e = .ok (e, i) := by
  simp [parseExpressionLoop, matchAny_miss tokens i t _ h ht, bind, Except.bind, pure, Except.pure]

theorem parseTermLoop_step (fuel : Nat) (tokens : List Token) (i : Nat) (t : Token)
    (e : Expression) (h : tokens[i]? = some t)
    (ht : t.type ∈ [TokenType.MULTIPLY, TokenType.DIVIDE]) :
    parseTermLoop (fuel + 1) tokens i e
      = (parseFactor fuel tokens (i + 1)).bind (fun right =>
          parseTermLoop fuel tokens right.2 (.BinaryExpression e t.value right.1)) := by
  simp [parseTermLoop, matchAny_hit tokens i t _ h ht (by decide), previous_succ,
    peek_of_get tokens i t h, bind, Except.bind]

theorem parseExpressionLoop_step (fuel : Nat) (tokens : List Token) (i : Nat) (t : Token)
    (e : Expression) (h : tokens[i]? = some t)
    (ht : t.type ∈ [TokenType.PLUS, TokenType.MINUS]) :
    parseExpressionLoop (fuel + 1) tokens i e
      = (parseTerm fuel tokens (i + 1)).bind (fun right =>
          parseExpressionLoop fuel tokens right.2 (.BinaryExpression e t.value right.1)) := by
  simp [parseExpressionLoop, matchAny_hit tokens i t _ h ht (by decide), previous_succ,
    peek_of_get tokens i t h, bind, Except.bind]

theorem parseTerm_succ (fuel : Nat) (tokens : List Token) (i : Nat) :
    parseTerm (fuel + 1) tokens i
      = (parseFactor fuel tokens i).bind (fun r => parseTermLoop fuel tokens r.2 r.1) := by
  simp [parseTerm, bind]

theorem parseExpression_succ (fuel : Nat) (tokens : List Token) (i : Nat) :
    parseExpression (fuel + 1) tokens i
      = (parseTerm fuel tokens i).bind (fun r => parseExpressionLoop fuel tokens r.2 r.1) := by
  simp [parseExpression, bind]

/-- The precedence of `*` over `+` on three factors. -/
theorem precedence_of_factors (tokens : List Token) (i j k l : Nat) (a b c : Expression)
    (op1 op2 next : Token)
    (ha : ∃ N, ∀ fuel, N ≤ fuel → parseFactor fuel tokens i = .ok (a, j))
    (h1 : tokens[j]? = some op1)
    (hb : ∃ N, ∀ fuel, N ≤ fuel → parseFactor fuel tokens (j + 1) = .ok (b, k))
    (h2 : tokens[k]? = some op2)
    (hc : ∃ N, ∀ fuel, N ≤ fuel → parseFactor fuel tokens (k + 1) = .ok (c, l))
    (hn : tokens[l]? = some next)
    (hnt : next.type ∉ [TokenType.PLUS, TokenType.MINUS, TokenType.MULTIPLY, TokenType.DIVIDE]) :
    (op1.type = .PLUS → op2.type = .MULTIPLY →
      ∃ N, ∀ fuel, N ≤ fuel → parseExpression fuel tokens i
        = .ok (.BinaryExpression a op1.value (.BinaryExpression b op2.value c), l))
    ∧ (op1.type = .MULTIPLY → op2.type = .PLUS →
      ∃ N, ∀ fuel, N ≤ fuel → parseExpression fuel tokens i
        = .ok (.BinaryExpression (.BinaryExpression a op1.value b) op2.value c, l)) := by
  obtain ⟨Na, ha⟩ := ha
  obtain ⟨Nb, hb⟩ := hb
  obtain ⟨Nc, hc⟩ := hc
  simp only [List.mem_cons, List.mem_singleton, List.not_mem_nil, or_false, not_or] at hnt
  have hnE : next.type ∉ [TokenType.PLUS, TokenType.MINUS] := by simp [hnt.1, hnt.2.1]
  have hnT : next.type ∉ [TokenType.MULTIPLY, TokenType.DIVIDE] := by simp [hnt.2.2.1, hnt.2.2.2]
  constructor
  · intro hp hm
    refine ⟨Na + Nb + Nc + 5, ?_⟩
    intro fuel hf
    obtain ⟨n, rfl⟩ : ∃ n, fuel = n + 5 := ⟨fuel - 5, by omega⟩
    rw [parseExpression_succ, parseTerm_succ, ha (n + 3) (by omega)]
    simp only [Except.bind]
    rw [parseTermLoop_done _ tokens j op1 a h1 (by simp [hp])]
    simp only [Except.bind]
    rw [parseExpressionLoop_step _ tokens j op1 a h1 (by simp [hp]), parseTerm_succ,
      hb (n + 2) (by omega)]
    simp only [Except.bind]
    rw [parseTermLoop_step _ tokens k op2 b h2 (by simp [hm]), hc (n + 1) (by omega)]
    simp only [Except.bind]
    rw [parseTermLoop_done _ tokens l next _ hn hnT]
    simp only [Except.bind]
    rw [parseExpressionLoop_done _ tokens l next _ hn hnE]
  · intro hm hp
    refine ⟨Na + Nb + Nc + 5, ?_⟩
    intro fuel hf
    obtain ⟨n, rfl⟩ : ∃ n, fuel = n + 5 := ⟨fuel - 5, by omega⟩
    rw [parseExpression_succ, parseTerm_succ, ha (n + 3) (by omega)]
    simp only [Except.bind]
    rw [parseTermLoop_step _ tokens j op1 a h1 (by simp [hm]), hb (n + 2) (by omega)]
    simp only [Except.bind]
    rw [parseTermLoop_done _ tokens k op2 _ h2 (by simp [hp])]
    simp only [Except.bind]
    rw [parseExpressionLoop_step _ tokens k op2 _ h2 (by simp [hp]), parseTerm_succ,
      hc (n + 2) (by omega)]
    simp only [Except.bind]
    rw [parseTermLoop_done _ tokens l next _ hn hnT]
    simp only [Except.bind]
    rw [parseExpressionLoop_done _ tokens l next _ hn hnE]

/-- C1: multiplicative operators bind tighter than additive ones.  The source
`var x = 2 + 3 * 4;` lexes and parses to the declaration of `x` with the
initializer Binary(2, +, Binary(3, *, 4)), for which the structured backend
writes the line `int x = (2 + (3 * 4));`.  In general, when a factor `a` is
parsed at index `i` up to `j`, a factor `b` at `j + 1` up to `k`, a factor `c`
at `k + 1` up to `l`, and the token at `l` is no arithmetic operator, then
with `+` at `j` and `*` at `k` the expression parsed at `i` is
Binary(a, +, Binary(b, *, c)), and with `*` at `j` and `+` at `k` it is
Binary(Binary(a, *, b), +, c); the operator text is the text of the token. -/
theorem multiplicative_binds_tighter :
    (tokenize Examples.declSource = Examples.declTokens
      ∧ parse 100 Examples.declTokens = .ok ⟨[Examples.declStatement]⟩
      ∧ (Structured.CodeGenerator.generate Structured.CodeGenerator.new
          ⟨[Examples.declStatement]⟩).output.lines
        = ["#include <iostream>", "#include <string>", "using namespace std;", "",
           "int main() \x7b", "    int x = (2 + (3 * 4));", "    return 0;", "\x7d"])
    ∧ ∀ (tokens : List Token) (i j k l : Nat) (a b c : Expression) (op1 op2 next : Token),
      (∃ N, ∀ fuel, N ≤ fuel → parseFactor fuel tokens i = .ok (a, j)) →
      tokens[j]? = some op1 →
      (∃ N, ∀ fuel, N ≤ fuel → parseFactor fuel tokens (j + 1) = .ok (b, k)) →
      tokens[k]? = some op2 →
      (∃ N, ∀ fuel, N ≤ fuel → parseFactor fuel tokens (k + 1) = .ok (c, l)) →
      tokens[l]? = some next →
      next.type ∉ [TokenType.PLUS, TokenType.MINUS, TokenType.MULTIPLY, TokenType.DIVIDE] →
      (op1.type = .PLUS → op2.type = .MULTIPLY →
        ∃ N, ∀ fuel, N ≤ fuel → parseExpression fuel tokens i
          = .ok (.BinaryExpression a op1.value (.BinaryExpression b op2.value c), l))
      ∧ (op1.type = .MULTIPLY → op2.type = .PLUS →
        ∃ N, ∀ fuel, N ≤ fuel → parseExpression fuel tokens i
          = .ok (.BinaryExpression (.BinaryExpression a op1.value b) op2.value c, l)) :=
  ⟨⟨by decide, by rfl, by rfl⟩,
    fun tokens i j k l a b c op1 op2 next ha h1 hb h2 hc hn hnt =>
      precedence_of_factors tokens i j k l a b c op1 op2 next ha h1 hb h2 hc hn hnt⟩

/-- Witness for C1: in the tokens of `var x = 2 + 3 * 4;` the factors `2`,
`3`, `4` stand at the indices 3, 5, 7, with `+` at 4, `*` at 6 and `;` at 8,
and the expression parsed at index 3 is Binary(2, +, Binary(3, *, 4)). -/
theorem multiplicative_binds_tighter_witness :
    ∃ N, ∀ fuel, N ≤ fuel → parseExpression fuel Examples.declTokens 3
      = .ok (.BinaryExpression (.IntegerLiteral 2) "+"
          (.BinaryExpression (.IntegerLiteral 3) "*" (.IntegerLiteral 4)), 8) :=
  (multiplicative_binds_tighter.2 Examples.declTokens 3 4 6 8
    (.IntegerLiteral 2) (.IntegerLiteral 3) (.IntegerLiteral 4)
    ⟨.PLUS, "+", 1, 11⟩ ⟨.MULTIPLY, "*", 1, 15⟩ ⟨.SEMICOLON, ";", 1, 18⟩
    ⟨1, fun fuel h => by obtain ⟨n, rfl⟩ : ∃ n, fuel = n + 1 := ⟨fuel - 1, by omega⟩; rfl⟩
    rfl
    ⟨1, fun fuel h => by obtain ⟨n, rfl⟩ : ∃ n, fuel = n + 1 := ⟨fuel - 1, by omega⟩; rfl⟩
    rfl
    ⟨1, fun fuel h => by obtain ⟨n, rfl⟩ : ∃ n, fuel = n + 1 := ⟨fuel - 1, by omega⟩; rfl⟩
    rfl (by decide)).1 rfl rfl

theorem bind_ok_iff {ε α β : Type} (x : Except ε α) (f : α → Except ε β) (b : β) :
    (x >>= f) = .ok b ↔ ∃ a, x = .ok a ∧ f a = .ok b := by
  cases x <;> simp [bind, Except.bind]

theorem pure_ok_iff {ε α : Type} (a b : α) :
    (pure a : Except ε α) = .ok b ↔ a = b := by
  simp [pure, Except.pure]

/-- The expressions returned by the expression parser hold no comparison. -/
theorem parseExpression_noComparison : ∀ (fuel : Nat) (tokens : List Token),
    (∀ current e n, parseExpression fuel tokens current = .ok (e, n) →
        e.hasComparison = false)
    ∧ (∀ current expr e n, expr.hasComparison = false →
        parseExpressionLoop fuel tokens current expr = .ok (e, n) → e.hasComparison = false)
    ∧ (∀ current e n, parseTerm fuel tokens current = .ok (e, n) → e.hasComparison = false)
    ∧ (∀ current expr e n, expr.hasComparison = false →
        parseTermLoop fuel tokens current expr = .ok (e, n) → e.hasComparison = false)
    ∧ (∀ current e n, parseFactor fuel tokens current = .ok (e, n) →
        e.hasComparison = false) := by
  intro fuel tokens
  induction fuel with
  | zero =>
    refine ⟨?_, ?_, ?_, ?_, ?_⟩ <;> intros <;> simp_all [parseExpression, parseExpressionLoop,
      parseTerm, parseTermLoop, parseFactor]
  | succ fuel ih =>
    obtain ⟨ihE, ihEL, ihT, ihTL, ihF⟩ := ih
    refine ⟨?_, ?_, ?_, ?_, ?_⟩
    · intro current e n h
      simp only [parseExpression, bind_ok_iff] at h
      obtain ⟨r, hr, h⟩ := h
      exact ihEL _ _ _ _ (ihT _ _ _ (by rw [hr])) h
    · intro current expr e n hexpr h
      simp only [parseExpressionLoop, bind_ok_iff] at h
      obtain ⟨m, hm, h⟩ := h
      split_ifs at h with hm1
      · simp only [bind_ok_iff] at h
        obtain ⟨op, hop, right, hright, h⟩ := h
        refine ihEL _ _ _ _ ?_ h
        simp [Expression.hasComparison, hexpr, ihT _ _ _ (by rw [hright])]
      · simp only [pure_ok_iff, Prod.mk.injEq] at h
        rw [← h.1]; exact hexpr
    · intro current e n h
      simp only [parseTerm, bind_ok_iff] at h
      obtain ⟨r, hr, h⟩ := h
      exact ihTL _ _ _ _ (ihF _ _ _ (by rw [hr])) h
    · intro current expr e n hexpr h
      simp only [parseTermLoop, bind_ok_iff] at h
      obtain ⟨m, hm, h⟩ := h
      split_ifs at h with hm1
      · simp only [bind_ok_iff] at h
        obtain ⟨op, hop, right, hright, h⟩ := h
        refine ihTL _ _ _ _ ?_ h
        simp [Expression.hasComparison, hexpr, ihF _ _ _ (by rw [hright])]
      · simp only [pure_ok_iff, Prod.mk.injEq] at h
        rw [← h.1]; exact hexpr
    · intro current e n h
      simp only [parseFactor, bind_ok_iff] at h
      obtain ⟨m1, hm1, h⟩ := h
      split_ifs at h with h1
      · simp only [bind_ok_iff, pure_ok_iff, Prod.mk.injEq] at h
        obtain ⟨p, hp, v, hv, h⟩ := h
        rw [← h.1]; rfl
      · simp only [bind_ok_iff] at h
        obtain ⟨m2, hm2, h⟩ := h
        split_ifs at h with h2
        · simp only [bind_ok_iff, pure_ok_iff, Prod.mk.injEq] at h
          obtain ⟨c1, hc1, c2, hc2, h⟩ := h
          rw [← h.1]; rfl
        · simp only [bind_ok_iff] at h
          obtain ⟨m3, hm3, h⟩ := h
          split_ifs at h with h3
          · simp only [bind_ok_iff, pure_ok_iff, Prod.mk.injEq] at h
            obtain ⟨p, hp, h⟩ := h
            rw [← h.1]; rfl
          · simp only [bind_ok_iff] at h
            obtain ⟨m4, hm4, h⟩ := h
            split_ifs at h with h4
            · simp only [bind_ok_iff, pure_ok_iff, Prod.mk.injEq] at h
              obtain ⟨e1, he1, c, hc, h⟩ := h
              rw [← h.1]
              exact ihE _ _ _ (by rw [he1])
            · simp only [bind_ok_iff] at h
              obtain ⟨t, ht, h⟩ := h
              simp [throw, throwThe, MonadExceptOf.throw] at h


theorem parseExpression_hasComparison (fuel : Nat) (tokens : List Token) (current : Nat)
    (r : Expression × Nat) (h : parseExpression fuel tokens current = .ok r) :
    r.1.hasComparison = false :=
  (parseExpression_noComparison fuel tokens).1 current r.1 r.2 h

theorem listComparisons_append (xs : List Statement) (s : Statement) :
    Statement.listComparisonsOnlyAsConditions (xs ++ [s])
      = (Statement.listComparisonsOnlyAsConditions xs && s.comparisonsOnlyAsConditions) := by
  induction xs with
  | nil => simp [Statement.listComparisonsOnlyAsConditions]
  | cons x xs ih => simp [Statement.listComparisonsOnlyAsConditions, ih, Bool.and_assoc]

theorem parseBooleanExpression_noComparison (fuel : Nat) (tokens : List Token) (current : Nat)
    (r : BooleanExpression × Nat) (h : parseBooleanExpression fuel tokens current = .ok r) :
    r.1.left.hasComparison = false ∧ r.1.right.hasComparison = false := by
  simp only [parseBooleanExpression, bind_ok_iff] at h
  obtain ⟨left, hleft, m, hm, h⟩ := h
  split_ifs at h with h1
  · simp only [bind_ok_iff] at h
    obtain ⟨t, ht, h⟩ := h
    simp [throw, throwThe, MonadExceptOf.throw] at h
  · simp only [bind_ok_iff, pure_ok_iff] at h
    obtain ⟨op, hop, right, hright, h⟩ := h
    rw [← h]
    exact ⟨parseExpression_hasComparison _ _ _ _ hleft,
      parseExpression_hasComparison _ _ _ _ hright⟩

theorem parseSimple_noComparison (fuel : Nat) (tokens : List Token) (current : Nat)
    (r : Statement × Nat) :
    (parseVarDeclaration fuel tokens current = .ok r → r.1.comparisonsOnlyAsConditions = true)
    ∧ (parseAssignmentStatement fuel tokens current = .ok r →
        r.1.comparisonsOnlyAsConditions = true)
    ∧ (parsePrintStatement fuel tokens current = .ok r →
        r.1.comparisonsOnlyAsConditions = true)
    ∧ (parsePrintLineStatement fuel tokens current = .ok r →
        r.1.comparisonsOnlyAsConditions = true) := by
  refine ⟨?_, ?_, ?_, ?_⟩
  · intro h
    simp only [parseVarDeclaration, bind_ok_iff, pure_ok_iff] at h
    obtain ⟨i, hi, c, hc, e, he, c1, hc1, h⟩ := h
    rw [← h]
    simp [Statement.comparisonsOnlyAsConditions, parseExpression_hasComparison _ _ _ _ he]
  · intro h
    simp only [parseAssignmentStatement, bind_ok_iff, pure_ok_iff] at h
    obtain ⟨i, hi, c, hc, e, he, c1, hc1, h⟩ := h
    rw [← h]
    simp [Statement.comparisonsOnlyAsConditions, parseExpression_hasComparison _ _ _ _ he]
  · intro h
    simp only [parsePrintStatement, bind_ok_iff, pure_ok_iff] at h
    obtain ⟨c, hc, e, he, c1, hc1, c2, hc2, h⟩ := h
    rw [← h]
    simp [Statement.comparisonsOnlyAsConditions, parseExpression_hasComparison _ _ _ _ he]
  · intro h
    simp only [parsePrintLineStatement, bind_ok_iff, pure_ok_iff] at h
    obtain ⟨c, hc, e, he, c1, hc1, c2, hc2, h⟩ := h
    rw [← h]
    simp [Statement.comparisonsOnlyAsConditions, parseExpression_hasComparison _ _ _ _ he]

/-- The statements returned by the statement parser hold comparisons only as
conditions. -/
theorem parseStatement_noComparison : ∀ (fuel : Nat) (tokens : List Token),
    (∀ current r, parseStatement fuel tokens current = .ok r →
        r.1.comparisonsOnlyAsConditions = true)
    ∧ (∀ current acc r, Statement.listComparisonsOnlyAsConditions acc = true →
        parseBlock fuel tokens current acc = .ok r →
        Statement.listComparisonsOnlyAsConditions r.1 = true)
    ∧ (∀ current r, parseIfStatement fuel tokens current = .ok r →
        r.1.comparisonsOnlyAsConditions = true)
    ∧ (∀ current r, parseWhileStatement fuel tokens current = .ok r →
        r.1.comparisonsOnlyAsConditions = true) := by
  intro fuel tokens
  induction fuel with
  | zero =>
    refine ⟨?_, ?_, ?_, ?_⟩ <;> intros <;> simp_all [parseStatement, parseBlock,
      parseIfStatement, parseWhileStatement]
  | succ fuel ih =>
    obtain ⟨ihS, ihB, ihI, ihW⟩ := ih
    refine ⟨?_, ?_, ?_, ?_⟩
    · intro current r h
      simp only [parseStatement, bind_ok_iff] at h
      obtain ⟨m1, hm1, h⟩ := h
      split_ifs at h with h1
      · exact (parseSimple_noComparison _ _ _ r).1 h
      · simp only [bind_ok_iff] at h
        obtain ⟨m2, hm2, h⟩ := h
        split_ifs at h with h2
        · exact (parseSimple_noComparison _ _ _ r).2.2.1 h
        · simp only [bind_ok_iff] at h
          obtain ⟨m3, hm3, h⟩ := h
          split_ifs at h with h3
          · exact (parseSimple_noComparison _ _ _ r).2.2.2 h
          · simp only [bind_ok_iff] at h
            obtain ⟨m4, hm4, h⟩ := h
            split_ifs at h with h4
            · exact ihI _ _ h
            · simp only [bind_ok_iff] at h
              obtain ⟨m5, hm5, h⟩ := h
              split_ifs at h with h5
              · exact ihW _ _ h
              · exact (parseSimple_noComparison _ _ _ r).2.1 h
    · intro current acc r hacc h
      simp only [parseBlock, bind_ok_iff] at h
      obtain ⟨b, hb, h⟩ := h
      split_ifs at h with h1
      · simp only [bind_ok_iff] at h
        obtain ⟨s, hs, h⟩ := h
        refine ihB _ _ _ ?_ h
        rw [listComparisons_append, hacc, ihS _ _ hs]
        rfl
      · simp only [pure_ok_iff] at h
        rw [← h]; exact hacc
    · intro current r h
      simp only [parseIfStatement, bind_ok_iff] at h
      obtain ⟨c1, hc1, cond, hcond, c2, hc2, c3, hc3, t, ht, c4, hc4, m, hm, h⟩ := h
      have hcnd := parseBooleanExpression_noComparison _ _ _ _ hcond
      have hthen := ihB _ [] _ rfl ht
      split_ifs at h with h1
      · simp only [bind_ok_iff, pure_ok_iff] at h
        obtain ⟨c5, hc5, e, he, c6, hc6, h⟩ := h
        have helse := ihB _ [] _ rfl he
        rw [← h]
        simp [Statement.comparisonsOnlyAsConditions, hcnd.1, hcnd.2, hthen, helse]
      · simp only [pure_ok_iff] at h
        rw [← h]
        simp [Statement.comparisonsOnlyAsConditions, hcnd.1, hcnd.2, hthen,
          Statement.listComparisonsOnlyAsConditions]
    · intro current r h
      simp only [parseWhileStatement, bind_ok_iff, pure_ok_iff] at h
      obtain ⟨c1, hc1, cond, hcond, c2, hc2, c3, hc3, b, hb, c4, hc4, h⟩ := h
      have hcnd := parseBooleanExpression_noComparison _ _ _ _ hcond
      have hbody := ihB _ [] _ rfl hb
      rw [← h]
      simp [Statement.comparisonsOnlyAsConditions, hcnd.1, hcnd.2, hbody]

theorem parseLoop_noComparison : ∀ (fuel : Nat) (tokens : List Token) (current : Nat)
    (acc : List Statement) (r : List Statement × Nat),
    Statement.listComparisonsOnlyAsConditions acc = true →
    parseLoop fuel tokens current acc = .ok r →
    Statement.listComparisonsOnlyAsConditions r.1 = true := by
  intro fuel
  induction fuel with
  | zero => intro tokens current acc r _ h; simp [parseLoop] at h
  | succ fuel ih =>
    intro tokens current acc r hacc h
    simp only [parseLoop, bind_ok_iff] at h
    obtain ⟨b, hb, h⟩ := h
    split_ifs at h with h1
    · simp only [bind_ok_iff] at h
      obtain ⟨s, hs, h⟩ := h
      refine ih _ _ _ _ ?_ h
      rw [listComparisons_append, hacc, (parseStatement_noComparison fuel tokens).1 _ _ hs]
      rfl
    · simp only [pure_ok_iff] at h
      rw [← h]; exact hacc

/-- C10: for every token list on which `parse` succeeds, comparison nodes
occur in the program only as the condition of an if or while statement: no
expression of a declaration, assignment, print or println statement holds a
comparison node, at its root or as an operand at any depth, and neither do
the two operands of a condition. -/
theorem comparisons_only_as_conditions (fuel : Nat) (tokens : List Token)
    (program : ProgramNode) (h : parse fuel tokens = .ok program) :
    Statement.listComparisonsOnlyAsConditions program.statements = true := by
  simp only [parse, bind_ok_iff, pure_ok_iff] at h
  obtain ⟨r, hr, h⟩ := h
  rw [← h]
  exact parseLoop_noComparison fuel tokens 0 [] r rfl hr

/-- Witness for C10: the tokens of `if (x == 0) { println(x); }` parse, and
the comparison `x == 0` stands only as the condition. -/
theorem comparisons_only_as_conditions_witness :
    parse 100 Examples.ifTokens = .ok ⟨[Examples.ifStatement]⟩
      ∧ Statement.listComparisonsOnlyAsConditions [Examples.ifStatement] = true :=
  ⟨by rfl, comparisons_only_as_conditions 100 Examples.ifTokens ⟨[Examples.ifStatement]⟩
    (by rfl)⟩

/-! ### Failures at the start of a statement -/

theorem kindAt_get (tokens : List Token) (i : Nat) (type : TokenType)
    (h : kindAt tokens i = some type) : ∃ t, tokens[i]? = some t ∧ t.type = type := by
  unfold kindAt at h
  cases ht : tokens[i]? with
  | none => simp [ht] at h
  | some t => exact ⟨t, rfl, by simpa [ht] using h⟩

theorem matchToken_kind (tokens : List Token) (i : Nat) (type : TokenType)
    (h : kindAt tokens i = some type) (hne : type ≠ .EOF_TOKEN) :
    matchToken tokens i type = .ok (true, i + 1) := by
  obtain ⟨t, ht, hty⟩ := kindAt_get tokens i type h
  exact matchToken_hit tokens i t type ht hty hne

theorem matchToken_other (tokens : List Token) (i : Nat) (kind type : TokenType)
    (h : kindAt tokens i = some kind) (hne : kind ≠ type) :
    matchToken tokens i type = .ok (false, i) := by
  obtain ⟨t, ht, hty⟩ := kindAt_get tokens i kind h
  exact matchToken_miss tokens i t type ht (by rw [hty]; exact hne)

theorem consume_kind (tokens : List Token) (i : Nat) (type : TokenType) (message : String)
    (h : kindAt tokens i = some type) (hne : type ≠ .EOF_TOKEN) :
    ∃ t, consume tokens i type message = .ok (t, i + 1) := by
  obtain ⟨t, ht, hty⟩ := kindAt_get tokens i type h
  exact ⟨t, consume_hit tokens i t type message ht hty hne⟩

theorem kindAt_of_get (tokens : List Token) (i : Nat) (t : Token) (h : tokens[i]? = some t) :
    kindAt tokens i = some t.type := by
  simp [kindAt, h]

/-- One round of the loop of `parse`. -/
theorem parseLoop_step (fuel : Nat) (tokens : List Token) (p : Nat) (t : Token)
    (acc : List Statement) (h : tokens[p]? = some t) (hne : t.type ≠ .EOF_TOKEN) :
    parseLoop (fuel + 1) tokens p acc
      = (parseStatement fuel tokens p).bind
          (fun s => parseLoop fuel tokens s.2 (acc ++ [s.1])) := by
  simp [parseLoop, isAtEnd_of_get tokens p t h, hne, bind, Except.bind]

/-- One round of a block loop. -/
theorem parseBlock_step (fuel : Nat) (tokens : List Token) (p : Nat) (t : Token)
    (acc : List Statement) (h : tokens[p]? = some t) (hne : t.type ≠ .EOF_TOKEN)
    (hrb : t.type ≠ .RIGHT_BRACE) :
    parseBlock (fuel + 1) tokens p acc
      = (parseStatement fuel tokens p).bind
          (fun s => parseBlock fuel tokens s.2 (acc ++ [s.1])) := by
  simp [parseBlock, blockContinues, check_of_get tokens p t _ h, isAtEnd_of_get tokens p t h,
    hne, hrb, bind, Except.bind, pure, Except.pure]

/-- One round of either statement loop. -/
theorem statementLoop_step (top : Bool) (fuel : Nat) (tokens : List Token) (p : Nat)
    (t : Token) (acc : List Statement) (h : tokens[p]? = some t)
    (hne : t.type ≠ .EOF_TOKEN) (hrb : t.type ≠ .RIGHT_BRACE) :
    statementLoop top (fuel + 1) tokens p acc
      = (parseStatement fuel tokens p).bind
          (fun s => statementLoop top fuel tokens s.2 (acc ++ [s.1])) := by
  cases top
  · exact parseBlock_step fuel tokens p t acc h hne hrb
  · exact parseLoop_step fuel tokens p t acc h hne

/-- A statement that starts with `if` is parsed by `parseIfStatement`. -/
theorem parseStatement_if (fuel : Nat) (tokens : List Token) (p : Nat)
    (h : kindAt tokens p = some .IF) :
    parseStatement (fuel + 1) tokens p = parseIfStatement fuel tokens (p + 1) := by
  simp [parseStatement, matchToken_other tokens p .IF .VAR h (by decide),
    matchToken_other tokens p .IF .PRINT h (by decide),
    matchToken_other tokens p .IF .PRINTLN h (by decide),
    matchToken_kind tokens p .IF h (by decide), bind, Except.bind]

/-- A statement that starts with `while` is parsed by `parseWhileStatement`. -/
theorem parseStatement_while (fuel : Nat) (tokens : List Token) (p : Nat)
    (h : kindAt tokens p = some .WHILE) :
    parseStatement (fuel + 1) tokens p = parseWhileStatement fuel tokens (p + 1) := by
  simp [parseStatement, matchToken_other tokens p .WHILE .VAR h (by decide),
    matchToken_other tokens p .WHILE .PRINT h (by decide),
    matchToken_other tokens p .WHILE .PRINTLN h (by decide),
    matchToken_other tokens p .WHILE .IF h (by decide),
    matchToken_kind tokens p .WHILE h (by decide), bind, Except.bind]

/-- A statement that starts with no statement keyword is parsed by
`parseAssignmentStatement`. -/
theorem parseStatement_other (fuel : Nat) (tokens : List Token) (p : Nat) (t : Token)
    (h : tokens[p]? = some t)
    (hk : t.type ∉ [TokenType.VAR, TokenType.PRINT, TokenType.PRINTLN, TokenType.IF,
      TokenType.WHILE]) :
    parseStatement (fuel + 1) tokens p = parseAssignmentStatement fuel tokens p := by
  simp only [List.mem_cons, List.mem_singleton, List.not_mem_nil, or_false, not_or] at hk
  simp [parseStatement, matchToken_miss tokens p t .VAR h hk.1,
    matchToken_miss tokens p t .PRINT h hk.2.1, matchToken_miss tokens p t .PRINTLN h hk.2.2.1,
    matchToken_miss tokens p t .IF h hk.2.2.2.1, matchToken_miss tokens p t .WHILE h hk.2.2.2.2,
    bind, Except.bind]

/-- The head of an if statement, up to the start of the then-block. -/
theorem parseIfStatement_head (fuel : Nat) (tokens : List Token) (p n : Nat)
    (c : BooleanExpression)
    (h1 : kindAt tokens p = some .LEFT_PAREN)
    (hc : parseBooleanExpression fuel tokens (p + 1) = .ok (c, n))
    (h2 : kindAt tokens n = some .RIGHT_PAREN) (h3 : kindAt tokens (n + 1) = some .LEFT_BRACE) :
    parseIfStatement (fuel + 1) tokens p
      = (parseBlock fuel tokens (n + 2) []).bind (fun thenStatements =>
          (consume tokens thenStatements.2 .RIGHT_BRACE "Expected '\x7d' after if block").bind
            (fun c4 => (matchToken tokens c4.2 .ELSE).bind (fun m =>
              if m.1 then
                (consume tokens m.2 .LEFT_BRACE "Expected '\x7b' after 'else'").bind (fun c5 =>
                  (parseBlock fuel tokens c5.2 []).bind (fun elseStatements =>
                    (consume tokens elseStatements.2 .RIGHT_BRACE
                      "Expected '\x7d' after else block").bind (fun c6 =>
                      .ok (.IfStatement c thenStatements.1 elseStatements.1, c6.2))))
              else .ok (.IfStatement c thenStatements.1 [], m.2)))) := by
  obtain ⟨t1, ht1⟩ := consume_kind tokens p .LEFT_PAREN "Expected '(' after 'if'" h1 (by decide)
  obtain ⟨t2, ht2⟩ := consume_kind tokens n .RIGHT_PAREN "Expected ')' after condition" h2
    (by decide)
  obtain ⟨t3, ht3⟩ := consume_kind tokens (n + 1) .LEFT_BRACE "Expected '\x7b' after ')'" h3
    (by decide)
  simp only [parseIfStatement, ht1, hc, ht2, ht3, bind, Except.bind, pure, Except.pure]

/-- The head of a while statement, up to the start of the body. -/
theorem parseWhileStatement_head (fuel : Nat) (tokens : List Token) (p n : Nat)
    (c : BooleanExpression)
    (h1 : kindAt tokens p = some .LEFT_PAREN)
    (hc : parseBooleanExpression fuel tokens (p + 1) = .ok (c, n))
    (h2 : kindAt tokens n = some .RIGHT_PAREN) (h3 : kindAt tokens (n + 1) = some .LEFT_BRACE) :
    parseWhileStatement (fuel + 1) tokens p
      = (parseBlock fuel tokens (n + 2) []).bind (fun bodyStatements =>
          (consume tokens bodyStatements.2 .RIGHT_BRACE
            "Expected '\x7d' after while block").bind
            (fun c4 => .ok (.WhileStatement c bodyStatements.1, c4.2))) := by
  obtain ⟨t1, ht1⟩ := consume_kind tokens p .LEFT_PAREN "Expected '(' after 'while'" h1
    (by decide)
  obtain ⟨t2, ht2⟩ := consume_kind tokens n .RIGHT_PAREN "Expected ')' after condition" h2
    (by decide)
  obtain ⟨t3, ht3⟩ := consume_kind tokens (n + 1) .LEFT_BRACE "Expected '\x7b' after ')'" h3
    (by decide)
  simp only [parseWhileStatement, ht1, hc, ht2, ht3, bind, Except.bind, pure, Except.pure]

/-- A failure of the statement loop that stands at an index is the failure of
`parse`. -/
theorem parse_fails_of_loop (tokens : List Token) (top : Bool) (p : Nat)
    (h : LoopAt tokens top p) :
    ∀ e, (∃ N, ∀ fuel, N ≤ fuel → ∀ acc, statementLoop top fuel tokens p acc = .error e) →
      Eventually (fun fuel => parse fuel tokens) (.error e) := by
  induction h with
  | start =>
    rintro e ⟨N, hN⟩
    refine ⟨N, fun fuel hf => ?_⟩
    have := hN fuel hf []
    simp only [statementLoop] at this
    simp [parse, this, bind, Except.bind]
  | @next top p q t s _ ht hne hrb hs ih =>
    rintro e ⟨N, hN⟩
    obtain ⟨M, hM⟩ := hs
    beta_reduce at hM
    refine ih e ⟨N + M + 1, fun fuel hf acc => ?_⟩
    obtain ⟨k, rfl⟩ : ∃ k, fuel = k + 1 := ⟨fuel - 1, by omega⟩
    rw [statementLoop_step top k tokens p t acc ht hne hrb, hM k (by omega)]
    exact hN k (by omega) _
  | @thenBlock top p n c _ h0 h1 hc h2 h3 ih =>
    rintro e ⟨N, hN⟩
    obtain ⟨M, hM⟩ := hc
    beta_reduce at hM
    obtain ⟨t, ht, hty⟩ := kindAt_get tokens p _ h0
    refine ih e ⟨N + M + 3, fun fuel hf acc => ?_⟩
    obtain ⟨k, rfl⟩ : ∃ k, fuel = k + 3 := ⟨fuel - 3, by omega⟩
    rw [statementLoop_step top (k + 2) tokens p t acc ht (by rw [hty]; decide)
      (by rw [hty]; decide), parseStatement_if (k + 1) tokens p h0,
      parseIfStatement_head k tokens (p + 1) n c h1 (hM k (by omega)) h2 h3]
    have := hN k (by omega) []
    simp only [statementLoop] at this
    simp [this, Except.bind]
  | @elseBlock top p n m c ss _ h0 h1 hc h2 h3 hb h4 h5 h6 ih =>
    rintro e ⟨N, hN⟩
    obtain ⟨M, hM⟩ := hc
    beta_reduce at hM
    obtain ⟨B, hB⟩ := hb
    beta_reduce at hB
    obtain ⟨t, ht, hty⟩ := kindAt_get tokens p _ h0
    refine ih e ⟨N + M + B + 3, fun fuel hf acc => ?_⟩
    obtain ⟨k, rfl⟩ : ∃ k, fuel = k + 3 := ⟨fuel - 3, by omega⟩
    rw [statementLoop_step top (k + 2) tokens p t acc ht (by rw [hty]; decide)
      (by rw [hty]; decide), parseStatement_if (k + 1) tokens p h0,
      parseIfStatement_head k tokens (p + 1) n c h1 (hM k (by omega)) h2 h3,
      hB k (by omega)]
    obtain ⟨t4, ht4⟩ := consume_kind tokens m .RIGHT_BRACE "Expected '\x7d' after if block" h4
      (by decide)
    obtain ⟨t6, ht6⟩ := consume_kind tokens (m + 2) .LEFT_BRACE "Expected '\x7b' after 'else'" h6
      (by decide)
    have := hN k (by omega) []
    simp only [statementLoop] at this
    simp [ht4, matchToken_kind tokens (m + 1) .ELSE h5 (by decide), ht6, this, Except.bind]
  | @whileBody top p n c _ h0 h1 hc h2 h3 ih =>
    rintro e ⟨N, hN⟩
    obtain ⟨M, hM⟩ := hc
    beta_reduce at hM
    obtain ⟨t, ht, hty⟩ := kindAt_get tokens p _ h0
    refine ih e ⟨N + M + 3, fun fuel hf acc => ?_⟩
    obtain ⟨k, rfl⟩ : ∃ k, fuel = k + 3 := ⟨fuel - 3, by omega⟩
    rw [statementLoop_step top (k + 2) tokens p t acc ht (by rw [hty]; decide)
      (by rw [hty]; decide), parseStatement_while (k + 1) tokens p h0,
      parseWhileStatement_head k tokens (p + 1) n c h1 (hM k (by omega)) h2 h3]
    have := hN k (by omega) []
    simp only [statementLoop] at this
    simp [this, Except.bind]

/-- A failure of the statement that starts where a statement loop stands is
the failure of `parse`. -/
theorem parse_fails_of_statement (tokens : List Token) (top : Bool) (p : Nat) (t : Token)
    (e : ParseError) (h : LoopAt tokens top p) (ht : tokens[p]? = some t)
    (hne : t.type ≠ .EOF_TOKEN) (hrb : t.type ≠ .RIGHT_BRACE)
    (hs : Eventually (fun fuel => parseStatement fuel tokens p) (.error e)) :
    Eventually (fun fuel => parse fuel tokens) (.error e) := by
  obtain ⟨N, hN⟩ := hs
  beta_reduce at hN
  refine parse_fails_of_loop tokens top p h e ⟨N + 1, fun fuel hf acc => ?_⟩
  obtain ⟨k, rfl⟩ : ∃ k, fuel = k + 1 := ⟨fuel - 1, by omega⟩
  rw [statementLoop_step top k tokens p t acc ht hne hrb, hN k (by omega)]
  rfl

/-- The condition parser fails on a token that is no comparison operator. -/
theorem parseBooleanExpression_no_operator (fuel : Nat) (tokens : List Token) (p n : Nat)
    (left : Expression) (t : Token)
    (hl : parseExpression fuel tokens p = .ok (left, n)) (ht : tokens[n]? = some t)
    (hk : t.type ∉ comparisonTypes) :
    parseBooleanExpression fuel tokens p = .error (.runtime_error (comparisonMessage t)) := by
  simp [parseBooleanExpression, hl, matchAny_miss tokens n t _ ht hk, peek_of_get tokens n t ht,
    bind, Except.bind, throw, throwThe, MonadExceptOf.throw]

/-- The condition parser on `left op right`. -/
theorem parseBooleanExpression_ok (fuel : Nat) (tokens : List Token) (p n m : Nat)
    (left right : Expression) (t : Token)
    (hl : parseExpression fuel tokens p = .ok (left, n)) (ht : tokens[n]? = some t)
    (hk : t.type ∈ comparisonTypes)
    (hr : parseExpression fuel tokens (n + 1) = .ok (right, m)) :
    parseBooleanExpression fuel tokens p = .ok (⟨left, t.value, right⟩, m) := by
  simp [parseBooleanExpression, hl, matchAny_hit tokens n t _ ht hk (by decide), previous_succ,
    peek_of_get tokens n t ht, hr, bind, Except.bind, pure, Except.pure]

/-- A failure of the condition is the failure of the if or while statement. -/
theorem parseStatement_condition_fails (fuel : Nat) (tokens : List Token) (p : Nat)
    (e : ParseError)
    (hkw : kindAt tokens p = some .IF ∨ kindAt tokens p = some .WHILE)
    (hlp : kindAt tokens (p + 1) = some .LEFT_PAREN)
    (hc : parseBooleanExpression fuel tokens (p + 2) = .error e) :
    parseStatement (fuel + 2) tokens p = .error e := by
  rcases hkw with hkw | hkw
  · obtain ⟨t1, ht1⟩ := consume_kind tokens (p + 1) .LEFT_PAREN "Expected '(' after 'if'" hlp
      (by decide)
    rw [parseStatement_if (fuel + 1) tokens p hkw]
    simp [parseIfStatement, ht1, hc, bind, Except.bind]
  · obtain ⟨t1, ht1⟩ := consume_kind tokens (p + 1) .LEFT_PAREN "Expected '(' after 'while'" hlp
      (by decide)
    rw [parseStatement_while (fuel + 1) tokens p hkw]
    simp [parseWhileStatement, ht1, hc, bind, Except.bind]

/-- After a condition that parses, a token that is not the expected one makes
the if or while statement fail in `consume`. -/
theorem parseStatement_after_condition (fuel : Nat) (tokens : List Token) (p n : Nat)
    (c : BooleanExpression) (u : Token)
    (hkw : kindAt tokens p = some .IF ∨ kindAt tokens p = some .WHILE)
    (hlp : kindAt tokens (p + 1) = some .LEFT_PAREN)
    (hc : parseBooleanExpression fuel tokens (p + 2) = .ok (c, n)) :
    (tokens[n]? = some u → u.type ≠ .RIGHT_PAREN →
      parseStatement (fuel + 2) tokens p
        = .error (.runtime_error (consumeMessage "Expected ')' after condition" u)))
    ∧ (kindAt tokens n = some .RIGHT_PAREN → tokens[n + 1]? = some u →
      u.type ≠ .LEFT_BRACE →
      parseStatement (fuel + 2) tokens p
        = .error (.runtime_error (consumeMessage "Expected '\x7b' after ')'" u))) := by
  constructor
  · intro hu hne
    rcases hkw with hkw | hkw
    · obtain ⟨t1, ht1⟩ := consume_kind tokens (p + 1) .LEFT_PAREN "Expected '(' after 'if'" hlp
        (by decide)
      rw [parseStatement_if (fuel + 1) tokens p hkw]
      simp [parseIfStatement, ht1, hc, consume_miss tokens n u _ _ hu hne, bind, Except.bind]
    · obtain ⟨t1, ht1⟩ := consume_kind tokens (p + 1) .LEFT_PAREN "Expected '(' after 'while'"
        hlp (by decide)
      rw [parseStatement_while (fuel + 1) tokens p hkw]
      simp [parseWhileStatement, ht1, hc, consume_miss tokens n u _ _ hu hne, bind, Except.bind]
  · intro hrp hu hne
    obtain ⟨t2, ht2⟩ := consume_kind tokens n .RIGHT_PAREN "Expected ')' after condition" hrp
      (by decide)
    rcases hkw with hkw | hkw
    · obtain ⟨t1, ht1⟩ := consume_kind tokens (p + 1) .LEFT_PAREN "Expected '(' after 'if'" hlp
        (by decide)
      rw [parseStatement_if (fuel + 1) tokens p hkw]
      simp [parseIfStatement, ht1, hc, ht2, consume_miss tokens (n + 1) u _ _ hu hne, bind,
        Except.bind]
    · obtain ⟨t1, ht1⟩ := consume_kind tokens (p + 1) .LEFT_PAREN "Expected '(' after 'while'"
        hlp (by decide)
      rw [parseStatement_while (fuel + 1) tokens p hkw]
      simp [parseWhileStatement, ht1, hc, ht2, consume_miss tokens (n + 1) u _ _ hu hne, bind,
        Except.bind]

/-- The start of an if or while statement is neither the end of input nor a
closing brace. -/
theorem keyword_at (tokens : List Token) (p : Nat)
    (hkw : kindAt tokens p = some .IF ∨ kindAt tokens p = some .WHILE) :
    ∃ t, tokens[p]? = some t ∧ t.type ≠ .EOF_TOKEN ∧ t.type ≠ .RIGHT_BRACE := by
  rcases hkw with hkw | hkw <;> obtain ⟨t, ht, hty⟩ := kindAt_get tokens p _ hkw <;>
    exact ⟨t, ht, by rw [hty]; decide, by rw [hty]; decide⟩

/-- C11: a condition is accepted only in the form `expression comparisonOp
expression` directly followed by `)`.  Let the parser stand at the start of
a statement (`LoopAt`: at the top level or in a block, at any depth) on `if`
or `while` followed by `(`, and let the first expression of the condition be
parsed up to the token `t`.  If `t` is none of `==`, `!=`, `<`, `>`, `<=`,
`>=`, then `parse` fails with "Expected comparison operator (==, !=, <, >,
<=, >=) at line L, column C", the position being that of `t`.  If `t` is one
of them and the right-hand expression is parsed up to a token `u` that is not
`)`, then `parse` fails with "Expected ')' after condition at line L, column
C. Found: K", position and kind being those of `u`. -/
theorem condition_form (tokens : List Token) (top : Bool) (p n : Nat) (left : Expression)
    (t : Token) (hloop : LoopAt tokens top p)
    (hkw : kindAt tokens p = some .IF ∨ kindAt tokens p = some .WHILE)
    (hlp : kindAt tokens (p + 1) = some .LEFT_PAREN)
    (hleft : Eventually (fun fuel => parseExpression fuel tokens (p + 2)) (.ok (left, n)))
    (ht : tokens[n]? = some t) :
    (t.type ∉ comparisonTypes →
      Eventually (fun fuel => parse fuel tokens)
        (.error (.runtime_error
          ("Expected comparison operator (==, !=, <, >, <=, >=) at line " ++ toString t.line
            ++ ", column " ++ toString t.column))))
    ∧ (t.type ∈ comparisonTypes → ∀ (right : Expression) (m : Nat) (u : Token),
      Eventually (fun fuel => parseExpression fuel tokens (n + 1)) (.ok (right, m)) →
      tokens[m]? = some u → u.type ≠ .RIGHT_PAREN →
      Eventually (fun fuel => parse fuel tokens)
        (.error (.runtime_error
          ("Expected ')' after condition at line " ++ toString u.line ++ ", column "
            ++ toString u.column ++ ". Found: " ++ toString u.type.toInt)))) := by
  obtain ⟨kw, hkwt, hne, hrb⟩ := keyword_at tokens p hkw
  obtain ⟨N, hN⟩ := hleft
  beta_reduce at hN
  constructor
  · intro hk
    refine parse_fails_of_statement tokens top p kw _ hloop hkwt hne hrb ⟨N + 2, fun fuel hf => ?_⟩
    obtain ⟨k, rfl⟩ : ∃ k, fuel = k + 2 := ⟨fuel - 2, by omega⟩
    exact parseStatement_condition_fails k tokens p _ hkw hlp
      (parseBooleanExpression_no_operator k tokens (p + 2) n left t (hN k (by omega)) ht hk)
  · intro hk right m u hright hu hune
    obtain ⟨M, hM⟩ := hright
    beta_reduce at hM
    refine parse_fails_of_statement tokens top p kw _ hloop hkwt hne hrb
      ⟨N + M + 2, fun fuel hf => ?_⟩
    obtain ⟨k, rfl⟩ : ∃ k, fuel = k + 2 := ⟨fuel - 2, by omega⟩
    exact (parseStatement_after_condition k tokens p m _ u hkw hlp
      (parseBooleanExpression_ok k tokens (p + 2) n m left right t (hN k (by omega)) ht hk
        (hM k (by omega)))).1 hu hune

/-- Witness for C11: in the tokens of `if (x) \x7b \x7d` the first expression
of the condition ends before `)` at line 1, column 6; in the tokens of
`while (a < b < c) \x7b \x7d` the right-hand expression ends before the
second `<` at line 1, column 14. -/
theorem condition_form_witness :
    Eventually (fun fuel => parse fuel Examples.bareConditionTokens)
        (.error (.runtime_error
          "Expected comparison operator (==, !=, <, >, <=, >=) at line 1, column 6"))
      ∧ Eventually (fun fuel => parse fuel Examples.chainedConditionTokens)
        (.error (.runtime_error "Expected ')' after condition at line 1, column 14. Found: 8")) :=
  ⟨(condition_form Examples.bareConditionTokens true 0 3 (.VariableReference "x")
      ⟨.RIGHT_PAREN, ")", 1, 6⟩ LoopAt.start (Or.inl rfl) rfl
      ⟨3, fun fuel h => by obtain ⟨n, rfl⟩ : ∃ n, fuel = n + 3 := ⟨fuel - 3, by omega⟩; rfl⟩
      rfl).1 (by decide),
    (condition_form Examples.chainedConditionTokens true 0 3 (.VariableReference "a")
      ⟨.LESS, "<", 1, 10⟩ LoopAt.start (Or.inr rfl) rfl
      ⟨3, fun fuel h => by obtain ⟨n, rfl⟩ : ∃ n, fuel = n + 3 := ⟨fuel - 3, by omega⟩; rfl⟩
      rfl).2 (by decide) (.VariableReference "b") 5 ⟨.LESS, "<", 1, 14⟩
      ⟨3, fun fuel h => by obtain ⟨n, rfl⟩ : ∃ n, fuel = n + 3 := ⟨fuel - 3, by omega⟩; rfl⟩
      rfl (by decide)⟩

/-- C19: a token list whose first token is none of `var`, `print`, `println`,
`if`, `while`, an identifier or the end of input is parsed as an assignment,
and `parse` fails with "Expected variable name at line L, column C. Found:
K", where L, C and K are the line, the column and the kind of that first
token. -/
theorem stray_first_token (tokens : List Token) (t : Token) (fuel : Nat)
    (h : tokens[0]? = some t)
    (hk : t.type ∉ [TokenType.VAR, TokenType.PRINT, TokenType.PRINTLN, TokenType.IF,
      TokenType.WHILE, TokenType.IDENTIFIER, TokenType.EOF_TOKEN]) :
    parseStatement (fuel + 1) tokens 0 = parseAssignmentStatement fuel tokens 0
    ∧ parse (fuel + 2) tokens
      = .error (.runtime_error ("Expected variable name at line " ++ toString t.line
          ++ ", column " ++ toString t.column ++ ". Found: " ++ toString t.type.toInt)) := by
  simp only [List.mem_cons, List.mem_singleton, List.not_mem_nil, or_false, not_or] at hk
  have hs : parseStatement (fuel + 1) tokens 0 = parseAssignmentStatement fuel tokens 0 :=
    parseStatement_other fuel tokens 0 t h (by simp [hk])
  refine ⟨hs, ?_⟩
  have ha : parseAssignmentStatement fuel tokens 0
      = .error (.runtime_error (consumeMessage "Expected variable name" t)) := by
    simp [parseAssignmentStatement, consume_miss tokens 0 t .IDENTIFIER _ h hk.2.2.2.2.2.1, bind,
      Except.bind]
  simp only [parse, bind, Except.bind]
  rw [parseLoop_step (fuel + 1) tokens 0 t [] h hk.2.2.2.2.2.2, hs, ha]
  rfl

/-- Witness for C19: the tokens of `5 = x;` start with an integer at line 1,
column 1. -/
theorem stray_first_token_witness :
    tokenize Examples.strayStartSource = Examples.strayStartTokens
      ∧ parse 100 Examples.strayStartTokens
        = .error (.runtime_error "Expected variable name at line 1, column 1. Found: 0") :=
  ⟨by decide,
    ((stray_first_token Examples.strayStartTokens ⟨.INTEGER, "5", 1, 1⟩ 98 rfl
      (by decide)).2).trans (by rfl)⟩

/-- C20: the bodies of if, else and while are brace-delimited.  Let the parser
stand at the start of a statement on `if` or `while` followed by `(`, a
condition that parses, and `)`.  If the token `t` after the `)` is not
`\x7b`, `parse` fails with "Expected '\x7b' after ')' at line L, column C.
Found: K".  If the statement is an if statement whose then-block parses up to
its `\x7d`, and this is followed by `else` and a token `t` that is not
`\x7b` (an `if`, say), `parse` fails with "Expected '\x7b' after 'else' at
line L, column C. Found: K".  L, C and K are the line, column and kind of
`t`; in both cases no program is returned. -/
theorem braces_required (tokens : List Token) (top : Bool) (p n : Nat)
    (c : BooleanExpression) (hloop : LoopAt tokens top p)
    (hkw : kindAt tokens p = some .IF ∨ kindAt tokens p = some .WHILE)
    (hlp : kindAt tokens (p + 1) = some .LEFT_PAREN)
    (hcond : Eventually (fun fuel => parseBooleanExpression fuel tokens (p + 2)) (.ok (c, n)))
    (hrp : kindAt tokens n = some .RIGHT_PAREN) :
    (∀ t : Token, tokens[n + 1]? = some t → t.type ≠ .LEFT_BRACE →
      Eventually (fun fuel => parse fuel tokens)
        (.error (.runtime_error
          ("Expected '\x7b' after ')' at line " ++ toString t.line ++ ", column "
            ++ toString t.column ++ ". Found: " ++ toString t.type.toInt))))
    ∧ (∀ (ss : List Statement) (m : Nat) (t : Token),
      kindAt tokens p = some .IF → kindAt tokens (n + 1) = some .LEFT_BRACE →
      Eventually (fun fuel => parseBlock fuel tokens (n + 2) []) (.ok (ss, m)) →
      kindAt tokens m = some .RIGHT_BRACE → kindAt tokens (m + 1) = some .ELSE →
      tokens[m + 2]? = some t → t.type ≠ .LEFT_BRACE →
      Eventually (fun fuel => parse fuel tokens)
        (.error (.runtime_error
          ("Expected '\x7b' after 'else' at line " ++ toString t.line ++ ", column "
            ++ toString t.column ++ ". Found: " ++ toString t.type.toInt)))) := by
  obtain ⟨kw, hkwt, hne, hrb⟩ := keyword_at tokens p hkw
  obtain ⟨N, hN⟩ := hcond
  beta_reduce at hN
  constructor
  · intro t ht htne
    refine parse_fails_of_statement tokens top p kw _ hloop hkwt hne hrb ⟨N + 2, fun fuel hf => ?_⟩
    obtain ⟨k, rfl⟩ : ∃ k, fuel = k + 2 := ⟨fuel - 2, by omega⟩
    exact (parseStatement_after_condition k tokens p n c t hkw hlp (hN k (by omega))).2 hrp ht
      htne
  · intro ss m t hif hlb hblock hrbm helse ht htne
    obtain ⟨B, hB⟩ := hblock
    beta_reduce at hB
    refine parse_fails_of_statement tokens top p kw _ hloop hkwt hne hrb
      ⟨N + B + 2, fun fuel hf => ?_⟩
    obtain ⟨k, rfl⟩ : ∃ k, fuel = k + 2 := ⟨fuel - 2, by omega⟩
    obtain ⟨t4, ht4⟩ := consume_kind tokens m .RIGHT_BRACE "Expected '\x7d' after if block" hrbm
      (by decide)
    show parseStatement (k + 1 + 1) tokens p = _
    rw [parseStatement_if (k + 1) tokens p hif,
      parseIfStatement_head k tokens (p + 1) n c hlp (hN k (by omega)) hrp hlb, hB k (by omega)]
    simp [ht4, matchToken_kind tokens (m + 1) .ELSE helse (by decide),
      consume_miss tokens (m + 2) t _ _ ht htne, Except.bind]
    rfl

/-- Witness for C20: in the tokens of `while (a < b) a = a + 1;` the `)` is
followed by the identifier at line 1, column 15; in the tokens of `if (a < b)
\x7b \x7d else if (a > b) \x7b \x7d` the `else` is followed by `if` at line
1, column 21. -/
theorem braces_required_witness :
    Eventually (fun fuel => parse fuel Examples.unbracedTokens)
        (.error (.runtime_error "Expected '\x7b' after ')' at line 1, column 15. Found: 1"))
      ∧ Eventually (fun fuel => parse fuel Examples.elseIfTokens)
        (.error (.runtime_error
          "Expected '\x7b' after 'else' at line 1, column 21. Found: 22")) :=
  ⟨(braces_required Examples.unbracedTokens true 0 5
      ⟨.VariableReference "a", "<", .VariableReference "b"⟩ LoopAt.start (Or.inr rfl) rfl
      ⟨3, fun fuel h => by obtain ⟨n, rfl⟩ : ∃ n, fuel = n + 3 := ⟨fuel - 3, by omega⟩; rfl⟩
      rfl).1 ⟨.IDENTIFIER, "a", 1, 15⟩ rfl (by decide),
    (braces_required Examples.elseIfTokens true 0 5
      ⟨.VariableReference "a", "<", .VariableReference "b"⟩ LoopAt.start (Or.inl rfl) rfl
      ⟨3, fun fuel h => by obtain ⟨n, rfl⟩ : ∃ n, fuel = n + 3 := ⟨fuel - 3, by omega⟩; rfl⟩
      rfl).2 [] 7 ⟨.IF, "if", 1, 21⟩ rfl rfl
      ⟨1, fun fuel h => by obtain ⟨n, rfl⟩ : ∃ n, fuel = n + 1 := ⟨fuel - 1, by omega⟩; rfl⟩
      rfl rfl rfl (by decide)⟩

/-! ### Left associativity -/

/-- The token at which a chain ends, or its first operator, is no operator of
the other level. -/
theorem chain_head (tokens : List Token) (kinds others : List TokenType) (j : Nat)
    (items : List (Token × Expression × Nat)) (next : Token)
    (hc : FactorChain tokens kinds j items) (hn : tokens[chainEnd j items]? = some next)
    (hnext : next.type ∉ others) (hdis : ∀ k, k ∈ kinds → k ∉ others) :
    ∃ t, tokens[j]? = some t ∧ t.type ∉ others := by
  cases items with
  | nil => exact ⟨next, hn, hnext⟩
  | cons item rest =>
    obtain ⟨op, f, k⟩ := item
    exact ⟨op, hc.1, hdis _ hc.2.1⟩

/-- The loop of `parseTerm` on a chain of `*` and `/`. -/
theorem parseTermLoop_chain (tokens : List Token) (next : Token) :
    ∀ (items : List (Token × Expression × Nat)) (j : Nat) (e : Expression),
      FactorChain tokens [.MULTIPLY, .DIVIDE] j items →
      tokens[chainEnd j items]? = some next →
      next.type ∉ [TokenType.MULTIPLY, TokenType.DIVIDE] →
      Eventually (fun fuel => parseTermLoop fuel tokens j e)
        (.ok (leftNested e items, chainEnd j items)) := by
  intro items
  induction items with
  | nil =>
    intro j e _ hn hnext
    refine ⟨1, fun fuel hf => ?_⟩
    obtain ⟨n, rfl⟩ : ∃ n, fuel = n + 1 := ⟨fuel - 1, by omega⟩
    exact parseTermLoop_done n tokens j next e hn hnext
  | cons item rest ih =>
    intro j e hc hn hnext
    obtain ⟨op, f, k⟩ := item
    obtain ⟨hop, hkind, ⟨N, hN⟩, hrest⟩ := hc
    beta_reduce at hN
    obtain ⟨M, hM⟩ := ih k (.BinaryExpression e op.value f) hrest hn hnext
    beta_reduce at hM
    refine ⟨N + M + 1, fun fuel hf => ?_⟩
    obtain ⟨n, rfl⟩ : ∃ n, fuel = n + 1 := ⟨fuel - 1, by omega⟩
    show parseTermLoop (n + 1) tokens j e = _
    rw [parseTermLoop_step n tokens j op e hop hkind, hN n (by omega)]
    exact hM n (by omega)

/-- The loop of `parseExpression` on a chain of `+` and `-` between factors. -/
theorem parseExpressionLoop_chain (tokens : List Token) (next : Token) :
    ∀ (items : List (Token × Expression × Nat)) (j : Nat) (e : Expression),
      FactorChain tokens [.PLUS, .MINUS] j items →
      tokens[chainEnd j items]? = some next →
      next.type ∉ [TokenType.PLUS, TokenType.MINUS, TokenType.MULTIPLY, TokenType.DIVIDE] →
      Eventually (fun fuel => parseExpressionLoop fuel tokens j e)
        (.ok (leftNested e items, chainEnd j items)) := by
  intro items
  induction items with
  | nil =>
    intro j e _ hn hnext
    refine ⟨1, fun fuel hf => ?_⟩
    obtain ⟨n, rfl⟩ : ∃ n, fuel = n + 1 := ⟨fuel - 1, by omega⟩
    exact parseExpressionLoop_done n tokens j next e hn (by simp at hnext ⊢; tauto)
  | cons item rest ih =>
    intro j e hc hn hnext
    obtain ⟨op, f, k⟩ := item
    obtain ⟨hop, hkind, ⟨N, hN⟩, hrest⟩ := hc
    beta_reduce at hN
    obtain ⟨M, hM⟩ := ih k (.BinaryExpression e op.value f) hrest hn hnext
    beta_reduce at hM
    obtain ⟨t, ht, htk⟩ := chain_head tokens [.PLUS, .MINUS] [.MULTIPLY, .DIVIDE] k rest next
      hrest hn (by simp at hnext ⊢; tauto) (by decide)
    refine ⟨N + M + 3, fun fuel hf => ?_⟩
    obtain ⟨n, rfl⟩ : ∃ n, fuel = n + 3 := ⟨fuel - 3, by omega⟩
    show parseExpressionLoop (n + 2 + 1) tokens j e = _
    rw [parseExpressionLoop_step (n + 2) tokens j op e hop hkind, parseTerm_succ,
      hN (n + 1) (by omega)]
    simp only [Except.bind]
    rw [parseTermLoop_done n tokens k t f ht htk]
    exact hM (n + 2) (by omega)

/-- Both levels of operators nest to the left. -/
theorem chains_nest_left (tokens : List Token) (i j : Nat) (f0 : Expression)
    (items : List (Token × Expression × Nat)) (next : Token)
    (h0 : Eventually (fun fuel => parseFactor fuel tokens i) (.ok (f0, j)))
    (hn : tokens[chainEnd j items]? = some next)
    (hnext : next.type ∉
      [TokenType.PLUS, TokenType.MINUS, TokenType.MULTIPLY, TokenType.DIVIDE]) :
    (FactorChain tokens [.PLUS, .MINUS] j items →
      Eventually (fun fuel => parseExpression fuel tokens i)
        (.ok (leftNested f0 items, chainEnd j items)))
    ∧ (FactorChain tokens [.MULTIPLY, .DIVIDE] j items →
      Eventually (fun fuel => parseTerm fuel tokens i)
          (.ok (leftNested f0 items, chainEnd j items))
        ∧ Eventually (fun fuel => parseExpression fuel tokens i)
          (.ok (leftNested f0 items, chainEnd j items))) := by
  obtain ⟨N, hN⟩ := h0
  beta_reduce at hN
  have hPM : next.type ∉ [TokenType.PLUS, TokenType.MINUS] := by simp at hnext ⊢; tauto
  have hMD : next.type ∉ [TokenType.MULTIPLY, TokenType.DIVIDE] := by simp at hnext ⊢; tauto
  constructor
  · intro hc
    obtain ⟨M, hM⟩ := parseExpressionLoop_chain tokens next items j f0 hc hn hnext
    beta_reduce at hM
    obtain ⟨t, ht, htk⟩ := chain_head tokens [.PLUS, .MINUS] [.MULTIPLY, .DIVIDE] j items next
      hc hn hMD (by decide)
    refine ⟨N + M + 3, fun fuel hf => ?_⟩
    obtain ⟨n, rfl⟩ : ∃ n, fuel = n + 3 := ⟨fuel - 3, by omega⟩
    show parseExpression (n + 2 + 1) tokens i = _
    rw [parseExpression_succ, parseTerm_succ, hN (n + 1) (by omega)]
    simp only [Except.bind]
    rw [parseTermLoop_done n tokens j t f0 ht htk]
    exact hM (n + 2) (by omega)
  · intro hc
    obtain ⟨M, hM⟩ := parseTermLoop_chain tokens next items j f0 hc hn hMD
    beta_reduce at hM
    have hterm : ∀ n, N + M ≤ n → parseTerm (n + 1) tokens i
        = .ok (leftNested f0 items, chainEnd j items) := by
      intro n hn
      rw [parseTerm_succ, hN n (by omega)]
      exact hM n (by omega)
    constructor
    · refine ⟨N + M + 1, fun fuel hf => ?_⟩
      obtain ⟨n, rfl⟩ : ∃ n, fuel = n + 1 := ⟨fuel - 1, by omega⟩
      exact hterm n (by omega)
    · refine ⟨N + M + 2, fun fuel hf => ?_⟩
      obtain ⟨n, rfl⟩ : ∃ n, fuel = n + 2 := ⟨fuel - 2, by omega⟩
      show parseExpression (n + 1 + 1) tokens i = _
      rw [parseExpression_succ, hterm n (by omega)]
      exact parseExpressionLoop_done n tokens _ next _ hn hPM

/-- C18: operators of one precedence level associate to the left.  The source
`x = a - b - c;` lexes and parses to the assignment of Binary(Binary(a, -,
b), -, c), which is rendered as `((a - b) - c)`.  In general, let a factor
`f0` be parsed at index `i`, followed by a chain of operator tokens and
factors `op1 f1 ... opn fn` (`FactorChain`), and let the token after the
chain be no arithmetic operator.  If all the operators are `+` or `-`, the
expression parsed at `i` is the left-nested tree `(((f0 op1 f1) op2 f2) ...
opn fn)`; if all are `*` or `/`, the term and the expression parsed at `i`
are that left-nested tree. -/
theorem left_associative :
    (tokenize Examples.subtractionsSource = Examples.subtractionsTokens
      ∧ parse 100 Examples.subtractionsTokens
        = .ok ⟨[.AssignmentStatement "x"
            (.BinaryExpression
              (.BinaryExpression (.VariableReference "a") "-" (.VariableReference "b")) "-"
              (.VariableReference "c"))]⟩
      ∧ Structured.generateExpression
          (.BinaryExpression
            (.BinaryExpression (.VariableReference "a") "-" (.VariableReference "b")) "-"
            (.VariableReference "c"))
        = "((a - b) - c)")
    ∧ ∀ (tokens : List Token) (i j : Nat) (f0 : Expression)
        (items : List (Token × Expression × Nat)) (next : Token),
      Eventually (fun fuel => parseFactor fuel tokens i) (.ok (f0, j)) →
      tokens[chainEnd j items]? = some next →
      next.type ∉ [TokenType.PLUS, TokenType.MINUS, TokenType.MULTIPLY, TokenType.DIVIDE] →
      (FactorChain tokens [.PLUS, .MINUS] j items →
        Eventually (fun fuel => parseExpression fuel tokens i)
          (.ok (leftNested f0 items, chainEnd j items)))
      ∧ (FactorChain tokens [.MULTIPLY, .DIVIDE] j items →
        Eventually (fun fuel => parseTerm fuel tokens i)
            (.ok (leftNested f0 items, chainEnd j items))
          ∧ Eventually (fun fuel => parseExpression fuel tokens i)
            (.ok (leftNested f0 items, chainEnd j items))) :=
  ⟨⟨by decide, by rfl, by decide⟩,
    fun tokens i j f0 items next h0 hn hnext =>
      chains_nest_left tokens i j f0 items next h0 hn hnext⟩

/-- Witness for C18: in the tokens of `x = a - b - c;` the factor `a` stands
at index 2 and is followed by the chain `- b`, `- c`, which ends at the `;`
at index 7. -/
theorem left_associative_witness :
    Eventually (fun fuel => parseExpression fuel Examples.subtractionsTokens 2)
      (.ok (.BinaryExpression
          (.BinaryExpression (.VariableReference "a") "-" (.VariableReference "b")) "-"
          (.VariableReference "c"), 7)) :=
  (left_associative.2 Examples.subtractionsTokens 2 3 (.VariableReference "a")
    [(⟨.MINUS, "-", 1, 7⟩, .VariableReference "b", 5),
     (⟨.MINUS, "-", 1, 11⟩, .VariableReference "c", 7)]
    ⟨.SEMICOLON, ";", 1, 14⟩
    ⟨1, fun fuel h => by obtain ⟨n, rfl⟩ : ∃ n, fuel = n + 1 := ⟨fuel - 1, by omega⟩; rfl⟩
    rfl (by decide)).1
    ⟨rfl, by decide,
      ⟨1, fun fuel h => by obtain ⟨n, rfl⟩ : ∃ n, fuel = n + 1 := ⟨fuel - 1, by omega⟩; rfl⟩,
      rfl, by decide,
      ⟨1, fun fuel h => by obtain ⟨n, rfl⟩ : ∃ n, fuel = n + 1 := ⟨fuel - 1, by omega⟩; rfl⟩,
      trivial⟩

/-! ### The failures of the parser -/

theorem bind_error_iff {ε α β : Type} (x : Except ε α) (f : α → Except ε β) (e : ε) :
    (x >>= f) = .error e ↔ x = .error e ∨ ∃ a, x = .ok a ∧ f a = .error e := by
  cases x <;> simp [bind, Except.bind]

theorem pure_error_iff {ε α : Type} (a : α) (e : ε) :
    (pure a : Except ε α) = .error e ↔ False := by
  simp [pure, Except.pure]

theorem throw_error_iff {ε α : Type} (e1 e : ε) :
    (throw e1 : Except ε α) = .error e ↔ e1 = e := by
  simp [throw, throwThe, MonadExceptOf.throw]

theorem peek_error (tokens : List Token) (i : Nat) (e : ParseError)
    (h : peek tokens i = .error e) : e = .out_of_bounds := by
  cases hg : tokens[i]? with
  | none => simp [peek, hg] at h; exact h.symm
  | some t => simp [peek, hg] at h

theorem peek_mem (tokens : List Token) (i : Nat) (t : Token) (h : peek tokens i = .ok t) :
    t ∈ tokens := by
  cases hg : tokens[i]? with
  | none => simp [peek, hg] at h
  | some u =>
    simp [peek, hg] at h
    subst h
    exact List.getElem?_mem hg

theorem previous_error (tokens : List Token) (i : Nat) (e : ParseError)
    (h : previous tokens i = .error e) : e = .out_of_bounds := by
  unfold previous at h
  split_ifs at h
  · simp at h; exact h.symm
  · exact peek_error _ _ _ h

theorem isAtEnd_error (tokens : List Token) (i : Nat) (e : ParseError)
    (h : isAtEnd tokens i = .error e) : e = .out_of_bounds := by
  simp only [isAtEnd, bind_error_iff, pure_error_iff, and_false, exists_false, or_false] at h
  exact peek_error _ _ _ h

theorem check_error (tokens : List Token) (i : Nat) (type : TokenType) (e : ParseError)
    (h : check tokens i type = .error e) : e = .out_of_bounds := by
  simp only [check, bind_error_iff] at h
  rcases h with h | ⟨a, _, h⟩
  · exact isAtEnd_error _ _ _ h
  · split_ifs at h
    · simp [pure_error_iff] at h
    · simp only [bind_error_iff, pure_error_iff, and_false, exists_false, or_false] at h
      exact peek_error _ _ _ h

theorem advance_error (tokens : List Token) (i : Nat) (e : ParseError)
    (h : advance tokens i = .error e) : e = .out_of_bounds := by
  simp only [advance, bind_error_iff] at h
  rcases h with h | ⟨a, _, h⟩
  · exact isAtEnd_error _ _ _ h
  · split_ifs at h <;>
      simp only [bind_error_iff, pure_error_iff, and_false, exists_false, or_false] at h <;>
      exact previous_error _ _ _ h

theorem matchToken_error (tokens : List Token) (i : Nat) (type : TokenType) (e : ParseError)
    (h : matchToken tokens i type = .error e) : e = .out_of_bounds := by
  simp only [matchToken, bind_error_iff] at h
  rcases h with h | ⟨a, _, h⟩
  · exact check_error _ _ _ _ h
  · split_ifs at h
    · simp only [bind_error_iff, pure_error_iff, and_false, exists_false, or_false] at h
      exact advance_error _ _ _ h
    · simp [pure_error_iff] at h

theorem matchAny_error (tokens : List Token) (types : List TokenType) :
    ∀ (i : Nat) (e : ParseError), matchAny tokens i types = .error e → e = .out_of_bounds := by
  induction types with
  | nil => intro i e h; simp [matchAny, pure_error_iff] at h
  | cons ty tys ih =>
    intro i e h
    simp only [matchAny, bind_error_iff] at h
    rcases h with h | ⟨a, _, h⟩
    · exact matchToken_error _ _ _ _ h
    · split_ifs at h
      · simp [pure_error_iff] at h
      · exact ih _ _ h

theorem stoi_error (str : String) (e : ParseError) (h : stoi str = .error e) :
    e = .invalid_argument ∨ e = .out_of_range := by
  unfold stoi at h
  simp only at h
  split_ifs at h <;> simp at h <;> simp [← h]

theorem informative_bounds (tokens : List Token) (e : ParseError) (h : e = .out_of_bounds) :
    Informative tokens e := by
  subst h; intro msg hm; cases hm

theorem informative_fuel (tokens : List Token) : Informative tokens .out_of_fuel := by
  intro msg hm; cases hm

theorem consume_informative (tokens : List Token) (i : Nat) (type : TokenType)
    (message : String) (e : ParseError) (h : consume tokens i type message = .error e) :
    Informative tokens e := by
  simp only [consume, bind_error_iff] at h
  rcases h with h | ⟨a, _, h⟩
  · exact informative_bounds _ _ (check_error _ _ _ _ h)
  · split_ifs at h
    · exact informative_bounds _ _ (advance_error _ _ _ h)
    · simp only [bind_error_iff, throw_error_iff] at h
      rcases h with h | ⟨t, ht, h⟩
      · exact informative_bounds _ _ (peek_error _ _ _ h)
      · subst h
        intro msg hm
        injection hm with hm
        exact ⟨t, peek_mem _ _ _ ht, Or.inl ⟨message, hm.symm⟩⟩

theorem informative_stoi (tokens : List Token) (str : String) (e : ParseError)
    (h : stoi str = .error e) : Informative tokens e := by
  intro msg hm
  rcases stoi_error str e h with h1 | h1 <;> rw [h1] at hm <;> cases hm

/-- The failures of the expression parsers. -/
theorem parseExpression_informative : ∀ (fuel : Nat) (tokens : List Token),
    (∀ current e, parseExpression fuel tokens current = .error e → Informative tokens e)
    ∧ (∀ current expr e, parseExpressionLoop fuel tokens current expr = .error e →
        Informative tokens e)
    ∧ (∀ current e, parseTerm fuel tokens current = .error e → Informative tokens e)
    ∧ (∀ current expr e, parseTermLoop fuel tokens current expr = .error e →
        Informative tokens e)
    ∧ (∀ current e, parseFactor fuel tokens current = .error e → Informative tokens e) := by
  intro fuel tokens
  induction fuel with
  | zero =>
    refine ⟨?_, ?_, ?_, ?_, ?_⟩ <;> intros <;> rename_i h <;>
      simp [parseExpression, parseExpressionLoop, parseTerm, parseTermLoop, parseFactor] at h <;>
      subst h <;> exact informative_fuel tokens
  | succ fuel ih =>
    obtain ⟨ihE, ihEL, ihT, ihTL, ihF⟩ := ih
    refine ⟨?_, ?_, ?_, ?_, ?_⟩
    · intro current e h
      simp only [parseExpression, bind_error_iff] at h
      rcases h with h | ⟨r, _, h⟩
      · exact ihT _ _ h
      · exact ihEL _ _ _ h
    · intro current expr e h
      simp only [parseExpressionLoop, bind_error_iff] at h
      rcases h with h | ⟨m, _, h⟩
      · exact informative_bounds _ _ (matchAny_error _ _ _ _ h)
      · split_ifs at h
        · simp only [bind_error_iff] at h
          rcases h with h | ⟨op, _, h | ⟨right, _, h⟩⟩
          · exact informative_bounds _ _ (previous_error _ _ _ h)
          · exact ihT _ _ h
          · exact ihEL _ _ _ h
        · simp [pure_error_iff] at h
    · intro current e h
      simp only [parseTerm, bind_error_iff] at h
      rcases h with h | ⟨r, _, h⟩
      · exact ihF _ _ h
      · exact ihTL _ _ _ h
    · intro current expr e h
      simp only [parseTermLoop, bind_error_iff] at h
      rcases h with h | ⟨m, _, h⟩
      · exact informative_bounds _ _ (matchAny_error _ _ _ _ h)
      · split_ifs at h
        · simp only [bind_error_iff] at h
          rcases h with h | ⟨op, _, h | ⟨right, _, h⟩⟩
          · exact informative_bounds _ _ (previous_error _ _ _ h)
          · exact ihF _ _ h
          · exact ihTL _ _ _ h
        · simp [pure_error_iff] at h
    · intro current e h
      simp only [parseFactor, bind_error_iff] at h
      rcases h with h | ⟨m1, _, h⟩
      · exact informative_bounds _ _ (matchToken_error _ _ _ _ h)
      split_ifs at h
      · simp only [bind_error_iff, pure_error_iff, and_false, exists_false, or_false] at h
        rcases h with h | ⟨p, _, h⟩
        · exact informative_bounds _ _ (previous_error _ _ _ h)
        · exact informative_stoi _ _ _ h
      simp only [bind_error_iff] at h
      rcases h with h | ⟨m2, _, h⟩
      · exact informative_bounds _ _ (matchToken_error _ _ _ _ h)
      split_ifs at h
      · simp only [bind_error_iff, pure_error_iff, and_false, exists_false, or_false] at h
        rcases h with h | ⟨c1, _, h⟩
        · exact consume_informative _ _ _ _ _ h
        · exact consume_informative _ _ _ _ _ h
      simp only [bind_error_iff] at h
      rcases h with h | ⟨m3, _, h⟩
      · exact informative_bounds _ _ (matchToken_error _ _ _ _ h)
      split_ifs at h
      · simp only [bind_error_iff, pure_error_iff, and_false, exists_false, or_false] at h
        exact informative_bounds _ _ (previous_error _ _ _ h)
      simp only [bind_error_iff] at h
      rcases h with h | ⟨m4, _, h⟩
      · exact informative_bounds _ _ (matchToken_error _ _ _ _ h)
      split_ifs at h
      · simp only [bind_error_iff, pure_error_iff, and_false, exists_false, or_false] at h
        rcases h with h | ⟨e1, _, h⟩
        · exact ihE _ _ h
        · exact consume_informative _ _ _ _ _ h
      · simp only [bind_error_iff, throw_error_iff] at h
        rcases h with h | ⟨t, ht, h⟩
        · exact informative_bounds _ _ (peek_error _ _ _ h)
        · subst h
          intro msg hm
          injection hm with hm
          exact ⟨t, peek_mem _ _ _ ht, Or.inr (Or.inl hm.symm)⟩

theorem parseExpression_error (fuel : Nat) (tokens : List Token) (current : Nat)
    (e : ParseError) (h : parseExpression fuel tokens current = .error e) :
    Informative tokens e :=
  (parseExpression_informative fuel tokens).1 current e h

theorem parseBooleanExpression_error (fuel : Nat) (tokens : List Token) (current : Nat)
    (e : ParseError) (h : parseBooleanExpression fuel tokens current = .error e) :
    Informative tokens e := by
  simp only [parseBooleanExpression, bind_error_iff] at h
  rcases h with h | ⟨left, _, h | ⟨m, _, h⟩⟩
  · exact parseExpression_error _ _ _ _ h
  · exact informative_bounds _ _ (matchAny_error _ _ _ _ h)
  · split_ifs at h
    · simp only [bind_error_iff, throw_error_iff] at h
      rcases h with h | ⟨t, ht, h⟩
      · exact informative_bounds _ _ (peek_error _ _ _ h)
      · subst h
        intro msg hm
        injection hm with hm
        exact ⟨t, peek_mem _ _ _ ht, Or.inr (Or.inr hm.symm)⟩
    · simp only [bind_error_iff, pure_error_iff, and_false, exists_false, or_false] at h
      rcases h with h | ⟨op, _, h⟩
      · exact informative_bounds _ _ (previous_error _ _ _ h)
      · exact parseExpression_error _ _ _ _ h

/-- The failures of the parsers of the simple statements. -/
theorem parseSimple_error (fuel : Nat) (tokens : List Token) (current : Nat)
    (e : ParseError) :
    (parseVarDeclaration fuel tokens current = .error e → Informative tokens e)
    ∧ (parseAssignmentStatement fuel tokens current = .error e → Informative tokens e)
    ∧ (parsePrintStatement fuel tokens current = .error e → Informative tokens e)
    ∧ (parsePrintLineStatement fuel tokens current = .error e → Informative tokens e) := by
  refine ⟨?_, ?_, ?_, ?_⟩
  · intro h
    simp only [parseVarDeclaration, bind_error_iff, pure_error_iff, and_false, exists_false,
      or_false] at h
    rcases h with h | ⟨_, _, h | ⟨_, _, h | ⟨_, _, h⟩⟩⟩
    · exact consume_informative _ _ _ _ _ h
    · exact consume_informative _ _ _ _ _ h
    · exact parseExpression_error _ _ _ _ h
    · exact consume_informative _ _ _ _ _ h
  · intro h
    simp only [parseAssignmentStatement, bind_error_iff, pure_error_iff, and_false,
      exists_false, or_false] at h
    rcases h with h | ⟨_, _, h | ⟨_, _, h | ⟨_, _, h⟩⟩⟩
    · exact consume_informative _ _ _ _ _ h
    · exact consume_informative _ _ _ _ _ h
    · exact parseExpression_error _ _ _ _ h
    · exact consume_informative _ _ _ _ _ h
  · intro h
    simp only [parsePrintStatement, bind_error_iff, pure_error_iff, and_false, exists_false,
      or_false] at h
    rcases h with h | ⟨_, _, h | ⟨_, _, h | ⟨_, _, h⟩⟩⟩
    · exact consume_informative _ _ _ _ _ h
    · exact parseExpression_error _ _ _ _ h
    · exact consume_informative _ _ _ _ _ h
    · exact consume_informative _ _ _ _ _ h
  · intro h
    simp only [parsePrintLineStatement, bind_error_iff, pure_error_iff, and_false,
      exists_false, or_false] at h
    rcases h with h | ⟨_, _, h | ⟨_, _, h | ⟨_, _, h⟩⟩⟩
    · exact consume_informative _ _ _ _ _ h
    · exact parseExpression_error _ _ _ _ h
    · exact consume_informative _ _ _ _ _ h
    · exact consume_informative _ _ _ _ _ h

theorem blockContinues_error (tokens : List Token) (i : Nat) (e : ParseError)
    (h : blockContinues tokens i = .error e) : e = .out_of_bounds := by
  simp only [blockContinues, bind_error_iff] at h
  rcases h with h | ⟨a, _, h⟩
  · exact check_error _ _ _ _ h
  · split_ifs at h
    · simp [pure_error_iff] at h
    · simp only [bind_error_iff, pure_error_iff, and_false, exists_false, or_false] at h
      exact isAtEnd_error _ _ _ h

/-- The failures of the statement parsers. -/
theorem parseStatement_informative : ∀ (fuel : Nat) (tokens : List Token),
    (∀ current e, parseStatement fuel tokens current = .error e → Informative tokens e)
    ∧ (∀ current acc e, parseBlock fuel tokens current acc = .error e → Informative tokens e)
    ∧ (∀ current e, parseIfStatement fuel tokens current = .error e → Informative tokens e)
    ∧ (∀ current e, parseWhileStatement fuel tokens current = .error e →
        Informative tokens e) := by
  intro fuel tokens
  induction fuel with
  | zero =>
    refine ⟨?_, ?_, ?_, ?_⟩ <;> intros <;> rename_i h <;>
      simp [parseStatement, parseBlock, parseIfStatement, parseWhileStatement] at h <;>
      subst h <;> exact informative_fuel tokens
  | succ fuel ih =>
    obtain ⟨ihS, ihB, ihI, ihW⟩ := ih
    refine ⟨?_, ?_, ?_, ?_⟩
    · intro current e h
      simp only [parseStatement, bind_error_iff] at h
      rcases h with h | ⟨m1, _, h⟩
      · exact informative_bounds _ _ (matchToken_error _ _ _ _ h)
      split_ifs at h
      · exact (parseSimple_error _ _ _ e).1 h
      simp only [bind_error_iff] at h
      rcases h with h | ⟨m2, _, h⟩
      · exact informative_bounds _ _ (matchToken_error _ _ _ _ h)
      split_ifs at h
      · exact (parseSimple_error _ _ _ e).2.2.1 h
      simp only [bind_error_iff] at h
      rcases h with h | ⟨m3, _, h⟩
      · exact informative_bounds _ _ (matchToken_error _ _ _ _ h)
      split_ifs at h
      · exact (parseSimple_error _ _ _ e).2.2.2 h
      simp only [bind_error_iff] at h
      rcases h with h | ⟨m4, _, h⟩
      · exact informative_bounds _ _ (matchToken_error _ _ _ _ h)
      split_ifs at h
      · exact ihI _ _ h
      simp only [bind_error_iff] at h
      rcases h with h | ⟨m5, _, h⟩
      · exact informative_bounds _ _ (matchToken_error _ _ _ _ h)
      split_ifs at h
      · exact ihW _ _ h
      · exact (parseSimple_error _ _ _ e).2.1 h
    · intro current acc e h
      simp only [parseBlock, bind_error_iff] at h
      rcases h with h | ⟨b, _, h⟩
      · exact informative_bounds _ _ (blockContinues_error _ _ _ h)
      split_ifs at h
      · simp only [bind_error_iff] at h
        rcases h with h | ⟨s, _, h⟩
        · exact ihS _ _ h
        · exact ihB _ _ _ h
      · simp [pure_error_iff] at h
    · intro current e h
      simp only [parseIfStatement, bind_error_iff] at h
      rcases h with h | ⟨_, _, h | ⟨_, _, h | ⟨_, _, h | ⟨_, _, h | ⟨_, _, h | ⟨_, _, h | ⟨m, _, h⟩⟩⟩⟩⟩⟩⟩
      · exact consume_informative _ _ _ _ _ h
      · exact parseBooleanExpression_error _ _ _ _ h
      · exact consume_informative _ _ _ _ _ h
      · exact consume_informative _ _ _ _ _ h
      · exact ihB _ _ _ h
      · exact consume_informative _ _ _ _ _ h
      · exact informative_bounds _ _ (matchToken_error _ _ _ _ h)
      · split_ifs at h
        · simp only [bind_error_iff, pure_error_iff, and_false, exists_false, or_false] at h
          rcases h with h | ⟨_, _, h | ⟨_, _, h⟩⟩
          · exact consume_informative _ _ _ _ _ h
          · exact ihB _ _ _ h
          · exact consume_informative _ _ _ _ _ h
        · simp [pure_error_iff] at h
    · intro current e h
      simp only [parseWhileStatement, bind_error_iff, pure_error_iff, and_false, exists_false,
        or_false] at h
      rcases h with h | ⟨_, _, h | ⟨_, _, h | ⟨_, _, h | ⟨_, _, h | ⟨_, _, h⟩⟩⟩⟩⟩
      · exact consume_informative _ _ _ _ _ h
      · exact parseBooleanExpression_error _ _ _ _ h
      · exact consume_informative _ _ _ _ _ h
      · exact consume_informative _ _ _ _ _ h
      · exact ihB _ _ _ h
      · exact consume_informative _ _ _ _ _ h

theorem parseLoop_informative : ∀ (fuel : Nat) (tokens : List Token) (current : Nat)
    (acc : List Statement) (e : ParseError),
    parseLoop fuel tokens current acc = .error e → Informative tokens e := by
  intro fuel
  induction fuel with
  | zero =>
    intro tokens current acc e h
    simp [parseLoop] at h
    subst h
    exact informative_fuel tokens
  | succ fuel ih =>
    intro tokens current acc e h
    simp only [parseLoop, bind_error_iff] at h
    rcases h with h | ⟨b, _, h⟩
    · exact informative_bounds _ _ (isAtEnd_error _ _ _ h)
    split_ifs at h
    · simp only [bind_error_iff] at h
      rcases h with h | ⟨s, _, h⟩
      · exact (parseStatement_informative fuel tokens).1 _ _ h
      · exact ih _ _ _ _ h
    · simp [pure_error_iff] at h

theorem parse_informative (fuel : Nat) (tokens : List Token) (e : ParseError)
    (h : parse fuel tokens = .error e) : Informative tokens e := by
  simp only [parse, bind_error_iff, pure_error_iff, and_false, exists_false, or_false] at h
  exact parseLoop_informative _ _ _ _ _ h

theorem passed_refl (tokens : List Token) (a : Nat) : Passed tokens a a :=
  ⟨le_refl _, fun i h1 h2 => by omega⟩

theorem passed_trans (tokens : List Token) (a b c : Nat) (h1 : Passed tokens a b)
    (h2 : Passed tokens b c) : Passed tokens a c := by
  refine ⟨le_trans h1.1 h2.1, fun i hi1 hi2 => ?_⟩
  by_cases h : i < b
  · exact h1.2 i hi1 h
  · exact h2.2 i (by omega) hi2

theorem passed_step (tokens : List Token) (a : Nat) (t : Token) (h : tokens[a]? = some t)
    (h1 : t.type ≠ .EOF_TOKEN) (h2 : t.type ≠ .UNKNOWN) : Passed tokens a (a + 1) := by
  refine ⟨by omega, fun i hi1 hi2 => ?_⟩
  have : i = a := by omega
  subst this
  exact ⟨t, h, h1, h2⟩

/-- Below an index reached from 0 there is a token to read. -/
theorem passed_get (tokens : List Token) (n : Nat) (hw : WellEnded tokens)
    (h : Passed tokens 0 n) : ∃ t, tokens[n]? = some t := by
  obtain ⟨ts, t, rfl, ht⟩ := hw
  by_cases hn : n < (ts ++ [t]).length
  · exact ⟨(ts ++ [t])[n], List.getElem?_eq_getElem hn⟩
  · exfalso
    simp only [List.length_append, List.length_singleton] at hn
    obtain ⟨u, hu, hne, _⟩ := h.2 ts.length (by omega) (by omega)
    simp at hu
    rw [← hu] at hne
    exact hne ht

theorem sound_ok {α : Type} (tokens : List Token) (c : Nat) (r : α × Nat)
    (h : Passed tokens c r.2) : Sound tokens c (Except.ok r : Except ParseError (α × Nat)) := h

theorem sound_error {α : Type} (tokens : List Token) (c : Nat) (e : ParseError)
    (h : e ≠ .out_of_bounds) : Sound tokens c (Except.error e : Except ParseError (α × Nat)) := h

/-- Steps of the parser compose. -/
theorem sound_bind {α β : Type} (tokens : List Token) (c : Nat)
    (x : Except ParseError (α × Nat)) (f : α × Nat → Except ParseError (β × Nat))
    (h0 : Passed tokens 0 c) (hx : Sound tokens c x)
    (hf : ∀ r, x = .ok r → Passed tokens 0 r.2 → Sound tokens r.2 (f r)) :
    Sound tokens c (x >>= f) := by
  cases x with
  | error e => exact hx
  | ok r =>
    have h1 : Passed tokens c r.2 := hx
    have h2 := hf r rfl (passed_trans _ _ _ _ h0 h1)
    show Sound tokens c (f r)
    cases hfr : f r with
    | error e => rw [hfr] at h2; exact h2
    | ok s =>
      rw [hfr] at h2
      exact passed_trans _ _ _ _ h1 h2

/-- A read followed by a step. -/
theorem sound_bind_read {α β : Type} (tokens : List Token) (c : Nat)
    (x : Except ParseError α) (f : α → Except ParseError (β × Nat))
    (hx : InBounds x) (hf : ∀ a, x = .ok a → Sound tokens c (f a)) :
    Sound tokens c (x >>= f) := by
  cases x with
  | error e => exact hx e rfl
  | ok a => exact hf a rfl

theorem inBounds_bind {α β : Type} (x : Except ParseError α) (f : α → Except ParseError β)
    (hx : InBounds x) (hf : ∀ a, x = .ok a → InBounds (f a)) : InBounds (x >>= f) := by
  cases x with
  | error e => intro e1 h1; exact hx e1 (by simpa [bind, Except.bind] using h1)
  | ok a => exact hf a rfl

theorem inBounds_pure {α : Type} (a : α) : InBounds (pure a : Except ParseError α) := by
  intro e h; cases h

theorem peek_inBounds (tokens : List Token) (c : Nat) (hw : WellEnded tokens)
    (h0 : Passed tokens 0 c) : InBounds (peek tokens c) := by
  obtain ⟨t, ht⟩ := passed_get tokens c hw h0
  rw [peek_of_get tokens c t ht]
  intro e h; cases h

theorem previous_inBounds (tokens : List Token) (c : Nat) (h0 : Passed tokens 0 c)
    (hc : 0 < c) : InBounds (previous tokens c) := by
  obtain ⟨k, rfl⟩ : ∃ k, c = k + 1 := ⟨c - 1, by omega⟩
  obtain ⟨t, ht, _⟩ := h0.2 k (by omega) (by omega)
  rw [previous_succ, peek_of_get tokens k t ht]
  intro e h; cases h

/-- What `match` does on a token list that ends well. -/
theorem matchToken_cases (tokens : List Token) (c : Nat) (type : TokenType)
    (hw : WellEnded tokens) (h0 : Passed tokens 0 c) :
    (matchToken tokens c type = .ok (true, c + 1)
        ∧ ∃ t, tokens[c]? = some t ∧ t.type = type ∧ t.type ≠ .EOF_TOKEN)
      ∨ matchToken tokens c type = .ok (false, c) := by
  obtain ⟨t, ht⟩ := passed_get tokens c hw h0
  by_cases h1 : t.type = .EOF_TOKEN
  · right
    simp [matchToken, check_of_get tokens c t _ ht, h1, bind, Except.bind, pure, Except.pure]
  · by_cases h2 : t.type = type
    · left
      exact ⟨matchToken_hit tokens c t type ht h2 (by rw [← h2]; exact h1), t, ht, h2, h1⟩
    · right
      exact matchToken_miss tokens c t type ht h2

theorem matchToken_sound (tokens : List Token) (c : Nat) (type : TokenType)
    (hw : WellEnded tokens) (h0 : Passed tokens 0 c) (hty : type ≠ .UNKNOWN) :
    Sound tokens c (matchToken tokens c type) := by
  rcases matchToken_cases tokens c type hw h0 with ⟨h, t, ht, h1, h2⟩ | h
  · rw [h]
    exact passed_step tokens c t ht h2 (by rw [h1]; exact hty)
  · rw [h]
    exact passed_refl tokens c

theorem matchToken_true_pos (tokens : List Token) (c : Nat) (type : TokenType)
    (hw : WellEnded tokens) (h0 : Passed tokens 0 c) (r : Bool × Nat)
    (h : matchToken tokens c type = .ok r) (hr : r.1 = true) : 0 < r.2 := by
  rcases matchToken_cases tokens c type hw h0 with ⟨h1, _⟩ | h1
  · rw [h1] at h
    cases h
    simp
  · rw [h1] at h
    cases h
    simp at hr

theorem matchAny_cases (tokens : List Token) (c : Nat) (hw : WellEnded tokens)
    (h0 : Passed tokens 0 c) : ∀ types : List TokenType, TokenType.UNKNOWN ∉ types →
    (matchAny tokens c types = .ok (true, c + 1)
        ∧ ∃ t, tokens[c]? = some t ∧ t.type ≠ .UNKNOWN ∧ t.type ≠ .EOF_TOKEN)
      ∨ matchAny tokens c types = .ok (false, c) := by
  intro types
  induction types with
  | nil => intro _; right; rfl
  | cons ty tys ih =>
    intro hu
    simp only [List.mem_cons, not_or] at hu
    rcases matchToken_cases tokens c ty hw h0 with ⟨h, t, ht, h1, h2⟩ | h
    · left
      refine ⟨by simp [matchAny, h, bind, Except.bind, pure, Except.pure], t, ht, ?_, h2⟩
      rw [h1]
      exact Ne.symm hu.1
    · rcases ih hu.2 with ⟨h3, h4⟩ | h3
      · left
        exact ⟨by simp [matchAny, h, h3, bind, Except.bind], h4⟩
      · right
        simp [matchAny, h, h3, bind, Except.bind]

theorem matchAny_sound (tokens : List Token) (c : Nat) (types : List TokenType)
    (hw : WellEnded tokens) (h0 : Passed tokens 0 c) (hu : TokenType.UNKNOWN ∉ types) :
    Sound tokens c (matchAny tokens c types) := by
  rcases matchAny_cases tokens c hw h0 types hu with ⟨h, t, ht, h1, h2⟩ | h
  · rw [h]
    exact passed_step tokens c t ht h2 h1
  · rw [h]
    exact passed_refl tokens c

theorem matchAny_true_pos (tokens : List Token) (c : Nat) (types : List TokenType)
    (hw : WellEnded tokens) (h0 : Passed tokens 0 c) (hu : TokenType.UNKNOWN ∉ types)
    (r : Bool × Nat) (h : matchAny tokens c types = .ok r) (hr : r.1 = true) : 0 < r.2 := by
  rcases matchAny_cases tokens c hw h0 types hu with ⟨h1, _⟩ | h1
  · rw [h1] at h
    cases h
    simp
  · rw [h1] at h
    cases h
    simp at hr

theorem consume_sound (tokens : List Token) (c : Nat) (type : TokenType) (message : String)
    (hw : WellEnded tokens) (h0 : Passed tokens 0 c) (hty : type ≠ .UNKNOWN) :
    Sound tokens c (consume tokens c type message) := by
  obtain ⟨t, ht⟩ := passed_get tokens c hw h0
  by_cases h1 : t.type = .EOF_TOKEN
  · have : consume tokens c type message
        = .error (.runtime_error (consumeMessage message t)) := by
      simp [consume, check_of_get tokens c t _ ht, peek_of_get tokens c t ht, h1, bind,
        Except.bind, throw, throwThe, MonadExceptOf.throw]
    rw [this]
    exact sound_error tokens c _ (by simp)
  · by_cases h2 : t.type = type
    · rw [consume_hit tokens c t type message ht h2 (by rw [← h2]; exact h1)]
      exact passed_step tokens c t ht h1 (by rw [h2]; exact hty)
    · rw [consume_miss tokens c t type message ht h2]
      exact sound_error tokens c _ (by simp)

theorem stoi_inBounds (str : String) : InBounds (stoi str) := by
  intro e h
  have := stoi_error str e h
  rcases this with rfl | rfl <;> simp

theorem isAtEnd_inBounds (tokens : List Token) (c : Nat) (hw : WellEnded tokens)
    (h0 : Passed tokens 0 c) : InBounds (isAtEnd tokens c) := by
  obtain ⟨t, ht⟩ := passed_get tokens c hw h0
  rw [isAtEnd_of_get tokens c t ht]
  intro e h; cases h

theorem blockContinues_inBounds (tokens : List Token) (c : Nat) (hw : WellEnded tokens)
    (h0 : Passed tokens 0 c) : InBounds (blockContinues tokens c) := by
  obtain ⟨t, ht⟩ := passed_get tokens c hw h0
  simp only [blockContinues, check_of_get tokens c t _ ht, isAtEnd_of_get tokens c t ht, bind,
    Except.bind, pure, Except.pure]
  intro e h
  split at h <;> cases h

/-- The expression parser reads no token outside a list that ends well, and
moves only over tokens it has matched. -/
theorem parseExpression_sound : ∀ (fuel : Nat) (tokens : List Token), WellEnded tokens →
    (∀ c, Passed tokens 0 c → Sound tokens c (parseExpression fuel tokens c))
    ∧ (∀ c expr, Passed tokens 0 c → Sound tokens c (parseExpressionLoop fuel tokens c expr))
    ∧ (∀ c, Passed tokens 0 c → Sound tokens c (parseTerm fuel tokens c))
    ∧ (∀ c expr, Passed tokens 0 c → Sound tokens c (parseTermLoop fuel tokens c expr))
    ∧ (∀ c, Passed tokens 0 c → Sound tokens c (parseFactor fuel tokens c)) := by
  intro fuel tokens hw
  induction fuel with
  | zero =>
    refine ⟨?_, ?_, ?_, ?_, ?_⟩ <;> intros <;>
      simp [parseExpression, parseExpressionLoop, parseTerm, parseTermLoop, parseFactor, Sound]
  | succ fuel ih =>
    obtain ⟨ihE, ihEL, ihT, ihTL, ihF⟩ := ih
    refine ⟨?_, ?_, ?_, ?_, ?_⟩
    · intro c h0
      simp only [parseExpression]
      refine sound_bind _ _ _ _ h0 (ihT c h0) ?_
      intro r _ h1
      exact ihEL _ _ h1
    · intro c expr h0
      simp only [parseExpressionLoop]
      refine sound_bind _ _ _ _ h0 (matchAny_sound _ _ _ hw h0 (by decide)) ?_
      intro m hm h1
      split
      · rename_i hm1
        refine sound_bind_read _ _ _ _
          (previous_inBounds _ _ h1 (matchAny_true_pos _ _ _ hw h0 (by decide) m hm hm1)) ?_
        intro op _
        refine sound_bind _ _ _ _ h1 (ihT _ h1) ?_
        intro r _ h2
        exact ihEL _ _ h2
      · exact passed_refl _ _
    · intro c h0
      simp only [parseTerm]
      refine sound_bind _ _ _ _ h0 (ihF c h0) ?_
      intro r _ h1
      exact ihTL _ _ h1
    · intro c expr h0
      simp only [parseTermLoop]
      refine sound_bind _ _ _ _ h0 (matchAny_sound _ _ _ hw h0 (by decide)) ?_
      intro m hm h1
      split
      · rename_i hm1
        refine sound_bind_read _ _ _ _
          (previous_inBounds _ _ h1 (matchAny_true_pos _ _ _ hw h0 (by decide) m hm hm1)) ?_
        intro op _
        refine sound_bind _ _ _ _ h1 (ihF _ h1) ?_
        intro r _ h2
        exact ihTL _ _ h2
      · exact passed_refl _ _
    · intro c h0
      simp only [parseFactor]
      refine sound_bind _ _ _ _ h0 (matchToken_sound _ _ _ hw h0 (by decide)) ?_
      intro m1 hm1 h1
      split
      · rename_i hb
        refine sound_bind_read _ _ _ _
          (previous_inBounds _ _ h1 (matchToken_true_pos _ _ _ hw h0 m1 hm1 hb)) ?_
        intro p _
        refine sound_bind_read _ _ _ _ (stoi_inBounds _) ?_
        intro v _
        exact passed_refl _ _
      · refine sound_bind _ _ _ _ h1 (matchToken_sound _ _ _ hw h1 (by decide)) ?_
        intro m2 hm2 h2
        split
        · refine sound_bind _ _ _ _ h2 (consume_sound _ _ _ _ hw h2 (by decide)) ?_
          intro c1 _ h3
          refine sound_bind _ _ _ _ h3 (consume_sound _ _ _ _ hw h3 (by decide)) ?_
          intro c2 _ h4
          exact passed_refl _ _
        · refine sound_bind _ _ _ _ h2 (matchToken_sound _ _ _ hw h2 (by decide)) ?_
          intro m3 hm3 h3
          split
          · rename_i hb
            refine sound_bind_read _ _ _ _
              (previous_inBounds _ _ h3 (matchToken_true_pos _ _ _ hw h2 m3 hm3 hb)) ?_
            intro p _
            exact passed_refl _ _
          · refine sound_bind _ _ _ _ h3 (matchToken_sound _ _ _ hw h3 (by decide)) ?_
            intro m4 hm4 h4
            split
            · refine sound_bind _ _ _ _ h4 (ihE _ h4) ?_
              intro e _ h5
              refine sound_bind _ _ _ _ h5 (consume_sound _ _ _ _ hw h5 (by decide)) ?_
              intro c1 _ h6
              exact passed_refl _ _
            · refine sound_bind_read _ _ _ _ (peek_inBounds _ _ hw h4) ?_
              intro token _
              exact sound_error _ _ _ (by simp)

theorem parseBooleanExpression_sound (fuel : Nat) (tokens : List Token) (c : Nat)
    (hw : WellEnded tokens) (h0 : Passed tokens 0 c) :
    Sound tokens c (parseBooleanExpression fuel tokens c) := by
  have hE := (parseExpression_sound fuel tokens hw).1
  simp only [parseBooleanExpression]
  refine sound_bind _ _ _ _ h0 (hE c h0) ?_
  intro left _ h1
  refine sound_bind _ _ _ _ h1 (matchAny_sound _ _ _ hw h1 (by decide)) ?_
  intro m hm h2
  split
  · refine sound_bind_read _ _ _ _ (peek_inBounds _ _ hw h2) ?_
    intro token _
    exact sound_error _ _ _ (by simp)
  · rename_i hb
    refine sound_bind_read _ _ _ _
      (previous_inBounds _ _ h2 (matchAny_true_pos _ _ _ hw h1 (by decide) m hm (by simpa using hb))) ?_
    intro op _
    refine sound_bind _ _ _ _ h2 (hE _ h2) ?_
    intro right _ h3
    exact passed_refl _ _

theorem parseVarDeclaration_sound (fuel : Nat) (tokens : List Token) (c : Nat)
    (hw : WellEnded tokens) (h0 : Passed tokens 0 c) :
    Sound tokens c (parseVarDeclaration fuel tokens c) := by
  simp only [parseVarDeclaration]
  refine sound_bind _ _ _ _ h0 (consume_sound _ _ _ _ hw h0 (by decide)) ?_
  intro i _ h1
  refine sound_bind _ _ _ _ h1 (consume_sound _ _ _ _ hw h1 (by decide)) ?_
  intro a _ h2
  refine sound_bind _ _ _ _ h2 ((parseExpression_sound fuel tokens hw).1 _ h2) ?_
  intro e _ h3
  refine sound_bind _ _ _ _ h3 (consume_sound _ _ _ _ hw h3 (by decide)) ?_
  intro s _ h4
  exact passed_refl _ _

theorem parseAssignmentStatement_sound (fuel : Nat) (tokens : List Token) (c : Nat)
    (hw : WellEnded tokens) (h0 : Passed tokens 0 c) :
    Sound tokens c (parseAssignmentStatement fuel tokens c) := by
  simp only [parseAssignmentStatement]
  refine sound_bind _ _ _ _ h0 (consume_sound _ _ _ _ hw h0 (by decide)) ?_
  intro i _ h1
  refine sound_bind _ _ _ _ h1 (consume_sound _ _ _ _ hw h1 (by decide)) ?_
  intro a _ h2
  refine sound_bind _ _ _ _ h2 ((parseExpression_sound fuel tokens hw).1 _ h2) ?_
  intro e _ h3
  refine sound_bind _ _ _ _ h3 (consume_sound _ _ _ _ hw h3 (by decide)) ?_
  intro s _ h4
  exact passed_refl _ _

theorem parsePrintStatement_sound (fuel : Nat) (tokens : List Token) (c : Nat)
    (hw : WellEnded tokens) (h0 : Passed tokens 0 c) :
    Sound tokens c (parsePrintStatement fuel tokens c) := by
  simp only [parsePrintStatement]
  refine sound_bind _ _ _ _ h0 (consume_sound _ _ _ _ hw h0 (by decide)) ?_
  intro i _ h1
  refine sound_bind _ _ _ _ h1 ((parseExpression_sound fuel tokens hw).1 _ h1) ?_
  intro e _ h2
  refine sound_bind _ _ _ _ h2 (consume_sound _ _ _ _ hw h2 (by decide)) ?_
  intro a _ h3
  refine sound_bind _ _ _ _ h3 (consume_sound _ _ _ _ hw h3 (by decide)) ?_
  intro s _ h4
  exact passed_refl _ _

theorem parsePrintLineStatement_sound (fuel : Nat) (tokens : List Token) (c : Nat)
    (hw : WellEnded tokens) (h0 : Passed tokens 0 c) :
    Sound tokens c (parsePrintLineStatement fuel tokens c) := by
  simp only [parsePrintLineStatement]
  refine sound_bind _ _ _ _ h0 (consume_sound _ _ _ _ hw h0 (by decide)) ?_
  intro i _ h1
  refine sound_bind _ _ _ _ h1 ((parseExpression_sound fuel tokens hw).1 _ h1) ?_
  intro e _ h2
  refine sound_bind _ _ _ _ h2 (consume_sound _ _ _ _ hw h2 (by decide)) ?_
  intro a _ h3
  refine sound_bind _ _ _ _ h3 (consume_sound _ _ _ _ hw h3 (by decide)) ?_
  intro s _ h4
  exact passed_refl _ _

/-- The statement parser reads no token outside a list that ends well, and
moves only over tokens it has matched. -/
theorem parseStatement_sound : ∀ (fuel : Nat) (tokens : List Token), WellEnded tokens →
    (∀ c, Passed tokens 0 c → Sound tokens c (parseStatement fuel tokens c))
    ∧ (∀ c acc, Passed tokens 0 c → Sound tokens c (parseBlock fuel tokens c acc))
    ∧ (∀ c, Passed tokens 0 c → Sound tokens c (parseIfStatement fuel tokens c))
    ∧ (∀ c, Passed tokens 0 c → Sound tokens c (parseWhileStatement fuel tokens c)) := by
  intro fuel tokens hw
  induction fuel with
  | zero =>
    refine ⟨?_, ?_, ?_, ?_⟩ <;> intros <;>
      simp [parseStatement, parseBlock, parseIfStatement, parseWhileStatement, Sound]
  | succ fuel ih =>
    obtain ⟨ihS, ihB, ihI, ihW⟩ := ih
    refine ⟨?_, ?_, ?_, ?_⟩
    · intro c h0
      simp only [parseStatement]
      refine sound_bind _ _ _ _ h0 (matchToken_sound _ _ _ hw h0 (by decide)) ?_
      intro m1 _ h1
      split
      · exact parseVarDeclaration_sound _ _ _ hw h1
      · refine sound_bind _ _ _ _ h1 (matchToken_sound _ _ _ hw h1 (by decide)) ?_
        intro m2 _ h2
        split
        · exact parsePrintStatement_sound _ _ _ hw h2
        · refine sound_bind _ _ _ _ h2 (matchToken_sound _ _ _ hw h2 (by decide)) ?_
          intro m3 _ h3
          split
          · exact parsePrintLineStatement_sound _ _ _ hw h3
          · refine sound_bind _ _ _ _ h3 (matchToken_sound _ _ _ hw h3 (by decide)) ?_
            intro m4 _ h4
            split
            · exact ihI _ h4
            · refine sound_bind _ _ _ _ h4 (matchToken_sound _ _ _ hw h4 (by decide)) ?_
              intro m5 _ h5
              split
              · exact ihW _ h5
              · exact parseAssignmentStatement_sound _ _ _ hw h5
    · intro c acc h0
      simp only [parseBlock]
      refine sound_bind_read _ _ _ _ (blockContinues_inBounds _ _ hw h0) ?_
      intro b _
      split
      · refine sound_bind _ _ _ _ h0 (ihS c h0) ?_
        intro s _ h1
        exact ihB _ _ h1
      · exact passed_refl _ _
    · intro c h0
      simp only [parseIfStatement]
      refine sound_bind _ _ _ _ h0 (consume_sound _ _ _ _ hw h0 (by decide)) ?_
      intro c1 _ h1
      refine sound_bind _ _ _ _ h1 (parseBooleanExpression_sound _ _ _ hw h1) ?_
      intro cond _ h2
      refine sound_bind _ _ _ _ h2 (consume_sound _ _ _ _ hw h2 (by decide)) ?_
      intro c2 _ h3
      refine sound_bind _ _ _ _ h3 (consume_sound _ _ _ _ hw h3 (by decide)) ?_
      intro c3 _ h4
      refine sound_bind _ _ _ _ h4 (ihB _ _ h4) ?_
      intro th _ h5
      refine sound_bind _ _ _ _ h5 (consume_sound _ _ _ _ hw h5 (by decide)) ?_
      intro c4 _ h6
      refine sound_bind _ _ _ _ h6 (matchToken_sound _ _ _ hw h6 (by decide)) ?_
      intro m _ h7
      split
      · refine sound_bind _ _ _ _ h7 (consume_sound _ _ _ _ hw h7 (by decide)) ?_
        intro c5 _ h8
        refine sound_bind _ _ _ _ h8 (ihB _ _ h8) ?_
        intro el _ h9
        refine sound_bind _ _ _ _ h9 (consume_sound _ _ _ _ hw h9 (by decide)) ?_
        intro c6 _ h10
        exact passed_refl _ _
      · exact passed_refl _ _
    · intro c h0
      simp only [parseWhileStatement]
      refine sound_bind _ _ _ _ h0 (consume_sound _ _ _ _ hw h0 (by decide)) ?_
      intro c1 _ h1
      refine sound_bind _ _ _ _ h1 (parseBooleanExpression_sound _ _ _ hw h1) ?_
      intro cond _ h2
      refine sound_bind _ _ _ _ h2 (consume_sound _ _ _ _ hw h2 (by decide)) ?_
      intro c2 _ h3
      refine sound_bind _ _ _ _ h3 (consume_sound _ _ _ _ hw h3 (by decide)) ?_
      intro c3 _ h4
      refine sound_bind _ _ _ _ h4 (ihB _ _ h4) ?_
      intro th _ h5
      refine sound_bind _ _ _ _ h5 (consume_sound _ _ _ _ hw h5 (by decide)) ?_
      intro c4 _ h6
      exact passed_refl _ _

theorem parseLoop_sound (tokens : List Token) (hw : WellEnded tokens) :
    ∀ (fuel : Nat) (c : Nat) (acc : List Statement), Passed tokens 0 c →
      Sound tokens c (parseLoop fuel tokens c acc) := by
  intro fuel
  induction fuel with
  | zero => intro c acc _; simp [parseLoop, Sound]
  | succ fuel ih =>
    intro c acc h0
    simp only [parseLoop]
    refine sound_bind_read _ _ _ _ (isAtEnd_inBounds _ _ hw h0) ?_
    intro b _
    split
    · refine sound_bind _ _ _ _ h0 ((parseStatement_sound fuel tokens hw).1 c h0) ?_
      intro s _ h1
      exact ih _ _ h1
    · exact passed_refl _ _

/-- The statement loop of `parse` stops at an end-of-input token. -/
theorem parseLoop_stops_at_eof (tokens : List Token) :
    ∀ (fuel : Nat) (c : Nat) (acc : List Statement) (r : List Statement × Nat),
      parseLoop fuel tokens c acc = .ok r →
      ∃ t, tokens[r.2]? = some t ∧ t.type = .EOF_TOKEN := by
  intro fuel
  induction fuel with
  | zero => intro c acc r h; simp [parseLoop] at h
  | succ fuel ih =>
    intro c acc r h
    simp only [parseLoop, bind_ok_iff] at h
    obtain ⟨b, hb, h⟩ := h
    split_ifs at h with hc
    · simp only [bind_ok_iff] at h
      obtain ⟨s, _, h⟩ := h
      exact ih _ _ _ h
    · simp only [pure_ok_iff] at h
      subst h
      simp only [isAtEnd, bind_ok_iff, pure_ok_iff] at hb
      obtain ⟨t, ht, hb⟩ := hb
      have hg : tokens[c]? = some t := by
        cases hg : tokens[c]? with
        | none => simp [peek, hg] at ht
        | some u => simp [peek, hg] at ht; rw [ht]
      refine ⟨t, hg, ?_⟩
      subst hb
      simpa using hc

/-- A program comes only from a list whose tokens before the first end-of-input
token are all valid, and `parse` never reads outside the list. -/
theorem parse_sound (fuel : Nat) (tokens : List Token) (hw : WellEnded tokens) :
    parse fuel tokens ≠ .error .out_of_bounds
      ∧ ∀ p, parse fuel tokens = .ok p →
        ∃ n t, Passed tokens 0 n ∧ tokens[n]? = some t ∧ t.type = .EOF_TOKEN := by
  have hs := parseLoop_sound tokens hw fuel 0 [] (passed_refl _ _)
  constructor
  · intro h
    simp only [parse, bind_error_iff, pure_error_iff, and_false, exists_false, or_false] at h
    rw [h] at hs
    exact hs rfl
  · intro p h
    simp only [parse, bind_ok_iff] at h
    obtain ⟨r, hr, _⟩ := h
    obtain ⟨t, ht, hty⟩ := parseLoop_stops_at_eof tokens fuel 0 [] r hr
    rw [hr] at hs
    exact ⟨r.2, t, hs, ht, hty⟩

/-! ### The names of a parsed program are identifier tokens -/

/-- What `consume` returns is a token of the list with the type asked for. -/
theorem consume_ok (tokens : List Token) (i : Nat) (type : TokenType) (message : String)
    (r : Token × Nat) (h : consume tokens i type message = .ok r) :
    r.1 ∈ tokens ∧ r.1.type = type ∧ r.2 = i + 1 := by
  cases hg : tokens[i]? with
  | none => simp [consume, check, isAtEnd, peek, hg, bind, Except.bind] at h
  | some t =>
    by_cases h1 : t.type = .EOF_TOKEN
    · simp [consume, check_of_get tokens i t _ hg, peek_of_get tokens i t hg, h1, bind,
        Except.bind, throw, throwThe, MonadExceptOf.throw] at h
    · by_cases h2 : t.type = type
      · rw [consume_hit tokens i t type message hg h2 (by rw [← h2]; exact h1)] at h
        cases h
        exact ⟨List.getElem?_mem hg, h2, rfl⟩
      · rw [consume_miss tokens i t type message hg h2] at h
        cases h

theorem listNames_append (a b : List Statement) :
    Statement.listNames (a ++ b) = Statement.listNames a ++ Statement.listNames b := by
  induction a with
  | nil => simp [Statement.listNames]
  | cons s ss ih => simp [Statement.listNames, ih]

theorem listNames_single (s : Statement) : Statement.listNames [s] = s.names := by
  simp [Statement.listNames]

theorem parseVarDeclaration_names (Q : String → Prop) (fuel : Nat) (tokens : List Token)
    (hQ : ∀ t ∈ tokens, t.type = .IDENTIFIER → Q t.value) (c : Nat) (r : Statement × Nat)
    (h : parseVarDeclaration fuel tokens c = .ok r) : ∀ v ∈ r.1.names, Q v := by
  simp only [parseVarDeclaration, bind_ok_iff, pure_ok_iff] at h
  obtain ⟨i, hi, _, _, _, _, _, _, rfl⟩ := h
  obtain ⟨hm, hty, _⟩ := consume_ok _ _ _ _ _ hi
  intro v hv
  simp only [Statement.names, List.mem_singleton] at hv
  subst hv
  exact hQ _ hm hty

theorem parseAssignmentStatement_names (Q : String → Prop) (fuel : Nat) (tokens : List Token)
    (hQ : ∀ t ∈ tokens, t.type = .IDENTIFIER → Q t.value) (c : Nat) (r : Statement × Nat)
    (h : parseAssignmentStatement fuel tokens c = .ok r) : ∀ v ∈ r.1.names, Q v := by
  simp only [parseAssignmentStatement, bind_ok_iff, pure_ok_iff] at h
  obtain ⟨i, hi, _, _, _, _, _, _, rfl⟩ := h
  obtain ⟨hm, hty, _⟩ := consume_ok _ _ _ _ _ hi
  intro v hv
  simp only [Statement.names, List.mem_singleton] at hv
  subst hv
  exact hQ _ hm hty

theorem parsePrintStatement_names (Q : String → Prop) (fuel : Nat) (tokens : List Token)
    (c : Nat) (r : Statement × Nat)
    (h : parsePrintStatement fuel tokens c = .ok r) : ∀ v ∈ r.1.names, Q v := by
  simp only [parsePrintStatement, bind_ok_iff, pure_ok_iff] at h
  obtain ⟨_, _, _, _, _, _, _, _, rfl⟩ := h
  simp [Statement.names]

theorem parsePrintLineStatement_names (Q : String → Prop) (fuel : Nat) (tokens : List Token)
    (c : Nat) (r : Statement × Nat)
    (h : parsePrintLineStatement fuel tokens c = .ok r) : ∀ v ∈ r.1.names, Q v := by
  simp only [parsePrintLineStatement, bind_ok_iff, pure_ok_iff] at h
  obtain ⟨_, _, _, _, _, _, _, _, rfl⟩ := h
  simp [Statement.names]

/-- The names declared or assigned in a parsed statement are texts of
identifier tokens. -/
theorem parseStatement_names (Q : String → Prop) (tokens : List Token)
    (hQ : ∀ t ∈ tokens, t.type = .IDENTIFIER → Q t.value) : ∀ (fuel : Nat),
    (∀ c r, parseStatement fuel tokens c = .ok r → ∀ v ∈ r.1.names, Q v)
    ∧ (∀ c acc r, (∀ v ∈ Statement.listNames acc, Q v) →
        parseBlock fuel tokens c acc = .ok r → ∀ v ∈ Statement.listNames r.1, Q v)
    ∧ (∀ c r, parseIfStatement fuel tokens c = .ok r → ∀ v ∈ r.1.names, Q v)
    ∧ (∀ c r, parseWhileStatement fuel tokens c = .ok r → ∀ v ∈ r.1.names, Q v) := by
  intro fuel
  induction fuel with
  | zero =>
    refine ⟨?_, ?_, ?_, ?_⟩
    · intro c r h; simp [parseStatement] at h
    · intro c acc r _ h; simp [parseBlock] at h
    · intro c r h; simp [parseIfStatement] at h
    · intro c r h; simp [parseWhileStatement] at h
  | succ fuel ih =>
    obtain ⟨ihS, ihB, ihI, ihW⟩ := ih
    refine ⟨?_, ?_, ?_, ?_⟩
    · intro c r h
      simp only [parseStatement, bind_ok_iff] at h
      obtain ⟨m1, _, h⟩ := h
      split_ifs at h
      · exact parseVarDeclaration_names Q fuel tokens hQ _ r h
      · simp only [bind_ok_iff] at h
        obtain ⟨m2, _, h⟩ := h
        split_ifs at h
        · exact parsePrintStatement_names Q fuel tokens _ r h
        · simp only [bind_ok_iff] at h
          obtain ⟨m3, _, h⟩ := h
          split_ifs at h
          · exact parsePrintLineStatement_names Q fuel tokens _ r h
          · simp only [bind_ok_iff] at h
            obtain ⟨m4, _, h⟩ := h
            split_ifs at h
            · exact ihI _ r h
            · simp only [bind_ok_iff] at h
              obtain ⟨m5, _, h⟩ := h
              split_ifs at h
              · exact ihW _ r h
              · exact parseAssignmentStatement_names Q fuel tokens hQ _ r h
    · intro c acc r hacc h
      simp only [parseBlock, bind_ok_iff] at h
      obtain ⟨b, _, h⟩ := h
      split_ifs at h
      · simp only [bind_ok_iff] at h
        obtain ⟨s, hs, h⟩ := h
        refine ihB _ _ r ?_ h
        intro v hv
        rw [listNames_append, listNames_single, List.mem_append] at hv
        rcases hv with hv | hv
        · exact hacc v hv
        · exact ihS _ s hs v hv
      · simp only [pure_ok_iff] at h
        subst h
        exact hacc
    · intro c r h
      simp only [parseIfStatement, bind_ok_iff] at h
      obtain ⟨c1, _, cond, _, c2, _, c3, _, th, hth, c4, _, m, _, h⟩ := h
      have hT := ihB _ [] th (by simp [Statement.listNames]) hth
      split_ifs at h
      · simp only [bind_ok_iff, pure_ok_iff] at h
        obtain ⟨c5, _, el, hel, c6, _, rfl⟩ := h
        have hE := ihB _ [] el (by simp [Statement.listNames]) hel
        intro v hv
        simp only [Statement.names, List.mem_append] at hv
        rcases hv with hv | hv
        · exact hT v hv
        · exact hE v hv
      · simp only [pure_ok_iff] at h
        subst h
        intro v hv
        simp only [Statement.names, Statement.listNames, List.append_nil] at hv
        exact hT v hv
    · intro c r h
      simp only [parseWhileStatement, bind_ok_iff, pure_ok_iff] at h
      obtain ⟨c1, _, cond, _, c2, _, c3, _, body, hbody, c4, _, rfl⟩ := h
      have hB := ihB _ [] body (by simp [Statement.listNames]) hbody
      intro v hv
      simp only [Statement.names] at hv
      exact hB v hv

theorem parseLoop_names (Q : String → Prop) (tokens : List Token)
    (hQ : ∀ t ∈ tokens, t.type = .IDENTIFIER → Q t.value) : ∀ (fuel : Nat) (c : Nat)
    (acc : List Statement) (r : List Statement × Nat),
    (∀ v ∈ Statement.listNames acc, Q v) →
    parseLoop fuel tokens c acc = .ok r → ∀ v ∈ Statement.listNames r.1, Q v := by
  intro fuel
  induction fuel with
  | zero => intro c acc r _ h; simp [parseLoop] at h
  | succ fuel ih =>
    intro c acc r hacc h
    simp only [parseLoop, bind_ok_iff] at h
    obtain ⟨b, _, h⟩ := h
    split_ifs at h
    · simp only [bind_ok_iff] at h
      obtain ⟨s, hs, h⟩ := h
      refine ih _ _ r ?_ h
      intro v hv
      rw [listNames_append, listNames_single, List.mem_append] at hv
      rcases hv with hv | hv
      · exact hacc v hv
      · exact (parseStatement_names Q tokens hQ fuel).1 _ s hs v hv
    · simp only [pure_ok_iff] at h
      subst h
      exact hacc

theorem parse_names (Q : String → Prop) (tokens : List Token)
    (hQ : ∀ t ∈ tokens, t.type = .IDENTIFIER → Q t.value) (fuel : Nat) (program : ProgramNode)
    (h : parse fuel tokens = .ok program) :
    ∀ v ∈ Statement.listNames program.statements, Q v := by
  simp only [parse, bind_ok_iff, pure_ok_iff] at h
  obtain ⟨r, hr, rfl⟩ := h
  exact parseLoop_names Q tokens hQ fuel 0 [] r (by simp [Statement.listNames]) hr

/-! ### Parsing a fully parenthesized expression -/

theorem parseFactor_integer (fuel : Nat) (tokens : List Token) (i : Nat) (t : Token)
    (value : Int) (h : tokens[i]? = some t) (ht : t.type = .INTEGER)
    (hv : stoi t.value = .ok value) :
    parseFactor (fuel + 1) tokens i = .ok (.IntegerLiteral value, i + 1) := by
  simp [parseFactor, matchToken_hit tokens i t .INTEGER h ht (by decide), previous_succ,
    peek_of_get tokens i t h, hv, bind, Except.bind, pure, Except.pure]

theorem parseFactor_identifier (fuel : Nat) (tokens : List Token) (i : Nat) (t : Token)
    (h : tokens[i]? = some t) (ht : t.type = .IDENTIFIER) :
    parseFactor (fuel + 1) tokens i = .ok (.VariableReference t.value, i + 1) := by
  simp [parseFactor, matchToken_miss tokens i t .INTEGER h (by rw [ht]; decide),
    matchToken_miss tokens i t .INPUT_INT h (by rw [ht]; decide),
    matchToken_hit tokens i t .IDENTIFIER h ht (by decide), previous_succ,
    peek_of_get tokens i t h, bind, Except.bind, pure, Except.pure]

theorem parseFactor_paren (fuel : Nat) (tokens : List Token) (i k : Nat) (lp rp : Token)
    (e : Expression) (h : tokens[i]? = some lp) (ht : lp.type = .LEFT_PAREN)
    (he : parseExpression fuel tokens (i + 1) = .ok (e, k))
    (hk : tokens[k]? = some rp) (hr : rp.type = .RIGHT_PAREN) :
    parseFactor (fuel + 1) tokens i = .ok (e, k + 1) := by
  simp [parseFactor, matchToken_miss tokens i lp .INTEGER h (by rw [ht]; decide),
    matchToken_miss tokens i lp .INPUT_INT h (by rw [ht]; decide),
    matchToken_miss tokens i lp .IDENTIFIER h (by rw [ht]; decide),
    matchToken_hit tokens i lp .LEFT_PAREN h ht (by decide), he,
    consume_hit tokens k rp .RIGHT_PAREN _ hk hr (by decide), bind, Except.bind, pure,
    Except.pure]

theorem get_middle (pre post : List Token) (t : Token) :
    (pre ++ t :: post)[pre.length]? = some t := by
  rw [List.getElem?_append_right (le_refl _)]
  simp

/-- The tokens of a fully parenthesized expression, wherever they stand, are
parsed as a factor to that expression. -/
theorem parseFactor_exprTokens {e : Expression} {ts : List Token} (h : ExprTokens e ts) :
    ∀ (pre post : List Token),
      Eventually (fun fuel => parseFactor fuel (pre ++ ts ++ post) pre.length)
        (.ok (e, pre.length + ts.length)) := by
  induction h with
  | literal value t ht hv =>
    intro pre post
    refine ⟨1, fun fuel hf => ?_⟩
    obtain ⟨n, rfl⟩ : ∃ n, fuel = n + 1 := ⟨fuel - 1, by omega⟩
    have hg : (pre ++ [t] ++ post)[pre.length]? = some t := by
      simpa using get_middle pre post t
    exact parseFactor_integer n _ _ t value hg ht hv
  | reference t ht =>
    intro pre post
    refine ⟨1, fun fuel hf => ?_⟩
    obtain ⟨n, rfl⟩ : ∃ n, fuel = n + 1 := ⟨fuel - 1, by omega⟩
    have hg : (pre ++ [t] ++ post)[pre.length]? = some t := by
      simpa using get_middle pre post t
    exact parseFactor_identifier n _ _ t hg ht
  | binary left right tl tr lp o rp hlp hrp ho _ _ ihl ihr =>
    intro pre post
    have e1 : pre ++ (lp :: tl ++ o :: tr ++ [rp]) ++ post
        = (pre ++ [lp]) ++ tl ++ (o :: tr ++ [rp] ++ post) := by simp
    have e2 : pre ++ (lp :: tl ++ o :: tr ++ [rp]) ++ post
        = (pre ++ [lp] ++ tl ++ [o]) ++ tr ++ ([rp] ++ post) := by simp
    have hL := ihl (pre ++ [lp]) (o :: tr ++ [rp] ++ post)
    have hR := ihr (pre ++ [lp] ++ tl ++ [o]) ([rp] ++ post)
    rw [← e1] at hL
    rw [← e2] at hR
    have l1 : (pre ++ [lp]).length = pre.length + 1 := by simp
    have l2 : (pre ++ [lp] ++ tl ++ [o]).length = pre.length + 1 + tl.length + 1 := by
      simp only [List.length_append, List.length_singleton]
    rw [l1] at hL
    rw [l2] at hR
    have g0 : (pre ++ (lp :: tl ++ o :: tr ++ [rp]) ++ post)[pre.length]? = some lp := by
      simpa using get_middle pre (tl ++ o :: tr ++ [rp] ++ post) lp
    have g1 : (pre ++ (lp :: tl ++ o :: tr ++ [rp]) ++ post)[pre.length + 1 + tl.length]?
        = some o := by
      have hl : (pre ++ [lp] ++ tl).length = pre.length + 1 + tl.length := by
        simp only [List.length_append, List.length_singleton]
      have he : pre ++ (lp :: tl ++ o :: tr ++ [rp]) ++ post
          = (pre ++ [lp] ++ tl) ++ o :: (tr ++ [rp] ++ post) := by simp
      rw [he, ← hl]
      exact get_middle _ _ _
    have g2 : (pre ++ (lp :: tl ++ o :: tr ++ [rp]) ++ post)[pre.length + 1 + tl.length + 1
        + tr.length]? = some rp := by
      have hl : (pre ++ [lp] ++ tl ++ [o] ++ tr).length
          = pre.length + 1 + tl.length + 1 + tr.length := by
        simp only [List.length_append, List.length_singleton]
      have he : pre ++ (lp :: tl ++ o :: tr ++ [rp]) ++ post
          = (pre ++ [lp] ++ tl ++ [o] ++ tr) ++ rp :: post := by simp
      rw [he, ← hl]
      exact get_middle _ _ _
    have hrpn : rp.type ∉
        [TokenType.PLUS, TokenType.MINUS, TokenType.MULTIPLY, TokenType.DIVIDE] := by
      rw [hrp]; decide
    have hchain := chains_nest_left _ (pre.length + 1) (pre.length + 1 + tl.length) left
      [(o, right, pre.length + 1 + tl.length + 1 + tr.length)] rp hL
      (by simpa [chainEnd] using g2) hrpn
    have hE : Eventually (fun fuel => parseExpression fuel
        (pre ++ (lp :: tl ++ o :: tr ++ [rp]) ++ post) (pre.length + 1))
        (.ok (.BinaryExpression left o.value right,
          pre.length + 1 + tl.length + 1 + tr.length)) := by
      simp only [List.mem_cons, List.mem_singleton, List.not_mem_nil, or_false] at ho
      rcases ho with ho | ho | ho | ho
      · exact hchain.1 ⟨g1, by simp [ho], hR, trivial⟩
      · exact hchain.1 ⟨g1, by simp [ho], hR, trivial⟩
      · exact (hchain.2 ⟨g1, by simp [ho], hR, trivial⟩).2
      · exact (hchain.2 ⟨g1, by simp [ho], hR, trivial⟩).2
    obtain ⟨N, hN⟩ := hE
    refine ⟨N + 1, fun fuel hf => ?_⟩
    obtain ⟨n, rfl⟩ : ∃ n, fuel = n + 1 := ⟨fuel - 1, by omega⟩
    have hn := hN n (by omega)
    beta_reduce at hn
    have := parseFactor_paren n _ pre.length _ lp rp _ g0 hlp hn g2 hrp
    beta_reduce
    rw [this]
    simp
    omega

/-- The tokens of a fully parenthesized expression, followed by a token that
is no arithmetic operator, are parsed as an expression up to that token. -/
theorem parseExpression_exprTokens {e : Expression} {ts : List Token} (h : ExprTokens e ts)
    (next : Token) (post : List Token)
    (hnext : next.type ∉
      [TokenType.PLUS, TokenType.MINUS, TokenType.MULTIPLY, TokenType.DIVIDE]) :
    Eventually (fun fuel => parseExpression fuel (ts ++ next :: post) 0)
      (.ok (e, ts.length)) := by
  have hF := parseFactor_exprTokens h [] (next :: post)
  simp only [List.nil_append, List.length_nil, Nat.zero_add] at hF
  have hg : (ts ++ next :: post)[chainEnd ts.length []]? = some next := by
    simpa [chainEnd] using get_middle ts post next
  exact (chains_nest_left _ 0 ts.length e [] next hF hg hnext).1 trivial

theorem exprTokens_no_unknown {e : Expression} {ts : List Token} (h : ExprTokens e ts) :
    ∀ t ∈ ts, t.type ≠ .UNKNOWN := by
  induction h with
  | literal value t ht hv =>
    intro u hu
    simp only [List.mem_singleton] at hu
    rw [hu, ht]; decide
  | reference t ht =>
    intro u hu
    simp only [List.mem_singleton] at hu
    rw [hu, ht]; decide
  | binary left right tl tr lp o rp hlp hrp ho _ _ ihl ihr =>
    intro u hu
    simp only [List.mem_cons, List.mem_append, List.mem_singleton, List.not_mem_nil,
      or_false] at hu ho
    rcases hu with ((rfl | hu) | rfl | hu) | rfl
    · rw [hlp]; decide
    · exact ihl u hu
    · rcases ho with ho | ho | ho | ho <;> rw [ho] <;> decide
    · exact ihr u hu
    · rw [hrp]; decide

/-! ### The parser ends within its fuel -/

theorem noFuel_bind {α β : Type} (x : Except ParseError α) (f : α → Except ParseError β)
    (hx : x ≠ .error .out_of_fuel) (hf : ∀ a, x = .ok a → f a ≠ .error .out_of_fuel) :
    (x >>= f) ≠ .error .out_of_fuel := by
  cases x with
  | error e =>
    intro h
    apply hx
    simpa [bind, Except.bind] using h
  | ok a => exact hf a rfl

theorem noFuel_of_bounds {α : Type} (x : Except ParseError α)
    (h : ∀ e, x = .error e → e = .out_of_bounds) : x ≠ .error .out_of_fuel := by
  intro hx
  have := h _ hx
  cases this

theorem consume_noFuel (tokens : List Token) (i : Nat) (type : TokenType) (message : String) :
    consume tokens i type message ≠ .error .out_of_fuel := by
  intro h
  simp only [consume, bind_error_iff] at h
  rcases h with h | ⟨a, _, h⟩
  · have := check_error _ _ _ _ h; cases this
  · split_ifs at h
    · have := advance_error _ _ _ h; cases this
    · simp only [bind_error_iff, throw_error_iff] at h
      rcases h with h | ⟨t, _, h⟩
      · have := peek_error _ _ _ h; cases this
      · cases h

theorem stoi_noFuel (str : String) : stoi str ≠ .error .out_of_fuel := by
  intro h
  rcases stoi_error str _ h with h1 | h1 <;> cases h1

theorem passed_lt (tokens : List Token) (c : Nat) (hw : WellEnded tokens)
    (h0 : Passed tokens 0 c) : c < tokens.length := by
  obtain ⟨t, ht⟩ := passed_get tokens c hw h0
  by_contra hlt
  rw [List.getElem?_eq_none (by omega)] at ht
  cases ht

theorem sound_passed {α : Type} (tokens : List Token) (c : Nat)
    (x : Except ParseError (α × Nat)) (r : α × Nat) (hs : Sound tokens c x) (hx : x = .ok r) :
    Passed tokens c r.2 := by
  subst hx
  exact hs

theorem matchToken_index (tokens : List Token) (c : Nat) (type : TokenType)
    (hw : WellEnded tokens) (h0 : Passed tokens 0 c) (m : Bool × Nat)
    (h : matchToken tokens c type = .ok m) :
    (m.1 = true → m.2 = c + 1) ∧ (¬ m.1 = true → m.2 = c) := by
  rcases matchToken_cases tokens c type hw h0 with ⟨h1, _⟩ | h1
  · rw [h1] at h; cases h; simp
  · rw [h1] at h; cases h; simp

theorem matchAny_index (tokens : List Token) (c : Nat) (types : List TokenType)
    (hw : WellEnded tokens) (h0 : Passed tokens 0 c) (hu : TokenType.UNKNOWN ∉ types)
    (m : Bool × Nat) (h : matchAny tokens c types = .ok m) :
    (m.1 = true → m.2 = c + 1) ∧ (¬ m.1 = true → m.2 = c) := by
  rcases matchAny_cases tokens c hw h0 types hu with ⟨h1, _⟩ | h1
  · rw [h1] at h; cases h; simp
  · rw [h1] at h; cases h; simp

/-- With three units of fuel for each token that is left, and a few more, the
expression parser does not run out of fuel. -/
theorem parseExpression_terminates (tokens : List Token) (hw : WellEnded tokens) :
    ∀ (fuel : Nat),
    (∀ c, Passed tokens 0 c → 3 * (tokens.length - c) + 3 ≤ fuel →
        parseExpression fuel tokens c ≠ .error .out_of_fuel)
    ∧ (∀ c expr, Passed tokens 0 c → 3 * (tokens.length - c) + 1 ≤ fuel →
        parseExpressionLoop fuel tokens c expr ≠ .error .out_of_fuel)
    ∧ (∀ c, Passed tokens 0 c → 3 * (tokens.length - c) + 2 ≤ fuel →
        parseTerm fuel tokens c ≠ .error .out_of_fuel)
    ∧ (∀ c expr, Passed tokens 0 c → 3 * (tokens.length - c) + 1 ≤ fuel →
        parseTermLoop fuel tokens c expr ≠ .error .out_of_fuel)
    ∧ (∀ c, Passed tokens 0 c → 3 * (tokens.length - c) + 1 ≤ fuel →
        parseFactor fuel tokens c ≠ .error .out_of_fuel) := by
  intro fuel
  induction fuel with
  | zero =>
    refine ⟨?_, ?_, ?_, ?_, ?_⟩ <;> intros <;> omega
  | succ fuel ih =>
    obtain ⟨ihE, ihEL, ihT, ihTL, ihF⟩ := ih
    obtain ⟨sE, sEL, sT, sTL, sF⟩ := parseExpression_sound fuel tokens hw
    refine ⟨?_, ?_, ?_, ?_, ?_⟩
    · intro c h0 hf
      have hc := passed_lt tokens c hw h0
      simp only [parseExpression]
      refine noFuel_bind _ _ (ihT c h0 (by omega)) ?_
      intro r hr
      have p1 := sound_passed _ _ _ r (sT c h0) hr
      exact ihEL _ _ (passed_trans _ _ _ _ h0 p1) (by have := p1.1; omega)
    · intro c expr h0 hf
      have hc := passed_lt tokens c hw h0
      simp only [parseExpressionLoop]
      refine noFuel_bind _ _ (noFuel_of_bounds _ (matchAny_error _ _ _)) ?_
      intro m hm
      have hi := matchAny_index tokens c _ hw h0 (by decide) m hm
      have pm := passed_trans _ _ _ _ h0
        (sound_passed _ _ _ m (matchAny_sound _ _ _ hw h0 (by decide)) hm)
      split
      · rename_i hb
        have e1 := hi.1 hb
        refine noFuel_bind _ _ (noFuel_of_bounds _ (previous_error _ _)) ?_
        intro op _
        have hm2 := passed_lt tokens m.2 hw pm
        refine noFuel_bind _ _ (ihT _ pm (by omega)) ?_
        intro r hr
        have p1 := sound_passed _ _ _ r (sT _ pm) hr
        exact ihEL _ _ (passed_trans _ _ _ _ pm p1) (by have := p1.1; omega)
      · simp [pure, Except.pure]
    · intro c h0 hf
      have hc := passed_lt tokens c hw h0
      simp only [parseTerm]
      refine noFuel_bind _ _ (ihF c h0 (by omega)) ?_
      intro r hr
      have p1 := sound_passed _ _ _ r (sF c h0) hr
      exact ihTL _ _ (passed_trans _ _ _ _ h0 p1) (by have := p1.1; omega)
    · intro c expr h0 hf
      have hc := passed_lt tokens c hw h0
      simp only [parseTermLoop]
      refine noFuel_bind _ _ (noFuel_of_bounds _ (matchAny_error _ _ _)) ?_
      intro m hm
      have hi := matchAny_index tokens c _ hw h0 (by decide) m hm
      have pm := passed_trans _ _ _ _ h0
        (sound_passed _ _ _ m (matchAny_sound _ _ _ hw h0 (by decide)) hm)
      split
      · rename_i hb
        have e1 := hi.1 hb
        refine noFuel_bind _ _ (noFuel_of_bounds _ (previous_error _ _)) ?_
        intro op _
        have hm2 := passed_lt tokens m.2 hw pm
        refine noFuel_bind _ _ (ihF _ pm (by omega)) ?_
        intro r hr
        have p1 := sound_passed _ _ _ r (sF _ pm) hr
        exact ihTL _ _ (passed_trans _ _ _ _ pm p1) (by have := p1.1; omega)
      · simp [pure, Except.pure]
    · intro c h0 hf
      have hc := passed_lt tokens c hw h0
      simp only [parseFactor]
      refine noFuel_bind _ _ (noFuel_of_bounds _ (matchToken_error _ _ _)) ?_
      intro m1 hm1
      have i1 := matchToken_index tokens c _ hw h0 m1 hm1
      have p1 := passed_trans _ _ _ _ h0
        (sound_passed _ _ _ m1 (matchToken_sound _ _ _ hw h0 (by decide)) hm1)
      split
      · refine noFuel_bind _ _ (noFuel_of_bounds _ (previous_error _ _)) ?_
        intro p _
        refine noFuel_bind _ _ (stoi_noFuel _) ?_
        intro v _
        simp [pure, Except.pure]
      · rename_i hb1
        have e1 := i1.2 hb1
        refine noFuel_bind _ _ (noFuel_of_bounds _ (matchToken_error _ _ _)) ?_
        intro m2 hm2
        have i2 := matchToken_index tokens _ _ hw p1 m2 hm2
        have p2 := passed_trans _ _ _ _ p1
          (sound_passed _ _ _ m2 (matchToken_sound _ _ _ hw p1 (by decide)) hm2)
        split
        · refine noFuel_bind _ _ (consume_noFuel _ _ _ _) ?_
          intro c1 _
          refine noFuel_bind _ _ (consume_noFuel _ _ _ _) ?_
          intro c2 _
          simp [pure, Except.pure]
        · rename_i hb2
          have e2 := i2.2 hb2
          refine noFuel_bind _ _ (noFuel_of_bounds _ (matchToken_error _ _ _)) ?_
          intro m3 hm3
          have i3 := matchToken_index tokens _ _ hw p2 m3 hm3
          have p3 := passed_trans _ _ _ _ p2
            (sound_passed _ _ _ m3 (matchToken_sound _ _ _ hw p2 (by decide)) hm3)
          split
          · refine noFuel_bind _ _ (noFuel_of_bounds _ (previous_error _ _)) ?_
            intro p _
            simp [pure, Except.pure]
          · rename_i hb3
            have e3 := i3.2 hb3
            refine noFuel_bind _ _ (noFuel_of_bounds _ (matchToken_error _ _ _)) ?_
            intro m4 hm4
            have i4 := matchToken_index tokens _ _ hw p3 m4 hm4
            have p4 := passed_trans _ _ _ _ p3
              (sound_passed _ _ _ m4 (matchToken_sound _ _ _ hw p3 (by decide)) hm4)
            split
            · rename_i hb4
              have e4 := i4.1 hb4
              have hm4lt := passed_lt tokens m4.2 hw p4
              refine noFuel_bind _ _ (ihE _ p4 (by omega)) ?_
              intro e _
              refine noFuel_bind _ _ (consume_noFuel _ _ _ _) ?_
              intro c1 _
              simp [pure, Except.pure]
            · refine noFuel_bind _ _ (noFuel_of_bounds _ (peek_error _ _)) ?_
              intro token _
              simp [throw, throwThe, MonadExceptOf.throw]

theorem consume_passed (tokens : List Token) (c : Nat) (type : TokenType) (message : String)
    (hw : WellEnded tokens) (h0 : Passed tokens 0 c) (hty : type ≠ .UNKNOWN)
    (r : Token × Nat) (h : consume tokens c type message = .ok r) :
    Passed tokens 0 r.2 ∧ r.2 = c + 1 :=
  ⟨passed_trans _ _ _ _ h0 (sound_passed _ _ _ r (consume_sound _ _ _ _ hw h0 hty) h),
    (consume_ok _ _ _ _ _ h).2.2⟩

theorem parseExpression_passed (fuel : Nat) (tokens : List Token) (c : Nat)
    (hw : WellEnded tokens) (h0 : Passed tokens 0 c) (r : Expression × Nat)
    (h : parseExpression fuel tokens c = .ok r) : Passed tokens 0 r.2 ∧ c ≤ r.2 := by
  have p := sound_passed _ _ _ r ((parseExpression_sound fuel tokens hw).1 c h0) h
  exact ⟨passed_trans _ _ _ _ h0 p, p.1⟩

theorem parseBooleanExpression_terminates (fuel : Nat) (tokens : List Token) (c : Nat)
    (hw : WellEnded tokens) (h0 : Passed tokens 0 c)
    (hf : 3 * (tokens.length - c) + 3 ≤ fuel) :
    parseBooleanExpression fuel tokens c ≠ .error .out_of_fuel := by
  have hE := (parseExpression_terminates tokens hw fuel).1
  simp only [parseBooleanExpression]
  refine noFuel_bind _ _ (hE c h0 hf) ?_
  intro left hl
  obtain ⟨p1, q1⟩ := parseExpression_passed fuel tokens c hw h0 left hl
  refine noFuel_bind _ _ (noFuel_of_bounds _ (matchAny_error _ _ _)) ?_
  intro m hm
  have pm := passed_trans _ _ _ _ p1
    (sound_passed _ _ _ m (matchAny_sound _ _ _ hw p1 (by decide)) hm)
  split
  · refine noFuel_bind _ _ (noFuel_of_bounds _ (peek_error _ _)) ?_
    intro token _
    simp [throw, throwThe, MonadExceptOf.throw]
  · refine noFuel_bind _ _ (noFuel_of_bounds _ (previous_error _ _)) ?_
    intro op _
    refine noFuel_bind _ _ (hE _ pm (by have := pm.1; have := (sound_passed _ _ _ m
      (matchAny_sound _ _ _ hw p1 (by decide)) hm).1; omega)) ?_
    intro right _
    simp [pure, Except.pure]

theorem parseSimple_terminates (fuel : Nat) (tokens : List Token) (c : Nat)
    (hw : WellEnded tokens) (h0 : Passed tokens 0 c)
    (hf : 3 * (tokens.length - c) + 3 ≤ fuel) :
    parseVarDeclaration fuel tokens c ≠ .error .out_of_fuel
      ∧ parseAssignmentStatement fuel tokens c ≠ .error .out_of_fuel
      ∧ parsePrintStatement fuel tokens c ≠ .error .out_of_fuel
      ∧ parsePrintLineStatement fuel tokens c ≠ .error .out_of_fuel := by
  have hE := (parseExpression_terminates tokens hw fuel).1
  refine ⟨?_, ?_, ?_, ?_⟩
  · simp only [parseVarDeclaration]
    refine noFuel_bind _ _ (consume_noFuel _ _ _ _) ?_
    intro i hi
    obtain ⟨p1, q1⟩ := consume_passed _ _ _ _ hw h0 (by decide) i hi
    refine noFuel_bind _ _ (consume_noFuel _ _ _ _) ?_
    intro a ha
    obtain ⟨p2, q2⟩ := consume_passed _ _ _ _ hw p1 (by decide) a ha
    refine noFuel_bind _ _ (hE _ p2 (by omega)) ?_
    intro e _
    refine noFuel_bind _ _ (consume_noFuel _ _ _ _) ?_
    intro s _
    simp [pure, Except.pure]
  · simp only [parseAssignmentStatement]
    refine noFuel_bind _ _ (consume_noFuel _ _ _ _) ?_
    intro i hi
    obtain ⟨p1, q1⟩ := consume_passed _ _ _ _ hw h0 (by decide) i hi
    refine noFuel_bind _ _ (consume_noFuel _ _ _ _) ?_
    intro a ha
    obtain ⟨p2, q2⟩ := consume_passed _ _ _ _ hw p1 (by decide) a ha
    refine noFuel_bind _ _ (hE _ p2 (by omega)) ?_
    intro e _
    refine noFuel_bind _ _ (consume_noFuel _ _ _ _) ?_
    intro s _
    simp [pure, Except.pure]
  · simp only [parsePrintStatement]
    refine noFuel_bind _ _ (consume_noFuel _ _ _ _) ?_
    intro i hi
    obtain ⟨p1, q1⟩ := consume_passed _ _ _ _ hw h0 (by decide) i hi
    refine noFuel_bind _ _ (hE _ p1 (by omega)) ?_
    intro e _
    refine noFuel_bind _ _ (consume_noFuel _ _ _ _) ?_
    intro a _
    refine noFuel_bind _ _ (consume_noFuel _ _ _ _) ?_
    intro s _
    simp [pure, Except.pure]
  · simp only [parsePrintLineStatement]
    refine noFuel_bind _ _ (consume_noFuel _ _ _ _) ?_
    intro i hi
    obtain ⟨p1, q1⟩ := consume_passed _ _ _ _ hw h0 (by decide) i hi
    refine noFuel_bind _ _ (hE _ p1 (by omega)) ?_
    intro e _
    refine noFuel_bind _ _ (consume_noFuel _ _ _ _) ?_
    intro a _
    refine noFuel_bind _ _ (consume_noFuel _ _ _ _) ?_
    intro s _
    simp [pure, Except.pure]

/-- A statement that is parsed takes at least one token. -/
theorem parseStatement_progress (fuel : Nat) (tokens : List Token) (c : Nat)
    (hw : WellEnded tokens) (h0 : Passed tokens 0 c) (r : Statement × Nat)
    (h : parseStatement fuel tokens c = .ok r) : c < r.2 := by
  cases fuel with
  | zero => simp [parseStatement] at h
  | succ fuel =>
    obtain ⟨_, _, sI, sW⟩ := parseStatement_sound fuel tokens hw
    simp only [parseStatement, bind_ok_iff] at h
    obtain ⟨m1, hm1, h⟩ := h
    have i1 := matchToken_index tokens c _ hw h0 m1 hm1
    have p1 := passed_trans _ _ _ _ h0
      (sound_passed _ _ _ m1 (matchToken_sound _ _ _ hw h0 (by decide)) hm1)
    split_ifs at h with hb1
    · have := (sound_passed _ _ _ r (parseVarDeclaration_sound fuel tokens _ hw p1) h).1
      have := i1.1 hb1
      omega
    · simp only [bind_ok_iff] at h
      obtain ⟨m2, hm2, h⟩ := h
      have i2 := matchToken_index tokens _ _ hw p1 m2 hm2
      have p2 := passed_trans _ _ _ _ p1
        (sound_passed _ _ _ m2 (matchToken_sound _ _ _ hw p1 (by decide)) hm2)
      have e1 := i1.2 hb1
      split_ifs at h with hb2
      · have := (sound_passed _ _ _ r (parsePrintStatement_sound fuel tokens _ hw p2) h).1
        have := i2.1 hb2
        omega
      · simp only [bind_ok_iff] at h
        obtain ⟨m3, hm3, h⟩ := h
        have i3 := matchToken_index tokens _ _ hw p2 m3 hm3
        have p3 := passed_trans _ _ _ _ p2
          (sound_passed _ _ _ m3 (matchToken_sound _ _ _ hw p2 (by decide)) hm3)
        have e2 := i2.2 hb2
        split_ifs at h with hb3
        · have := (sound_passed _ _ _ r (parsePrintLineStatement_sound fuel tokens _ hw p3)
            h).1
          have := i3.1 hb3
          omega
        · simp only [bind_ok_iff] at h
          obtain ⟨m4, hm4, h⟩ := h
          have i4 := matchToken_index tokens _ _ hw p3 m4 hm4
          have p4 := passed_trans _ _ _ _ p3
            (sound_passed _ _ _ m4 (matchToken_sound _ _ _ hw p3 (by decide)) hm4)
          have e3 := i3.2 hb3
          split_ifs at h with hb4
          · have := (sound_passed _ _ _ r (sI _ p4) h).1
            have := i4.1 hb4
            omega
          · simp only [bind_ok_iff] at h
            obtain ⟨m5, hm5, h⟩ := h
            have i5 := matchToken_index tokens _ _ hw p4 m5 hm5
            have p5 := passed_trans _ _ _ _ p4
              (sound_passed _ _ _ m5 (matchToken_sound _ _ _ hw p4 (by decide)) hm5)
            have e4 := i4.2 hb4
            split_ifs at h with hb5
            · have := (sound_passed _ _ _ r (sW _ p5) h).1
              have := i5.1 hb5
              omega
            · have e5 := i5.2 hb5
              simp only [parseAssignmentStatement, bind_ok_iff, pure_ok_iff] at h
              obtain ⟨i, hi, a, ha, e, he, s, hs, rfl⟩ := h
              obtain ⟨q1, r1⟩ := consume_passed _ _ _ _ hw p5 (by decide) i hi
              obtain ⟨q2, r2⟩ := consume_passed _ _ _ _ hw q1 (by decide) a ha
              obtain ⟨q3, r3⟩ := parseExpression_passed fuel tokens _ hw q2 e he
              obtain ⟨q4, r4⟩ := consume_passed _ _ _ _ hw q3 (by decide) s hs
              show c < s.2
              omega

/-- With three units of fuel for each token that is left, and a few more, the
statement parser does not run out of fuel. -/
theorem parseStatement_terminates (tokens : List Token) (hw : WellEnded tokens) :
    ∀ (fuel : Nat),
    (∀ c, Passed tokens 0 c → 3 * (tokens.length - c) + 4 ≤ fuel →
        parseStatement fuel tokens c ≠ .error .out_of_fuel)
    ∧ (∀ c acc, Passed tokens 0 c → 3 * (tokens.length - c) + 5 ≤ fuel →
        parseBlock fuel tokens c acc ≠ .error .out_of_fuel)
    ∧ (∀ c, Passed tokens 0 c → 3 * (tokens.length - c) + 3 ≤ fuel →
        parseIfStatement fuel tokens c ≠ .error .out_of_fuel)
    ∧ (∀ c, Passed tokens 0 c → 3 * (tokens.length - c) + 3 ≤ fuel →
        parseWhileStatement fuel tokens c ≠ .error .out_of_fuel) := by
  intro fuel
  induction fuel with
  | zero =>
    refine ⟨?_, ?_, ?_, ?_⟩ <;> intros <;> omega
  | succ fuel ih =>
    obtain ⟨ihS, ihB, ihI, ihW⟩ := ih
    obtain ⟨sS, sB, sI, sW⟩ := parseStatement_sound fuel tokens hw
    refine ⟨?_, ?_, ?_, ?_⟩
    · intro c h0 hf
      have hc := passed_lt tokens c hw h0
      simp only [parseStatement]
      refine noFuel_bind _ _ (noFuel_of_bounds _ (matchToken_error _ _ _)) ?_
      intro m1 hm1
      have i1 := matchToken_index tokens c _ hw h0 m1 hm1
      have p1 := passed_trans _ _ _ _ h0
        (sound_passed _ _ _ m1 (matchToken_sound _ _ _ hw h0 (by decide)) hm1)
      split
      · rename_i hb
        have := i1.1 hb
        exact (parseSimple_terminates fuel tokens _ hw p1 (by omega)).1
      · rename_i hb1
        have e1 := i1.2 hb1
        refine noFuel_bind _ _ (noFuel_of_bounds _ (matchToken_error _ _ _)) ?_
        intro m2 hm2
        have i2 := matchToken_index tokens _ _ hw p1 m2 hm2
        have p2 := passed_trans _ _ _ _ p1
          (sound_passed _ _ _ m2 (matchToken_sound _ _ _ hw p1 (by decide)) hm2)
        split
        · rename_i hb
          have := i2.1 hb
          exact (parseSimple_terminates fuel tokens _ hw p2 (by omega)).2.2.1
        · rename_i hb2
          have e2 := i2.2 hb2
          refine noFuel_bind _ _ (noFuel_of_bounds _ (matchToken_error _ _ _)) ?_
          intro m3 hm3
          have i3 := matchToken_index tokens _ _ hw p2 m3 hm3
          have p3 := passed_trans _ _ _ _ p2
            (sound_passed _ _ _ m3 (matchToken_sound _ _ _ hw p2 (by decide)) hm3)
          split
          · rename_i hb
            have := i3.1 hb
            exact (parseSimple_terminates fuel tokens _ hw p3 (by omega)).2.2.2
          · rename_i hb3
            have e3 := i3.2 hb3
            refine noFuel_bind _ _ (noFuel_of_bounds _ (matchToken_error _ _ _)) ?_
            intro m4 hm4
            have i4 := matchToken_index tokens _ _ hw p3 m4 hm4
            have p4 := passed_trans _ _ _ _ p3
              (sound_passed _ _ _ m4 (matchToken_sound _ _ _ hw p3 (by decide)) hm4)
            split
            · rename_i hb
              have := i4.1 hb
              exact ihI _ p4 (by omega)
            · rename_i hb4
              have e4 := i4.2 hb4
              refine noFuel_bind _ _ (noFuel_of_bounds _ (matchToken_error _ _ _)) ?_
              intro m5 hm5
              have i5 := matchToken_index tokens _ _ hw p4 m5 hm5
              have p5 := passed_trans _ _ _ _ p4
                (sound_passed _ _ _ m5 (matchToken_sound _ _ _ hw p4 (by decide)) hm5)
              split
              · rename_i hb
                have := i5.1 hb
                exact ihW _ p5 (by omega)
              · rename_i hb5
                have e5 := i5.2 hb5
                exact (parseSimple_terminates fuel tokens _ hw p5 (by omega)).2.1
    · intro c acc h0 hf
      have hc := passed_lt tokens c hw h0
      simp only [parseBlock]
      refine noFuel_bind _ _ (noFuel_of_bounds _ (blockContinues_error _ _)) ?_
      intro b _
      split
      · refine noFuel_bind _ _ (ihS c h0 (by omega)) ?_
        intro s hs
        have q := parseStatement_progress fuel tokens c hw h0 s hs
        have p := passed_trans _ _ _ _ h0 (sound_passed _ _ _ s (sS c h0) hs)
        exact ihB _ _ p (by omega)
      · simp [pure, Except.pure]
    · intro c h0 hf
      have hc := passed_lt tokens c hw h0
      simp only [parseIfStatement]
      refine noFuel_bind _ _ (consume_noFuel _ _ _ _) ?_
      intro c1 h1
      obtain ⟨p1, q1⟩ := consume_passed _ _ _ _ hw h0 (by decide) c1 h1
      refine noFuel_bind _ _ (parseBooleanExpression_terminates fuel tokens _ hw p1 (by omega)) ?_
      intro cond hcond
      have pc := sound_passed _ _ _ cond (parseBooleanExpression_sound fuel tokens _ hw p1) hcond
      have p2 := passed_trans _ _ _ _ p1 pc
      refine noFuel_bind _ _ (consume_noFuel _ _ _ _) ?_
      intro c2 h2
      obtain ⟨p3, q3⟩ := consume_passed _ _ _ _ hw p2 (by decide) c2 h2
      refine noFuel_bind _ _ (consume_noFuel _ _ _ _) ?_
      intro c3 h3
      obtain ⟨p4, q4⟩ := consume_passed _ _ _ _ hw p3 (by decide) c3 h3
      have := pc.1
      refine noFuel_bind _ _ (ihB _ _ p4 (by omega)) ?_
      intro th hth
      have pt := sound_passed _ _ _ th (sB _ _ p4) hth
      have p5 := passed_trans _ _ _ _ p4 pt
      refine noFuel_bind _ _ (consume_noFuel _ _ _ _) ?_
      intro c4 h4
      obtain ⟨p6, q6⟩ := consume_passed _ _ _ _ hw p5 (by decide) c4 h4
      refine noFuel_bind _ _ (noFuel_of_bounds _ (matchToken_error _ _ _)) ?_
      intro m hm
      have pm := sound_passed _ _ _ m (matchToken_sound _ _ _ hw p6 (by decide)) hm
      have p7 := passed_trans _ _ _ _ p6 pm
      split
      · refine noFuel_bind _ _ (consume_noFuel _ _ _ _) ?_
        intro c5 h5
        obtain ⟨p8, q8⟩ := consume_passed _ _ _ _ hw p7 (by decide) c5 h5
        have := pt.1
        have := pm.1
        refine noFuel_bind _ _ (ihB _ _ p8 (by omega)) ?_
        intro el _
        refine noFuel_bind _ _ (consume_noFuel _ _ _ _) ?_
        intro c6 _
        simp [pure, Except.pure]
      · simp [pure, Except.pure]
    · intro c h0 hf
      have hc := passed_lt tokens c hw h0
      simp only [parseWhileStatement]
      refine noFuel_bind _ _ (consume_noFuel _ _ _ _) ?_
      intro c1 h1
      obtain ⟨p1, q1⟩ := consume_passed _ _ _ _ hw h0 (by decide) c1 h1
      refine noFuel_bind _ _ (parseBooleanExpression_terminates fuel tokens _ hw p1 (by omega)) ?_
      intro cond hcond
      have pc := sound_passed _ _ _ cond (parseBooleanExpression_sound fuel tokens _ hw p1) hcond
      have p2 := passed_trans _ _ _ _ p1 pc
      refine noFuel_bind _ _ (consume_noFuel _ _ _ _) ?_
      intro c2 h2
      obtain ⟨p3, q3⟩ := consume_passed _ _ _ _ hw p2 (by decide) c2 h2
      refine noFuel_bind _ _ (consume_noFuel _ _ _ _) ?_
      intro c3 h3
      obtain ⟨p4, q4⟩ := consume_passed _ _ _ _ hw p3 (by decide) c3 h3
      have := pc.1
      refine noFuel_bind _ _ (ihB _ _ p4 (by omega)) ?_
      intro th _
      refine noFuel_bind _ _ (consume_noFuel _ _ _ _) ?_
      intro c4 _
      simp [pure, Except.pure]

theorem parseLoop_terminates (tokens : List Token) (hw : WellEnded tokens) :
    ∀ (fuel : Nat) (c : Nat) (acc : List Statement), Passed tokens 0 c →
      3 * (tokens.length - c) + 5 ≤ fuel →
      parseLoop fuel tokens c acc ≠ .error .out_of_fuel := by
  intro fuel
  induction fuel with
  | zero => intro c acc _ hf; omega
  | succ fuel ih =>
    intro c acc h0 hf
    have hc := passed_lt tokens c hw h0
    simp only [parseLoop]
    refine noFuel_bind _ _ (noFuel_of_bounds _ (isAtEnd_error _ _)) ?_
    intro b _
    split
    · refine noFuel_bind _ _ ((parseStatement_terminates tokens hw fuel).1 c h0 (by omega)) ?_
      intro s hs
      have q := parseStatement_progress fuel tokens c hw h0 s hs
      have p := passed_trans _ _ _ _ h0
        (sound_passed _ _ _ s ((parseStatement_sound fuel tokens hw).1 c h0) hs)
      exact ih _ _ p (by omega)
    · simp [pure, Except.pure]

/-- On a token list that ends well, `parse` with three units of fuel for each
token, and five more, ends with a program or with an exception of the source:
it neither runs out of fuel nor reads outside the list. -/
theorem parse_terminates (fuel : Nat) (tokens : List Token) (hw : WellEnded tokens)
    (hf : 3 * tokens.length + 5 ≤ fuel) :
    parse fuel tokens ≠ .error .out_of_fuel ∧ parse fuel tokens ≠ .error .out_of_bounds := by
  refine ⟨?_, (parse_sound fuel tokens hw).1⟩
  simp only [parse]
  refine noFuel_bind _ _ (parseLoop_terminates tokens hw fuel 0 [] (passed_refl _ _)
    (by omega)) ?_
  intro r _
  simp [pure, Except.pure]

/-! ### More fuel changes no result

A run that does not stop for lack of fuel gives the same result with any
larger fuel: the fuel bounds the recursion of the model and nothing else. -/

theorem stable_bind {α β : Type} (x x1 : Except ParseError α)
    (f f1 : α → Except ParseError β)
    (hx : x ≠ .error .out_of_fuel → x1 = x)
    (hf : ∀ a, x = .ok a → f a ≠ .error .out_of_fuel → f1 a = f a)
    (h : (x >>= f) ≠ .error .out_of_fuel) : (x1 >>= f1) = (x >>= f) := by
  cases x with
  | error e =>
    have he : (Except.error e : Except ParseError α) ≠ .error .out_of_fuel := by
      intro h1
      apply h
      rw [h1]
      rfl
    rw [hx he]
    rfl
  | ok a =>
    rw [hx (by simp)]
    exact hf a rfl h

theorem stable_bind_read {α β : Type} (x : Except ParseError α)
    (f f1 : α → Except ParseError β)
    (hf : ∀ a, x = .ok a → f a ≠ .error .out_of_fuel → f1 a = f a)
    (h : (x >>= f) ≠ .error .out_of_fuel) : (x >>= f1) = (x >>= f) :=
  stable_bind x x f f1 (fun _ => rfl) hf h

theorem parseExpression_stable (tokens : List Token) :
    ∀ fuel : Nat,
      (∀ c, parseExpression fuel tokens c ≠ .error .out_of_fuel →
        parseExpression (fuel + 1) tokens c = parseExpression fuel tokens c)
      ∧ (∀ c e, parseExpressionLoop fuel tokens c e ≠ .error .out_of_fuel →
        parseExpressionLoop (fuel + 1) tokens c e = parseExpressionLoop fuel tokens c e)
      ∧ (∀ c, parseTerm fuel tokens c ≠ .error .out_of_fuel →
        parseTerm (fuel + 1) tokens c = parseTerm fuel tokens c)
      ∧ (∀ c e, parseTermLoop fuel tokens c e ≠ .error .out_of_fuel →
        parseTermLoop (fuel + 1) tokens c e = parseTermLoop fuel tokens c e)
      ∧ (∀ c, parseFactor fuel tokens c ≠ .error .out_of_fuel →
        parseFactor (fuel + 1) tokens c = parseFactor fuel tokens c) := by
  intro fuel
  induction fuel with
  | zero =>
    refine ⟨?_, ?_, ?_, ?_, ?_⟩
    · intro c h; exact absurd (by simp [parseExpression]) h
    · intro c e h; exact absurd (by simp [parseExpressionLoop]) h
    · intro c h; exact absurd (by simp [parseTerm]) h
    · intro c e h; exact absurd (by simp [parseTermLoop]) h
    · intro c h; exact absurd (by simp [parseFactor]) h
  | succ n ih =>
    obtain ⟨ihE, ihEL, ihT, ihTL, ihF⟩ := ih
    refine ⟨?_, ?_, ?_, ?_, ?_⟩
    · intro c h
      rw [parseExpression] at h ⊢
      rw [parseExpression]
      refine stable_bind _ _ _ _ (ihT c) ?_ h
      intro r _ hr
      exact ihEL _ _ hr
    · intro c e h
      rw [parseExpressionLoop] at h ⊢
      rw [parseExpressionLoop]
      refine stable_bind_read _ _ _ ?_ h
      intro m _ hm
      by_cases hb : m.1 = true
      · simp only [if_pos hb] at hm ⊢
        refine stable_bind_read _ _ _ ?_ hm
        intro op _ hop
        refine stable_bind _ _ _ _ (ihT _) ?_ hop
        intro r _ hr
        exact ihEL _ _ hr
      · simp only [if_neg hb]
    · intro c h
      rw [parseTerm] at h ⊢
      rw [parseTerm]
      refine stable_bind _ _ _ _ (ihF c) ?_ h
      intro r _ hr
      exact ihTL _ _ hr
    · intro c e h
      rw [parseTermLoop] at h ⊢
      rw [parseTermLoop]
      refine stable_bind_read _ _ _ ?_ h
      intro m _ hm
      by_cases hb : m.1 = true
      · simp only [if_pos hb] at hm ⊢
        refine stable_bind_read _ _ _ ?_ hm
        intro op _ hop
        refine stable_bind _ _ _ _ (ihF _) ?_ hop
        intro r _ hr
        exact ihTL _ _ hr
      · simp only [if_neg hb]
    · intro c h
      rw [parseFactor] at h ⊢
      rw [parseFactor]
      refine stable_bind_read _ _ _ ?_ h
      intro m1 _ h1
      by_cases hb1 : m1.1 = true
      · simp only [if_pos hb1]
      · simp only [if_neg hb1] at h1 ⊢
        refine stable_bind_read _ _ _ ?_ h1
        intro m2 _ h2
        by_cases hb2 : m2.1 = true
        · simp only [if_pos hb2]
        · simp only [if_neg hb2] at h2 ⊢
          refine stable_bind_read _ _ _ ?_ h2
          intro m3 _ h3
          by_cases hb3 : m3.1 = true
          · simp only [if_pos hb3]
          · simp only [if_neg hb3] at h3 ⊢
            refine stable_bind_read _ _ _ ?_ h3
            intro m4 _ h4
            by_cases hb4 : m4.1 = true
            · simp only [if_pos hb4] at h4 ⊢
              refine stable_bind _ _ _ _ (ihE _) ?_ h4
              intro e _ _
              rfl
            · simp only [if_neg hb4]

theorem parseBooleanExpression_stable (tokens : List Token) (fuel c : Nat)
    (h : parseBooleanExpression fuel tokens c ≠ .error .out_of_fuel) :
    parseBooleanExpression (fuel + 1) tokens c = parseBooleanExpression fuel tokens c := by
  have hE := (parseExpression_stable tokens fuel).1
  simp only [parseBooleanExpression] at h ⊢
  refine stable_bind _ _ _ _ (hE c) ?_ h
  intro l _ hl
  refine stable_bind_read _ _ _ ?_ hl
  intro m _ hm
  by_cases hb : m.1 = true
  · simp only [hb, Bool.not_true, Bool.false_eq_true, if_false] at hm ⊢
    refine stable_bind_read _ _ _ ?_ hm
    intro op _ hop
    refine stable_bind _ _ _ _ (hE _) ?_ hop
    intro r _ _
    rfl
  · simp only [Bool.not_eq_true] at hb
    simp only [hb, Bool.not_false, if_true]

theorem parseVarDeclaration_stable (tokens : List Token) (fuel c : Nat)
    (h : parseVarDeclaration fuel tokens c ≠ .error .out_of_fuel) :
    parseVarDeclaration (fuel + 1) tokens c = parseVarDeclaration fuel tokens c := by
  have hE := (parseExpression_stable tokens fuel).1
  simp only [parseVarDeclaration] at h ⊢
  refine stable_bind_read _ _ _ ?_ h
  intro a _ ha
  refine stable_bind_read _ _ _ ?_ ha
  intro b _ hb
  refine stable_bind _ _ _ _ (hE _) ?_ hb
  intro r _ _
  rfl

theorem parseAssignmentStatement_stable (tokens : List Token) (fuel c : Nat)
    (h : parseAssignmentStatement fuel tokens c ≠ .error .out_of_fuel) :
    parseAssignmentStatement (fuel + 1) tokens c = parseAssignmentStatement fuel tokens c := by
  have hE := (parseExpression_stable tokens fuel).1
  simp only [parseAssignmentStatement] at h ⊢
  refine stable_bind_read _ _ _ ?_ h
  intro a _ ha
  refine stable_bind_read _ _ _ ?_ ha
  intro b _ hb
  refine stable_bind _ _ _ _ (hE _) ?_ hb
  intro r _ _
  rfl

theorem parsePrintStatement_stable (tokens : List Token) (fuel c : Nat)
    (h : parsePrintStatement fuel tokens c ≠ .error .out_of_fuel) :
    parsePrintStatement (fuel + 1) tokens c = parsePrintStatement fuel tokens c := by
  have hE := (parseExpression_stable tokens fuel).1
  simp only [parsePrintStatement] at h ⊢
  refine stable_bind_read _ _ _ ?_ h
  intro a _ ha
  refine stable_bind _ _ _ _ (hE _) ?_ ha
  intro r _ _
  rfl

theorem parsePrintLineStatement_stable (tokens : List Token) (fuel c : Nat)
    (h : parsePrintLineStatement fuel tokens c ≠ .error .out_of_fuel) :
    parsePrintLineStatement (fuel + 1) tokens c = parsePrintLineStatement fuel tokens c := by
  have hE := (parseExpression_stable tokens fuel).1
  simp only [parsePrintLineStatement] at h ⊢
  refine stable_bind_read _ _ _ ?_ h
  intro a _ ha
  refine stable_bind _ _ _ _ (hE _) ?_ ha
  intro r _ _
  rfl

theorem parseStatement_stable (tokens : List Token) :
    ∀ fuel : Nat,
      (∀ c, parseStatement fuel tokens c ≠ .error .out_of_fuel →
        parseStatement (fuel + 1) tokens c = parseStatement fuel tokens c)
      ∧ (∀ c acc, parseBlock fuel tokens c acc ≠ .error .out_of_fuel →
        parseBlock (fuel + 1) tokens c acc = parseBlock fuel tokens c acc)
      ∧ (∀ c, parseIfStatement fuel tokens c ≠ .error .out_of_fuel →
        parseIfStatement (fuel + 1) tokens c = parseIfStatement fuel tokens c)
      ∧ (∀ c, parseWhileStatement fuel tokens c ≠ .error .out_of_fuel →
        parseWhileStatement (fuel + 1) tokens c = parseWhileStatement fuel tokens c) := by
  intro fuel
  induction fuel with
  | zero =>
    refine ⟨?_, ?_, ?_, ?_⟩
    · intro c h; exact absurd (by simp [parseStatement]) h
    · intro c acc h; exact absurd (by simp [parseBlock]) h
    · intro c h; exact absurd (by simp [parseIfStatement]) h
    · intro c h; exact absurd (by simp [parseWhileStatement]) h
  | succ n ih =>
    obtain ⟨ihS, ihB, ihI, ihW⟩ := ih
    refine ⟨?_, ?_, ?_, ?_⟩
    · intro c h
      rw [parseStatement] at h ⊢
      rw [parseStatement]
      refine stable_bind_read _ _ _ ?_ h
      intro m1 _ h1
      by_cases hb1 : m1.1 = true
      · simp only [if_pos hb1] at h1 ⊢
        exact parseVarDeclaration_stable _ _ _ h1
      · simp only [if_neg hb1] at h1 ⊢
        refine stable_bind_read _ _ _ ?_ h1
        intro m2 _ h2
        by_cases hb2 : m2.1 = true
        · simp only [if_pos hb2] at h2 ⊢
          exact parsePrintStatement_stable _ _ _ h2
        · simp only [if_neg hb2] at h2 ⊢
          refine stable_bind_read _ _ _ ?_ h2
          intro m3 _ h3
          by_cases hb3 : m3.1 = true
          · simp only [if_pos hb3] at h3 ⊢
            exact parsePrintLineStatement_stable _ _ _ h3
          · simp only [if_neg hb3] at h3 ⊢
            refine stable_bind_read _ _ _ ?_ h3
            intro m4 _ h4
            by_cases hb4 : m4.1 = true
            · simp only [if_pos hb4] at h4 ⊢
              exact ihI _ h4
            · simp only [if_neg hb4] at h4 ⊢
              refine stable_bind_read _ _ _ ?_ h4
              intro m5 _ h5
              by_cases hb5 : m5.1 = true
              · simp only [if_pos hb5] at h5 ⊢
                exact ihW _ h5
              · simp only [if_neg hb5] at h5 ⊢
                exact parseAssignmentStatement_stable _ _ _ h5
    · intro c acc h
      rw [parseBlock] at h ⊢
      rw [parseBlock]
      refine stable_bind_read _ _ _ ?_ h
      intro b _ hb
      by_cases hc : b = true
      · simp only [if_pos hc] at hb ⊢
        refine stable_bind _ _ _ _ (ihS _) ?_ hb
        intro s _ hs
        exact ihB _ _ hs
      · simp only [if_neg hc]
    · intro c h
      rw [parseIfStatement] at h ⊢
      rw [parseIfStatement]
      refine stable_bind_read _ _ _ ?_ h
      intro c1 _ h1
      refine stable_bind _ _ _ _ (parseBooleanExpression_stable _ _ _) ?_ h1
      intro cond _ h2
      refine stable_bind_read _ _ _ ?_ h2
      intro c2 _ h3
      refine stable_bind_read _ _ _ ?_ h3
      intro c3 _ h4
      refine stable_bind _ _ _ _ (ihB _ _) ?_ h4
      intro th _ h5
      refine stable_bind_read _ _ _ ?_ h5
      intro c4 _ h6
      refine stable_bind_read _ _ _ ?_ h6
      intro m _ h7
      by_cases hb : m.1 = true
      · simp only [if_pos hb] at h7 ⊢
        refine stable_bind_read _ _ _ ?_ h7
        intro c5 _ h8
        refine stable_bind _ _ _ _ (ihB _ _) ?_ h8
        intro el _ _
        rfl
      · simp only [if_neg hb]
    · intro c h
      rw [parseWhileStatement] at h ⊢
      rw [parseWhileStatement]
      refine stable_bind_read _ _ _ ?_ h
      intro c1 _ h1
      refine stable_bind _ _ _ _ (parseBooleanExpression_stable _ _ _) ?_ h1
      intro cond _ h2
      refine stable_bind_read _ _ _ ?_ h2
      intro c2 _ h3
      refine stable_bind_read _ _ _ ?_ h3
      intro c3 _ h4
      refine stable_bind _ _ _ _ (ihB _ _) ?_ h4
      intro th _ _
      rfl

theorem parseLoop_stable (tokens : List Token) :
    ∀ (fuel c : Nat) (acc : List Statement),
      parseLoop fuel tokens c acc ≠ .error .out_of_fuel →
      parseLoop (fuel + 1) tokens c acc = parseLoop fuel tokens c acc := by
  intro fuel
  induction fuel with
  | zero => intro c acc h; exact absurd (by simp [parseLoop]) h
  | succ n ih =>
    intro c acc h
    rw [parseLoop] at h ⊢
    rw [parseLoop]
    refine stable_bind_read _ _ _ ?_ h
    intro b _ hb
    by_cases hc : b = true
    · simp only [hc, Bool.not_true, Bool.false_eq_true, if_false]
    · simp only [Bool.not_eq_true] at hc
      simp only [hc, Bool.not_false, if_true] at hb ⊢
      refine stable_bind _ _ _ _ ((parseStatement_stable tokens n).1 _) ?_ hb
      intro s _ hs
      exact ih _ _ hs

theorem parse_stable (tokens : List Token) (fuel : Nat)
    (h : parse fuel tokens ≠ .error .out_of_fuel) :
    ∀ k, parse (fuel + k) tokens = parse fuel tokens := by
  intro k
  induction k with
  | zero => rfl
  | succ k ih =>
    rw [← ih] at h
    rw [← ih, ← Nat.add_assoc]
    simp only [parse] at h ⊢
    refine stable_bind _ _ _ _ (parseLoop_stable tokens _ _ _) ?_ h
    intro r _ _
    rfl

/-- A token list on which `parse` fails with an exception of the source for
every large enough fuel gives, for every fuel whatever, that exception or the
end of the fuel: no fuel makes `parse` return a program. -/
theorem eventually_fails_always (tokens : List Token) (e : ParseError)
    (h : Eventually (fun fuel => parse fuel tokens) (.error e)) (fuel : Nat) :
    parse fuel tokens = .error e ∨ parse fuel tokens = .error .out_of_fuel := by
  obtain ⟨N, hN⟩ := h
  by_cases hf : parse fuel tokens = .error .out_of_fuel
  · exact Or.inr hf
  · left
    rw [← parse_stable tokens fuel hf N]
    exact hN _ (by omega)

/-! ### A declaration without a name -/

/-- Counterexample to C4 as stated.  In the tokens of `x = 1 var = 5;` the
`var` at index 3 is followed by `=` (line 1, column 11), which is no
identifier, but `var` does not stand at the start of a statement: the
assignment `x = 1` before it is not closed.  `parse` fails with "Expected ';'
after expression at line 1, column 7. Found: 18", which names the `var`
token itself and not the line and column of the token that follows it. -/
theorem var_inside_statement :
    tokenize Examples.lateVarSource = Examples.lateVarTokens
      ∧ Examples.lateVarTokens[3]? = some ⟨.VAR, "var", 1, 7⟩
      ∧ Examples.lateVarTokens[4]? = some ⟨.ASSIGN, "=", 1, 11⟩
      ∧ parse 100 Examples.lateVarTokens
        = .error (.runtime_error "Expected ';' after expression at line 1, column 7. Found: 18")
      ∧ namesPosition "Expected ';' after expression at line 1, column 7. Found: 18"
          ⟨.ASSIGN, "=", 1, 11⟩ = false
      ∧ containsText "Expected ';' after expression at line 1, column 7. Found: 18"
          "Expected variable name" = false :=
  ⟨by decide, rfl, rfl, by rfl, by decide, by decide⟩

/-- C4, amended: the source `var = 5;` lexes to `var`, `=` (line 1, column 5),
`5`, `;` and the end of input, and parsing these tokens fails with "Expected
variable name after 'var' at line 1, column 5. Found: 12".  In general,
whenever a `VAR` token stands where the parser begins a statement (at the head
of the loop of `parse` or of a block loop, at any index the parser reaches)
and is followed by a token `t` that is not an `IDENTIFIER`, `parse` fails, for
every large enough fuel, with the message "Expected variable name after 'var'
at line L, column C. Found: K", where L and C are the line and column of `t`
and K the number of its kind; and no program is returned: with any fuel
whatever the run ends with that failure or stops for lack of fuel. -/
theorem var_without_name :
    (tokenize Examples.badDeclSource = Examples.badDeclTokens
      ∧ parse 100 Examples.badDeclTokens
        = .error (.runtime_error
            "Expected variable name after 'var' at line 1, column 5. Found: 12"))
    ∧ ∀ (tokens : List Token) (top : Bool) (p : Nat) (v t : Token),
      LoopAt tokens top p →
      tokens[p]? = some v → v.type = .VAR →
      tokens[p + 1]? = some t → t.type ≠ .IDENTIFIER →
      Eventually (fun fuel => parse fuel tokens)
        (.error (.runtime_error ("Expected variable name after 'var' at line "
          ++ toString t.line ++ ", column " ++ toString t.column ++ ". Found: "
          ++ toString t.type.toInt)))
      ∧ (∀ fuel, parse fuel tokens
            = .error (.runtime_error ("Expected variable name after 'var' at line "
              ++ toString t.line ++ ", column " ++ toString t.column ++ ". Found: "
              ++ toString t.type.toInt))
          ∨ parse fuel tokens = .error .out_of_fuel)
      ∧ ∀ fuel program, parse fuel tokens ≠ .ok program := by
  refine ⟨⟨by decide, by rfl⟩, ?_⟩
  intro tokens top p v t hloop h0 hv h1 ht
  have hev : Eventually (fun fuel => parse fuel tokens)
      (.error (.runtime_error ("Expected variable name after 'var' at line "
        ++ toString t.line ++ ", column " ++ toString t.column ++ ". Found: "
        ++ toString t.type.toInt))) := by
    refine parse_fails_of_statement tokens top p v _ hloop h0 (by rw [hv]; decide)
      (by rw [hv]; decide) ⟨1, fun fuel hf => ?_⟩
    obtain ⟨n, rfl⟩ : ∃ n, fuel = n + 1 := ⟨fuel - 1, by omega⟩
    exact parseStatement_var_without_name tokens p v t n h0 hv h1 ht
  refine ⟨hev, eventually_fails_always tokens _ hev, ?_⟩
  intro fuel program hp
  rcases eventually_fails_always tokens _ hev fuel with h | h <;> rw [hp] at h <;> cases h

/-- Witness for the amended C4: in the tokens of `x = 1; var = 5;` the parser
reaches the `var` at index 4 after the statement `x = 1;`, and fails on the
`=` at line 1, column 12. -/
theorem var_without_name_witness :
    tokenize Examples.secondDeclSource = Examples.secondDeclTokens
      ∧ parse 100 Examples.secondDeclTokens
        = .error (.runtime_error
            "Expected variable name after 'var' at line 1, column 12. Found: 12")
      ∧ Eventually (fun fuel => parse fuel Examples.secondDeclTokens)
        (.error (.runtime_error ("Expected variable name after 'var' at line "
          ++ toString (1 : Int) ++ ", column " ++ toString (12 : Int) ++ ". Found: "
          ++ toString TokenType.ASSIGN.toInt)))
      ∧ (∀ fuel, parse fuel Examples.secondDeclTokens
            = .error (.runtime_error ("Expected variable name after 'var' at line "
              ++ toString (1 : Int) ++ ", column " ++ toString (12 : Int) ++ ". Found: "
              ++ toString TokenType.ASSIGN.toInt))
          ∨ parse fuel Examples.secondDeclTokens = .error .out_of_fuel)
      ∧ ∀ fuel program, parse fuel Examples.secondDeclTokens ≠ .ok program :=
  ⟨by decide, by rfl,
    var_without_name.2 Examples.secondDeclTokens true 4 ⟨.VAR, "var", 1, 8⟩
      ⟨.ASSIGN, "=", 1, 12⟩
      (@LoopAt.next Examples.secondDeclTokens true 0 4 ⟨.IDENTIFIER, "x", 1, 1⟩
        (.AssignmentStatement "x" (.IntegerLiteral 1)) LoopAt.start rfl (by decide)
        (by decide)
        ⟨4, fun fuel h => by
          obtain ⟨n, rfl⟩ : ∃ n, fuel = n + 4 := ⟨fuel - 4, by omega⟩; rfl⟩)
      rfl rfl rfl (by decide)⟩

/-! ### The last token the parser has read -/

theorem agree_refl {α : Type} (x : Except ParseError α) : Agree x x := Or.inl rfl

end Parser

/-! ## The lexer -/



theorem skipWs_cons (ch : Char) (r : List Char) (l c : Int) :
    skipWs (ch :: r) l c =
      if ch = ' ' ∨ ch = '\t' then skipWs r l (c + 1)
      else if ch = '\r' then
        match r with
        | [] => ([], l + 1, 1)
        | d :: r1 => if d = '\n' then skipWs r1 (l + 1) 1 else skipWs (d :: r1) (l + 1) 1
      else if ch = '\n' then skipWs r (l + 1) 1
      else (ch :: r, l, c) := by
  cases r <;> rfl

theorem skipWs_nil (l c : Int) : skipWs [] l c = ([], l, c) := rfl

theorem skipWs_space (ch : Char) (r : List Char) (l c : Int) (h : ch = ' ' ∨ ch = '\t') :
    skipWs (ch :: r) l c = skipWs r l (c + 1) := by
  rw [skipWs_cons]; simp [h]

theorem skipWs_cr_lf (r : List Char) (l c : Int) :
    skipWs ('\r' :: '\n' :: r) l c = skipWs r (l + 1) 1 := by
  rw [skipWs_cons]; simp

theorem skipWs_cr (r : List Char) (l c : Int) (h : r.head? ≠ some '\n') :
    skipWs ('\r' :: r) l c = skipWs r (l + 1) 1 := by
  rw [skipWs_cons]
  cases r with
  | nil => simp [skipWs_nil]
  | cons d r1 =>
    have hd : d ≠ '\n' := by simpa using h
    simp [hd]

theorem skipWs_lf (r : List Char) (l c : Int) :
    skipWs ('\n' :: r) l c = skipWs r (l + 1) 1 := by
  rw [skipWs_cons]; simp

theorem skipWs_other (ch : Char) (r : List Char) (l c : Int) (h : isWhitespace ch = false) :
    skipWs (ch :: r) l c = (ch :: r, l, c) := by
  simp [isWhitespace] at h
  rw [skipWs_cons]; simp [h]


namespace Lexer

theorem rest_skip (lx : Lexer) (n : Nat) : (lx.skip n).rest = lx.rest.drop n := by
  simp [rest, skip, List.drop_drop, Nat.add_comm]

theorem skip_zero (lx : Lexer) : lx.skip 0 = lx := by
  simp [skip]

theorem skip_skip (lx : Lexer) (a b : Nat) : (lx.skip a).skip b = lx.skip (a + b) := by
  simp [skip, Nat.add_assoc, Int.add_assoc]

theorem isAtEnd_of_rest_nil (lx : Lexer) (h : lx.rest = []) : lx.isAtEnd = true := by
  simp [rest, List.drop_eq_nil_iff] at h
  simp [isAtEnd, h]

theorem isAtEnd_of_rest_cons (lx : Lexer) (c : Char) (r : List Char) (h : lx.rest = c :: r) :
    lx.isAtEnd = false := by
  have hl : lx.position < lx.source.length := by
    by_contra hcon
    have : lx.rest = [] := by simp [rest, List.drop_eq_nil_iff]; omega
    simp [this] at h
  simp [isAtEnd, hl]

theorem getElem_of_rest_cons (lx : Lexer) (c : Char) (r : List Char) (h : lx.rest = c :: r) :
    lx.source[lx.position]? = some c := by
  have h1 : (lx.source.drop lx.position)[0]? = some c := by
    have : lx.source.drop lx.position = c :: r := h
    rw [this]; simp
  simpa [List.getElem?_drop] using h1

theorem peek_of_rest_cons (lx : Lexer) (c : Char) (r : List Char) (h : lx.rest = c :: r) :
    lx.peek = c := by
  simp [peek, isAtEnd_of_rest_cons lx c r h, getElem_of_rest_cons lx c r h]

theorem peek_of_rest_nil (lx : Lexer) (h : lx.rest = []) : lx.peek = '\x00' := by
  simp [peek, isAtEnd_of_rest_nil lx h]

theorem advance_of_rest_cons (lx : Lexer) (c : Char) (r : List Char) (h : lx.rest = c :: r) :
    lx.advance = (c, lx.skip 1) := by
  simp [advance, isAtEnd_of_rest_cons lx c r h, getElem_of_rest_cons lx c r h, skip]

theorem rest_skip_one (lx : Lexer) (c : Char) (r : List Char) (h : lx.rest = c :: r) :
    (lx.skip 1).rest = r := by
  rw [rest_skip, h]; rfl

theorem previous_of_rest_cons (lx : Lexer) (c : Char) (r : List Char) (h : lx.rest = c :: r) :
    (lx.skip 1).source.getD ((lx.skip 1).position - 1) '\x00' = c := by
  simp [skip, getElem_of_rest_cons lx c r h]


theorem rest_length (lx : Lexer) : lx.rest.length = lx.source.length - lx.position := by
  simp [rest]

theorem mk_data_append (number : String) (l : List Char) :
    String.mk (number.data ++ l) = number ++ String.mk l := by
  apply String.ext
  simp

theorem readNumberLoop_eq : ∀ (fuel : Nat) (lx : Lexer) (number : String),
    lx.rest.length ≤ fuel →
    readNumberLoop fuel lx number
      = (String.mk (number.data ++ lx.rest.takeWhile isdigit),
          lx.skip (lx.rest.takeWhile isdigit).length) := by
  intro fuel
  induction fuel with
  | zero =>
    intro lx number h
    have h0 : lx.rest = [] := List.length_eq_zero.mp (Nat.le_zero.mp h)
    simp [readNumberLoop, h0, skip_zero]
  | succ fuel ih =>
    intro lx number h
    rcases hr : lx.rest with _ | ⟨c, r⟩
    · simp [readNumberLoop, isAtEnd_of_rest_nil lx hr, skip_zero]
    · have hlen : (lx.skip 1).rest.length ≤ fuel := by
        rw [rest_skip_one lx c r hr]
        rw [hr] at h
        simpa using h
      by_cases hd : isdigit c = true
      · simp only [readNumberLoop, isAtEnd_of_rest_cons lx c r hr, peek_of_rest_cons lx c r hr,
          advance_of_rest_cons lx c r hr, hd, Bool.not_false, Bool.and_self, if_true]
        rw [ih (lx.skip 1) (number.push c) hlen, rest_skip_one lx c r hr, skip_skip]
        simp [List.takeWhile, hd, Nat.add_comm]
      · simp [readNumberLoop, isAtEnd_of_rest_cons lx c r hr, peek_of_rest_cons lx c r hr, hd,
          List.takeWhile, skip_zero]


theorem readIdentifierLoop_eq : ∀ (fuel : Nat) (lx : Lexer) (identifier : String),
    lx.rest.length ≤ fuel →
    readIdentifierLoop fuel lx identifier
      = (String.mk (identifier.data ++ lx.rest.takeWhile isIdentChar),
          lx.skip (lx.rest.takeWhile isIdentChar).length) := by
  intro fuel
  induction fuel with
  | zero =>
    intro lx identifier h
    have h0 : lx.rest = [] := List.length_eq_zero.mp (Nat.le_zero.mp h)
    simp [readIdentifierLoop, h0, skip_zero]
  | succ fuel ih =>
    intro lx identifier h
    rcases hr : lx.rest with _ | ⟨c, r⟩
    · simp [readIdentifierLoop, isAtEnd_of_rest_nil lx hr, skip_zero]
    · have hlen : (lx.skip 1).rest.length ≤ fuel := by
        rw [rest_skip_one lx c r hr]
        rw [hr] at h
        simpa using h
      by_cases hd : isIdentChar c = true
      · have hd2 : (isalnum c || c == '_') = true := hd
        simp only [readIdentifierLoop, isAtEnd_of_rest_cons lx c r hr,
          peek_of_rest_cons lx c r hr, advance_of_rest_cons lx c r hr, hd2, Bool.not_false,
          Bool.and_self, if_true]
        rw [ih (lx.skip 1) (identifier.push c) hlen, rest_skip_one lx c r hr, skip_skip]
        simp [List.takeWhile, hd, Nat.add_comm]
      · have hd2 : (isalnum c || c == '_') = false := by
          simpa [isIdentChar] using hd
        simp only [readIdentifierLoop, isAtEnd_of_rest_cons lx c r hr,
          peek_of_rest_cons lx c r hr, hd2]
        simp [List.takeWhile, hd, skip_zero]


theorem rest_setPos (lx : Lexer) (l c : Int) :
    ({ lx with line := l, column := c } : Lexer).rest = lx.rest := rfl

theorem skipWhitespace_eq : ∀ (fuel : Nat) (lx : Lexer), lx.rest.length ≤ fuel →
    ((skipWhitespace fuel lx).rest, (skipWhitespace fuel lx).line,
        (skipWhitespace fuel lx).column) = skipWs lx.rest lx.line lx.column := by
  intro fuel
  induction fuel with
  | zero =>
    intro lx h
    have h0 : lx.rest = [] := List.length_eq_zero.mp (Nat.le_zero.mp h)
    simp [skipWhitespace, h0, skipWs_nil]
  | succ fuel ih =>
    intro lx h
    rcases hr : lx.rest with _ | ⟨c, r⟩
    · simp [skipWhitespace, isAtEnd_of_rest_nil lx hr, hr, skipWs_nil]
    · have hlen : r.length ≤ fuel := by
        rw [hr] at h
        simpa using h
      have h1 := rest_skip_one lx c r hr
      have hcol : (lx.skip 1).column = lx.column + 1 := by simp [skip]
      have hline : (lx.skip 1).line = lx.line := rfl
      by_cases hs : c = ' ' ∨ c = '\t'
      · have := ih (lx.skip 1) (by rw [h1]; exact hlen)
        simp only [skipWhitespace, isAtEnd_of_rest_cons lx c r hr, peek_of_rest_cons lx c r hr,
          advance_of_rest_cons lx c r hr, hs, if_true, Bool.false_eq_true, if_false]
        rw [this, h1, hcol, hline, skipWs_space c r _ _ hs]
      · by_cases hcr : c = '\r'
        · subst hcr
          rcases hr1 : r with _ | ⟨d, r1⟩
          · rw [hr1] at h1
            have := ih { lx.skip 1 with line := (lx.skip 1).line + 1, column := 1 }
              (by rw [rest_setPos, h1]; simp)
            simp only [skipWhitespace, isAtEnd_of_rest_cons lx _ r hr,
              peek_of_rest_cons lx _ r hr, advance_of_rest_cons lx _ r hr, hs, if_true,
              Bool.false_eq_true, if_false, isAtEnd_of_rest_nil (lx.skip 1) h1,
              Bool.not_true, Bool.false_and]
            rw [this, rest_setPos, h1, hline]
            simp [skipWs_cons, skipWs_nil]
          · rw [hr1] at h1 hlen
            by_cases hd : d = '\n'
            · subst hd
              have h2 := rest_skip_one (lx.skip 1) _ r1 h1
              have := ih { lx.skip 2 with line := (lx.skip 2).line + 1, column := 1 }
                (by rw [rest_setPos, ← skip_skip lx 1 1, h2]; simp at hlen; omega)
              simp only [skipWhitespace, isAtEnd_of_rest_cons lx _ r hr,
                peek_of_rest_cons lx _ r hr, advance_of_rest_cons lx _ r hr, hs, if_true,
                Bool.false_eq_true, if_false, isAtEnd_of_rest_cons (lx.skip 1) _ r1 h1,
                peek_of_rest_cons (lx.skip 1) _ r1 h1, advance_of_rest_cons (lx.skip 1) _ r1 h1,
                Bool.not_false, Bool.true_and, beq_self_eq_true]
              rw [skip_skip] at h2 ⊢
              rw [this, rest_setPos, h2, skipWs_cr_lf]
              rfl
            · have := ih { lx.skip 1 with line := (lx.skip 1).line + 1, column := 1 }
                (by rw [rest_setPos, h1]; exact hlen)
              have hbeq : (d == '\n') = false := by simpa using hd
              simp only [skipWhitespace, isAtEnd_of_rest_cons lx _ r hr,
                peek_of_rest_cons lx _ r hr, advance_of_rest_cons lx _ r hr, hs, if_true,
                Bool.false_eq_true, if_false, isAtEnd_of_rest_cons (lx.skip 1) _ r1 h1,
                peek_of_rest_cons (lx.skip 1) _ r1 h1, Bool.not_false, Bool.true_and, hbeq]
              rw [this, rest_setPos, h1, hline, skipWs_cr _ _ _ (by simpa using hd)]
        · by_cases hlf : c = '\n'
          · subst hlf
            have := ih { lx.skip 1 with line := (lx.skip 1).line + 1, column := 1 }
              (by rw [rest_setPos, h1]; exact hlen)
            simp only [skipWhitespace, isAtEnd_of_rest_cons lx _ r hr,
              peek_of_rest_cons lx _ r hr, advance_of_rest_cons lx _ r hr, hs, hcr, if_true,
              Bool.false_eq_true, if_false]
            rw [this, rest_setPos, h1, hline, skipWs_lf]
          · have hw : isWhitespace c = false := by
              simp only [not_or] at hs
              simp [isWhitespace, hs.1, hs.2, hcr, hlf]
            simp only [skipWhitespace, isAtEnd_of_rest_cons lx c r hr,
              peek_of_rest_cons lx c r hr, hs, hcr, hlf, if_true, Bool.false_eq_true, if_false]
            rw [hr, skipWs_other c r _ _ hw]


theorem createToken_skip (lx : Lexer) (c : Char) (r : List Char) (h : lx.rest = c :: r)
    (type : TokenType) :
    (lx.skip 1).createToken type
      = { type := type, value := String.mk [c], line := lx.line, column := lx.column } := by
  simp [createToken, skip, getElem_of_rest_cons lx c r h]
  rfl

theorem twoCharOr_eq (lx : Lexer) (c : Char) (r : List Char) (h : lx.rest = c :: r)
    (two one : TokenType) (text : String) (ht : text.data.length = 2) :
    twoCharOr (lx.skip 1) two text ⟨one, String.mk [c], lx.line, lx.column⟩
      = (⟨(twoCharScan r two text.data one c).1,
            String.mk (twoCharScan r two text.data one c).2.1, lx.line, lx.column⟩,
          lx.skip (twoCharScan r two text.data one c).2.1.length) := by
  have h1 := rest_skip_one lx c r h
  rcases hr : r with _ | ⟨d, r1⟩
  · rw [hr] at h1
    simp [twoCharOr, peek_of_rest_nil _ h1, twoCharScan]
  · rw [hr] at h1
    by_cases hd : d = '='
    · subst hd
      simp [twoCharOr, peek_of_rest_cons _ _ _ h1, advance_of_rest_cons _ _ _ h1, twoCharScan,
        skip_skip, ht]
      simp [skip]
    · simp [twoCharOr, peek_of_rest_cons _ _ _ h1, twoCharScan, hd]


theorem tokenColumn_eq (type : TokenType) (c : Char) (column : Int)
    (h : type ≠ .UNKNOWN ∨ c = '!') : tokenColumn type c column = column := by
  rcases h with h | h <;> simp [tokenColumn, h]

theorem twoCharScan_type (r : List Char) (two one : TokenType) (text : List Char) (c : Char) :
    (twoCharScan r two text one c).1 = two ∨ (twoCharScan r two text one c).1 = one := by
  rcases r with _ | ⟨d, r1⟩
  · simp [twoCharScan]
  · by_cases hd : d = '=' <;> simp [twoCharScan, hd]

theorem twoCharOr_lexeme (lx : Lexer) (c : Char) (r : List Char) (h : lx.rest = c :: r)
    (two one : TokenType) (text : String) (ht : text.data.length = 2)
    (h2 : two ≠ .UNKNOWN) (h1 : one ≠ .UNKNOWN ∨ c = '!') :
    twoCharOr (lx.skip 1) two text ⟨one, String.mk [c], lx.line, lx.column⟩
      = (⟨(twoCharScan r two text.data one c).1,
            String.mk (twoCharScan r two text.data one c).2.1, lx.line,
            tokenColumn (twoCharScan r two text.data one c).1 c lx.column⟩,
          lx.skip (twoCharScan r two text.data one c).2.1.length) := by
  rw [twoCharOr_eq lx c r h two one text ht, tokenColumn_eq]
  rcases twoCharScan_type r two one text.data c with h3 | h3
  · left; rw [h3]; exact h2
  · rcases h1 with h1 | h1
    · left; rw [h3]; exact h1
    · right; exact h1

theorem readNumber_skip (lx : Lexer) (c : Char) (r : List Char) (h : lx.rest = c :: r) :
    (lx.skip 1).readNumber
      = (⟨.INTEGER, String.mk (c :: r.takeWhile isdigit), lx.line, lx.column⟩,
          lx.skip (c :: r.takeWhile isdigit).length) := by
  have h1 := rest_skip_one lx c r h
  have hf : (lx.skip 1).source.length - (lx.skip 1).position = (lx.skip 1).rest.length :=
    (rest_length _).symm
  simp only [readNumber]
  rw [hf, readNumberLoop_eq _ _ _ (le_refl _), h1, skip_skip]
  simp [skip, getElem_of_rest_cons lx c r h, Nat.add_comm]

theorem readIdentifier_skip (lx : Lexer) (c : Char) (r : List Char) (h : lx.rest = c :: r) :
    (lx.skip 1).readIdentifier
      = (⟨keywordType (String.mk (c :: r.takeWhile isIdentChar)),
            String.mk (c :: r.takeWhile isIdentChar), lx.line, lx.column⟩,
          lx.skip (c :: r.takeWhile isIdentChar).length) := by
  have h1 := rest_skip_one lx c r h
  have hf : (lx.skip 1).source.length - (lx.skip 1).position = (lx.skip 1).rest.length :=
    (rest_length _).symm
  simp only [readIdentifier]
  rw [hf, readIdentifierLoop_eq _ _ _ (le_refl _), h1, skip_skip]
  simp [skip, getElem_of_rest_cons lx c r h, Nat.add_comm]

theorem keywordType_ne_unknown (value : String) : keywordType value ≠ .UNKNOWN := by
  unfold keywordType
  split_ifs <;> decide

theorem keywordType_ne_eof (value : String) : keywordType value ≠ .EOF_TOKEN := by
  unfold keywordType
  split_ifs <;> decide

theorem nextToken_eq (lx : Lexer) (c : Char) (r : List Char) (h : lx.rest = c :: r) :
    lx.nextToken = (lexeme c r lx.line lx.column, lx.skip (scan c r).2.1.length) := by
  have hct := createToken_skip lx c r h
  have hcol : (lx.skip 1).column = lx.column + 1 := by simp [skip]
  have hline : (lx.skip 1).line = lx.line := rfl
  unfold nextToken
  rw [advance_of_rest_cons lx c r h]
  dsimp only
  simp only [hct]
  unfold lexeme scan
  by_cases h0 : c = '='
  · simp only [if_pos h0]
    exact twoCharOr_lexeme lx c r h _ _ "==" rfl (by decide) (Or.inl (by decide))
  · simp only [if_neg h0]
    by_cases h1 : c = '!'
    · simp only [if_pos h1]
      have e : (⟨.UNKNOWN, String.singleton c, (lx.skip 1).line, (lx.skip 1).column - 1⟩ : Token)
          = ⟨.UNKNOWN, String.mk [c], lx.line, lx.column⟩ := by
        simp [hcol, hline]
        rfl
      rw [e]
      exact twoCharOr_lexeme lx c r h .NOT_EQUAL .UNKNOWN "!=" rfl (by decide) (Or.inr h1)
    · simp only [if_neg h1]
      by_cases h2 : c = '<'
      · simp only [if_pos h2]
        exact twoCharOr_lexeme lx c r h _ _ "<=" rfl (by decide) (Or.inl (by decide))
      · simp only [if_neg h2]
        by_cases h3 : c = '>'
        · simp only [if_pos h3]
          exact twoCharOr_lexeme lx c r h _ _ ">=" rfl (by decide) (Or.inl (by decide))
        · simp only [if_neg h3]
          by_cases h4 : c = '+'
          · simp only [if_pos h4]
            simp [tokenColumn]
          · simp only [if_neg h4]
            by_cases h5 : c = '-'
            · simp only [if_pos h5]
              simp [tokenColumn]
            · simp only [if_neg h5]
              by_cases h6 : c = '*'
              · simp only [if_pos h6]
                simp [tokenColumn]
              · simp only [if_neg h6]
                by_cases h7 : c = '/'
                · simp only [if_pos h7]
                  simp [tokenColumn]
                · simp only [if_neg h7]
                  by_cases h8 : c = ';'
                  · simp only [if_pos h8]
                    simp [tokenColumn]
                  · simp only [if_neg h8]
                    by_cases h9 : c = '('
                    · simp only [if_pos h9]
                      simp [tokenColumn]
                    · simp only [if_neg h9]
                      by_cases h10 : c = ')'
                      · simp only [if_pos h10]
                        simp [tokenColumn]
                      · simp only [if_neg h10]
                        by_cases h11 : c = '\x7b'
                        · simp only [if_pos h11]
                          simp [tokenColumn]
                        · simp only [if_neg h11]
                          by_cases h12 : c = '\x7d'
                          · simp only [if_pos h12]
                            simp [tokenColumn]
                          · simp only [if_neg h12]
                            by_cases h13 : isdigit c = true
                            · simp only [if_pos h13]
                              rw [readNumber_skip lx c r h]
                              simp [tokenColumn]
                            · simp only [if_neg h13]
                              by_cases h14 : (isalpha c || c == '_') = true
                              · simp only [if_pos h14]
                                rw [readIdentifier_skip lx c r h]
                                by_cases hk : keywordType (String.mk (c :: List.takeWhile isIdentChar r)) = .UNKNOWN
                                · exact absurd hk (keywordType_ne_unknown _)
                                · simp [tokenColumn, hk]
                              · simp only [if_neg h14]
                                simp [tokenColumn, h1, hcol, hline]
                                rfl

end Lexer

theorem scan_cases (c : Char) (r : List Char) :
    (c = '=' ∧ scan c r = twoCharScan r .EQUAL_EQUAL ['=', '='] .ASSIGN c)
    ∨ (c = '!' ∧ scan c r = twoCharScan r .NOT_EQUAL ['!', '='] .UNKNOWN c)
    ∨ (c = '<' ∧ scan c r = twoCharScan r .LESS_EQUAL ['<', '='] .LESS c)
    ∨ (c = '>' ∧ scan c r = twoCharScan r .GREATER_EQUAL ['>', '='] .GREATER c)
    ∨ (∃ type, (c, type) ∈ singleTokens ∧ scan c r = (type, [c], r))
    ∨ (isdigit c = true
        ∧ scan c r = (.INTEGER, c :: r.takeWhile isdigit, r.dropWhile isdigit))
    ∨ (isdigit c = false ∧ (isalpha c || c == '_') = true
        ∧ scan c r = (Lexer.keywordType (String.mk (c :: r.takeWhile isIdentChar)),
            c :: r.takeWhile isIdentChar, r.dropWhile isIdentChar))
    ∨ (isValidStart c = false ∧ scan c r = (.UNKNOWN, [c], r)) := by
  unfold scan
  by_cases h0 : c = '='
  · simp only [if_pos h0]
    left
    exact ⟨h0, trivial⟩
  · simp only [if_neg h0]
    by_cases h1 : c = '!'
    · simp only [if_pos h1]
      right; left
      exact ⟨h1, trivial⟩
    · simp only [if_neg h1]
      by_cases h2 : c = '<'
      · simp only [if_pos h2]
        right; right; left
        exact ⟨h2, trivial⟩
      · simp only [if_neg h2]
        by_cases h3 : c = '>'
        · simp only [if_pos h3]
          right; right; right; left
          exact ⟨h3, trivial⟩
        · simp only [if_neg h3]
          by_cases h4 : c = '+'
          · simp only [if_pos h4]
            right; right; right; right; left
            exact ⟨.PLUS, by simp [singleTokens, h4], rfl⟩
          · simp only [if_neg h4]
            by_cases h5 : c = '-'
            · simp only [if_pos h5]
              right; right; right; right; left
              exact ⟨.MINUS, by simp [singleTokens, h5], rfl⟩
            · simp only [if_neg h5]
              by_cases h6 : c = '*'
              · simp only [if_pos h6]
                right; right; right; right; left
                exact ⟨.MULTIPLY, by simp [singleTokens, h6], rfl⟩
              · simp only [if_neg h6]
                by_cases h7 : c = '/'
                · simp only [if_pos h7]
                  right; right; right; right; left
                  exact ⟨.DIVIDE, by simp [singleTokens, h7], rfl⟩
                · simp only [if_neg h7]
                  by_cases h8 : c = ';'
                  · simp only [if_pos h8]
                    right; right; right; right; left
                    exact ⟨.SEMICOLON, by simp [singleTokens, h8], rfl⟩
                  · simp only [if_neg h8]
                    by_cases h9 : c = '('
                    · simp only [if_pos h9]
                      right; right; right; right; left
                      exact ⟨.LEFT_PAREN, by simp [singleTokens, h9], rfl⟩
                    · simp only [if_neg h9]
                      by_cases h10 : c = ')'
                      · simp only [if_pos h10]
                        right; right; right; right; left
                        exact ⟨.RIGHT_PAREN, by simp [singleTokens, h10], rfl⟩
                      · simp only [if_neg h10]
                        by_cases h11 : c = '\x7b'
                        · simp only [if_pos h11]
                          right; right; right; right; left
                          exact ⟨.LEFT_BRACE, by simp [singleTokens, h11], rfl⟩
                        · simp only [if_neg h11]
                          by_cases h12 : c = '\x7d'
                          · simp only [if_pos h12]
                            right; right; right; right; left
                            exact ⟨.RIGHT_BRACE, by simp [singleTokens, h12], rfl⟩
                          · simp only [if_neg h12]
                            by_cases h13 : isdigit c = true
                            · simp only [if_pos h13]
                              right; right; right; right; right; left
                              exact ⟨h13, trivial⟩
                            · simp only [if_neg h13]
                              by_cases h14 : (isalpha c || c == '_') = true
                              · simp only [if_pos h14]
                                right; right; right; right; right; right; left
                                exact ⟨by simpa using h13, h14, trivial⟩
                              · simp only [if_neg h14]
                                right; right; right; right; right; right; right
                                refine ⟨?_, trivial⟩
                                simp only [Bool.or_eq_true, not_or] at h14
                                simp [isValidStart, h0, h1, h2, h3, h4, h5, h6, h7, h8, h9, h10, h11, h12, h13, h14.1, h14.2]

theorem twoCharScan_append (r : List Char) (two one : TokenType) (c : Char) :
    (twoCharScan r two [c, '='] one c).2.1 ++ (twoCharScan r two [c, '='] one c).2.2 = c :: r := by
  rcases r with _ | ⟨d, r1⟩
  · simp [twoCharScan]
  · by_cases hd : d = '=' <;> simp [twoCharScan, hd]

theorem twoCharScan_text (r : List Char) (two one : TokenType) (c : Char) :
    (twoCharScan r two [c, '='] one c).2.1 = [c]
      ∨ (twoCharScan r two [c, '='] one c).2.1 = [c, '='] := by
  rcases r with _ | ⟨d, r1⟩
  · simp [twoCharScan]
  · by_cases hd : d = '=' <;> simp [twoCharScan, hd]

/-- The text of a lexeme and the input left after it make up the input. -/
theorem scan_append (c : Char) (r : List Char) :
    (scan c r).2.1 ++ (scan c r).2.2 = c :: r := by
  rcases scan_cases c r with ⟨h, hs⟩ | ⟨h, hs⟩ | ⟨h, hs⟩ | ⟨h, hs⟩ | ⟨ty, _, hs⟩ | ⟨_, hs⟩
    | ⟨_, _, hs⟩ | ⟨_, hs⟩
  · rw [hs]; subst h; exact twoCharScan_append r _ _ _
  · rw [hs]; subst h; exact twoCharScan_append r _ _ _
  · rw [hs]; subst h; exact twoCharScan_append r _ _ _
  · rw [hs]; subst h; exact twoCharScan_append r _ _ _
  · rw [hs]; rfl
  · rw [hs]; simp
  · rw [hs]; simp
  · rw [hs]; rfl

/-- A lexeme starts with the character at the head of the input. -/
theorem scan_text_head (c : Char) (r : List Char) :
    ∃ tail, (scan c r).2.1 = c :: tail := by
  rcases scan_cases c r with ⟨h, hs⟩ | ⟨h, hs⟩ | ⟨h, hs⟩ | ⟨h, hs⟩ | ⟨ty, _, hs⟩ | ⟨_, hs⟩
    | ⟨_, _, hs⟩ | ⟨_, hs⟩
  · rw [hs]; subst h; rcases twoCharScan_text r .EQUAL_EQUAL .ASSIGN '=' with h | h <;> simp [h]
  · rw [hs]; subst h; rcases twoCharScan_text r .NOT_EQUAL .UNKNOWN '!' with h | h <;> simp [h]
  · rw [hs]; subst h; rcases twoCharScan_text r .LESS_EQUAL .LESS '<' with h | h <;> simp [h]
  · rw [hs]; subst h; rcases twoCharScan_text r .GREATER_EQUAL .GREATER '>' with h | h <;> simp [h]
  · rw [hs]; exact ⟨_, rfl⟩
  · rw [hs]; exact ⟨_, rfl⟩
  · rw [hs]; exact ⟨_, rfl⟩
  · rw [hs]; exact ⟨_, rfl⟩

theorem scan_rest_length (c : Char) (r : List Char) :
    (scan c r).2.2.length + (scan c r).2.1.length = r.length + 1 := by
  have h := congrArg List.length (scan_append c r)
  simp at h
  omega

theorem scan_text_length_pos (c : Char) (r : List Char) : 0 < (scan c r).2.1.length := by
  obtain ⟨tail, h⟩ := scan_text_head c r
  simp [h]

theorem scan_drop (c : Char) (r : List Char) :
    (c :: r).drop (scan c r).2.1.length = (scan c r).2.2 := by
  conv_lhs => rw [← scan_append c r]
  simp

/-- No lexeme is an end-of-input token. -/
theorem scan_type_ne_eof (c : Char) (r : List Char) : (scan c r).1 ≠ .EOF_TOKEN := by
  rcases scan_cases c r with ⟨h, hs⟩ | ⟨h, hs⟩ | ⟨h, hs⟩ | ⟨h, hs⟩ | ⟨ty, hm, hs⟩ | ⟨_, hs⟩
    | ⟨_, _, hs⟩ | ⟨_, hs⟩
  · rw [hs]; rcases Lexer.twoCharScan_type r .EQUAL_EQUAL .ASSIGN ['=', '='] c with h | h <;>
      rw [h] <;> decide
  · rw [hs]; rcases Lexer.twoCharScan_type r .NOT_EQUAL .UNKNOWN ['!', '='] c with h | h <;>
      rw [h] <;> decide
  · rw [hs]; rcases Lexer.twoCharScan_type r .LESS_EQUAL .LESS ['<', '='] c with h | h <;>
      rw [h] <;> decide
  · rw [hs]; rcases Lexer.twoCharScan_type r .GREATER_EQUAL .GREATER ['>', '='] c with h | h <;>
      rw [h] <;> decide
  · rw [hs]
    simp [singleTokens] at hm
    rcases hm with h | h | h | h | h | h | h | h | h <;> rw [h.2] <;> simp
  · rw [hs]; simp
  · rw [hs]; exact Lexer.keywordType_ne_eof _
  · rw [hs]; simp

theorem skipWs_length : ∀ (rest : List Char) (l c : Int),
    (skipWs rest l c).1.length ≤ rest.length
  | [], l, c => by simp [skipWs_nil]
  | ch :: r, l, c => by
    have ih := skipWs_length r
    rw [skipWs_cons]
    split_ifs with h1 h2 h3
    · exact Nat.le_succ_of_le (ih _ _)
    · rcases r with _ | ⟨d, r1⟩
      · simp
      · have ih1 := skipWs_length r1
        by_cases hd : d = '\n'
        · simp only [hd, if_true]
          exact le_trans (ih1 _ _) (by simp; omega)
        · simp only [hd, if_false]
          exact Nat.le_succ_of_le (ih _ _)
    · exact Nat.le_succ_of_le (ih _ _)
    · simp

namespace Lexer

theorem rest_nil_of_isAtEnd (lx : Lexer) (h : lx.isAtEnd = true) : lx.rest = [] := by
  simp [isAtEnd] at h
  simp [rest, List.drop_eq_nil_iff, h]

/-- The loop of `tokenize` follows the relation `Lexes`. -/
theorem tokenizeLoop_lexes : ∀ (fuel : Nat) (lx : Lexer) (acc : List Token),
    lx.rest.length ≤ fuel →
    ∃ ts lxf, Lexes lx.rest lx.line lx.column ts lxf.line lxf.column
      ∧ tokenizeLoop fuel lx acc = (acc ++ ts, lxf) := by
  intro fuel
  induction fuel with
  | zero =>
    intro lx acc h
    have h0 : lx.rest = [] := List.length_eq_zero.mp (Nat.le_zero.mp h)
    exact ⟨[], lx, Lexes.done _ _ _ _ _ (by rw [h0, skipWs_nil]), by simp [tokenizeLoop]⟩
  | succ fuel ih =>
    intro lx acc h
    by_cases hend : lx.isAtEnd = true
    · have h0 := rest_nil_of_isAtEnd lx hend
      exact ⟨[], lx, Lexes.done _ _ _ _ _ (by rw [h0, skipWs_nil]),
        by simp [tokenizeLoop, hend]⟩
    · have hsk := skipWhitespace_eq (lx.source.length - lx.position) lx
        (by rw [rest_length])
      generalize hlx1 : skipWhitespace (lx.source.length - lx.position) lx = lx1 at hsk
      have hlen1 : lx1.rest.length ≤ lx.rest.length := by
        have := skipWs_length lx.rest lx.line lx.column
        rw [← hsk] at this
        exact this
      by_cases hend1 : lx1.isAtEnd = true
      · have h1 := rest_nil_of_isAtEnd lx1 hend1
        refine ⟨[], lx1, Lexes.done _ _ _ _ _ ?_, ?_⟩
        · rw [← hsk, h1]
        · simp [tokenizeLoop, hend, hlx1, hend1]
      · rcases hr1 : lx1.rest with _ | ⟨ch, r⟩
        · exact absurd (isAtEnd_of_rest_nil lx1 hr1) hend1
        · have hnt := nextToken_eq lx1 ch r hr1
          have hskip : skipWs lx.rest lx.line lx.column = (ch :: r, lx1.line, lx1.column) := by
            rw [← hsk, hr1]
          by_cases hu : (scan ch r).1 = .UNKNOWN
          · refine ⟨[lexeme ch r lx1.line lx1.column], lx1.skip (scan ch r).2.1.length, ?_, ?_⟩
            · exact Lexes.unknown _ _ _ ch r _ _ hskip hu
            · simp [tokenizeLoop, hend, hlx1, hend1, hnt, lexeme, hu]
          · have hlen2 : (lx1.skip (scan ch r).2.1.length).rest.length ≤ fuel := by
              rw [rest_skip, hr1, scan_drop]
              have := scan_rest_length ch r
              have := scan_text_length_pos ch r
              rw [hr1] at hlen1
              simp at hlen1
              omega
            obtain ⟨ts, lxf, hL, hT⟩ := ih (lx1.skip (scan ch r).2.1.length)
              (acc ++ [lexeme ch r lx1.line lx1.column]) hlen2
            refine ⟨lexeme ch r lx1.line lx1.column :: ts, lxf, ?_, ?_⟩
            · refine Lexes.token _ _ _ ch r _ _ ts _ _ hskip hu ?_
              rw [rest_skip, hr1, scan_drop] at hL
              exact hL
            · have hu2 : (lexeme ch r lx1.line lx1.column).type ≠ .UNKNOWN := hu
              simp [tokenizeLoop, hend, hlx1, hend1, hnt, hu2, hT]

/-- Tokenizing follows the relation `Lexes` from line 1, column 1, and ends
with the end-of-input token at the position reached. -/
theorem tokenize_lexes (source : String) :
    ∃ ts l c, Lexes source.data 1 1 ts l c
      ∧ tokenize source = ts ++ [⟨.EOF_TOKEN, "", l, c⟩] := by
  obtain ⟨ts, lxf, hL, hT⟩ := tokenizeLoop_lexes
    ((Lexer.new source).source.length - (Lexer.new source).position) (Lexer.new source) []
    (by rw [rest_length])
  refine ⟨ts, lxf.line, lxf.column, ?_, ?_⟩
  · simpa [Lexer.new, rest] using hL
  · simp [tokenize, run, hT]

end Lexer

theorem lexeme_type (c : Char) (r : List Char) (l col : Int) :
    (lexeme c r l col).type = (scan c r).1 := rfl

theorem lexeme_value (c : Char) (r : List Char) (l col : Int) :
    (lexeme c r l col).value = String.mk (scan c r).2.1 := rfl

/-- No token of a run is an end-of-input token. -/
theorem Lexes_type_ne_eof {rest : List Char} {l c : Int} {ts : List Token} {l1 c1 : Int}
    (h : Lexes rest l c ts l1 c1) : ∀ t ∈ ts, t.type ≠ .EOF_TOKEN := by
  induction h with
  | done => simp
  | unknown rest l c ch r l1 c1 _ _ =>
    intro t ht
    simp only [List.mem_singleton] at ht
    rw [ht, lexeme_type]
    exact scan_type_ne_eof ch r
  | token rest l c ch r l1 c1 ts l2 c2 _ _ _ ih =>
    intro t ht
    rcases List.mem_cons.mp ht with ht | ht
    · rw [ht, lexeme_type]
      exact scan_type_ne_eof ch r
    · exact ih t ht

/-- C2: for every source, `tokenize` returns a non-empty token list whose last
token is an end-of-input token, and no token before the last one is an
end-of-input token. -/
theorem tokenize_ends_with_eof (source : String) :
    tokenize source ≠ []
      ∧ ((tokenize source).getLast?).map (fun t => t.type) = some TokenType.EOF_TOKEN
      ∧ ∀ t ∈ (tokenize source).dropLast, t.type ≠ TokenType.EOF_TOKEN := by
  obtain ⟨ts, l, c, hL, hT⟩ := Lexer.tokenize_lexes source
  rw [hT]
  refine ⟨by simp, by simp, ?_⟩
  rw [List.dropLast_concat]
  exact Lexes_type_ne_eof hL

theorem skipWs_filter : ∀ (rest : List Char) (l c : Int),
    (skipWs rest l c).1.filter (fun x => !isWhitespace x)
      = rest.filter (fun x => !isWhitespace x)
  | [], l, c => by simp [skipWs_nil]
  | ch :: r, l, c => by
    have ih := skipWs_filter r
    rw [skipWs_cons]
    split_ifs with h1 h2 h3
    · rw [ih]
      rcases h1 with h1 | h1 <;> simp [h1, isWhitespace]
    · subst h2
      rcases r with _ | ⟨d, r1⟩
      · simp [isWhitespace]
      · have ih1 := skipWs_filter r1
        by_cases hd : d = '\n'
        · simp only [hd, if_true]
          rw [ih1]
          simp [isWhitespace]
        · simp only [hd, if_false]
          rw [ih]
          simp [isWhitespace]
    · rw [ih]
      simp [h3, isWhitespace]
    · rfl

theorem skipWs_head : ∀ (rest : List Char) (l c : Int) (ch : Char) (r : List Char) (l1 c1 : Int),
    skipWs rest l c = (ch :: r, l1, c1) → isWhitespace ch = false
  | [], l, c, ch, r, l1, c1, h => by simp [skipWs_nil] at h
  | x :: rest, l, c, ch, r, l1, c1, h => by
    have ih := skipWs_head rest
    rw [skipWs_cons] at h
    split_ifs at h with h1 h2 h3
    · exact ih _ _ _ _ _ _ h
    · rcases rest with _ | ⟨d, r1⟩
      · simp at h
      · have ih1 := skipWs_head r1
        by_cases hd : d = '\n'
        · simp only [hd, if_true] at h
          exact ih1 _ _ _ _ _ _ h
        · simp only [hd, if_false] at h
          exact ih _ _ _ _ _ _ h
    · exact ih _ _ _ _ _ _ h
    · simp only [Prod.mk.injEq, List.cons.injEq] at h
      rw [← h.1.1]
      simp only [not_or] at h1
      simp [isWhitespace, h1.1, h1.2, h2, h3]

theorem isdigit_not_ws (x : Char) (h : isdigit x = true) : isWhitespace x = false := by
  have h1 : x ≠ ' ' := by rintro rfl; revert h; decide
  have h2 : x ≠ '\t' := by rintro rfl; revert h; decide
  have h3 : x ≠ '\r' := by rintro rfl; revert h; decide
  have h4 : x ≠ '\n' := by rintro rfl; revert h; decide
  simp [isWhitespace, h1, h2, h3, h4]

theorem isIdentChar_not_ws (x : Char) (h : isIdentChar x = true) : isWhitespace x = false := by
  have h1 : x ≠ ' ' := by rintro rfl; revert h; decide
  have h2 : x ≠ '\t' := by rintro rfl; revert h; decide
  have h3 : x ≠ '\r' := by rintro rfl; revert h; decide
  have h4 : x ≠ '\n' := by rintro rfl; revert h; decide
  simp [isWhitespace, h1, h2, h3, h4]

/-- The text of a lexeme that starts at a non-white character has no white
space. -/
theorem scan_text_no_ws (c : Char) (r : List Char) (hc : isWhitespace c = false) :
    ∀ x ∈ (scan c r).2.1, isWhitespace x = false := by
  have heq : isWhitespace '=' = false := by decide
  rcases scan_cases c r with ⟨h, hs⟩ | ⟨h, hs⟩ | ⟨h, hs⟩ | ⟨h, hs⟩ | ⟨ty, _, hs⟩ | ⟨_, hs⟩
    | ⟨_, _, hs⟩ | ⟨_, hs⟩
  · rw [hs]; subst h
    rcases twoCharScan_text r .EQUAL_EQUAL .ASSIGN '=' with h | h <;> rw [h] <;> simp [heq]
  · rw [hs]; subst h
    rcases twoCharScan_text r .NOT_EQUAL .UNKNOWN '!' with h | h <;> rw [h] <;> simp [heq, hc]
  · rw [hs]; subst h
    rcases twoCharScan_text r .LESS_EQUAL .LESS '<' with h | h <;> rw [h] <;> simp [heq, hc]
  · rw [hs]; subst h
    rcases twoCharScan_text r .GREATER_EQUAL .GREATER '>' with h | h <;> rw [h] <;> simp [heq, hc]
  · rw [hs]; simp [hc]
  · rw [hs]
    intro x hx
    rcases List.mem_cons.mp hx with hx | hx
    · rw [hx]; exact hc
    · exact isdigit_not_ws x (List.mem_takeWhile_imp hx)
  · rw [hs]
    intro x hx
    rcases List.mem_cons.mp hx with hx | hx
    · rw [hx]; exact hc
    · exact isIdentChar_not_ws x (List.mem_takeWhile_imp hx)
  · rw [hs]; simp [hc]

/-- Without an invalid token, the texts of the tokens of a run make up the
input without its white space. -/
theorem Lexes_concat {rest : List Char} {l c : Int} {ts : List Token} {l1 c1 : Int}
    (h : Lexes rest l c ts l1 c1) (hu : ∀ t ∈ ts, t.type ≠ .UNKNOWN) :
    (ts.map (fun t => t.value.data)).flatten = rest.filter (fun x => !isWhitespace x) := by
  induction h with
  | done rest l c l1 c1 hs =>
    have := skipWs_filter rest l c
    rw [hs] at this
    simpa using this.symm
  | unknown rest l c ch r l1 c1 _ hty =>
    exact absurd hty (hu (lexeme ch r l1 c1) (by simp))
  | token rest l c ch r l1 c1 ts l2 c2 hs hty _ ih =>
    have ih1 := ih (fun t ht => hu t (List.mem_cons_of_mem _ ht))
    have hf := skipWs_filter rest l c
    rw [hs] at hf
    have hws := scan_text_no_ws ch r (skipWs_head rest l c ch r l1 c1 hs)
    rw [← hf, ← scan_append ch r, List.filter_append, ← ih1]
    have : (scan ch r).2.1.filter (fun x => !isWhitespace x) = (scan ch r).2.1 := by
      apply List.filter_eq_self.mpr
      intro x hx
      simp [hws x hx]
    rw [this]
    simp [lexeme_value]

/-- C3: for every source for which `tokenize` produces no invalid token, the
texts of the returned tokens, concatenated in order, are the source with
every space, tab, carriage return and line feed removed. -/
theorem tokenize_concat (source : String)
    (h : ∀ t ∈ tokenize source, t.type ≠ TokenType.UNKNOWN) :
    String.join ((tokenize source).map (fun t => t.value))
      = String.mk (source.data.filter
          (fun c => !(c == ' ' || c == '\t' || c == '\r' || c == '\n'))) := by
  obtain ⟨ts, l, c, hL, hT⟩ := Lexer.tokenize_lexes source
  rw [hT] at h ⊢
  have hu : ∀ t ∈ ts, t.type ≠ .UNKNOWN := fun t ht => h t (by simp [ht])
  have := Lexes_concat hL hu
  rw [String.join_eq]
  congr 1
  simp only [List.map_append, List.map_map, List.flatten_append]
  simp only [isWhitespace] at this
  simp [Function.comp_def, this]

/-- Witness for C3: `var x = 2 + 3 * 4;` has no invalid token and the texts of
its tokens make up `varx=2+3*4;`. -/
theorem tokenize_concat_witness :
    (∀ t ∈ tokenize Examples.declSource, t.type ≠ TokenType.UNKNOWN)
      ∧ String.join ((tokenize Examples.declSource).map (fun t => t.value)) = "varx=2+3*4;" :=
  ⟨by decide, (tokenize_concat Examples.declSource (by decide)).trans (by decide)⟩

/-! ### Runs of the lexer on parts of the input -/

/-- The run of the lexer on an input is determined by the input and the
position. -/
theorem Lexes_functional {rest : List Char} {l c : Int} {ts : List Token} {l1 c1 : Int}
    (h : Lexes rest l c ts l1 c1) :
    ∀ {ts2 : List Token} {l2 c2 : Int}, Lexes rest l c ts2 l2 c2 →
      ts = ts2 ∧ l1 = l2 ∧ c1 = c2 := by
  induction h with
  | done rest l c l1 c1 hs =>
    intro ts2 l2 c2 h2
    cases h2 with
    | done _ _ _ _ _ hs2 =>
      rw [hs] at hs2
      simp only [Prod.mk.injEq, true_and] at hs2
      exact ⟨rfl, hs2.1, hs2.2⟩
    | unknown _ _ _ ch r _ _ hs2 _ => rw [hs] at hs2; simp at hs2
    | token _ _ _ ch r _ _ _ _ _ hs2 _ _ => rw [hs] at hs2; simp at hs2
  | unknown rest l c ch r l1 c1 hs hty =>
    intro ts2 l2 c2 h2
    cases h2 with
    | done _ _ _ _ _ hs2 => rw [hs] at hs2; simp at hs2
    | unknown _ _ _ ch2 r2 _ _ hs2 _ =>
      rw [hs] at hs2
      simp only [Prod.mk.injEq, List.cons.injEq] at hs2
      obtain ⟨⟨rfl, rfl⟩, rfl, rfl⟩ := hs2
      exact ⟨rfl, rfl, rfl⟩
    | token _ _ _ ch2 r2 _ _ _ _ _ hs2 hty2 _ =>
      rw [hs] at hs2
      simp only [Prod.mk.injEq, List.cons.injEq] at hs2
      obtain ⟨⟨rfl, rfl⟩, rfl, rfl⟩ := hs2
      exact absurd hty hty2
  | token rest l c ch r l1 c1 ts l2 c2 hs hty _ ih =>
    intro ts2 l3 c3 h2
    cases h2 with
    | done _ _ _ _ _ hs2 => rw [hs] at hs2; simp at hs2
    | unknown _ _ _ ch2 r2 _ _ hs2 hty2 =>
      rw [hs] at hs2
      simp only [Prod.mk.injEq, List.cons.injEq] at hs2
      obtain ⟨⟨rfl, rfl⟩, rfl, rfl⟩ := hs2
      exact absurd hty2 hty
    | token _ _ _ ch2 r2 _ _ ts3 _ _ hs2 _ hrest =>
      rw [hs] at hs2
      simp only [Prod.mk.injEq, List.cons.injEq] at hs2
      obtain ⟨⟨rfl, rfl⟩, rfl, rfl⟩ := hs2
      obtain ⟨rfl, rfl, rfl⟩ := ih hrest
      exact ⟨rfl, rfl, rfl⟩

/-- The lexer has a run on every input, from every position. -/
theorem Lexes_exists (rest : List Char) (l c : Int) :
    ∃ ts l1 c1, Lexes rest l c ts l1 c1 := by
  obtain ⟨ts, lxf, hL, _⟩ := Lexer.tokenizeLoop_lexes rest.length ⟨rest, 0, l, c⟩ []
    (by simp [Lexer.rest])
  exact ⟨ts, lxf.line, lxf.column, by simpa [Lexer.rest] using hL⟩

/-- The tokens of a source, from a run of the lexer on it. -/
theorem tokenize_of_lexes (source : String) (ts : List Token) (l c : Int)
    (h : Lexes source.data 1 1 ts l c) :
    tokenize source = ts ++ [⟨.EOF_TOKEN, "", l, c⟩] := by
  obtain ⟨ts2, l2, c2, hL, hT⟩ := Lexer.tokenize_lexes source
  obtain ⟨rfl, rfl, rfl⟩ := Lexes_functional h hL
  exact hT

theorem cleanBoundary_nil_left (b : List Char) : cleanBoundary [] b = true := rfl

theorem cleanBoundary_nil_right (a : List Char) : cleanBoundary a [] = true := by
  unfold cleanBoundary
  cases a.getLast? <;> rfl

theorem cleanBoundary_cons (x y : Char) (a b : List Char)
    (h : cleanBoundary (x :: y :: a) b = true) : cleanBoundary (y :: a) b = true := by
  unfold cleanBoundary at h ⊢
  rw [List.getLast?_cons_cons] at h
  exact h

theorem cleanBoundary_single (x y : Char) (b : List Char)
    (h : cleanBoundary [x] (y :: b) = true) : readTogether x y = false := by
  simpa [cleanBoundary] using h

/-- White space at the end of `a` is skipped in `a ++ b` as in `a`. -/
theorem skipWs_append_nil : ∀ (a b : List Char) (l c l1 c1 : Int),
    skipWs a l c = ([], l1, c1) → cleanBoundary a b = true →
    skipWs (a ++ b) l c = skipWs b l1 c1
  | [], b, l, c, l1, c1, h, _ => by
    simp only [skipWs_nil, Prod.mk.injEq, true_and] at h
    rw [List.nil_append, h.1, h.2]
  | [x], b, l, c, l1, c1, h, hb => by
    rw [skipWs_cons] at h
    rw [List.singleton_append, skipWs_cons]
    split_ifs at h ⊢ with h1 h2 h3
    · simp only [skipWs_nil, Prod.mk.injEq, true_and] at h
      rw [h.1, h.2]
    · simp only [Prod.mk.injEq, true_and] at h
      rcases b with _ | ⟨y, b⟩
      · obtain ⟨rfl, rfl⟩ := h
        simp [skipWs_nil]
      · have hr := cleanBoundary_single x y b hb
        have hy : y ≠ '\n' := by
          intro hy
          simp [readTogether, h2, hy] at hr
        simp only [hy, if_false]
        rw [h.1, h.2]
    · simp only [skipWs_nil, Prod.mk.injEq, true_and] at h
      rw [h.1, h.2]
    · simp at h
  | x :: y :: a, b, l, c, l1, c1, h, hb => by
    have ih := skipWs_append_nil (y :: a) b
    have ih2 := skipWs_append_nil a b
    have hb1 := cleanBoundary_cons x y a b hb
    rw [skipWs_cons] at h
    rw [List.cons_append, skipWs_cons]
    split_ifs at h ⊢ with h1 h2 h3
    · exact ih _ _ _ _ h hb1
    · simp only [List.cons_append]
      by_cases hy : y = '\n'
      · simp only [hy, if_true] at h ⊢
        rcases a with _ | ⟨z, a⟩
        · simp only [skipWs_nil, Prod.mk.injEq, true_and] at h
          rw [List.nil_append, h.1, h.2]
        · refine ih2 _ _ _ _ h ?_
          exact cleanBoundary_cons _ _ _ _ hb1
      · simp only [hy, if_false] at h ⊢
        exact ih _ _ _ _ h hb1
    · exact ih _ _ _ _ h hb1
    · simp at h

/-- White space before a token of `a` is skipped in `a ++ b` as in `a`. -/
theorem skipWs_append_cons : ∀ (a b : List Char) (l c : Int) (ch : Char) (r : List Char)
    (l1 c1 : Int), skipWs a l c = (ch :: r, l1, c1) →
    skipWs (a ++ b) l c = (ch :: (r ++ b), l1, c1)
  | [], b, l, c, ch, r, l1, c1, h => by simp [skipWs_nil] at h
  | x :: a, b, l, c, ch, r, l1, c1, h => by
    have ih := skipWs_append_cons a b
    rw [skipWs_cons] at h
    rw [List.cons_append, skipWs_cons]
    split_ifs at h ⊢ with h1 h2 h3
    · exact ih _ _ _ _ _ _ h
    · rcases a with _ | ⟨y, a⟩
      · simp at h
      · have ih2 := skipWs_append_cons a b
        simp only [List.cons_append]
        by_cases hy : y = '\n'
        · simp only [hy, if_true] at h ⊢
          exact ih2 _ _ _ _ _ _ h
        · simp only [hy, if_false] at h ⊢
          exact ih _ _ _ _ _ _ h
    · exact ih _ _ _ _ _ _ h
    · simp only [Prod.mk.injEq, List.cons.injEq] at h
      obtain ⟨⟨rfl, rfl⟩, rfl, rfl⟩ := h
      rfl

theorem isdigit_validStart (c : Char) (h : isdigit c = true) : isValidStart c = true := by
  simp [isValidStart, h]

theorem single_not_digit (c : Char) (type : TokenType) (h : (c, type) ∈ singleTokens) :
    isdigit c = false ∧ isalpha c = false ∧ c ≠ '_' ∧ isValidStart c = true ∧ c ≠ '='
      ∧ c ≠ '!' ∧ isIdentChar c = false := by
  simp only [singleTokens, List.mem_cons, Prod.mk.injEq, List.mem_singleton, List.not_mem_nil,
    or_false] at h
  rcases h with h | h | h | h | h | h | h | h | h <;> obtain ⟨rfl, _⟩ := h <;> decide

/-- The lexeme that starts with a digit. -/
theorem scan_digit (c : Char) (r : List Char) (h : isdigit c = true) :
    scan c r = (.INTEGER, c :: r.takeWhile isdigit, r.dropWhile isdigit) := by
  rcases scan_cases c r with ⟨rfl, _⟩ | ⟨rfl, _⟩ | ⟨rfl, _⟩ | ⟨rfl, _⟩ | ⟨type, hm, _⟩ | ⟨_, he⟩
    | ⟨hd, _, _⟩ | ⟨hv, _⟩
  · exact absurd h (by decide)
  · exact absurd h (by decide)
  · exact absurd h (by decide)
  · exact absurd h (by decide)
  · rw [(single_not_digit c type hm).1] at h; cases h
  · exact he
  · rw [hd] at h; cases h
  · rw [isdigit_validStart c h] at hv; cases hv

/-- The lexeme that starts with a letter or an underscore. -/
theorem scan_ident (c : Char) (r : List Char) (hnd : isdigit c = false)
    (ha : (isalpha c || c == '_') = true) :
    scan c r = (Lexer.keywordType (String.mk (c :: r.takeWhile isIdentChar)),
      c :: r.takeWhile isIdentChar, r.dropWhile isIdentChar) := by
  have hv : isValidStart c = true := by
    simp only [Bool.or_eq_true, beq_iff_eq] at ha
    rcases ha with ha | ha <;> simp [isValidStart, ha]
  rcases scan_cases c r with ⟨rfl, _⟩ | ⟨rfl, _⟩ | ⟨rfl, _⟩ | ⟨rfl, _⟩ | ⟨type, hm, _⟩ | ⟨hd, _⟩
    | ⟨_, _, he⟩ | ⟨hv2, _⟩
  · exact absurd ha (by decide)
  · exact absurd ha (by decide)
  · exact absurd ha (by decide)
  · exact absurd ha (by decide)
  · have := single_not_digit c type hm
    simp [this.2.1, this.2.2.1] at ha
  · rw [hnd] at hd; cases hd
  · exact he
  · rw [hv] at hv2; cases hv2

/-- The lexeme of a character with which no token starts. -/
theorem scan_invalid (c : Char) (r : List Char) (h : isValidStart c = false) :
    scan c r = (.UNKNOWN, [c], r) := by
  rcases scan_cases c r with ⟨rfl, _⟩ | ⟨rfl, _⟩ | ⟨rfl, _⟩ | ⟨rfl, _⟩ | ⟨type, hm, _⟩ | ⟨hd, _⟩
    | ⟨_, ha, _⟩ | ⟨_, he⟩
  · exact absurd h (by decide)
  · exact absurd h (by decide)
  · exact absurd h (by decide)
  · exact absurd h (by decide)
  · rw [(single_not_digit c type hm).2.2.2.1] at h; cases h
  · rw [isdigit_validStart c hd] at h; cases h
  · exfalso
    simp only [Bool.or_eq_true, beq_iff_eq] at ha
    rcases ha with ha | ha <;> simp [isValidStart, ha] at h
  · exact he

/-- The lexeme of a one-character token. -/
theorem scan_single (c : Char) (r : List Char) (type : TokenType)
    (h : (c, type) ∈ singleTokens) : scan c r = (type, [c], r) := by
  simp only [singleTokens, List.mem_cons, Prod.mk.injEq, List.mem_singleton, List.not_mem_nil,
    or_false] at h
  rcases h with h | h | h | h | h | h | h | h | h <;> obtain ⟨rfl, rfl⟩ := h <;> rfl

theorem takeWhile_dropWhile_append (p : Char → Bool) (b : List Char) :
    ∀ r : List Char, (r.dropWhile p ≠ [] ∨ ∀ y, b.head? = some y → p y = false) →
      (r ++ b).takeWhile p = r.takeWhile p ∧ (r ++ b).dropWhile p = r.dropWhile p ++ b
  | [], h => by
    rcases h with h | h
    · simp at h
    · rcases b with _ | ⟨y, b⟩
      · simp
      · have := h y rfl
        simp [List.takeWhile, List.dropWhile, this]
  | x :: r, h => by
    by_cases hx : p x = true
    · have ih := takeWhile_dropWhile_append p b r (by simpa [List.dropWhile, hx] using h)
      simp [List.takeWhile, List.dropWhile, hx, ih.1, ih.2]
    · simp [List.takeWhile, List.dropWhile, hx]

theorem getLast_of_dropWhile_nil (p : Char → Bool) (c : Char) (hc : p c = true) :
    ∀ r : List Char, r.dropWhile p = [] → ∃ x, (c :: r).getLast? = some x ∧ p x = true
  | [], _ => ⟨c, rfl, hc⟩
  | x :: r, h => by
    by_cases hx : p x = true
    · obtain ⟨z, hz, hpz⟩ := getLast_of_dropWhile_nil p x hx r
        (by simpa [List.dropWhile, hx] using h)
      exact ⟨z, by rw [List.getLast?_cons_cons]; exact hz, hpz⟩
    · simp [List.dropWhile, hx] at h

theorem run_boundary (p : Char → Bool) (c : Char) (r b : List Char) (hc : p c = true)
    (hp : ∀ x, p x = true → isIdentChar x = true)
    (hq : ∀ y, isIdentChar y = false → p y = false)
    (h : r.dropWhile p ≠ [] ∨ cleanBoundary (c :: r) b = true) :
    r.dropWhile p ≠ [] ∨ ∀ y, b.head? = some y → p y = false := by
  by_cases hd : r.dropWhile p = []
  · right
    intro y hy
    rcases h with h | h
    · exact absurd hd h
    · obtain ⟨x, hx, hpx⟩ := getLast_of_dropWhile_nil p c hc r hd
      apply hq
      unfold cleanBoundary at h
      rw [hx, hy] at h
      simp only [readTogether, hp x hpx, Bool.true_and, Bool.not_eq_true', Bool.or_eq_false_iff]
        at h
      exact h.2
  · exact Or.inl hd

theorem isdigit_identChar (x : Char) (h : isdigit x = true) : isIdentChar x = true := by
  have h1 : x.isDigit = true := h
  simp [isIdentChar, isalnum, Char.isAlphanum, h1]

theorem twoCharScan_append_right (r b : List Char) (two one : TokenType) (text : List Char)
    (c : Char) (hc : c = '=' ∨ c = '!' ∨ c = '<' ∨ c = '>')
    (h : (twoCharScan r two text one c).2.2 ≠ [] ∨ cleanBoundary (c :: r) b = true) :
    twoCharScan (r ++ b) two text one c
      = ((twoCharScan r two text one c).1, (twoCharScan r two text one c).2.1,
          (twoCharScan r two text one c).2.2 ++ b) := by
  rcases r with _ | ⟨d, r1⟩
  · rcases b with _ | ⟨y, b⟩
    · rfl
    · have hy : y ≠ '=' := by
        rcases h with h | h
        · simp [twoCharScan] at h
        · have := cleanBoundary_single c y b h
          intro hy
          subst hy
          rcases hc with rfl | rfl | rfl | rfl <;> exact absurd this (by decide)
      simp [twoCharScan, hy]
  · by_cases hd : d = '='
    · simp [twoCharScan, hd]
    · simp [twoCharScan, hd]

/-- A lexeme that ends inside `a`, or at a clean boundary, is read in `a ++ b`
as in `a`. -/
theorem scan_append_right (ch : Char) (r b : List Char)
    (h : (scan ch r).2.2 ≠ [] ∨ cleanBoundary (ch :: r) b = true) :
    scan ch (r ++ b) = ((scan ch r).1, (scan ch r).2.1, (scan ch r).2.2 ++ b) := by
  rcases scan_cases ch r with ⟨hc, he⟩ | ⟨hc, he⟩ | ⟨hc, he⟩ | ⟨hc, he⟩ | ⟨type, hm, he⟩
    | ⟨hd, he⟩ | ⟨hnd, ha, he⟩ | ⟨hv, he⟩
  · rw [he] at h ⊢
    rcases scan_cases ch (r ++ b) with ⟨_, he2⟩ | ⟨hc2, _⟩ | ⟨hc2, _⟩ | ⟨hc2, _⟩ | ⟨t2, hm2, _⟩
      | ⟨hd2, _⟩ | ⟨_, ha2, _⟩ | ⟨hv2, _⟩
    · rw [he2]
      exact twoCharScan_append_right r b _ _ _ ch (by simp [hc]) h
    all_goals (exfalso; subst hc)
    · exact absurd hc2 (by decide)
    · exact absurd hc2 (by decide)
    · exact absurd hc2 (by decide)
    · exact absurd hm2 (by simp [singleTokens])
    · exact absurd hd2 (by decide)
    · exact absurd ha2 (by decide)
    · exact absurd hv2 (by decide)
  · rw [he] at h ⊢
    rcases scan_cases ch (r ++ b) with ⟨hc2, _⟩ | ⟨_, he2⟩ | ⟨hc2, _⟩ | ⟨hc2, _⟩ | ⟨t2, hm2, _⟩
      | ⟨hd2, _⟩ | ⟨_, ha2, _⟩ | ⟨hv2, _⟩
    · exfalso; subst hc; exact absurd hc2 (by decide)
    · rw [he2]
      exact twoCharScan_append_right r b _ _ _ ch (by simp [hc]) h
    all_goals (exfalso; subst hc)
    · exact absurd hc2 (by decide)
    · exact absurd hc2 (by decide)
    · exact absurd hm2 (by simp [singleTokens])
    · exact absurd hd2 (by decide)
    · exact absurd ha2 (by decide)
    · exact absurd hv2 (by decide)
  · rw [he] at h ⊢
    rcases scan_cases ch (r ++ b) with ⟨hc2, _⟩ | ⟨hc2, _⟩ | ⟨_, he2⟩ | ⟨hc2, _⟩ | ⟨t2, hm2, _⟩
      | ⟨hd2, _⟩ | ⟨_, ha2, _⟩ | ⟨hv2, _⟩
    · exfalso; subst hc; exact absurd hc2 (by decide)
    · exfalso; subst hc; exact absurd hc2 (by decide)
    · rw [he2]
      exact twoCharScan_append_right r b _ _ _ ch (by simp [hc]) h
    all_goals (exfalso; subst hc)
    · exact absurd hc2 (by decide)
    · exact absurd hm2 (by simp [singleTokens])
    · exact absurd hd2 (by decide)
    · exact absurd ha2 (by decide)
    · exact absurd hv2 (by decide)
  · rw [he] at h ⊢
    rcases scan_cases ch (r ++ b) with ⟨hc2, _⟩ | ⟨hc2, _⟩ | ⟨hc2, _⟩ | ⟨_, he2⟩ | ⟨t2, hm2, _⟩
      | ⟨hd2, _⟩ | ⟨_, ha2, _⟩ | ⟨hv2, _⟩
    · exfalso; subst hc; exact absurd hc2 (by decide)
    · exfalso; subst hc; exact absurd hc2 (by decide)
    · exfalso; subst hc; exact absurd hc2 (by decide)
    · rw [he2]
      exact twoCharScan_append_right r b _ _ _ ch (by simp [hc]) h
    all_goals (exfalso; subst hc)
    · exact absurd hm2 (by simp [singleTokens])
    · exact absurd hd2 (by decide)
    · exact absurd ha2 (by decide)
    · exact absurd hv2 (by decide)
  · rw [he, scan_single ch (r ++ b) type hm]
  · rw [he] at h ⊢
    rw [scan_digit ch (r ++ b) hd]
    have := takeWhile_dropWhile_append isdigit b r
      (run_boundary isdigit ch r b hd isdigit_identChar
        (fun y hy => by
          cases hdy : isdigit y
          · rfl
          · rw [isdigit_identChar y hdy] at hy; cases hy) h)
    rw [this.1, this.2]
  · rw [he] at h ⊢
    rw [scan_ident ch (r ++ b) hnd ha]
    have hci : isIdentChar ch = true := by
      simp only [Bool.or_eq_true, beq_iff_eq] at ha
      rcases ha with ha | ha
      · have : ch.isAlpha = true := ha
        simp [isIdentChar, isalnum, Char.isAlphanum, this]
      · simp [isIdentChar, ha]
    have := takeWhile_dropWhile_append isIdentChar b r
      (run_boundary isIdentChar ch r b hci (fun x hx => hx) (fun y hy => hy) h)
    rw [this.1, this.2]
  · rw [he, scan_invalid ch (r ++ b) hv]

theorem skipWs_suffix : ∀ (rest : List Char) (l c : Int), (skipWs rest l c).1 <:+ rest
  | [], l, c => by simp [skipWs_nil]
  | ch :: r, l, c => by
    have ih := skipWs_suffix r
    rw [skipWs_cons]
    split_ifs with h1 h2 h3
    · exact (ih _ _).trans (List.suffix_cons _ _)
    · rcases r with _ | ⟨d, r1⟩
      · simp
      · have ih1 := skipWs_suffix r1
        by_cases hd : d = '\n'
        · simp only [hd, if_true]
          exact ((ih1 _ _).trans (List.suffix_cons _ _)).trans (List.suffix_cons _ _)
        · simp only [hd, if_false]
          exact (ih _ _).trans (List.suffix_cons _ _)
    · exact (ih _ _).trans (List.suffix_cons _ _)
    · exact List.suffix_refl _

theorem cleanBoundary_suffix (s a b : List Char) (h : s <:+ a) (hb : cleanBoundary a b = true) :
    cleanBoundary s b = true := by
  rcases s with _ | ⟨x, s⟩
  · rfl
  · obtain ⟨ws, rfl⟩ := h
    unfold cleanBoundary at hb ⊢
    rw [List.getLast?_append_of_ne_nil _ (by simp)] at hb
    exact hb

theorem lexeme_append_right (ch : Char) (r b : List Char) (l c : Int)
    (h : (scan ch r).2.2 ≠ [] ∨ cleanBoundary (ch :: r) b = true) :
    lexeme ch (r ++ b) l c = lexeme ch r l c := by
  unfold lexeme
  rw [scan_append_right ch r b h]

/-- Runs of the lexer compose: a run on `a` without invalid token, followed by
a run on `b` from the position reached, is the run on `a ++ b`, when the end
of `a` and the start of `b` are not read together. -/
theorem Lexes_append {a : List Char} {l c : Int} {ts0 : List Token} {l0 c0 : Int}
    (h : Lexes a l c ts0 l0 c0) :
    ∀ (b : List Char) (ts1 : List Token) (l1 c1 : Int),
      (∀ t ∈ ts0, t.type ≠ .UNKNOWN) → cleanBoundary a b = true →
      Lexes b l0 c0 ts1 l1 c1 → Lexes (a ++ b) l c (ts0 ++ ts1) l1 c1 := by
  induction h with
  | done a l c l0 c0 hs =>
    intro b ts1 l1 c1 _ hcb hb
    have hsk := skipWs_append_nil a b l c l0 c0 hs hcb
    rw [List.nil_append]
    cases hb with
    | done _ _ _ _ _ hs2 => exact Lexes.done _ _ _ _ _ (by rw [hsk, hs2])
    | unknown _ _ _ ch r _ _ hs2 hty => exact Lexes.unknown _ _ _ ch r _ _ (by rw [hsk, hs2]) hty
    | token _ _ _ ch r _ _ ts _ _ hs2 hty hrest =>
      exact Lexes.token _ _ _ ch r _ _ ts _ _ (by rw [hsk, hs2]) hty hrest
  | unknown a l c ch r l0 c0 _ hty =>
    intro b ts1 l1 c1 hu _ _
    exact absurd hty (hu (lexeme ch r l0 c0) (by simp))
  | token a l c ch r l0 c0 ts l2 c2 hs hty _ ih =>
    intro b ts1 l1 c1 hu hcb hb
    have hsuf : (ch :: r) <:+ a := by
      have := skipWs_suffix a l c
      rw [hs] at this
      exact this
    have hcb1 : cleanBoundary (ch :: r) b = true := cleanBoundary_suffix _ a b hsuf hcb
    have hsuf2 : (scan ch r).2.2 <:+ ch :: r :=
      ⟨(scan ch r).2.1, scan_append ch r⟩
    have hcb2 : cleanBoundary (scan ch r).2.2 b = true :=
      cleanBoundary_suffix _ _ b hsuf2 hcb1
    have hsc := scan_append_right ch r b (Or.inr hcb1)
    have ih1 := ih b ts1 l1 c1 (fun t ht => hu t (List.mem_cons_of_mem _ ht)) hcb2 hb
    have hlex := lexeme_append_right ch r b l0 c0 (Or.inr hcb1)
    rw [List.cons_append, ← hlex]
    refine Lexes.token _ _ _ ch (r ++ b) l0 c0 (ts ++ ts1) l1 c1
      (skipWs_append_cons a b l c ch r l0 c0 hs) (by rw [hsc]; exact hty) ?_
    rw [hsc]
    exact ih1

/-! ### Invalid characters -/

theorem isalpha_not_digit (c : Char) (h : isalpha c = true) : isdigit c = false := by
  have h1 : c.isAlpha = true := h
  show c.isDigit = false
  simp only [Char.isAlpha, Char.isUpper, Char.isLower, Char.isDigit, Bool.or_eq_true,
    Bool.and_eq_true, decide_eq_true_eq, Bool.and_eq_false_iff, decide_eq_false_iff_not,
    ge_iff_le, UInt32.le_def, BitVec.le_def] at h1 ⊢
  have e1 : (65 : UInt32).toBitVec.toNat = 65 := rfl
  have e2 : (90 : UInt32).toBitVec.toNat = 90 := rfl
  have e3 : (97 : UInt32).toBitVec.toNat = 97 := rfl
  have e4 : (122 : UInt32).toBitVec.toNat = 122 := rfl
  have e5 : (48 : UInt32).toBitVec.toNat = 48 := rfl
  have e6 : (57 : UInt32).toBitVec.toNat = 57 := rfl
  rw [e1, e2, e3, e4] at h1
  rw [e5, e6]
  omega

theorem isLexicalChar_eq (c : Char) :
    isLexicalChar c = (isValidStart c || isWhitespace c) := by
  simp only [isLexicalChar, isValidStart, isWhitespace]
  ac_rfl

theorem isIdentChar_lexical (c : Char) (h : isIdentChar c = true) :
    isLexicalChar c = true ∧ c ≠ '!' := by
  constructor
  · rw [isLexicalChar_eq]
    have h1 : (c.isAlphanum || c == '_') = true := h
    simp only [Char.isAlphanum, Bool.or_eq_true, beq_iff_eq] at h1
    rcases h1 with (h1 | h1) | h1
    · have : isalpha c = true := h1
      simp [isValidStart, this]
    · have : isdigit c = true := h1
      simp [isValidStart, this]
    · simp [isValidStart, h1]
  · rintro rfl
    exact absurd h (by decide)

theorem offendingAt_not_ws (c : Char) (r : List Char) (h : offendingAt c r = true) :
    isWhitespace c = false := by
  cases hw : isWhitespace c
  · rfl
  · exfalso
    have hl : isLexicalChar c = true := by rw [isLexicalChar_eq, hw]; simp
    have hne : c ≠ '!' := by
      rintro rfl
      exact absurd hw (by decide)
    simp [offendingAt, hl, hne] at h

theorem twoCharScan_unknown (r : List Char) (two : TokenType) (text : List Char) (c : Char)
    (htwo : two ≠ .UNKNOWN) :
    ((twoCharScan r two text .UNKNOWN c).1 = .UNKNOWN ↔ r.head? ≠ some '=')
      ∧ ((twoCharScan r two text .UNKNOWN c).1 = .UNKNOWN →
        (twoCharScan r two text .UNKNOWN c).2.1 = [c]
          ∧ (twoCharScan r two text .UNKNOWN c).2.2 = r) := by
  rcases r with _ | ⟨d, r1⟩
  · simp [twoCharScan]
  · by_cases hd : d = '='
    · simp [twoCharScan, hd, htwo]
    · simp [twoCharScan, hd]

/-- A lexeme is invalid exactly when its first character is offending; it is
then that single character. -/
theorem scan_unknown_iff (c : Char) (r : List Char) (hw : isWhitespace c = false) :
    ((scan c r).1 = .UNKNOWN ↔ offendingAt c r = true)
      ∧ ((scan c r).1 = .UNKNOWN → (scan c r).2.1 = [c] ∧ (scan c r).2.2 = r) := by
  have hlex : isLexicalChar c = isValidStart c := by rw [isLexicalChar_eq, hw]; simp
  rcases scan_cases c r with ⟨hc, he⟩ | ⟨hc, he⟩ | ⟨hc, he⟩ | ⟨hc, he⟩ | ⟨type, hm, he⟩
    | ⟨hd, he⟩ | ⟨hnd, ha, he⟩ | ⟨hv, he⟩
  · have hty : (scan c r).1 ≠ .UNKNOWN := by
      rw [he]
      rcases Lexer.twoCharScan_type r .EQUAL_EQUAL .ASSIGN ['=', '='] c with h | h <;> rw [h] <;>
        simp
    subst hc
    exact ⟨⟨fun h => absurd h hty, fun h => absurd h (by simp [offendingAt, isLexicalChar])⟩,
      fun h => absurd h hty⟩
  · subst hc
    rw [he]
    have := twoCharScan_unknown r .NOT_EQUAL ['!', '='] '!' (by decide)
    refine ⟨?_, this.2⟩
    rw [this.1]
    simp [offendingAt, isLexicalChar]
  · have hty : (scan c r).1 ≠ .UNKNOWN := by
      rw [he]
      rcases Lexer.twoCharScan_type r .LESS_EQUAL .LESS ['<', '='] c with h | h <;> rw [h] <;> simp
    subst hc
    exact ⟨⟨fun h => absurd h hty, fun h => absurd h (by simp [offendingAt, isLexicalChar])⟩,
      fun h => absurd h hty⟩
  · have hty : (scan c r).1 ≠ .UNKNOWN := by
      rw [he]
      rcases Lexer.twoCharScan_type r .GREATER_EQUAL .GREATER ['>', '='] c with h | h <;> rw [h] <;>
        simp
    subst hc
    exact ⟨⟨fun h => absurd h hty, fun h => absurd h (by simp [offendingAt, isLexicalChar])⟩,
      fun h => absurd h hty⟩
  · have hs := single_not_digit c type hm
    have hty : (scan c r).1 ≠ .UNKNOWN := by
      rw [he]
      simp only [singleTokens, List.mem_cons, Prod.mk.injEq, List.mem_singleton,
        List.not_mem_nil, or_false] at hm
      rcases hm with h | h | h | h | h | h | h | h | h <;> obtain ⟨_, rfl⟩ := h <;> simp
    refine ⟨⟨fun h => absurd h hty, fun h => ?_⟩, fun h => absurd h hty⟩
    simp [offendingAt, hlex, hs.2.2.2.1, hs.2.2.2.2.2.1] at h
  · have hty : (scan c r).1 ≠ .UNKNOWN := by rw [he]; simp
    have hne : c ≠ '!' := by rintro rfl; exact absurd hd (by decide)
    refine ⟨⟨fun h => absurd h hty, fun h => ?_⟩, fun h => absurd h hty⟩
    simp [offendingAt, hlex, isdigit_validStart c hd, hne] at h
  · have hty : (scan c r).1 ≠ .UNKNOWN := by
      rw [he]
      exact Lexer.keywordType_ne_unknown _
    have hv : isValidStart c = true := by
      simp only [Bool.or_eq_true, beq_iff_eq] at ha
      rcases ha with ha | ha <;> simp [isValidStart, ha]
    have hne : c ≠ '!' := by rintro rfl; exact absurd ha (by decide)
    refine ⟨⟨fun h => absurd h hty, fun h => ?_⟩, fun h => absurd h hty⟩
    simp [offendingAt, hlex, hv, hne] at h
  · rw [he]
    refine ⟨⟨fun _ => ?_, fun _ => rfl⟩, fun _ => ⟨rfl, rfl⟩⟩
    simp [offendingAt, hlex, hv]

theorem splitAtOffending_cons (c : Char) (r : List Char) :
    splitAtOffending (c :: r)
      = if offendingAt c r then some ([], c, r)
        else (splitAtOffending r).map (fun s => (c :: s.1, s.2.1, s.2.2)) := rfl

/-- An offending character somewhere in the input gives a split. -/
theorem splitAtOffending_isSome : ∀ (pre : List Char) (c : Char) (post : List Char),
    offendingAt c post = true → splitAtOffending (pre ++ c :: post) ≠ none
  | [], c, post, h => by simp [splitAtOffending_cons, h]
  | x :: pre, c, post, h => by
    have ih := splitAtOffending_isSome pre c post h
    rw [List.cons_append, splitAtOffending_cons]
    split_ifs
    · simp
    · simpa using ih

/-- Without an offending character in the input there is none in its
suffixes. -/
theorem splitAtOffending_none_suffix : ∀ (rest s : List Char),
    splitAtOffending rest = none → s <:+ rest → splitAtOffending s = none
  | [], s, _, hs => by
    have : s = [] := List.eq_nil_of_suffix_nil hs
    rw [this]; rfl
  | x :: rest, s, h, hs => by
    rw [splitAtOffending_cons] at h
    split_ifs at h with hx
    rcases List.suffix_cons_iff.mp hs with rfl | hs1
    · rw [splitAtOffending_cons, if_neg hx]
      exact h
    · exact splitAtOffending_none_suffix rest s (by simpa using h) hs1

theorem offendingAt_readTogether (x c : Char) (post : List Char)
    (h : offendingAt c post = true) : readTogether x c = false := by
  have hi : isIdentChar c = false := by
    cases hi : isIdentChar c
    · rfl
    · have := isIdentChar_lexical c hi
      simp [offendingAt, this.1, this.2] at h
  have h1 : c ≠ '\n' := by
    rintro rfl
    simp [offendingAt, isLexicalChar] at h
  have h2 : c ≠ '=' := by
    rintro rfl
    simp [offendingAt, isLexicalChar] at h
  simp [readTogether, hi, h1, h2]

/-- The split at the first offending character: the parts make up the input,
the part before has no offending character of its own, and its end is not
read together with the offending character. -/
theorem splitAtOffending_some : ∀ (rest pre : List Char) (c : Char) (post : List Char),
    splitAtOffending rest = some (pre, c, post) →
    rest = pre ++ c :: post ∧ offendingAt c post = true ∧ splitAtOffending pre = none
      ∧ cleanBoundary pre (c :: post) = true
  | [], pre, c, post, h => by simp [splitAtOffending] at h
  | x :: rest, pre, c, post, h => by
    rw [splitAtOffending_cons] at h
    split_ifs at h with hx
    · simp only [Option.some.injEq, Prod.mk.injEq] at h
      obtain ⟨rfl, rfl, rfl⟩ := h
      exact ⟨rfl, hx, rfl, rfl⟩
    · cases hr : splitAtOffending rest with
      | none => simp [hr] at h
      | some s =>
        obtain ⟨p, d, q⟩ := s
        simp only [hr, Option.map_some', Option.some.injEq, Prod.mk.injEq] at h
        obtain ⟨rfl, rfl, rfl⟩ := h
        obtain ⟨h1, h2, h3, h4⟩ := splitAtOffending_some rest p d q hr
        refine ⟨by rw [h1]; rfl, h2, ?_, ?_⟩
        · rw [splitAtOffending_cons, h3]
          have hxl : offendingAt x p = false := by
            rcases p with _ | ⟨y, p⟩
            · have hx1 : offendingAt x (d :: q) = false := by
                rw [h1] at hx
                simpa using hx
              have hne : x ≠ '!' := by
                rintro rfl
                have hd : d = '=' := by
                  by_contra hd
                  simp [offendingAt, hd] at hx1
                subst hd
                simp [offendingAt, isLexicalChar] at h2
              simp only [offendingAt, Bool.or_eq_false_iff, Bool.and_eq_false_iff] at hx1 ⊢
              exact ⟨Or.inl (by simp [hne]), hx1.2⟩
            · rw [h1] at hx
              simpa [offendingAt] using hx
          simp [hxl]
        · rcases p with _ | ⟨y, p⟩
          · show cleanBoundary [x] (d :: q) = true
            simp [cleanBoundary, offendingAt_readTogether x d q h2]
          · unfold cleanBoundary at h4 ⊢
            rw [List.getLast?_cons_cons]
            exact h4

/-- A run on an input without offending character has no invalid token. -/
theorem Lexes_no_unknown {rest : List Char} {l c : Int} {ts : List Token} {l1 c1 : Int}
    (h : Lexes rest l c ts l1 c1) (hn : splitAtOffending rest = none) :
    ∀ t ∈ ts, t.type ≠ .UNKNOWN := by
  induction h with
  | done rest l c l1 c1 hs => intro t ht; simp at ht
  | unknown rest l c ch r l1 c1 hs hty =>
    exfalso
    have hw := skipWs_head rest l c ch r l1 c1 hs
    have hoff := (scan_unknown_iff ch r hw).1.mp hty
    have hsuf : (ch :: r) <:+ rest := by
      have := skipWs_suffix rest l c
      rw [hs] at this
      exact this
    obtain ⟨ws, rfl⟩ := hsuf
    exact splitAtOffending_isSome ws ch r hoff hn
  | token rest l c ch r l1 c1 ts l2 c2 hs hty _ ih =>
    have hsuf : (ch :: r) <:+ rest := by
      have := skipWs_suffix rest l c
      rw [hs] at this
      exact this
    have hsuf2 : (scan ch r).2.2 <:+ rest :=
      List.IsSuffix.trans ⟨(scan ch r).2.1, scan_append ch r⟩ hsuf
    have ih1 := ih (splitAtOffending_none_suffix rest _ hn hsuf2)
    intro t ht
    rcases List.mem_cons.mp ht with rfl | ht
    · exact hty
    · exact ih1 t ht

/-- The run on an input with an offending character: the run on the part
before it, then the invalid token of that character, and the end. -/
theorem Lexes_split (pre : List Char) (ch : Char) (post : List Char) (l c : Int)
    (hoff : offendingAt ch post = true) (hpre : splitAtOffending pre = none)
    (hcb : cleanBoundary pre (ch :: post) = true) :
    ∃ ts0 lu cu, Lexes pre l c ts0 lu cu ∧ (∀ t ∈ ts0, t.type ≠ .UNKNOWN)
      ∧ Lexes (pre ++ ch :: post) l c
          (ts0 ++ [⟨.UNKNOWN, String.mk [ch], lu, tokenColumn .UNKNOWN ch cu⟩]) lu (cu + 1) := by
  obtain ⟨ts0, lu, cu, h0⟩ := Lexes_exists pre l c
  have hu := Lexes_no_unknown h0 hpre
  refine ⟨ts0, lu, cu, h0, hu, ?_⟩
  have hw := offendingAt_not_ws ch post hoff
  have hsc := scan_unknown_iff ch post hw
  have hty := hsc.1.mpr hoff
  have htx := hsc.2 hty
  have h1 : Lexes (ch :: post) lu cu [lexeme ch post lu cu] lu
      (cu + (scan ch post).2.1.length) :=
    Lexes.unknown _ _ _ ch post _ _ (skipWs_other ch post lu cu hw) hty
  have hlex : lexeme ch post lu cu = ⟨.UNKNOWN, String.mk [ch], lu, tokenColumn .UNKNOWN ch cu⟩ := by
    simp [lexeme, hty, htx.1]
  rw [hlex, htx.1] at h1
  exact Lexes_append h0 _ _ _ _ hu hcb h1

theorem dropLast_concat_eof (ts : List Token) (t : Token) : (ts ++ [t]).dropLast = ts := by
  simp

/-- The tokens of a source with an offending character. -/
theorem tokenize_split (source : String) (pre : List Char) (c : Char) (post : List Char)
    (h : splitAtOffending source.data = some (pre, c, post)) :
    ∃ (lu cu : Int), source.data = pre ++ c :: post
      ∧ tokenize source = (tokenize (String.mk pre)).dropLast
          ++ [⟨.UNKNOWN, String.mk [c], lu, tokenColumn .UNKNOWN c cu⟩,
              ⟨.EOF_TOKEN, "", lu, cu + 1⟩]
      ∧ (∀ t ∈ tokenize (String.mk pre), t.type ≠ .UNKNOWN)
      ∧ ∀ post2, offendingAt c post2 = true →
          tokenize (String.mk (pre ++ c :: post2)) = tokenize source := by
  obtain ⟨hsrc, hoff, hpre, hcb⟩ := splitAtOffending_some _ _ _ _ h
  obtain ⟨ts0, lu, cu, h0, hu, hfull⟩ := Lexes_split pre c post 1 1 hoff hpre hcb
  have hpreT : tokenize (String.mk pre) = ts0 ++ [⟨.EOF_TOKEN, "", lu, cu⟩] :=
    tokenize_of_lexes (String.mk pre) ts0 lu cu h0
  have hsrcT : tokenize source
      = ts0 ++ [⟨.UNKNOWN, String.mk [c], lu, tokenColumn .UNKNOWN c cu⟩]
        ++ [⟨.EOF_TOKEN, "", lu, cu + 1⟩] :=
    tokenize_of_lexes source _ lu (cu + 1) (by rw [hsrc]; exact hfull)
  refine ⟨lu, cu, hsrc, ?_, ?_, ?_⟩
  · rw [hsrcT, hpreT, dropLast_concat_eof]
    simp
  · intro t ht
    rw [hpreT] at ht
    rcases List.mem_append.mp ht with ht | ht
    · exact hu t ht
    · simp only [List.mem_singleton] at ht
      rw [ht]
      simp
  · intro post2 hoff2
    have hcb2 : cleanBoundary pre (c :: post2) = true := by
      unfold cleanBoundary at hcb ⊢
      exact hcb
    obtain ⟨ts2, lu2, cu2, h2, _, hfull2⟩ := Lexes_split pre c post2 1 1 hoff2 hpre hcb2
    obtain ⟨rfl, rfl, rfl⟩ := Lexes_functional h0 h2
    rw [hsrcT]
    exact tokenize_of_lexes (String.mk (pre ++ c :: post2)) _ lu (cu + 1) hfull2

/-! ### Invalid tokens -/

/-- The tokens of a source without offending character. -/
theorem tokenize_none (source : String) (h : splitAtOffending source.data = none) :
    ∀ t ∈ tokenize source, t.type ≠ .UNKNOWN := by
  obtain ⟨ts, l, c, hL, hT⟩ := Lexer.tokenize_lexes source
  have hu := Lexes_no_unknown hL h
  intro t ht
  rw [hT] at ht
  rcases List.mem_append.mp ht with ht | ht
  · exact hu t ht
  · simp only [List.mem_singleton] at ht
    rw [ht]
    simp

/-- An invalid token of a source is the token of its first offending
character, the last before the end-of-input token. -/
theorem tokenize_unknown (source : String) (u : Token) (hu : u ∈ tokenize source)
    (hty : u.type = .UNKNOWN) :
    ∃ pre c post eof, splitAtOffending source.data = some (pre, c, post)
      ∧ source.data = pre ++ c :: post ∧ offendingAt c post = true
      ∧ u.value = String.mk [c] ∧ eof.type = .EOF_TOKEN
      ∧ tokenize source = (tokenize (String.mk pre)).dropLast ++ [u, eof]
      ∧ (∀ t ∈ tokenize (String.mk pre), t.type ≠ .UNKNOWN)
      ∧ ∀ post2, offendingAt c post2 = true →
          tokenize (String.mk (pre ++ c :: post2)) = tokenize source := by
  cases hs : splitAtOffending source.data with
  | none => exact absurd hty (tokenize_none source hs u hu)
  | some s =>
    obtain ⟨pre, c, post⟩ := s
    obtain ⟨lu, cu, hsrc, hT, hpre, hpost⟩ := tokenize_split source pre c post hs
    have hoff := (splitAtOffending_some _ _ _ _ hs).2.1
    have hu2 : u = ⟨.UNKNOWN, String.mk [c], lu, tokenColumn .UNKNOWN c cu⟩ := by
      rw [hT] at hu
      rcases List.mem_append.mp hu with hu | hu
      · exact absurd hty (hpre u (List.mem_of_mem_dropLast hu))
      · simp only [List.mem_cons, List.mem_singleton, List.not_mem_nil, or_false] at hu
        rcases hu with hu | hu
        · exact hu
        · rw [hu] at hty
          simp at hty
    refine ⟨pre, c, post, ⟨.EOF_TOKEN, "", lu, cu + 1⟩, rfl, hsrc, hoff, ?_, rfl, ?_, hpre, hpost⟩
    · rw [hu2]
    · rw [hT, hu2]

/-- C13: tokenizing never fails and stops at the first invalid token.  For
`a ! b` the tokens are `a`, the invalid token `!` and the end of input.  For
every source, the result holds at most one invalid token; if it holds one,
`u`, then the source is `pre ++ c :: post` for an offending character `c`
(a `!` not followed by `=`, or a character outside the lexical grammar), `u`
has the text `c`, the result is the tokens of the source prefix `pre`
(without its end-of-input token, and none of them invalid), then `u`, then
the end-of-input token, and nothing after `c` contributes: with any other
text after `c` that leaves `c` offending, the result is the same. -/
theorem unknown_halts :
    tokenize "a ! b"
        = [⟨.IDENTIFIER, "a", 1, 1⟩, ⟨.UNKNOWN, "!", 1, 3⟩, ⟨.EOF_TOKEN, "", 1, 4⟩]
      ∧ ∀ source : String,
        ((tokenize source).filter (fun t => t.type == .UNKNOWN)).length ≤ 1
        ∧ ∀ u ∈ tokenize source, u.type = .UNKNOWN →
          ∃ pre c post eof, source.data = pre ++ c :: post ∧ offendingAt c post = true
            ∧ u.value = String.mk [c] ∧ eof.type = .EOF_TOKEN
            ∧ tokenize source = (tokenize (String.mk pre)).dropLast ++ [u, eof]
            ∧ (∀ t ∈ tokenize (String.mk pre), t.type ≠ .UNKNOWN)
            ∧ ∀ post2, offendingAt c post2 = true →
                tokenize (String.mk (pre ++ c :: post2)) = tokenize source := by
  refine ⟨by decide, fun source => ⟨?_, ?_⟩⟩
  · cases hs : splitAtOffending source.data with
    | none =>
      have hn := tokenize_none source hs
      have : (tokenize source).filter (fun t => t.type == .UNKNOWN) = [] := by
        rw [List.filter_eq_nil_iff]
        intro t ht
        simpa using hn t ht
      simp [this]
    | some s =>
      obtain ⟨pre, c, post⟩ := s
      obtain ⟨lu, cu, _, hT, hpre, _⟩ := tokenize_split source pre c post hs
      have : (tokenize (String.mk pre)).dropLast.filter (fun t => t.type == .UNKNOWN) = [] := by
        rw [List.filter_eq_nil_iff]
        intro t ht
        simpa using hpre t (List.mem_of_mem_dropLast ht)
      rw [hT, List.filter_append, this]
      simp [List.filter_cons]
  · intro u hu hty
    obtain ⟨pre, c, post, eof, _, h1, h2, h3, h4, h5, h6, h7⟩ :=
      tokenize_unknown source u hu hty
    exact ⟨pre, c, post, eof, h1, h2, h3, h4, h5, h6, h7⟩

/-- Witness for C13: the tokens of `a ! b` hold one invalid token. -/
theorem unknown_halts_witness :
    ((tokenize "a ! b").filter (fun t => t.type == .UNKNOWN)).length ≤ 1 :=
  (unknown_halts.2 "a ! b").1

/-- C14: an invalid token stands for an offending character.  The source
`123abc` is not rejected: it lexes as the integer `123` and the identifier
`abc`.  For every source, `tokenize` returns an invalid token if and only if
the source contains an offending character: a `!` that is not directly
followed by `=`, or a character that is no letter, digit, underscore, space,
tab, carriage return, line feed or one of `+ - * / = < > ! ; ( ) \x7b \x7d`;
and the text of an invalid token is one character, the first offending
character of the source. -/
theorem unknown_iff_offending :
    tokenize "123abc"
        = [⟨.INTEGER, "123", 1, 1⟩, ⟨.IDENTIFIER, "abc", 1, 4⟩, ⟨.EOF_TOKEN, "", 1, 7⟩]
      ∧ ∀ source : String,
        ((∃ t ∈ tokenize source, t.type = .UNKNOWN)
          ↔ ∃ pre c post, source.data = pre ++ c :: post ∧ offendingAt c post = true)
        ∧ ∀ t ∈ tokenize source, t.type = .UNKNOWN →
          ∃ pre c post, splitAtOffending source.data = some (pre, c, post)
            ∧ t.value = String.mk [c] := by
  refine ⟨by decide, fun source => ⟨⟨?_, ?_⟩, ?_⟩⟩
  · rintro ⟨t, ht, hty⟩
    obtain ⟨pre, c, post, _, _, h1, h2, _⟩ := tokenize_unknown source t ht hty
    exact ⟨pre, c, post, h1, h2⟩
  · rintro ⟨pre, c, post, hsrc, hoff⟩
    cases hs : splitAtOffending source.data with
    | none =>
      rw [hsrc] at hs
      exact absurd hs (splitAtOffending_isSome pre c post hoff)
    | some s =>
      obtain ⟨p, d, q⟩ := s
      obtain ⟨lu, cu, _, hT, _, _⟩ := tokenize_split source p d q hs
      exact ⟨⟨.UNKNOWN, String.mk [d], lu, tokenColumn .UNKNOWN d cu⟩, by rw [hT]; simp, rfl⟩
  · intro t ht hty
    obtain ⟨pre, c, post, _, h0, _, _, h3, _⟩ := tokenize_unknown source t ht hty
    exact ⟨pre, c, post, h0, h3⟩

/-- Witness for C14: `a ! b` has an invalid token and an offending
character. -/
theorem unknown_iff_offending_witness :
    (∃ t ∈ tokenize "a ! b", t.type = .UNKNOWN)
      ↔ ∃ pre c post, "a ! b".data = pre ++ c :: post ∧ offendingAt c post = true :=
  (unknown_iff_offending.2 "a ! b").1

/-! ### Operators of one and two characters -/

theorem twoCharScan_followed (r : List Char) (two one : TokenType) (text : List Char)
    (c : Char) :
    (r.head? = some '=' → (twoCharScan r two text one c).1 = two
        ∧ (twoCharScan r two text one c).2.1 = text)
      ∧ (r.head? ≠ some '=' → (twoCharScan r two text one c).1 = one
        ∧ (twoCharScan r two text one c).2.1 = [c]) := by
  rcases r with _ | ⟨d, r1⟩
  · simp [twoCharScan]
  · by_cases hd : d = '='
    · simp [twoCharScan, hd]
    · simp [twoCharScan, hd]

/-- C15: the operators of two characters are found by looking one character
ahead.  `===` lexes as `==`, `=` and `= =` as `=`, `=`.  In general, when
`nextToken` starts at `=`, `!`, `<` or `>` (the lexer stands before `c ::
r`): if the next character is `=`, it returns the token EQUAL_EQUAL,
NOT_EQUAL, LESS_EQUAL or GREATER_EQUAL with the two characters as text, at
the line and column where it started, and has read two characters; if the
next character is not `=`, or the source ends, it returns ASSIGN, LESS or
GREATER (and the invalid token for `!`) with the one character as text, and
has read one character. -/
theorem two_char_operators :
    (tokenize "===" = [⟨.EQUAL_EQUAL, "==", 1, 1⟩, ⟨.ASSIGN, "=", 1, 3⟩, ⟨.EOF_TOKEN, "", 1, 4⟩]
      ∧ tokenize "= =" = [⟨.ASSIGN, "=", 1, 1⟩, ⟨.ASSIGN, "=", 1, 3⟩, ⟨.EOF_TOKEN, "", 1, 4⟩])
    ∧ ∀ (lx : Lexer) (c : Char) (r : List Char), lx.rest = c :: r →
      ∀ (two one : TokenType),
        (c, two, one) ∈ [('=', TokenType.EQUAL_EQUAL, TokenType.ASSIGN),
          ('!', TokenType.NOT_EQUAL, TokenType.UNKNOWN),
          ('<', TokenType.LESS_EQUAL, TokenType.LESS),
          ('>', TokenType.GREATER_EQUAL, TokenType.GREATER)] →
        (r.head? = some '=' →
          lx.nextToken = (⟨two, String.mk [c, '='], lx.line, lx.column⟩, lx.skip 2))
        ∧ (r.head? ≠ some '=' →
          lx.nextToken = (⟨one, String.mk [c], lx.line, lx.column⟩, lx.skip 1)) := by
  refine ⟨⟨by decide, by decide⟩, ?_⟩
  intro lx c r h two one hm
  have hnt := Lexer.nextToken_eq lx c r h
  simp only [List.mem_cons, Prod.mk.injEq, List.mem_singleton, List.not_mem_nil, or_false] at hm
  have hsc : scan c r = twoCharScan r two [c, '='] one c
      ∧ (one = .UNKNOWN → c = '!') ∧ two ≠ .UNKNOWN := by
    rcases hm with ⟨rfl, rfl, rfl⟩ | ⟨rfl, rfl, rfl⟩ | ⟨rfl, rfl, rfl⟩ | ⟨rfl, rfl, rfl⟩
    · exact ⟨rfl, by simp, by simp⟩
    · exact ⟨rfl, by simp, by simp⟩
    · exact ⟨rfl, by simp, by simp⟩
    · exact ⟨rfl, by simp, by simp⟩
  obtain ⟨hsc1, hone, htwo⟩ := hsc
  have hf := twoCharScan_followed r two one [c, '='] c
  constructor
  · intro hr
    obtain ⟨h1, h2⟩ := hf.1 hr
    rw [hnt]
    simp only [lexeme, hsc1, h1, h2, tokenColumn, htwo, false_and, if_false]
    rfl
  · intro hr
    obtain ⟨h1, h2⟩ := hf.2 hr
    rw [hnt]
    have hcol : tokenColumn one c lx.column = lx.column := by
      unfold tokenColumn
      by_cases ho : one = .UNKNOWN
      · simp [ho, hone ho]
      · simp [ho]
    simp only [lexeme, hsc1, h1, h2, hcol]
    rfl

/-- Witness for C15: at the start of `<= 1` the lexer returns `<=` and has
read two characters. -/
theorem two_char_operators_witness :
    (Lexer.new "<= 1").nextToken
      = (⟨.LESS_EQUAL, String.mk ['<', '='], 1, 1⟩, (Lexer.new "<= 1").skip 2) :=
  (two_char_operators.2 (Lexer.new "<= 1") '<' ['=', ' ', '1'] rfl .LESS_EQUAL .LESS
    (by decide)).1 rfl

/-! ### Identifiers and keywords -/

/-- The kind that `readIdentifier` gives to a text: a keyword kind exactly for
the text of that keyword, `IDENTIFIER` for every other text. -/
theorem keywordType_spec (value : String) :
    (Lexer.keywordType value = .VAR ↔ value = "var")
      ∧ (Lexer.keywordType value = .PRINT ↔ value = "print")
      ∧ (Lexer.keywordType value = .PRINTLN ↔ value = "println")
      ∧ (Lexer.keywordType value = .INPUT_INT ↔ value = "inputInt")
      ∧ (Lexer.keywordType value = .IF ↔ value = "if")
      ∧ (Lexer.keywordType value = .ELSE ↔ value = "else")
      ∧ (Lexer.keywordType value = .WHILE ↔ value = "while")
      ∧ (Lexer.keywordType value = .IDENTIFIER ↔ value ∉ keywords) := by
  unfold Lexer.keywordType keywords
  split_ifs with h1 h2 h3 h4 h5 h6 h7
  · subst h1; decide
  · subst h2; decide
  · subst h3; decide
  · subst h4; decide
  · subst h5; decide
  · subst h6; decide
  · subst h7; decide
  · simp [h1, h2, h3, h4, h5, h6, h7]

/-- The run of `tokenize` from a lexer state. -/
theorem run_lexes (lx : Lexer) :
    ∃ ts l1 c1, Lexes lx.rest lx.line lx.column ts l1 c1
      ∧ lx.run = ts ++ [⟨.EOF_TOKEN, "", l1, c1⟩] := by
  obtain ⟨ts, lxf, hL, hT⟩ := Lexer.tokenizeLoop_lexes (lx.source.length - lx.position) lx []
    (by rw [Lexer.rest_length])
  exact ⟨ts, lxf.line, lxf.column, hL, by simp [Lexer.run, hT]⟩

theorem takeWhile_run (p : Char → Bool) (wt post : List Char) (hall : ∀ y ∈ wt, p y = true)
    (hright : ∀ y, post.head? = some y → p y = false) :
    (wt ++ post).takeWhile p = wt ∧ (wt ++ post).dropWhile p = post := by
  have h1 : wt.takeWhile p = wt := List.takeWhile_eq_self_iff.mpr hall
  have h2 : wt.dropWhile p = [] := List.dropWhile_eq_nil_iff.mpr hall
  have := takeWhile_dropWhile_append p post wt (Or.inr hright)
  rw [h1, h2] at this
  simpa using this

/-- The lexeme of a maximal run of letters, digits and underscores that starts
with a letter or an underscore. -/
theorem scan_run (x : Char) (wt post : List Char) (hx : (isalpha x || x == '_') = true)
    (hall : ∀ y ∈ wt, isIdentChar y = true)
    (hright : ∀ y, post.head? = some y → isIdentChar y = false) :
    scan x (wt ++ post) = (Lexer.keywordType (String.mk (x :: wt)), x :: wt, post) := by
  have hnd : isdigit x = false := by
    simp only [Bool.or_eq_true, beq_iff_eq] at hx
    rcases hx with hx | hx
    · exact isalpha_not_digit x hx
    · subst hx; decide
  rw [scan_ident x (wt ++ post) hnd hx]
  obtain ⟨h1, h2⟩ := takeWhile_run isIdentChar wt post hall hright
  rw [h1, h2]

/-- Counterexample to C16 as stated: in `$ abc` the run `abc` is maximal and
starts with a letter, but the lexer stops at the invalid `$` and no token has
the text `abc`. -/
theorem run_after_invalid_character :
    tokenize "$ abc" = [⟨.UNKNOWN, "$", 1, 2⟩, ⟨.EOF_TOKEN, "", 1, 2⟩]
      ∧ ¬ ∃ t ∈ tokenize "$ abc", t.value = "abc" := by
  decide

/-- C16, amended: let the source be `pre ++ w ++ post`, where `w` is a maximal
run of letters, digits and underscores that starts with a letter or an
underscore (`pre` does not end and `post` does not start with such a
character), and let `pre` lex without invalid token.  Then the tokens of the
source are the tokens of `pre` (without its end-of-input token), one token
with the text `w`, and the tokens of `post` lexed from the position after
`w`.  The kind of that token is VAR, PRINT, PRINTLN, INPUT_INT, IF, ELSE or
WHILE exactly when `w` is `var`, `print`, `println`, `inputInt`, `if`, `else`
or `while`, and IDENTIFIER for every other text; `printlnx`, `If`, `_if` and
`var1` are identifiers. -/
theorem identifier_runs (pre w post : List Char)
    (hstart : ∃ x wt, w = x :: wt ∧ (isalpha x || x == '_') = true)
    (hall : ∀ x ∈ w, isIdentChar x = true)
    (hleft : ∀ x, pre.getLast? = some x → isIdentChar x = false)
    (hright : ∀ y, post.head? = some y → isIdentChar y = false)
    (hvalid : ∀ t ∈ tokenize (String.mk pre), t.type ≠ .UNKNOWN) :
    (∃ l c, tokenize (String.mk (pre ++ w ++ post))
        = (tokenize (String.mk pre)).dropLast
          ++ ⟨Lexer.keywordType (String.mk w), String.mk w, l, c⟩
            :: Lexer.run ⟨post, 0, l, c + w.length⟩)
      ∧ ((Lexer.keywordType (String.mk w) = .VAR ↔ String.mk w = "var")
        ∧ (Lexer.keywordType (String.mk w) = .PRINT ↔ String.mk w = "print")
        ∧ (Lexer.keywordType (String.mk w) = .PRINTLN ↔ String.mk w = "println")
        ∧ (Lexer.keywordType (String.mk w) = .INPUT_INT ↔ String.mk w = "inputInt")
        ∧ (Lexer.keywordType (String.mk w) = .IF ↔ String.mk w = "if")
        ∧ (Lexer.keywordType (String.mk w) = .ELSE ↔ String.mk w = "else")
        ∧ (Lexer.keywordType (String.mk w) = .WHILE ↔ String.mk w = "while")
        ∧ (Lexer.keywordType (String.mk w) = .IDENTIFIER ↔ String.mk w ∉ keywords))
      ∧ (Lexer.keywordType "printlnx" = .IDENTIFIER ∧ Lexer.keywordType "If" = .IDENTIFIER
        ∧ Lexer.keywordType "_if" = .IDENTIFIER ∧ Lexer.keywordType "var1" = .IDENTIFIER) := by
  refine ⟨?_, keywordType_spec (String.mk w), by decide⟩
  obtain ⟨x, wt, rfl, hx⟩ := hstart
  have hxi : isIdentChar x = true := hall x (List.mem_cons_self _ _)
  have hwt : ∀ y ∈ wt, isIdentChar y = true := fun y hy => hall y (List.mem_cons_of_mem _ hy)
  obtain ⟨ts0, l0, c0, h0⟩ := Lexes_exists pre 1 1
  have hpreT := tokenize_of_lexes (String.mk pre) ts0 l0 c0 h0
  have hu : ∀ t ∈ ts0, t.type ≠ .UNKNOWN := fun t ht => hvalid t (by rw [hpreT]; simp [ht])
  obtain ⟨ts1, l1, c1, h1, hrun⟩ := run_lexes ⟨post, 0, l0, c0 + ((x :: wt).length : Nat)⟩
  have hsc := scan_run x wt post hx hwt hright
  have hty : (scan x (wt ++ post)).1 ≠ .UNKNOWN := by
    rw [hsc]
    exact Lexer.keywordType_ne_unknown _
  have hw : Lexes (x :: (wt ++ post)) l0 c0 (lexeme x (wt ++ post) l0 c0 :: ts1) l1 c1 := by
    refine Lexes.token _ _ _ x (wt ++ post) l0 c0 ts1 l1 c1
      (skipWs_other x _ l0 c0 (isIdentChar_not_ws x hxi)) hty ?_
    rw [hsc]
    simpa [Lexer.rest] using h1
  have hlex : lexeme x (wt ++ post) l0 c0
      = ⟨Lexer.keywordType (String.mk (x :: wt)), String.mk (x :: wt), l0, c0⟩ := by
    have hty2 : Lexer.keywordType (String.mk (x :: wt)) ≠ .UNKNOWN :=
      Lexer.keywordType_ne_unknown _
    simp [lexeme, hsc, tokenColumn, hty2]
  have hcb : cleanBoundary pre (x :: (wt ++ post)) = true := by
    unfold cleanBoundary
    cases hg : pre.getLast? with
    | none => rfl
    | some z =>
      have hz := hleft z hg
      have h1 : x ≠ '\n' := by rintro rfl; exact absurd hxi (by decide)
      have h2 : x ≠ '=' := by rintro rfl; exact absurd hxi (by decide)
      simp [readTogether, hz, h1, h2]
  have hfull := Lexes_append h0 _ _ _ _ hu hcb hw
  have hT := tokenize_of_lexes (String.mk (pre ++ (x :: wt) ++ post)) _ l1 c1
    (by simpa using hfull)
  refine ⟨l0, c0, ?_⟩
  rw [hT, hpreT, dropLast_concat_eof, hlex, hrun]
  simp

/-- Witness for the amended C16: in `var var1 = 5;` the run `var1` follows
`var ` and is followed by ` = 5;`. -/
theorem identifier_runs_witness :
    ∃ l c, tokenize (String.mk ("var ".data ++ "var1".data ++ " = 5;".data))
      = (tokenize (String.mk "var ".data)).dropLast
        ++ ⟨Lexer.keywordType (String.mk "var1".data), String.mk "var1".data, l, c⟩
          :: Lexer.run ⟨" = 5;".data, 0, l, c + "var1".data.length⟩ :=
  (identifier_runs "var ".data "var1".data " = 5;".data ⟨'v', "ar1".data, rfl, by decide⟩
    (by decide) (fun x hx => by cases hx; decide) (fun y hy => by cases hy; decide)
    (by decide)).1

/-! ### Lines and columns -/

/-- C17, the code at a failing input: in a source that is a line feed followed
by `$`, the invalid token of `$` is the first token after the line break,
with no space or tab before it, and it is on line 2; its column is 2 rather
than 1, as `nextToken` stores the column after the character for an invalid
character other than `!`.  For `!`, and for a valid token after a carriage
return, a line feed and two spaces, the column is the one of the first
character. -/
theorem unknown_column_after_line_break :
    tokenize "\n$" = [⟨.UNKNOWN, "$", 2, 2⟩, ⟨.EOF_TOKEN, "", 2, 2⟩]
      ∧ tokenize "\n!" = [⟨.UNKNOWN, "!", 2, 1⟩, ⟨.EOF_TOKEN, "", 2, 2⟩]
      ∧ tokenize "a\r\n  b"
        = [⟨.IDENTIFIER, "a", 1, 1⟩, ⟨.IDENTIFIER, "b", 2, 3⟩, ⟨.EOF_TOKEN, "", 2, 4⟩] := by
  decide

/-! ### The default output path -/

/-- C22, the code at failing inputs: for `program.mid` the default output
path is `program.cpp` and for `prog` it is `prog.cpp`, but the last dot of the
whole path is taken for the start of the extension, also when it stands in
the directory part: `./prog` gives `.cpp` and `dir.v1/prog` gives
`dir.cpp`. -/
theorem default_output_path :
    defaultOutputFile "program.mid" = "program.cpp"
      ∧ defaultOutputFile "prog" = "prog.cpp"
      ∧ defaultOutputFile "./prog" = ".cpp"
      ∧ defaultOutputFile "dir.v1/prog" = "dir.cpp" := by
  decide

/-! ### The column of an invalid token -/

/-- C28, the code at a failing input: the source `$` has its only character
at line 1, column 1, and the invalid token of `$` carries column 2; in `ab $`
the `$` stands at column 4 and its token carries column 5.  The invalid token
of a lone `!` and the valid tokens carry the column of their first
character. -/
theorem unknown_column_off_by_one :
    tokenize "$" = [⟨.UNKNOWN, "$", 1, 2⟩, ⟨.EOF_TOKEN, "", 1, 2⟩]
      ∧ tokenize "ab $"
        = [⟨.IDENTIFIER, "ab", 1, 1⟩, ⟨.UNKNOWN, "$", 1, 5⟩, ⟨.EOF_TOKEN, "", 1, 5⟩]
      ∧ tokenize "ab !"
        = [⟨.IDENTIFIER, "ab", 1, 1⟩, ⟨.UNKNOWN, "!", 1, 4⟩, ⟨.EOF_TOKEN, "", 1, 5⟩] := by
  decide

/-! ### The two renderings of an expression -/

/-- C30: for every expression without an input-read node, the structured
backend and the assembly backend render the same text; for the input-read
node itself the texts differ. -/
theorem same_rendering_without_input :
    Structured.generateExpression .InputIntExpression
        ≠ Assembly.generateExpression .InputIntExpression
      ∧ ∀ e : Expression, e.hasInput = false →
        Structured.generateExpression e = Assembly.generateExpression e := by
  refine ⟨by decide, fun e => ?_⟩
  induction e with
  | IntegerLiteral v => intro _; rfl
  | InputIntExpression => intro h; simp [Expression.hasInput] at h
  | VariableReference n => intro _; rfl
  | BinaryExpression l op r ihl ihr =>
    intro h
    simp only [Expression.hasInput, Bool.or_eq_false_iff] at h
    simp [Structured.generateExpression, Assembly.generateExpression, ihl h.1, ihr h.2]
  | BooleanExpression l op r ihl ihr =>
    intro h
    simp only [Expression.hasInput, Bool.or_eq_false_iff] at h
    simp [Structured.generateExpression, Assembly.generateExpression, ihl h.1, ihr h.2]

/-- Witness for C30: `(x + 1)` is rendered alike by both backends. -/
theorem same_rendering_without_input_witness :
    Structured.generateExpression
        (.BinaryExpression (.VariableReference "x") "+" (.IntegerLiteral 1))
      = Assembly.generateExpression
        (.BinaryExpression (.VariableReference "x") "+" (.IntegerLiteral 1)) :=
  same_rendering_without_input.2 _ rfl

/-! ### Invalid tokens and the parser -/

/-- An offending character somewhere in a source gives an invalid token. -/
theorem tokenize_has_unknown (source : String) (pre : List Char) (c : Char) (post : List Char)
    (hsrc : source.data = pre ++ c :: post) (hoff : offendingAt c post = true) :
    ∃ t ∈ tokenize source, t.type = .UNKNOWN := by
  cases hs : splitAtOffending source.data with
  | none =>
    rw [hsrc] at hs
    exact absurd hs (splitAtOffending_isSome pre c post hoff)
  | some s =>
    obtain ⟨p, d, q⟩ := s
    obtain ⟨lu, cu, _, hT, _, _⟩ := tokenize_split source p d q hs
    exact ⟨⟨.UNKNOWN, String.mk [d], lu, tokenColumn .UNKNOWN d cu⟩, by rw [hT]; simp, rfl⟩

theorem tokenize_wellEnded (source : String) : Parser.WellEnded (tokenize source) := by
  obtain ⟨ts, l, c, _, hT⟩ := Lexer.tokenize_lexes source
  exact ⟨ts, ⟨.EOF_TOKEN, "", l, c⟩, hT, rfl⟩

/-- A token list of the lexer from which a program is parsed holds no invalid
token. -/
theorem parse_ok_no_unknown (source : String) (fuel : Nat) (p : ProgramNode)
    (h : Parser.parse fuel (tokenize source) = .ok p) :
    ∀ t ∈ tokenize source, t.type ≠ .UNKNOWN := by
  obtain ⟨n, e, hp, he, hty⟩ :=
    (Parser.parse_sound fuel (tokenize source) (tokenize_wellEnded source)).2 p h
  obtain ⟨ts, l, c, hL, hT⟩ := Lexer.tokenize_lexes source
  rw [hT] at hp he ⊢
  have hne := Lexes_type_ne_eof hL
  have hn : n = ts.length := by
    rcases Nat.lt_trichotomy n ts.length with hlt | heq | hgt
    · exfalso
      rw [List.getElem?_append_left hlt] at he
      exact hne e (List.getElem?_mem he) hty
    · exact heq
    · exfalso
      have : (ts ++ [(⟨.EOF_TOKEN, "", l, c⟩ : Token)])[n]? = none := by
        apply List.getElem?_eq_none
        simp
        omega
      rw [this] at he
      cases he
  subst hn
  intro t ht
  rcases List.mem_append.mp ht with ht | ht
  · obtain ⟨i, hi, rfl⟩ := List.getElem_of_mem ht
    obtain ⟨u, hu, _, hun⟩ := hp.2 i (by omega) hi
    rw [List.getElem?_append_left hi, List.getElem?_eq_getElem hi] at hu
    cases hu
    exact hun
  · simp only [List.mem_singleton] at ht
    rw [ht]
    simp

/-- C27: a source whose tokenization holds an invalid token is not parsed.
For every source such that `tokenize` returns a list with an UNKNOWN token,
and for every fuel, `parse` on that list returns a failure and no program;
with three units of fuel for each token and five more, the failure is an
exception of the source (a `runtime_error`, or an exception of `stoi`):
`parse` has neither run out of fuel nor read outside the list.  The same
holds, for every text `pre` and `post`, for the source `pre ++ c :: post`
where `c` is a character outside the lexical grammar, or a `!` that `post`
does not continue with `=`. -/
theorem unknown_token_fails :
    (∀ (source : String) (fuel : Nat), (∃ t ∈ tokenize source, t.type = .UNKNOWN) →
        ∃ e, Parser.parse fuel (tokenize source) = .error e
          ∧ (3 * (tokenize source).length + 5 ≤ fuel →
              e ≠ .out_of_fuel ∧ e ≠ .out_of_bounds))
      ∧ ∀ (pre : List Char) (c : Char) (post : List Char) (fuel : Nat),
        offendingAt c post = true →
          ∃ e, Parser.parse fuel (tokenize (String.mk (pre ++ c :: post))) = .error e
            ∧ (3 * (tokenize (String.mk (pre ++ c :: post))).length + 5 ≤ fuel →
                e ≠ .out_of_fuel ∧ e ≠ .out_of_bounds) := by
  have key : ∀ (source : String) (fuel : Nat), (∃ t ∈ tokenize source, t.type = .UNKNOWN) →
      ∃ e, Parser.parse fuel (tokenize source) = .error e
        ∧ (3 * (tokenize source).length + 5 ≤ fuel →
            e ≠ .out_of_fuel ∧ e ≠ .out_of_bounds) := by
    rintro source fuel ⟨t, ht, hty⟩
    cases hp : Parser.parse fuel (tokenize source) with
    | error e =>
      refine ⟨e, rfl, fun hf => ?_⟩
      obtain ⟨h1, h2⟩ := Parser.parse_terminates fuel (tokenize source)
        (tokenize_wellEnded source) hf
      rw [hp] at h1 h2
      exact ⟨fun h => h1 (by rw [h]), fun h => h2 (by rw [h])⟩
    | ok p => exact absurd hty (parse_ok_no_unknown source fuel p hp t ht)
  refine ⟨key, ?_⟩
  intro pre c post fuel hoff
  exact key _ fuel (tokenize_has_unknown _ pre c post rfl hoff)

/-- Witness for C27: `x = 1; $` is not parsed. -/
theorem unknown_token_fails_witness :
    ∃ e, Parser.parse 30 (tokenize (String.mk ("x = 1; ".data ++ '$' :: []))) = .error e
      ∧ (3 * (tokenize (String.mk ("x = 1; ".data ++ '$' :: []))).length + 5 ≤ 30 →
          e ≠ .out_of_fuel ∧ e ≠ .out_of_bounds) :=
  unknown_token_fails.2 "x = 1; ".data '$' [] 30 (by decide)

/-! ### Reads of the token list -/

/-- C29: on a token list that is not empty and ends with the end-of-input
token, the parser reads no token outside the list.  In the model a read
`tokens[i]` with `i` outside the list (a `peek` with `current` not below the
length, a `previous` with `current = 0`) ends the run with `out_of_bounds`,
and no run of `parse` ends so, for any fuel.  When the statement loop of
`parse` returns, every token before the index it reached is in the list and
is not the end-of-input token, and the index is in the list: `current` has
not moved past the first end-of-input token.  The same holds for a statement,
a condition or an expression parsed from an index `c` reached in this way. -/
theorem reads_stay_in_bounds (fuel : Nat) (tokens : List Token)
    (hw : Parser.WellEnded tokens) :
    Parser.parse fuel tokens ≠ .error .out_of_bounds
      ∧ (∀ statements n, Parser.parseLoop fuel tokens 0 [] = .ok (statements, n) →
          n < tokens.length
            ∧ ∀ i, i < n → ∃ t, tokens[i]? = some t ∧ t.type ≠ .EOF_TOKEN)
      ∧ ∀ c, Parser.Passed tokens 0 c →
          Parser.Sound tokens c (Parser.parseStatement fuel tokens c)
            ∧ Parser.Sound tokens c (Parser.parseBooleanExpression fuel tokens c)
            ∧ Parser.Sound tokens c (Parser.parseExpression fuel tokens c) := by
  refine ⟨(Parser.parse_sound fuel tokens hw).1, ?_, ?_⟩
  · intro statements n h
    have hs := Parser.parseLoop_sound tokens hw fuel 0 [] (Parser.passed_refl _ _)
    rw [h] at hs
    have hp : Parser.Passed tokens 0 n := hs
    obtain ⟨t, ht⟩ := Parser.passed_get tokens n hw hp
    refine ⟨?_, ?_⟩
    · by_contra hlt
      rw [List.getElem?_eq_none (by omega)] at ht
      cases ht
    · intro i hi
      obtain ⟨u, hu, hne, _⟩ := hp.2 i (by omega) hi
      exact ⟨u, hu, hne⟩
  · intro c hc
    exact ⟨(Parser.parseStatement_sound fuel tokens hw).1 c hc,
      Parser.parseBooleanExpression_sound fuel tokens c hw hc,
      (Parser.parseExpression_sound fuel tokens hw).1 c hc⟩

/-- Witness for C29: the tokens of `x = ;`, whose parse fails inside the
list. -/
theorem reads_stay_in_bounds_witness :
    Parser.parse 20 (tokenize "x = ;") ≠ .error .out_of_bounds :=
  (reads_stay_in_bounds 20 (tokenize "x = ;")
    ⟨(tokenize "x = ;").dropLast, ⟨.EOF_TOKEN, "", 1, 6⟩, by decide, rfl⟩).1

/-! ### Identifier tokens and the lines they begin -/

/-- The text of a lexeme of type IDENTIFIER is an identifier name, and no
keyword. -/
theorem scan_identifier (c : Char) (r : List Char) (h : (scan c r).1 = .IDENTIFIER) :
    isIdentifierName (String.mk (scan c r).2.1) = true
      ∧ Lexer.keywordType (String.mk (scan c r).2.1) = .IDENTIFIER := by
  rcases scan_cases c r with ⟨_, hs⟩ | ⟨_, hs⟩ | ⟨_, hs⟩ | ⟨_, hs⟩ | ⟨ty, hm, hs⟩ | ⟨_, hs⟩
    | ⟨_, ha, hs⟩ | ⟨_, hs⟩
  · rw [hs] at h
    rcases Lexer.twoCharScan_type r .EQUAL_EQUAL .ASSIGN ['=', '='] c with h1 | h1 <;>
      rw [h1] at h <;> cases h
  · rw [hs] at h
    rcases Lexer.twoCharScan_type r .NOT_EQUAL .UNKNOWN ['!', '='] c with h1 | h1 <;>
      rw [h1] at h <;> cases h
  · rw [hs] at h
    rcases Lexer.twoCharScan_type r .LESS_EQUAL .LESS ['<', '='] c with h1 | h1 <;>
      rw [h1] at h <;> cases h
  · rw [hs] at h
    rcases Lexer.twoCharScan_type r .GREATER_EQUAL .GREATER ['>', '='] c with h1 | h1 <;>
      rw [h1] at h <;> cases h
  · rw [hs] at h
    simp only at h
    subst h
    simp [singleTokens] at hm
  · rw [hs] at h
    cases h
  · rw [hs] at h ⊢
    refine ⟨?_, h⟩
    simp only [isIdentifierName, ha, Bool.true_and, List.all_eq_true]
    intro x hx
    exact (List.mem_takeWhile_imp hx)
  · rw [hs] at h
    cases h

theorem Lexes_identifier {rest : List Char} {l c : Int} {ts : List Token} {l1 c1 : Int}
    (h : Lexes rest l c ts l1 c1) : ∀ t ∈ ts, t.type = .IDENTIFIER →
      isIdentifierName t.value = true ∧ Lexer.keywordType t.value = .IDENTIFIER := by
  induction h with
  | done => simp
  | unknown rest l c ch r l1 c1 _ hty =>
    intro t ht hi
    simp only [List.mem_singleton] at ht
    rw [ht, lexeme_type, hty] at hi
    cases hi
  | token rest l c ch r l1 c1 ts l2 c2 _ _ _ ih =>
    intro t ht hi
    rcases List.mem_cons.mp ht with ht | ht
    · rw [ht, lexeme_type] at hi
      rw [ht, lexeme_value]
      exact scan_identifier ch r hi
    · exact ih t ht hi

/-- Every identifier token of `tokenize` holds an identifier name that is no
keyword. -/
theorem tokenize_identifier (source : String) : ∀ t ∈ tokenize source,
    t.type = .IDENTIFIER →
      isIdentifierName t.value = true ∧ Lexer.keywordType t.value = .IDENTIFIER := by
  obtain ⟨ts, l, c, hL, hT⟩ := Lexer.tokenize_lexes source
  rw [hT]
  intro t ht hi
  rcases List.mem_append.mp ht with ht | ht
  · exact Lexes_identifier hL t ht hi
  · simp only [List.mem_singleton] at ht
    rw [ht] at hi
    cases hi

theorem identifierName_text (name : String) (h : isIdentifierName name = true) :
    isIdentifierText name = true := by
  unfold isIdentifierName at h
  unfold isIdentifierText
  rcases hn : name.data with _ | ⟨c, cs⟩
  · rfl
  · rw [hn] at h
    simp only [Bool.and_eq_true, Bool.or_eq_true, beq_iff_eq, List.all_eq_true] at h
    simp only [List.all_cons, Bool.and_eq_true, Bool.or_eq_true, beq_iff_eq, List.all_eq_true]
    refine ⟨?_, fun x hx => ?_⟩
    · rcases h.1 with h1 | h1
      · left
        have h2 : c.isAlpha = true := h1
        show c.isAlphanum = true
        simp [Char.isAlphanum, h2]
      · right; exact h1
    · have := h.2 x hx
      simpa [isIdentChar] using this

/-- The names of a program parsed from the tokens of a source are identifier
names. -/
theorem parsed_names (source : String) (fuel : Nat) (program : ProgramNode)
    (h : Parser.parse fuel (tokenize source) = .ok program) :
    ∀ v ∈ Statement.listNames program.statements, isIdentifierName v = true :=
  Parser.parse_names (fun v => isIdentifierName v = true) (tokenize source)
    (fun t ht hi => (tokenize_identifier source t ht hi).1) fuel program h

/-- C21: the output of the assembly backend holds no native control flow.
For every source, if `parse` returns a program for the tokens of the source
(for some fuel), then every line the assembly backend writes for the program
is such that: if it begins, after its indentation, with `if (`, it is a
false-jump `if (!(<cond>)) goto <label>;`; it does not begin with `while (`;
and if it ends with an opening brace, it is the line `int main() \x7b`.  The
same holds for every program whose declared and assigned names are made of
letters, digits and underscores. -/
theorem no_native_control_flow :
    (∀ (source : String) (fuel : Nat) (program : ProgramNode),
        Parser.parse fuel (tokenize source) = .ok program →
        ∀ line ∈ Assembly.generatedLines program, Assembly.noNativeControl line)
      ∧ ∀ program : ProgramNode,
        (∀ v ∈ Statement.listNames program.statements, isIdentifierText v = true) →
        ∀ line ∈ Assembly.generatedLines program, Assembly.noNativeControl line := by
  refine ⟨?_, Assembly.program_noNativeControl⟩
  intro source fuel program h
  exact Assembly.program_noNativeControl program
    (fun v hv => identifierName_text v (parsed_names source fuel program h v hv))

/-- Witness for C21: the lines written for the program of `if (x == 0) \x7b
println(x); \x7d`. -/
theorem no_native_control_flow_witness :
    ∀ line ∈ Assembly.generatedLines ⟨[Examples.ifStatement]⟩, Assembly.noNativeControl line :=
  no_native_control_flow.1 Examples.ifSource 100 ⟨[Examples.ifStatement]⟩ (by rfl)

/-! ### Indentation in the structured backend -/

theorem structured_indent_out (g : Structured.CodeGenerator) (a : String) :
    (g.out a).indentLevel = g.indentLevel := rfl

theorem structured_indent_endl (g : Structured.CodeGenerator) :
    g.endl.indentLevel = g.indentLevel := rfl

theorem structured_indent_writeIndent (g : Structured.CodeGenerator) :
    g.writeIndent.indentLevel = g.indentLevel := rfl

mutual

/-- Generating a statement leaves the indentation level as it was. -/
theorem structured_indentLevel : ∀ (stmt : Statement) (g : Structured.CodeGenerator),
    (Structured.CodeGenerator.generateStatement stmt g).indentLevel = g.indentLevel
  | .VarDeclarationStatement v e, g => rfl
  | .AssignmentStatement v e, g => rfl
  | .PrintStatement e, g => rfl
  | .PrintLineStatement e, g => rfl
  | .IfStatement c t e, g => by
    have ht := structured_indentLevel_list t
    have he := structured_indentLevel_list e
    cases e with
    | nil =>
      simp [Structured.CodeGenerator.generateStatement, structured_indent_out,
        structured_indent_endl, structured_indent_writeIndent, ht]
    | cons s ss =>
      simp [Structured.CodeGenerator.generateStatement, structured_indent_out,
        structured_indent_endl, structured_indent_writeIndent, ht, he]
  | .WhileStatement c b, g => by
    have hb := structured_indentLevel_list b
    simp [Structured.CodeGenerator.generateStatement, structured_indent_out,
      structured_indent_endl, structured_indent_writeIndent, hb]

/-- Generating a statement list leaves the indentation level as it was. -/
theorem structured_indentLevel_list : ∀ (stmts : List Statement)
    (g : Structured.CodeGenerator),
    (Structured.CodeGenerator.generateStatements stmts g).indentLevel = g.indentLevel
  | [], g => rfl
  | s :: ss, g => by
    have h1 := structured_indentLevel s g
    have h2 := structured_indentLevel_list ss (Structured.CodeGenerator.generateStatement s g)
    simp only [Structured.CodeGenerator.generateStatements]
    rw [h2, h1]

end

theorem structured_simple_lines (n : Nat) (v : String) (e : Expression) :
    Structured.statementLines (.VarDeclarationStatement v e) n
        = [indentText n ++ "int " ++ v ++ " = " ++ Structured.generateExpression e ++ ";"]
      ∧ Structured.statementLines (.AssignmentStatement v e) n
        = [indentText n ++ v ++ " = " ++ Structured.generateExpression e ++ ";"]
      ∧ Structured.statementLines (.PrintStatement e) n
        = [indentText n ++ "cout << " ++ Structured.generateExpression e ++ ";"]
      ∧ Structured.statementLines (.PrintLineStatement e) n
        = [indentText n ++ "cout << " ++ Structured.generateExpression e ++ " << endl;"] := by
  simp [Structured.statementLines, Structured.CodeGenerator.generateStatement,
    Structured.CodeGenerator.generateVarDeclaration,
    Structured.CodeGenerator.generateAssignment, Structured.CodeGenerator.generatePrint,
    Structured.CodeGenerator.generatePrintLine, Structured.structured_writeIndent_mk,
    Structured.structured_out_mk, Structured.structured_endl_mk, OStream.empty]

theorem structured_blockLines_nil (n : Nat) : Structured.blockLines [] n = [] := rfl

theorem structured_blockLines_cons (s : Statement) (ss : List Statement) (n : Nat) :
    Structured.blockLines (s :: ss) n
      = Structured.statementLines s n ++ Structured.blockLines ss n := by
  unfold Structured.blockLines
  simp only [Structured.CodeGenerator.generateStatements, OStream.empty]
  rw [Structured.structured_generateStatement_eq, Structured.structured_generateStatements_eq]
  simp
  rfl

theorem structured_statementLines_if (c : BooleanExpression) (t e : List Statement) (n : Nat) :
    Structured.statementLines (.IfStatement c t e) n
      = [indentText n ++ "if (" ++ Structured.generateBooleanExpression c ++ ") \x7b"]
        ++ Structured.blockLines t (n + 1)
        ++ (if e.isEmpty then [indentText n ++ "\x7d"]
            else [indentText n ++ "\x7d" ++ " else \x7b"]
              ++ Structured.blockLines e (n + 1) ++ [indentText n ++ "\x7d"]) := by
  have ht := Structured.structured_generateStatements_eq t
  have he := Structured.structured_generateStatements_eq e
  cases e with
  | nil =>
    simp [Structured.statementLines, Structured.CodeGenerator.generateStatement,
      Structured.structured_writeIndent_mk, Structured.structured_out_mk,
      Structured.structured_endl_mk, OStream.empty, ht]
  | cons s ss =>
    simp [Structured.statementLines, Structured.CodeGenerator.generateStatement,
      Structured.structured_writeIndent_mk, Structured.structured_out_mk,
      Structured.structured_endl_mk, OStream.empty, ht, he]

theorem structured_statementLines_while (c : BooleanExpression) (b : List Statement) (n : Nat) :
    Structured.statementLines (.WhileStatement c b) n
      = [indentText n ++ "while (" ++ Structured.generateBooleanExpression c ++ ") \x7b"]
        ++ Structured.blockLines b (n + 1) ++ [indentText n ++ "\x7d"] := by
  have hb := Structured.structured_generateStatements_eq b
  simp [Structured.statementLines, Structured.CodeGenerator.generateStatement,
    Structured.structured_writeIndent_mk, Structured.structured_out_mk,
    Structured.structured_endl_mk, OStream.empty, hb]

/-- The lines of a program in the structured backend. -/
theorem structured_generatedLines_eq (program : ProgramNode) :
    Structured.generatedLines program
      = ["#include <iostream>", "#include <string>", "using namespace std;", "",
          "int main() \x7b"] ++ Structured.blockLines program.statements 1
        ++ ["    return 0;", "\x7d"] := by
  have e1 : indentText 0 = "" := rfl
  simp [Structured.generatedLines, Structured.CodeGenerator.generate,
    Structured.CodeGenerator.new, Structured.CodeGenerator.writeLine,
    Structured.structured_writeIndent_mk, Structured.structured_out_mk,
    Structured.structured_endl_mk, OStream.empty, Structured.structured_generateStatements_eq,
    e1]

theorem takeWhile_replicate_append (n : Nat) (l : List Char) :
    (List.replicate n ' ' ++ l).takeWhile (fun c => c == ' ')
      = List.replicate n ' ' ++ l.takeWhile (fun c => c == ' ') := by
  induction n with
  | zero => simp
  | succ n ih => simp [List.replicate_succ, List.takeWhile, ih]

/-- A line made of the indentation and a text that does not begin with a space
begins with exactly four spaces for each level. -/
theorem leadingSpaces_indent (n : Nat) (lit tail : String) (c : Char) (cs : List Char)
    (h : lit.data = c :: cs) (hc : c ≠ ' ') :
    leadingSpaces (indentText n ++ (lit ++ tail)) = 4 * n := by
  unfold leadingSpaces
  rw [String.data_append, String.data_append, Assembly.indentText_data,
    takeWhile_replicate_append, h, List.cons_append,
    List.takeWhile_cons_of_neg (by simp [hc])]
  simp

theorem identifierName_head (v : String) (h : isIdentifierName v = true) :
    ∃ c cs, v.data = c :: cs ∧ c ≠ ' ' := by
  unfold isIdentifierName at h
  rcases hn : v.data with _ | ⟨c, cs⟩
  · rw [hn] at h
    cases h
  · rw [hn] at h
    refine ⟨c, cs, rfl, ?_⟩
    rintro rfl
    simp only [Bool.and_eq_true, Bool.or_eq_true] at h
    exact absurd h.1 (by decide)

theorem leadingSpaces_literal (n : Nat) (lit : String) (c : Char) (cs : List Char)
    (h : lit.data = c :: cs) (hc : c ≠ ' ') : leadingSpaces (indentText n ++ lit) = 4 * n := by
  have := leadingSpaces_indent n lit "" c cs h hc
  simpa using this

mutual

/-- Every line of a statement at nesting depth `d` begins with exactly four
spaces for each level up to the depth of the statement it is written for. -/
theorem structured_statement_indentation : ∀ (stmt : Statement) (d : Nat),
    (∀ v ∈ stmt.names, isIdentifierName v = true) →
    (Structured.statementLines stmt (d + 1)).map leadingSpaces
      = (stmt.lineDepths d).map (fun k => 4 * (k + 1))
  | .VarDeclarationStatement v e, d, _ => by
    rw [(structured_simple_lines (d + 1) v e).1]
    simp only [List.map_cons, List.map_nil, Statement.lineDepths, String.append_assoc]
    rw [leadingSpaces_indent (d + 1) "int " _ 'i' ['n', 't', ' '] rfl (by decide)]
  | .AssignmentStatement v e, d, h => by
    obtain ⟨c, cs, hv, hc⟩ := identifierName_head v (h v (by simp [Statement.names]))
    rw [(structured_simple_lines (d + 1) v e).2.1]
    simp only [List.map_cons, List.map_nil, Statement.lineDepths, String.append_assoc]
    rw [leadingSpaces_indent (d + 1) v _ c cs hv hc]
  | .PrintStatement e, d, _ => by
    rw [(structured_simple_lines (d + 1) "" e).2.2.1]
    simp only [List.map_cons, List.map_nil, Statement.lineDepths, String.append_assoc]
    rw [leadingSpaces_indent (d + 1) "cout << " _ 'c' ['o', 'u', 't', ' ', '<', '<', ' '] rfl
      (by decide)]
  | .PrintLineStatement e, d, _ => by
    rw [(structured_simple_lines (d + 1) "" e).2.2.2]
    simp only [List.map_cons, List.map_nil, Statement.lineDepths, String.append_assoc]
    rw [leadingSpaces_indent (d + 1) "cout << " _ 'c' ['o', 'u', 't', ' ', '<', '<', ' '] rfl
      (by decide)]
  | .IfStatement c t e, d, h => by
    have ht := structured_block_indentation t (d + 1)
      (fun v hv => h v (by simp [Statement.names, hv]))
    have he := structured_block_indentation e (d + 1)
      (fun v hv => h v (by simp [Statement.names, hv]))
    have h1 : leadingSpaces (indentText (d + 1) ++ "if ("
        ++ Structured.generateBooleanExpression c ++ ") \x7b") = 4 * (d + 1) := by
      simp only [String.append_assoc]
      exact leadingSpaces_indent (d + 1) "if (" _ 'i' ['f', ' ', '('] rfl (by decide)
    have h2 : leadingSpaces (indentText (d + 1) ++ "\x7d") = 4 * (d + 1) :=
      leadingSpaces_literal (d + 1) "\x7d" '\x7d' [] rfl (by decide)
    have h3 : leadingSpaces (indentText (d + 1) ++ "\x7d" ++ " else \x7b") = 4 * (d + 1) := by
      simp only [String.append_assoc]
      exact leadingSpaces_indent (d + 1) "\x7d" _ '\x7d' [] rfl (by decide)
    rw [structured_statementLines_if]
    by_cases hemp : e.isEmpty = true
    · simp only [hemp, if_true, Statement.lineDepths, List.map_append, List.map_cons,
        List.map_nil, ht, h1, h2]
    · simp only [hemp, if_false, Bool.false_eq_true, Statement.lineDepths, List.map_append,
        List.map_cons, List.map_nil, ht, he, h1, h2, h3]
  | .WhileStatement c b, d, h => by
    have hb := structured_block_indentation b (d + 1)
      (fun v hv => h v (by simp [Statement.names, hv]))
    have h1 : leadingSpaces (indentText (d + 1) ++ "while ("
        ++ Structured.generateBooleanExpression c ++ ") \x7b") = 4 * (d + 1) := by
      simp only [String.append_assoc]
      exact leadingSpaces_indent (d + 1) "while (" _ 'w' ['h', 'i', 'l', 'e', ' ', '('] rfl
        (by decide)
    have h2 : leadingSpaces (indentText (d + 1) ++ "\x7d") = 4 * (d + 1) :=
      leadingSpaces_literal (d + 1) "\x7d" '\x7d' [] rfl (by decide)
    rw [structured_statementLines_while]
    simp only [Statement.lineDepths, List.map_append, List.map_cons, List.map_nil, hb, h1, h2]

/-- The same for the lines of a statement list. -/
theorem structured_block_indentation : ∀ (stmts : List Statement) (d : Nat),
    (∀ v ∈ Statement.listNames stmts, isIdentifierName v = true) →
    (Structured.blockLines stmts (d + 1)).map leadingSpaces
      = (Statement.listLineDepths stmts d).map (fun k => 4 * (k + 1))
  | [], d, _ => rfl
  | s :: ss, d, h => by
    have h1 := structured_statement_indentation s d
      (fun v hv => h v (by simp [Statement.listNames, hv]))
    have h2 := structured_block_indentation ss d
      (fun v hv => h v (by simp [Statement.listNames, hv]))
    rw [structured_blockLines_cons]
    simp only [Statement.listLineDepths, List.map_append, h1, h2]

end

/-- C26: the structured backend writes the statements in source order and
indents each line by its nesting depth.  For the if statement `if (x == 0)
\x7b println(x); \x7d` at the top level the three lines begin with 4, 8 and 4
spaces.  Generating a statement leaves the indentation level as it was.  The
lines of a program are the opening lines, the lines of its statements at
level 1 and the closing lines, and the lines of a statement list are the
lines of its first statement followed by the lines of the others.  For every
program that `parse` returns for the tokens of a source, each line written
for a statement begins with exactly `4 * (d + 1)` spaces, where `d` is the
nesting depth of the statement the line is written for (`lineDepths`: the
header and closing lines of an if or while statement count for that
statement, the statements of its bodies are one level deeper); the same holds
for every statement whose declared and assigned names are identifier names,
at every depth. -/
theorem structured_indentation :
    (Structured.blockLines [Examples.ifStatement] 1).map leadingSpaces = [4, 8, 4]
      ∧ (∀ (stmt : Statement) (g : Structured.CodeGenerator),
          (Structured.CodeGenerator.generateStatement stmt g).indentLevel = g.indentLevel)
      ∧ (∀ program : ProgramNode,
          Structured.generatedLines program
            = ["#include <iostream>", "#include <string>", "using namespace std;", "",
                "int main() \x7b"] ++ Structured.blockLines program.statements 1
              ++ ["    return 0;", "\x7d"])
      ∧ (∀ (s : Statement) (ss : List Statement) (n : Nat),
          Structured.blockLines (s :: ss) n
            = Structured.statementLines s n ++ Structured.blockLines ss n)
      ∧ (∀ (source : String) (fuel : Nat) (program : ProgramNode),
          Parser.parse fuel (tokenize source) = .ok program →
          (Structured.blockLines program.statements 1).map leadingSpaces
            = (Statement.listLineDepths program.statements 0).map (fun d => 4 * (d + 1)))
      ∧ ∀ (stmt : Statement) (d : Nat), (∀ v ∈ stmt.names, isIdentifierName v = true) →
          (Structured.statementLines stmt (d + 1)).map leadingSpaces
            = (stmt.lineDepths d).map (fun k => 4 * (k + 1)) := by
  refine ⟨by decide, structured_indentLevel, structured_generatedLines_eq,
    structured_blockLines_cons, ?_, structured_statement_indentation⟩
  intro source fuel program h
  exact structured_block_indentation program.statements 0 (parsed_names source fuel program h)

/-- Witness for C26: the lines of `if (x == 0) \x7b println(x); \x7d`, parsed
from its source. -/
theorem structured_indentation_witness :
    (Structured.blockLines [Examples.ifStatement] 1).map leadingSpaces
      = (Statement.listLineDepths [Examples.ifStatement] 0).map (fun d => 4 * (d + 1)) :=
  structured_indentation.2.2.2.2.1 Examples.ifSource 100 ⟨[Examples.ifStatement]⟩ (by rfl)

/-! ### Rendering an expression and reading it back -/

theorem digit_not_special (d : Char) (h : isdigit d = true) :
    isspace d = false ∧ d ≠ '-' ∧ d ≠ '+' ∧ isWhitespace d = false := by
  refine ⟨?_, ?_, ?_, ?_⟩
  · simp only [isspace, decide_eq_false_iff_not, not_or]
    refine ⟨?_, ?_, ?_, ?_, ?_, ?_⟩ <;> (rintro rfl; exact absurd h (by decide))
  · rintro rfl; exact absurd h (by decide)
  · rintro rfl; exact absurd h (by decide)
  · simp only [isWhitespace, Bool.or_eq_false_iff, beq_eq_false_iff_ne]
    refine ⟨⟨⟨?_, ?_⟩, ?_⟩, ?_⟩ <;> (rintro rfl; exact absurd h (by decide))

/-- Reading back the decimal text of a number that fits in an `int`. -/
theorem stoi_to_string (j : Nat) (h : (j : Int) ≤ 2147483647) :
    stoi (to_string (j : Int)) = .ok (j : Int) := by
  obtain ⟨hne, hdig, hval⟩ := Assembly.to_string_digits j
  rcases hd : (to_string (j : Int)).data with _ | ⟨d, ds⟩
  · exact absurd hd hne
  · rw [hd] at hdig hval
    obtain ⟨h1, h2, h3, _⟩ := digit_not_special d (hdig d (by simp))
    have htw : (d :: ds).takeWhile isdigit = d :: ds := List.takeWhile_eq_self_iff.mpr hdig
    have hdw : (d :: ds).dropWhile isspace = d :: ds := by
      rw [List.dropWhile_cons_of_neg (by simp [h1])]
    unfold stoi
    simp only [hd, hdw, List.head?_cons, Option.some.injEq, h2, h3, or_self, if_false, htw,
      hval]
    simp
    omega

theorem readTogether_space_right (x : Char) : readTogether x ' ' = false := by
  have h : isIdentChar ' ' = false := by decide
  simp [readTogether, h]

theorem readTogether_space_left (y : Char) : readTogether ' ' y = false := by
  have h : isIdentChar ' ' = false := by decide
  simp [readTogether, h]

theorem readTogether_paren_left (y : Char) : readTogether '(' y = false := by
  have h : isIdentChar '(' = false := by decide
  simp [readTogether, h]

theorem readTogether_paren_right (x : Char) : readTogether x ')' = false := by
  have h : isIdentChar ')' = false := by decide
  simp [readTogether, h]

theorem cleanBoundary_left (a b : List Char) (x : Char) (ha : a.getLast? = some x)
    (hx : ∀ y, readTogether x y = false) : cleanBoundary a b = true := by
  unfold cleanBoundary
  rw [ha]
  cases b.head? with
  | none => rfl
  | some y => simp [hx y]

theorem cleanBoundary_right (a b : List Char) (y : Char) (hb : b.head? = some y)
    (hy : ∀ x, readTogether x y = false) : cleanBoundary a b = true := by
  unfold cleanBoundary
  rw [hb]
  cases a.getLast? with
  | none => rfl
  | some x => simp [hy x]

/-- A run of digits is read as one integer token. -/
theorem Lexes_digits (d : Char) (ds : List Char) (l c : Int)
    (h : ∀ x ∈ d :: ds, isdigit x = true) :
    Lexes (d :: ds) l c [lexeme d ds l c] l (c + (d :: ds).length)
      ∧ (lexeme d ds l c).type = .INTEGER ∧ (lexeme d ds l c).value = String.mk (d :: ds) := by
  have hd := h d (by simp)
  have hds : ∀ x ∈ ds, isdigit x = true := fun x hx => h x (by simp [hx])
  have hsc : scan d ds = (.INTEGER, d :: ds, []) := by
    rw [scan_digit d ds hd, List.takeWhile_eq_self_iff.mpr hds,
      List.dropWhile_eq_nil_iff.mpr hds]
  refine ⟨?_, by rw [lexeme_type, hsc], by rw [lexeme_value, hsc]⟩
  have hsk := skipWs_other d ds l c (digit_not_special d hd).2.2.2
  have := Lexes.token (d :: ds) l c d ds l c [] l (c + (d :: ds).length) hsk
    (by rw [hsc]; simp)
    (by rw [hsc]; exact Lexes.done [] _ _ _ _ (skipWs_nil _ _))
  exact this

theorem identStart_not_ws (x : Char) (hx : (isalpha x || x == '_') = true) :
    isWhitespace x = false := by
  simp only [isWhitespace, Bool.or_eq_false_iff, beq_eq_false_iff_ne]
  refine ⟨⟨⟨?_, ?_⟩, ?_⟩, ?_⟩ <;> (rintro rfl; exact absurd hx (by decide))

/-- An identifier name that is no keyword is read as one identifier token. -/
theorem Lexes_name (name : String) (l c : Int) (h : isIdentifierName name = true)
    (hk : name ∉ keywords) :
    ∃ t l1 c1, Lexes name.data l c [t] l1 c1 ∧ t.type = .IDENTIFIER ∧ t.value = name := by
  unfold isIdentifierName at h
  rcases hn : name.data with _ | ⟨x, wt⟩
  · rw [hn] at h; cases h
  · rw [hn] at h
    simp only [Bool.and_eq_true, List.all_eq_true] at h
    obtain ⟨hx, hall⟩ := h
    have hname : String.mk (x :: wt) = name := by rw [← hn]
    have hsc : scan x wt = (.IDENTIFIER, x :: wt, []) := by
      have := scan_run x wt [] hx hall (by simp)
      rw [List.append_nil, hname, (keywordType_spec name).2.2.2.2.2.2.2.mpr hk] at this
      exact this
    refine ⟨lexeme x wt l c, l, c + (x :: wt).length, ?_, by rw [lexeme_type, hsc],
      by rw [lexeme_value, hsc]; exact hname⟩
    have hsk := skipWs_other x wt l c (identStart_not_ws x hx)
    exact Lexes.token (x :: wt) l c x wt l c [] l (c + (x :: wt).length) hsk
      (by rw [hsc]; simp)
      (by rw [hsc]; exact Lexes.done [] _ _ _ _ (skipWs_nil _ _))

/-- A single punctuation or operator character is read as one token. -/
theorem Lexes_single (ch : Char) (type : TokenType) (l c : Int)
    (h : (ch, type) ∈ singleTokens) :
    Lexes [ch] l c [lexeme ch [] l c] l (c + 1)
      ∧ (lexeme ch [] l c).type = type ∧ (lexeme ch [] l c).value = String.mk [ch] := by
  have hsc := scan_single ch [] type h
  have hw : isWhitespace ch = false := by
    simp only [singleTokens, List.mem_cons, Prod.mk.injEq, List.mem_singleton,
      List.not_mem_nil, or_false] at h
    rcases h with h | h | h | h | h | h | h | h | h <;> obtain ⟨rfl, _⟩ := h <;> decide
  have hne : type ≠ .UNKNOWN := by
    simp only [singleTokens, List.mem_cons, Prod.mk.injEq, List.mem_singleton,
      List.not_mem_nil, or_false] at h
    rcases h with h | h | h | h | h | h | h | h | h <;> obtain ⟨_, rfl⟩ := h <;> decide
  refine ⟨?_, by rw [lexeme_type, hsc], by rw [lexeme_value, hsc]⟩
  have hsk := skipWs_other ch [] l c hw
  have := Lexes.token [ch] l c ch [] l c [] l (c + 1) hsk (by rw [hsc]; exact hne)
    (by rw [hsc]; exact Lexes.done [] _ _ _ _ (skipWs_nil _ _))
  exact this

/-- An operator between two spaces is read as one token. -/
theorem Lexes_operator (ch : Char) (type : TokenType) (l c : Int)
    (h : (ch, type) ∈ singleTokens) :
    ∃ t l1 c1, Lexes [' ', ch, ' '] l c [t] l1 c1 ∧ t.type = type
      ∧ t.value = String.mk [ch] := by
  have hsc := scan_single ch [' '] type h
  have hw : isWhitespace ch = false := by
    simp only [singleTokens, List.mem_cons, Prod.mk.injEq, List.mem_singleton,
      List.not_mem_nil, or_false] at h
    rcases h with h | h | h | h | h | h | h | h | h <;> obtain ⟨rfl, _⟩ := h <;> decide
  have hne : type ≠ .UNKNOWN := by
    simp only [singleTokens, List.mem_cons, Prod.mk.injEq, List.mem_singleton,
      List.not_mem_nil, or_false] at h
    rcases h with h | h | h | h | h | h | h | h | h <;> obtain ⟨_, rfl⟩ := h <;> decide
  have hsk : skipWs [' ', ch, ' '] l c = (ch :: [' '], l, c + 1) := by
    rw [skipWs_space ' ' _ l c (Or.inl rfl), skipWs_other ch [' '] l (c + 1) hw]
  have hend : skipWs [' '] l (c + 1 + 1) = ([], l, c + 1 + 1 + 1) := by
    rw [skipWs_space ' ' _ l _ (Or.inl rfl), skipWs_nil]
  refine ⟨lexeme ch [' '] l (c + 1), l, c + 1 + 1 + 1, ?_, by rw [lexeme_type, hsc],
    by rw [lexeme_value, hsc]⟩
  exact Lexes.token [' ', ch, ' '] l c ch [' '] l (c + 1) [] l (c + 1 + 1 + 1) hsk
    (by rw [hsc]; exact hne)
    (by rw [hsc]; exact Lexes.done _ _ _ _ _ (by simpa using hend))

theorem operator_char (op : String)
    (h : (op == "+" || op == "-" || op == "*" || op == "/") = true) :
    ∃ ch type, op = String.mk [ch] ∧ (ch, type) ∈ singleTokens
      ∧ type ∈ [TokenType.PLUS, TokenType.MINUS, TokenType.MULTIPLY, TokenType.DIVIDE] := by
  simp only [Bool.or_eq_true, beq_iff_eq] at h
  rcases h with ((rfl | rfl) | rfl) | rfl
  · exact ⟨'+', .PLUS, rfl, by decide, by decide⟩
  · exact ⟨'-', .MINUS, rfl, by decide, by decide⟩
  · exact ⟨'*', .MULTIPLY, rfl, by decide, by decide⟩
  · exact ⟨'/', .DIVIDE, rfl, by decide, by decide⟩

/-- The rendering of an arithmetic expression is read by the lexer as the
tokens of a fully parenthesized expression. -/
theorem Lexes_expression : ∀ (e : Expression), e.isArithmetic = true → ∀ (l c : Int),
    ∃ ts l1 c1, Lexes (Structured.generateExpression e).data l c ts l1 c1
      ∧ Parser.ExprTokens e ts := by
  intro e
  induction e with
  | IntegerLiteral value =>
    intro h l c
    simp only [Expression.isArithmetic, decide_eq_true_eq] at h
    obtain ⟨j, rfl⟩ := Int.eq_ofNat_of_zero_le h.1
    obtain ⟨hne, hdig, _⟩ := Assembly.to_string_digits j
    have hst := stoi_to_string j h.2
    rcases hd : (to_string (j : Int)).data with _ | ⟨d, ds⟩
    · exact absurd hd hne
    · rw [hd] at hdig
      obtain ⟨hL, hty, hval⟩ := Lexes_digits d ds l c hdig
      have hv : (lexeme d ds l c).value = to_string (j : Int) := by
        rw [hval, ← hd]
      refine ⟨[lexeme d ds l c], l, c + (d :: ds).length, ?_, ?_⟩
      · show Lexes (to_string (j : Int)).data l c _ _ _
        rw [hd]
        exact hL
      · exact Parser.ExprTokens.literal _ _ hty (by rw [hv]; exact hst)
  | InputIntExpression => intro h; simp [Expression.isArithmetic] at h
  | VariableReference name =>
    intro h l c
    simp only [Expression.isArithmetic, Bool.and_eq_true, decide_eq_true_eq] at h
    obtain ⟨t, l1, c1, hL, hty, hval⟩ := Lexes_name name l c h.1 h.2
    refine ⟨[t], l1, c1, hL, ?_⟩
    have := Parser.ExprTokens.reference t hty
    rw [hval] at this
    exact this
  | BinaryExpression left op right ihl ihr =>
    intro h l c
    simp only [Expression.isArithmetic, Bool.and_eq_true] at h
    obtain ⟨⟨hop, hl⟩, hr⟩ := h
    obtain ⟨ch, type, rfl, hs, hty⟩ := operator_char op hop
    obtain ⟨h1L, h1t, h1v⟩ := Lexes_single '(' .LEFT_PAREN l c (by decide)
    obtain ⟨tl, l2, c2, h2L, h2E⟩ := ihl hl l (c + 1)
    obtain ⟨o, l3, c3, h3L, h3t, h3v⟩ := Lexes_operator ch type l2 c2 hs
    obtain ⟨tr, l4, c4, h4L, h4E⟩ := ihr hr l3 c3
    obtain ⟨h5L, h5t, h5v⟩ := Lexes_single ')' .RIGHT_PAREN l4 c4 (by decide)
    have u1 : ∀ t ∈ [lexeme '(' [] l c], t.type ≠ .UNKNOWN := by
      intro t ht
      simp only [List.mem_singleton] at ht
      rw [ht, h1t]; decide
    have u2 := Parser.exprTokens_no_unknown h2E
    have u3 : o.type ≠ .UNKNOWN := by
      rw [h3t]
      simp only [List.mem_cons, List.mem_singleton, List.not_mem_nil, or_false] at hty
      rcases hty with rfl | rfl | rfl | rfl <;> decide
    have u4 := Parser.exprTokens_no_unknown h4E
    have s12 := Lexes_append h1L (Structured.generateExpression left).data _ _ _ u1
      (cleanBoundary_left _ _ '(' rfl readTogether_paren_left) h2L
    have s123 := Lexes_append s12 [' ', ch, ' '] _ _ _
      (by intro t ht
          rcases List.mem_append.mp ht with ht | ht
          · exact u1 t ht
          · exact u2 t ht)
      (cleanBoundary_right _ _ ' ' rfl readTogether_space_right) h3L
    have s1234 := Lexes_append s123 (Structured.generateExpression right).data _ _ _
      (by intro t ht
          rcases List.mem_append.mp ht with ht | ht
          · rcases List.mem_append.mp ht with ht | ht
            · exact u1 t ht
            · exact u2 t ht
          · simp only [List.mem_singleton] at ht
            rw [ht]; exact u3)
      (cleanBoundary_left _ _ ' '
        (by rw [List.getLast?_append_of_ne_nil _ (by simp)]; rfl) readTogether_space_left) h4L
    have s := Lexes_append s1234 [')'] _ _ _
      (by intro t ht
          rcases List.mem_append.mp ht with ht | ht
          · rcases List.mem_append.mp ht with ht | ht
            · rcases List.mem_append.mp ht with ht | ht
              · exact u1 t ht
              · exact u2 t ht
            · simp only [List.mem_singleton] at ht
              rw [ht]; exact u3
          · exact u4 t ht)
      (cleanBoundary_right _ _ ')' rfl readTogether_paren_right) h5L
    have hdata : (Structured.generateExpression
        (.BinaryExpression left (String.mk [ch]) right)).data
        = ['('] ++ (Structured.generateExpression left).data ++ [' ', ch, ' ']
          ++ (Structured.generateExpression right).data ++ [')'] := by
      have e1 : "(".data = ['('] := rfl
      have e2 : " ".data = [' '] := rfl
      have e3 : ")".data = [')'] := rfl
      simp [Structured.generateExpression, String.data_append, e1, e2, e3]
    refine ⟨[lexeme '(' [] l c] ++ tl ++ [o] ++ tr ++ [lexeme ')' [] l4 c4], l4, c4 + 1,
      ?_, ?_⟩
    · rw [hdata]
      exact s
    · have hE := Parser.ExprTokens.binary left right tl tr (lexeme '(' [] l c) o
        (lexeme ')' [] l4 c4) h1t h5t (by rw [h3t]; exact hty) h2E h4E
      rw [h3v] at hE
      simpa using hE
  | BooleanExpression left op right _ _ => intro h; simp [Expression.isArithmetic] at h

/-- C24: the fully parenthesized rendering of an arithmetic expression is read
back as that expression.  An arithmetic expression is built from integer
literals from 0 to 2^31 - 1, references to variables whose names are
identifier names and no keywords, and binary nodes with the operator `+`,
`-`, `*` or `/`.  For the expression `(a - (2 * b))` the rendering is
`(a - (2 * b))`, and `parseExpression` on its tokens returns the expression
and stops at index 9, the end-of-input token.  For every arithmetic
expression `e` there is an index `n` such that, for every large enough fuel,
`parseExpression` on the tokens of the rendering of `e`, from index 0,
returns `e` and the index `n`, and `n` is the index of the last token, the
end-of-input token.  So two arithmetic expressions with the same rendering
are equal. -/
theorem render_reparse :
    (Structured.generateExpression
          (.BinaryExpression (.VariableReference "a") "-"
            (.BinaryExpression (.IntegerLiteral 2) "*" (.VariableReference "b")))
        = "(a - (2 * b))"
      ∧ Parser.parseExpression 100 (tokenize "(a - (2 * b))") 0
        = .ok (.BinaryExpression (.VariableReference "a") "-"
            (.BinaryExpression (.IntegerLiteral 2) "*" (.VariableReference "b")), 9))
    ∧ (∀ e : Expression, e.isArithmetic = true →
        ∃ n, Parser.Eventually
            (fun fuel => Parser.parseExpression fuel
              (tokenize (Structured.generateExpression e)) 0) (.ok (e, n))
          ∧ n + 1 = (tokenize (Structured.generateExpression e)).length
          ∧ ((tokenize (Structured.generateExpression e))[n]?).map (fun t => t.type)
            = some TokenType.EOF_TOKEN)
    ∧ ∀ e1 e2 : Expression, e1.isArithmetic = true → e2.isArithmetic = true →
        Structured.generateExpression e1 = Structured.generateExpression e2 → e1 = e2 := by
  have key : ∀ e : Expression, e.isArithmetic = true →
      ∃ n, Parser.Eventually
          (fun fuel => Parser.parseExpression fuel
            (tokenize (Structured.generateExpression e)) 0) (.ok (e, n))
        ∧ n + 1 = (tokenize (Structured.generateExpression e)).length
        ∧ ((tokenize (Structured.generateExpression e))[n]?).map (fun t => t.type)
          = some TokenType.EOF_TOKEN := by
    intro e he
    obtain ⟨ts, l1, c1, hL, hE⟩ := Lexes_expression e he 1 1
    have hT := tokenize_of_lexes (Structured.generateExpression e) ts l1 c1 hL
    rw [hT]
    refine ⟨ts.length, ?_, by simp, ?_⟩
    · exact Parser.parseExpression_exprTokens hE ⟨.EOF_TOKEN, "", l1, c1⟩ [] (by simp)
    · rw [List.getElem?_append_right (le_refl _)]
      simp
  refine ⟨⟨by decide, by rfl⟩, key, ?_⟩
  intro e1 e2 h1 h2 heq
  obtain ⟨n1, ⟨N1, hN1⟩, _⟩ := key e1 h1
  obtain ⟨n2, ⟨N2, hN2⟩, _⟩ := key e2 h2
  have a1 := hN1 (N1 + N2) (by omega)
  have a2 := hN2 (N1 + N2) (by omega)
  beta_reduce at a1 a2
  rw [heq, a2] at a1
  simp only [Except.ok.injEq, Prod.mk.injEq] at a1
  exact a1.1.symm

/-- Witness for C24: `(x1 + 7)` is read back. -/
theorem render_reparse_witness :
    ∃ n, Parser.Eventually
        (fun fuel => Parser.parseExpression fuel
          (tokenize (Structured.generateExpression
            (.BinaryExpression (.VariableReference "x1") "+" (.IntegerLiteral 7)))) 0)
        (.ok (.BinaryExpression (.VariableReference "x1") "+" (.IntegerLiteral 7), n))
      ∧ n + 1 = (tokenize (Structured.generateExpression
          (.BinaryExpression (.VariableReference "x1") "+" (.IntegerLiteral 7)))).length
      ∧ ((tokenize (Structured.generateExpression
          (.BinaryExpression (.VariableReference "x1") "+" (.IntegerLiteral 7))))[n]?).map
            (fun t => t.type) = some TokenType.EOF_TOKEN :=
  render_reparse.2.1 (.BinaryExpression (.VariableReference "x1") "+" (.IntegerLiteral 7))
    (by decide)

end MidLang
